import Mathlib

/-! # modules/codec/ffmpeg/video.c : the video output stage of the ffmpeg decoder module

A shallow embedding of `video.c` and the properties of its specification.

Conventions of the embedding.

* The translation unit is modelled as compiled against a libavcodec whose
  `LIBAVCODEC_BUILD` is above 4615: every `#if` on `LIBAVCODEC_BUILD` in the
  file selects its first branch.
* A C `int` is an `Int`; the result of `+`, `-`, `*`, `/`, `++`, `--` on `int`
  is reduced into the 32-bit range by `wrap32` (two's complement), division
  truncates towards zero. A `u8` sample is a `Nat`, reduced `% 256` when stored.
* Undefined behaviour that the file itself can run into (division by zero, a
  table index outside the table, a null pointer dereferenced by the file, a
  memory access outside a buffer) is made explicit: pure functions return
  `Option`, stateful ones set the sticky flag `undef` and stop.
* Macros and constants that the file takes from headers outside of it
  (`VOUT_ASPECT_FACTOR`, the `FF_ASPECT_*` codes, `VLC_FOURCC`) are the fields
  of `Consts`; `stdConsts` gives them the values of the headers of the period
  and is used for concrete evaluations only.
* Calls into the other subsystems (source fifo, decoder library, video output,
  configuration, modules) are recorded in the ghost field `log`; what those
  calls answer is read from an `Oracle`, one per call of the entry point, and
  from an `InitOracle` for `InitThread_Video`.
* Allocation in `InitThread_Video` (`malloc`, `vlc_object_create`) is taken to
  succeed. In the converter `malloc` may return `NULL`, which the code does not
  test for. Diagnostic messages (`msg_Dbg`, `msg_Warn`, `msg_Err`) are not
  modelled.
-/

namespace Video

/-! ## Machine arithmetic -/

/-- Reduction of a mathematical integer into the range of a 32-bit `int`. -/
def wrap32 (x : Int) : Int := (x + 2147483648) % 4294967296 - 2147483648

/-- The values a 32-bit `int` can hold. -/
def inInt32 (x : Int) : Prop := -2147483648 ≤ x ∧ x < 2147483648

instance (x : Int) : Decidable (inInt32 x) := by unfold inInt32; infer_instance

/-- C multiplication of two `int`. -/
def cmul (a b : Int) : Int := wrap32 (a * b)

/-- C division of two `int`: truncating, undefined for a zero divisor. The one
quotient that does not fit, `INT_MIN / -1`, is reduced like the results of the
other operators (the division instruction of the x86 traps on it); `none` is
the zero divisor and nothing else. -/
def cdiv (a b : Int) : Option Int :=
  if b = 0 then none else some (wrap32 (Int.tdiv a b))

/-! ## Constants taken from headers -/

/-- The macros and enumeration constants `video.c` takes from headers that are
not part of the file. -/
structure Consts where
  VOUT_ASPECT_FACTOR : Int
  FF_ASPECT_SQUARE : Int
  FF_ASPECT_4_3_625 : Int
  FF_ASPECT_4_3_525 : Int
  FF_ASPECT_16_9_625 : Int
  FF_ASPECT_16_9_525 : Int
  VLC_FOURCC : Char → Char → Char → Char → Int

/-- The case labels of the `switch` in `ffmpeg_FfAspect` are pairwise distinct
(a C compiler rejects duplicate case labels). -/
def Consts.wf (c : Consts) : Prop :=
  [c.FF_ASPECT_SQUARE, c.FF_ASPECT_4_3_625, c.FF_ASPECT_4_3_525,
   c.FF_ASPECT_16_9_625, c.FF_ASPECT_16_9_525].Nodup

/-- Little-endian four character code. -/
def fourccLE (a b c d : Char) : Int :=
  (a.toNat + 256 * b.toNat + 65536 * c.toNat + 16777216 * d.toNat : Nat)

/-- The header values of the period, for concrete evaluations. -/
def stdConsts : Consts where
  VOUT_ASPECT_FACTOR := 432000
  FF_ASPECT_SQUARE := 1
  FF_ASPECT_4_3_625 := 2
  FF_ASPECT_4_3_525 := 3
  FF_ASPECT_16_9_625 := 4
  FF_ASPECT_16_9_525 := 5
  VLC_FOURCC := fourccLE

/-! Pixel formats, in the order the comment above `i_ffmpeg_PixFmtToChroma`
gives them (`PIX_FMT_ANY = -1`, then counting up). -/

def PIX_FMT_ANY : Int := -1
def PIX_FMT_YUV420P : Int := 0
def PIX_FMT_YUV422 : Int := 1
def PIX_FMT_RGB24 : Int := 2
def PIX_FMT_BGR24 : Int := 3
def PIX_FMT_YUV422P : Int := 4
def PIX_FMT_YUV444P : Int := 5
def PIX_FMT_YUV410P : Int := 6

/-! ## Leaf functions -/

/-- The table `i_ffmpeg_PixFmtToChroma[]` (8 entries). -/
def i_ffmpeg_PixFmtToChroma (c : Consts) : List Int :=
  [0,                          c.VLC_FOURCC 'I' '4' '2' '0',
   c.VLC_FOURCC 'I' '4' '2' '0', c.VLC_FOURCC 'R' 'V' '2' '4',
   0,                          c.VLC_FOURCC 'Y' '4' '2' '2',
   c.VLC_FOURCC 'I' '4' '4' '4', 0]

/-- `ffmpeg_PixFmtToChroma`: `if( ++i > 7 ) return 0; else return table[i];`.
`none` is a read outside the table. -/
def ffmpeg_PixFmtToChroma (c : Consts) (i_ffmpegchroma : Int) : Option Int :=
  let i := wrap32 (i_ffmpegchroma + 1)
  if i > 7 then some 0
  else if i < 0 then none
  else (i_ffmpeg_PixFmtToChroma c)[i.toNat]?

/-- `ffmpeg_FfAspect`: the `switch` on the codec aspect code. `none` is the
division by zero of the default case when `i_height` is 0. -/
def ffmpeg_FfAspect (c : Consts) (i_width i_height i_ffaspect : Int) : Option Int :=
  if i_ffaspect = c.FF_ASPECT_4_3_625 ∨ i_ffaspect = c.FF_ASPECT_4_3_525 then
    cdiv (cmul c.VOUT_ASPECT_FACTOR 4) 3
  else if i_ffaspect = c.FF_ASPECT_16_9_625 ∨ i_ffaspect = c.FF_ASPECT_16_9_525 then
    cdiv (cmul c.VOUT_ASPECT_FACTOR 16) 9
  else
    cdiv (cmul c.VOUT_ASPECT_FACTOR i_width) i_height

/-- The `render` geometry of a video output, and an identity for the object. -/
structure vout_thread_t where
  id : Nat
  i_width : Int
  i_height : Int
  i_chroma : Int
  i_aspect : Int
deriving DecidableEq, Repr

/-- `ffmpeg_CheckVout`: 1 when the video output has the requested geometry.
The `||` chain is evaluated left to right and stops at the first difference,
so the aspect is resolved only after width, height and chroma agreed. -/
def ffmpeg_CheckVout (c : Consts) (p_vout : Option vout_thread_t)
    (i_width i_height i_aspect i_chroma : Int) : Option Int :=
  match p_vout with
  | none => some 0
  | some v =>
    let i_chroma := if i_chroma = 0 then c.VLC_FOURCC 'I' '4' '2' '0' else i_chroma
    if v.i_width ≠ i_width then some 0
    else if v.i_height ≠ i_height then some 0
    else if v.i_chroma ≠ i_chroma then some 0
    else
      match ffmpeg_FfAspect c i_width i_height i_aspect with
      | none => none
      | some a => if v.i_aspect ≠ a then some 0 else some 1

/-! ## The decoder thread and its environment -/

/-- The `BITMAPINFOHEADER` of the stream as far as `video.c` reads it. -/
structure BITMAPINFOHEADER where
  biSize : Int
  biWidth : Int
  biHeight : Int
deriving DecidableEq, Repr

/-- A PES packet as far as `video.c` reads it. -/
structure pes_packet_t where
  i_pts : Int
  i_pes_size : Int
deriving DecidableEq, Repr

/-- Who asks the video output for a picture: `DecodeThread_Video` itself, or
the callback `ffmpeg_GetFrameBuf` running inside the decoder. -/
inductive Site where
  | orchestrator
  | callback
deriving DecidableEq, Repr

/-- The calls `video.c` makes into the other subsystems, with their arguments
(and, for calls that answer, the answer). Diagnostic messages are not recorded. -/
inductive Event where
  | input_ExtractPES (p_pes : Option pes_packet_t)
  | input_ExtractPES_discard
  | GetPESData
  | input_DeletePES
  | avcodec_decode_video (hurry_up : Int) (i_frame_size : Int)
  | vlc_object_find (found : Option vout_thread_t)
  | vlc_object_detach (v : vout_thread_t)
  | vlc_object_release (v : vout_thread_t)
  | vlc_object_attach (v : vout_thread_t)
  | vout_DestroyThread (v : vout_thread_t)
  | vout_CreateThread (i_width i_height i_chroma i_aspect : Int)
      (created : Option vout_thread_t)
  | vout_CreatePicture (site : Site) (p_pic : Option Nat)
  | msleep
  | vout_LinkPicture (p_pic : Nat)
  | vout_UnlinkPicture (p_pic : Nat)
  | copyPlanes (p_pic : Nat)
  | convertI410toI420 (p_pic : Nat)
  | pf_postprocess (p_pic : Option Nat) (i_pp_mode : Int)
  | vout_DatePicture (p_pic : Option Nat) (pts : Int)
  | vout_DisplayPicture (p_pic : Option Nat)
  | config_GetInt (psz_name : String) (value : Int)
  | avcodec_open (status : Int)
  | vlc_object_create
  | module_Need (found : Bool)
  | pf_getmode (i_quality b_auto mode : Int)
  | module_Unneed
  | vlc_object_destroy
deriving DecidableEq, Repr

/-- The fields that only `InitThread_Video` reads or writes: those of
`p_vdec->p_context` that configure the codec, the description of the stream in
`p_vdec->p_fifo` and `p_vdec->p_format`, and the codec. -/
structure vdec_setup_t where
  /- p_vdec->p_context -/
  workaround_bugs : Int
  error_resilience : Int
  flags : Int
  /- whether `get_buffer_callback` is `ffmpeg_GetFrameBuf` and `opaque` is `p_vdec` -/
  get_buffer_callback : Bool
  /- the size of the block `extradata` points to, when one is allocated -/
  extradata : Option Int
  extradata_size : Int
  /- the size of the block `quant_store` points to, when one is allocated -/
  quant_store : Option Int
  qstride : Int
  /- p_vdec->p_fifo -/
  p_demux_data : Option BITMAPINFOHEADER
  i_fourcc : Int
  /- p_vdec->p_codec -/
  capabilities : Int
  /- p_vdec -/
  p_format : Option BITMAPINFOHEADER
  i_codec_id : Int
deriving DecidableEq, Repr

/-- The state `video.c` works on: the fields of `vdec_thread_t` it uses, those
of `p_vdec->p_context` and `p_vdec->p_fifo`, the link counts of the pictures of
the video output, and the two ghost fields `undef` and `log`. Pictures are
named by a number. -/
structure vdec_thread_t where
  /- p_vdec->p_context -/
  width : Int
  height : Int
  aspect_ratio_info : Int
  pix_fmt : Int
  hurry_up : Int
  dr_opaque_frame : Option Nat
  /- p_vdec->p_fifo -/
  b_die : Bool
  b_error : Bool
  /- p_vdec -/
  b_hurry_up : Int
  i_frame_late : Int
  i_frame_error : Int
  pts : Int
  i_buffer : Int
  b_direct_rendering : Int
  p_vout : Option vout_thread_t
  p_lastpic : Option Nat
  p_secondlastpic : Option Nat
  i_pp_mode : Int
  p_pp : Bool
  /- the fields only `InitThread_Video` works on -/
  setup : vdec_setup_t
  /- picture_t.i_refcount of every picture -/
  i_refcount : Nat → Int
  /- ghost -/
  undef : Bool
  log : List Event

/-- What the flags `b_die` and `b_error` of the fifo have been raised to by the
other threads at the time of one unsuccessful `vout_CreatePicture`. -/
structure Attempt where
  b_die : Bool
  b_error : Bool
deriving DecidableEq, Repr

/-- The answers of the environment during one call of `DecodeThread_Video` (or
of `ffmpeg_GetFrameBuf`). -/
structure Oracle where
  /-- The packets `input_ExtractPES` hands out, in order; `NULL` once the list
  is used up. -/
  pes : List pes_packet_t
  /-- The geometry the decoder reports in `p_context` while decoding. -/
  dec_width : Int
  dec_height : Int
  dec_aspect_ratio_info : Int
  dec_pix_fmt : Int
  /-- Whether the decoder asks for a frame buffer through its callback. -/
  dec_getbuf : Bool
  i_status : Int
  b_gotpicture : Int
  linesize0 : Int
  /-- The value of `mdate()`. -/
  mdate : Int
  /-- The answers of `vlc_object_find` for `FIND_CHILD` and `FIND_ANYWHERE`. -/
  child : Option vout_thread_t
  anywhere : Option vout_thread_t
  /-- The identity of the video output `vout_CreateThread` makes; `none` when
  it fails. -/
  spawn : Option Nat
  /-- The unsuccessful calls of `vout_CreatePicture` before the successful one. -/
  misses : List Attempt
  /-- The picture `vout_CreatePicture` finally hands out. -/
  p_pic : Nat

/-- Record a call in the log. -/
def vdec_thread_t.emit (s : vdec_thread_t) (e : Event) : vdec_thread_t :=
  { s with log := s.log ++ [e] }

/-- Modelled from the spec: `vout_CreateThread`, the display sink's
`create(width, height, chroma, aspect) -> SinkHandle`, whose handle carries its
configured width, height, chroma and aspect. -/
def vout_CreateThread (spawn : Option Nat) (i_width i_height i_chroma i_aspect : Int) :
    Option vout_thread_t :=
  spawn.map fun id =>
    { id := id, i_width := i_width, i_height := i_height,
      i_chroma := i_chroma, i_aspect := i_aspect }

/-- Modelled from the spec: `vout_LinkPicture`, which increments the reference
count of a picture. -/
def vout_LinkPicture (s : vdec_thread_t) (p_pic : Nat) : vdec_thread_t :=
  { s.emit (.vout_LinkPicture p_pic) with
    i_refcount := fun q => if q = p_pic then s.i_refcount q + 1 else s.i_refcount q }

/-- Modelled from the spec: `vout_UnlinkPicture`, which decrements the reference
count of a picture. -/
def vout_UnlinkPicture (s : vdec_thread_t) (p_pic : Nat) : vdec_thread_t :=
  { s.emit (.vout_UnlinkPicture p_pic) with
    i_refcount := fun q => if q = p_pic then s.i_refcount q - 1 else s.i_refcount q }

/-- The tail of `ffmpeg_CreateVout`: `if( p_vout == NULL ) p_vout = vout_CreateThread( ... )`. -/
def spawnVout (s : vdec_thread_t) (o : Oracle) (i_width i_height i_chroma i_aspect : Int) :
    vdec_thread_t × Option vout_thread_t :=
  let v := vout_CreateThread o.spawn i_width i_height i_chroma i_aspect
  (s.emit (.vout_CreateThread i_width i_height i_chroma i_aspect v), v)

/-- `ffmpeg_CreateVout`. Note that `i_aspect` is overwritten by the resolved
aspect before it is passed on to `ffmpeg_CheckVout`. -/
def ffmpeg_CreateVout (c : Consts) (s : vdec_thread_t) (o : Oracle)
    (i_width i_height i_aspect i_chroma : Int) : vdec_thread_t × Option vout_thread_t :=
  if i_width = 0 ∨ i_height = 0 then (s, none)
  else
    let i_chroma := if i_chroma = 0 then c.VLC_FOURCC 'I' '4' '2' '0' else i_chroma
    match ffmpeg_FfAspect c i_width i_height i_aspect with
    | none => ({ s with undef := true }, none)
    | some i_aspect =>
      let s := s.emit (.vlc_object_find o.child)
      let sp : vdec_thread_t × Option vout_thread_t :=
        match o.child with
        | some v => (s, some v)
        | none => (s.emit (.vlc_object_find o.anywhere), o.anywhere)
      match sp.2 with
      | none => spawnVout sp.1 o i_width i_height i_chroma i_aspect
      | some v =>
        match ffmpeg_CheckVout c (some v) i_width i_height i_aspect i_chroma with
        | none => ({ sp.1 with undef := true }, none)
        | some r =>
          if r = 0 then
            spawnVout
              (((sp.1.emit (.vlc_object_detach v)).emit (.vlc_object_release v)).emit
                (.vout_DestroyThread v))
              o i_width i_height i_chroma i_aspect
          else
            (((sp.1.emit (.vlc_object_detach v)).emit (.vlc_object_attach v)).emit
              (.vlc_object_release v), some v)

/-- The block under the comment "Check our vout", which `DecodeThread_Video`
and `ffmpeg_GetFrameBuf` share word for word: the arguments are evaluated, the
present video output is checked, a new one is negotiated on a mismatch, and a
failure of that sets `b_error`. The Boolean says whether the caller goes on. -/
def checkOurVout (c : Consts) (s : vdec_thread_t) (o : Oracle) : vdec_thread_t × Bool :=
  match ffmpeg_PixFmtToChroma c s.pix_fmt with
  | none => ({ s with undef := true }, false)
  | some i_chroma =>
    match ffmpeg_CheckVout c s.p_vout s.width s.height s.aspect_ratio_info i_chroma with
    | none => ({ s with undef := true }, false)
    | some r =>
      if r = 0 then
        let sv := ffmpeg_CreateVout c s o s.width s.height s.aspect_ratio_info i_chroma
        let s1 := { sv.1 with p_vout := sv.2 }
        if s1.undef then (s1, false)
        else
          match sv.2 with
          | none => ({ s1 with b_error := true }, false)
          | some _ => (s1, true)
      else (s, true)

/-- The loop under the comment "Get a new picture":
`while( !(p_pic = vout_CreatePicture( ... )) ) { if( b_die || b_error ) return; msleep( ... ); }`.
Each unsuccessful call comes with the flags the other threads have raised by
then; the result is `none` when the loop is left by its `return`. -/
def getNewPicture (site : Site) : List Attempt → Nat → vdec_thread_t → vdec_thread_t × Option Nat
  | [], p_pic, s => (s.emit (.vout_CreatePicture site (some p_pic)), some p_pic)
  | a :: rest, p_pic, s =>
    let s1 := { s.emit (.vout_CreatePicture site none) with
                b_die := s.b_die || a.b_die, b_error := s.b_error || a.b_error }
    if s1.b_die || s1.b_error then (s1, none)
    else getNewPicture site rest p_pic (s1.emit .msleep)

/-- The end of `ffmpeg_GetFrameBuf`, from `vout_LinkPicture` on: the picture is
linked, the older entry of the window is unlinked, the window is shifted, and
the picture is recorded in `dr_opaque_frame`. -/
def retainPicture (s : vdec_thread_t) (p_pic : Nat) : vdec_thread_t :=
  let s1 := vout_LinkPicture s p_pic
  let s2 := match s1.p_secondlastpic with
            | some q => vout_UnlinkPicture s1 q
            | none => s1
  { s2 with p_secondlastpic := s2.p_lastpic, p_lastpic := some p_pic,
            dr_opaque_frame := some p_pic }

/-- `ffmpeg_GetFrameBuf`, the callback the decoder uses in direct rendering. -/
def ffmpeg_GetFrameBuf (c : Consts) (s : vdec_thread_t) (o : Oracle) : vdec_thread_t × Int :=
  let sv := checkOurVout c s o
  if sv.2 = false then (sv.1, -1)
  else
    let sp := getNewPicture .callback o.misses o.p_pic sv.1
    match sp.2 with
    | none => (sp.1, -1)
    | some p_pic => (retainPicture sp.1 p_pic, 0)

/-- `ffmpeg_CopyPicture`, as far as control goes: which transfer is made, or
`b_error` for a pixel format that is neither mapped nor 4:1:0. The transfer of
the samples itself is `ffmpeg_ConvertPictureI410toI420` below. -/
def ffmpeg_CopyPicture (c : Consts) (s : vdec_thread_t) (p_pic : Nat) : vdec_thread_t :=
  match ffmpeg_PixFmtToChroma c s.pix_fmt with
  | none => { s with undef := true }
  | some i_chroma =>
    if i_chroma ≠ 0 then s.emit (.copyPlanes p_pic)
    else if s.pix_fmt = PIX_FMT_YUV410P then s.emit (.convertI410toI420 p_pic)
    else { s with b_error := true }

/-- `ffmpeg_PostProcPicture`. Reading `p_vdec->p_vout->render` without a video
output, or calling through `p_vdec->p_pp` without a module, is undefined. -/
def ffmpeg_PostProcPicture (c : Consts) (s : vdec_thread_t) (p_pic : Option Nat) :
    vdec_thread_t :=
  if s.i_pp_mode ≠ 0 then
    match s.p_vout with
    | none => { s with undef := true }
    | some v =>
      if v.i_chroma = c.VLC_FOURCC 'I' '4' '2' '0' ∨ v.i_chroma = c.VLC_FOURCC 'Y' 'V' '1' '2' then
        if s.p_pp then s.emit (.pf_postprocess p_pic s.i_pp_mode)
        else { s with undef := true }
      else s
  else s

/-- The `do ... while( i_frame_size <= 0 )` loop of `DecodeThread_Video`: pull
packets until one has a payload. The result is the size of that payload, or
`none` when the source answered `NULL` (`b_error` is set then). -/
def pullFrame : List pes_packet_t → vdec_thread_t → vdec_thread_t × Option Int
  | [], s => ({ s.emit (.input_ExtractPES none) with b_error := true }, none)
  | p :: rest, s =>
    let s1 := { s.emit (.input_ExtractPES (some p)) with pts := p.i_pts }
    if p.i_pes_size > 0 then
      let s2 := if s1.i_buffer < wrap32 (p.i_pes_size + 16)
                then { s1 with i_buffer := wrap32 (p.i_pes_size + 16) } else s1
      ((s2.emit .GetPESData).emit .input_DeletePES, some p.i_pes_size)
    else pullFrame rest (s1.emit .input_DeletePES)

/-- Modelled from the spec: `avcodec_decode_video`, the decoder library's
`decode(payload)`, which reports the geometry of the stream in `p_context` and,
in direct mode, invokes the buffer-acquisition callback during its own
execution. -/
def avcodec_decode_video (c : Consts) (s : vdec_thread_t) (o : Oracle) (i_frame_size : Int) :
    vdec_thread_t :=
  let s1 := { s.emit (.avcodec_decode_video s.hurry_up i_frame_size) with
              width := o.dec_width, height := o.dec_height,
              aspect_ratio_info := o.dec_aspect_ratio_info, pix_fmt := o.dec_pix_fmt }
  if s1.b_direct_rendering ≠ 0 ∧ o.dec_getbuf = true then (ffmpeg_GetFrameBuf c s1 o).1
  else s1

/-- The last three calls of `DecodeThread_Video`: `ffmpeg_PostProcPicture`,
`vout_DatePicture` and `vout_DisplayPicture`. -/
def sendPicture (c : Consts) (s : vdec_thread_t) (p_pic : Option Nat) : vdec_thread_t :=
  let s1 := ffmpeg_PostProcPicture c s p_pic
  if s1.undef then s1
  else (s1.emit (.vout_DatePicture p_pic s1.pts)).emit (.vout_DisplayPicture p_pic)

/-- The end of `DecodeThread_Video`, from `if( !p_vdec->b_direct_rendering )`
on: get the picture, post-process it, date it and display it. -/
def presentPicture (c : Consts) (s : vdec_thread_t) (o : Oracle) : vdec_thread_t :=
  if s.b_direct_rendering = 0 then
    let sv := checkOurVout c s o
    if sv.2 = false then sv.1
    else
      let sp := getNewPicture .orchestrator o.misses o.p_pic sv.1
      match sp.2 with
      | none => sp.1
      | some p_pic =>
        let s1 := ffmpeg_CopyPicture c sp.1 p_pic
        if s1.undef then s1 else sendPicture c s1 (some p_pic)
  else sendPicture c s s.dr_opaque_frame

/-- The block under the comment "Update frame late count" of
`DecodeThread_Video`: `if( p_vdec->pts <= mdate() ) i_frame_late++; else i_frame_late = 0;`. -/
def updateFrameLate (s : vdec_thread_t) (mdate : Int) : vdec_thread_t :=
  if s.pts ≤ mdate then { s with i_frame_late := wrap32 (s.i_frame_late + 1) }
  else { s with i_frame_late := 0 }

/-- The part of `DecodeThread_Video` after the lateness decision, which has
fixed `b_drawpicture` and `hurry_up`: pull a frame, decode it, update the
lateness counter, and present the picture when there is one to draw. -/
def decodeFrame (c : Consts) (s : vdec_thread_t) (o : Oracle) (b_drawpicture : Int) :
    vdec_thread_t :=
  let sf := pullFrame o.pes s
  match sf.2 with
  | none => sf.1
  | some i_frame_size =>
    let s1 := avcodec_decode_video c sf.1 o i_frame_size
    if s1.undef then s1
    else if o.i_status < 0 then
      { s1 with i_frame_error := wrap32 (s1.i_frame_error + 1) }
    else
      let s2 := updateFrameLate s1 o.mdate
      if o.b_gotpicture = 0 ∨ o.linesize0 = 0 ∨ b_drawpicture = 0 then s2
      else presentPicture c s2 o

/-- `DecodeThread_Video`, the entry point called once per frame. -/
def DecodeThread_Video (c : Consts) (s : vdec_thread_t) (o : Oracle) : vdec_thread_t :=
  if s.b_hurry_up ≠ 0 ∧ s.i_frame_late > 4 then
    if s.i_frame_late < 8 then
      decodeFrame c { s with hurry_up := 2 } o 0
    else
      { s with i_frame_late := wrap32 (s.i_frame_late - 1) }.emit .input_ExtractPES_discard
  else
    decodeFrame c { s with hurry_up := 0 } o 1

/-! ## Initialisation and teardown -/

/-- The macros, enumeration constants and sizes `InitThread_Video` takes from
headers that are not part of the file. -/
structure CodecConsts where
  CODEC_CAP_DR1 : Int
  CODEC_FLAG_GRAY : Int
  CODEC_FLAG_EMU_EDGE : Int
  CODEC_FLAG_DR1 : Int
  CODEC_ID_MPEG4 : Int
  CODEC_ID_MSMPEG4V1 : Int
  CODEC_ID_MSMPEG4V2 : Int
  CODEC_ID_MSMPEG4V3 : Int
  CODEC_ID_H263 : Int
  CODEC_ID_H263I : Int
  FOURCC_MP4S : Int
  FOURCC_mp4s : Int
  FOURCC_M4S2 : Int
  FOURCC_m4s2 : Int
  PP_DEBLOCK_Y_V : Int
  PP_DEBLOCK_Y_H : Int
  PP_DEBLOCK_C_V : Int
  PP_DEBLOCK_C_H : Int
  PP_DERING_Y : Int
  PP_DERING_C : Int
  sizeof_BITMAPINFOHEADER : Int
  sizeof_int : Int
  MBR : Int
  MBC : Int

/-- Values of these constants for concrete evaluations. -/
def stdCodecConsts : CodecConsts where
  CODEC_CAP_DR1 := 2
  CODEC_FLAG_GRAY := 8192
  CODEC_FLAG_EMU_EDGE := 16384
  CODEC_FLAG_DR1 := 32768
  CODEC_ID_MPEG4 := 8
  CODEC_ID_MSMPEG4V1 := 10
  CODEC_ID_MSMPEG4V2 := 11
  CODEC_ID_MSMPEG4V3 := 12
  CODEC_ID_H263 := 2
  CODEC_ID_H263I := 16
  FOURCC_MP4S := fourccLE 'M' 'P' '4' 'S'
  FOURCC_mp4s := fourccLE 'm' 'p' '4' 's'
  FOURCC_M4S2 := fourccLE 'M' '4' 'S' '2'
  FOURCC_m4s2 := fourccLE 'm' '4' 's' '2'
  PP_DEBLOCK_Y_V := 2
  PP_DEBLOCK_Y_H := 1
  PP_DEBLOCK_C_V := 8
  PP_DEBLOCK_C_H := 4
  PP_DERING_Y := 16
  PP_DERING_C := 32
  sizeof_BITMAPINFOHEADER := 40
  sizeof_int := 4
  MBR := 72
  MBC := 120

/-- The answers of the environment during `InitThread_Video`. -/
structure InitOracle where
  /-- The value of `config_GetInt` for each variable. -/
  config : String → Int
  /-- The answer of `avcodec_open`. -/
  avcodec_open : Int
  /-- What the decoder does when it is handed the codec data of the stream. -/
  dec : Oracle
  /-- Whether `module_Need` finds a post-processing module. -/
  module_Need : Bool
  /-- The answer of the `pf_getmode` of that module. -/
  pf_getmode : Int → Int → Int

/-- A call `config_GetInt( p_vdec->p_fifo, psz_name )`: the call is recorded,
the value is the second component. -/
def config_GetInt (s : vdec_thread_t) (o : InitOracle) (psz_name : String) :
    vdec_thread_t × Int :=
  (s.emit (.config_GetInt psz_name (o.config psz_name)), o.config psz_name)

/-- The block "Get configuration of ffmpeg plugin" of `InitThread_Video`, up to
and including the read of `ffmpeg-hurry-up`. -/
def getConfiguration (k : CodecConsts) (s : vdec_thread_t) (o : InitOracle) : vdec_thread_t :=
  let r1 := config_GetInt s o "ffmpeg-workaround-bugs"
  let s1 := { r1.1 with setup := { r1.1.setup with workaround_bugs := max (min r1.2 99) 0 } }
  let r2 := config_GetInt s1 o "ffmpeg-error-resilience"
  let s2 := { r2.1 with setup := { r2.1.setup with error_resilience := max (min r2.2 99) (-1) } }
  let r3 := config_GetInt s2 o "grayscale"
  let s3 := if r3.2 ≠ 0
    then { r3.1 with setup := { r3.1.setup with
             flags := Int.lor r3.1.setup.flags k.CODEC_FLAG_GRAY } }
    else r3.1
  let r4 := config_GetInt s3 o "ffmpeg-hurry-up"
  { r4.1 with b_hurry_up := r4.2 }

/-- The three assignments that empty the window and switch direct rendering
off, and the `if` that switches it on for a codec with the capability
`CODEC_CAP_DR1` whose pixel format is not `PIX_FMT_YUV410P`. -/
def selectRendering (k : CodecConsts) (s : vdec_thread_t) : vdec_thread_t :=
  let s1 := { s with p_lastpic := none, p_secondlastpic := none, b_direct_rendering := 0 }
  if Int.land s1.setup.capabilities k.CODEC_CAP_DR1 ≠ 0 ∧ s1.pix_fmt ≠ PIX_FMT_YUV410P then
    { s1 with
      b_direct_rendering := 1,
      setup := { s1.setup with
        flags := Int.lor s1.setup.flags (Int.lor k.CODEC_FLAG_EMU_EDGE k.CODEC_FLAG_DR1),
        get_buffer_callback := true } }
  else s1

/-- The block "init this codec with special data" of `InitThread_Video`, for
the header `fmt` that `p_vdec->p_format` points to. `biSize` is unsigned and is
compared with `sizeof(BITMAPINFOHEADER)` as such. The decoder of MPEG4 is handed
the data that follows the header; for the four fourcc named a copy of that data
becomes the `extradata` of the codec (`malloc` is taken to succeed). -/
def initSpecialData (c : Consts) (k : CodecConsts) (s : vdec_thread_t) (o : InitOracle)
    (fmt : BITMAPINFOHEADER) : vdec_thread_t :=
  if fmt.biSize > k.sizeof_BITMAPINFOHEADER then
    if s.setup.i_codec_id = k.CODEC_ID_MPEG4 then
      avcodec_decode_video c s o.dec (fmt.biSize - k.sizeof_BITMAPINFOHEADER)
    else if s.setup.i_fourcc = k.FOURCC_MP4S ∨ s.setup.i_fourcc = k.FOURCC_mp4s ∨
        s.setup.i_fourcc = k.FOURCC_M4S2 ∨ s.setup.i_fourcc = k.FOURCC_m4s2 then
      { s with setup := { s.setup with
          extradata_size := fmt.biSize - k.sizeof_BITMAPINFOHEADER,
          extradata := some (fmt.biSize - k.sizeof_BITMAPINFOHEADER) } }
    else s
  else s

/-- One line `if( config_GetInt( p_vdec->p_fifo, psz_name ) ) p_vdec->i_pp_mode |= bit;`. -/
def overridingSetting (s : vdec_thread_t) (o : InitOracle) (psz_name : String) (bit : Int) :
    vdec_thread_t :=
  let r := config_GetInt s o psz_name
  if r.2 ≠ 0 then { r.1 with i_pp_mode := Int.lor r.1.i_pp_mode bit } else r.1

/-- The lines under "get overridding settings" of `InitThread_Video`. -/
def overridingSettings (k : CodecConsts) (s : vdec_thread_t) (o : InitOracle) : vdec_thread_t :=
  let s0 := { s with i_pp_mode := 0 }
  let s1 := overridingSetting s0 o "ffmpeg-db-yv" k.PP_DEBLOCK_Y_V
  let s2 := overridingSetting s1 o "ffmpeg-db-yh" k.PP_DEBLOCK_Y_H
  let s3 := overridingSetting s2 o "ffmpeg-db-cv" k.PP_DEBLOCK_C_V
  let s4 := overridingSetting s3 o "ffmpeg-db-ch" k.PP_DEBLOCK_C_H
  let s5 := overridingSetting s4 o "ffmpeg-dr-y" k.PP_DERING_Y
  overridingSetting s5 o "ffmpeg-dr-c" k.PP_DERING_C

/-- The condition `( config_GetInt( "ffmpeg-pp-q" ) > 0 ) || ( config_GetInt(
"ffmpeg-pp-auto" ) ) || ( p_vdec->i_pp_mode != 0 )`, evaluated from left to
right as far as needed. -/
def wantsPostProcessing (s : vdec_thread_t) (o : InitOracle) : vdec_thread_t × Bool :=
  let r1 := config_GetInt s o "ffmpeg-pp-q"
  if r1.2 > 0 then (r1.1, true)
  else
    let r2 := config_GetInt r1.1 o "ffmpeg-pp-auto"
    if r2.2 ≠ 0 then (r2.1, true)
    else (r2.1, decide (r2.1.i_pp_mode ≠ 0))

/-- The lines under "get mode upon quality" and "allocate table for
postprocess", for a module that has been found. `malloc` is taken to succeed;
the two arguments of `pf_getmode` are read in the order written. -/
def getModeUponQuality (k : CodecConsts) (s : vdec_thread_t) (o : InitOracle) : vdec_thread_t :=
  let r1 := config_GetInt s o "ffmpeg-pp-q"
  let r2 := config_GetInt r1.1 o "ffmpeg-pp-auto"
  let s3 := r2.1.emit (.pf_getmode r1.2 r2.2 (o.pf_getmode r1.2 r2.2))
  { s3 with
    i_pp_mode := Int.lor s3.i_pp_mode (o.pf_getmode r1.2 r2.2),
    setup := { s3.setup with
      quant_store := some (k.sizeof_int * (k.MBR + 1) * (k.MBC + 1)),
      qstride := k.MBC + 1 } }

/-- The case of the `switch` for the codecs that can be post-processed: get a
module, and with it the mode "upon quality" and the table of quantizers;
without it, no post-processing. `vlc_object_create` is taken to succeed. -/
def getPostProcessingModule (k : CodecConsts) (s : vdec_thread_t) (o : InitOracle) :
    vdec_thread_t :=
  let s1 := { s.emit .vlc_object_create with p_pp := true }
  let s2 := s1.emit (.module_Need o.module_Need)
  if o.module_Need = false then
    { s2.emit .vlc_object_destroy with p_pp := false, i_pp_mode := 0 }
  else getModeUponQuality k s2 o

/-- The block "Load post processing" of `InitThread_Video`. -/
def loadPostProcessing (k : CodecConsts) (s : vdec_thread_t) (o : InitOracle) : vdec_thread_t :=
  let w := wantsPostProcessing (overridingSettings k s o) o
  if w.2 = true then
    if w.1.setup.i_codec_id = k.CODEC_ID_MSMPEG4V1 ∨ w.1.setup.i_codec_id = k.CODEC_ID_MSMPEG4V2 ∨
        w.1.setup.i_codec_id = k.CODEC_ID_MSMPEG4V3 ∨ w.1.setup.i_codec_id = k.CODEC_ID_MPEG4 ∨
        w.1.setup.i_codec_id = k.CODEC_ID_H263 ∨ w.1.setup.i_codec_id = k.CODEC_ID_H263I then
      getPostProcessingModule k w.1 o
    else { w.1 with i_pp_mode := 0 }
  else w.1

/-- `InitThread_Video`: the state and the value returned (0 on success, -1 when
the codec cannot be opened). Reading `p_vdec->p_format` when neither the demux
nor the caller has set it is undefined. -/
def InitThread_Video (c : Consts) (k : CodecConsts) (s : vdec_thread_t) (o : InitOracle) :
    vdec_thread_t × Int :=
  let s1 := match s.setup.p_demux_data with
    | some f => { s with setup := { s.setup with p_format := some f } }
    | none => s
  match s1.setup.p_format with
  | none => ({ s1 with undef := true }, -1)
  | some fmt =>
    let s2 := { s1 with width := fmt.biWidth, height := fmt.biHeight }
    let s3 := selectRendering k (getConfiguration k s2 o)
    let s4 := s3.emit (.avcodec_open o.avcodec_open)
    if o.avcodec_open < 0 then (s4, -1)
    else
      let s5 := initSpecialData c k s4 o fmt
      if s5.undef then (s5, -1)
      else (loadPostProcessing k s5 o, 0)

/-- `EndThread_Video`. -/
def EndThread_Video (s : vdec_thread_t) : vdec_thread_t :=
  let s1 := match s.p_secondlastpic with
    | some q => vout_UnlinkPicture s q
    | none => s
  let s2 := match s1.p_lastpic with
    | some q => vout_UnlinkPicture s1 q
    | none => s1
  let s3 := if s2.p_pp = true
    then { (s2.emit .module_Unneed).emit .vlc_object_destroy with p_pp := false }
    else s2
  match s3.p_vout with
  | some v => (s3.emit (.vlc_object_detach v)).emit (.vlc_object_attach v)
  | none => s3

/-! ## Chroma Converter

Memory is modelled buffer by buffer: a buffer is a size and the bytes at every
offset, a pointer is an offset into its buffer. An access outside the buffer
clears the flag `ok` of the computation (the access is undefined in C). The
size handed to `malloc` is the `int` product the code computes, reduced to 32
bits, and `malloc` may return `NULL`. The offsets of the loops are taken without
reduction: when the first two passes end with `ok` set, for at least one line
and a positive stride, the largest of them is the size of the buffer, an `int`
(`scratch_ok_bound`). -/

/-- A buffer: its size in bytes and the byte at every offset. -/
structure Mem where
  size : Int
  data : Int → Nat

/-- The offset lies inside the buffer. -/
def Mem.inb (m : Mem) (i : Int) : Bool := decide (0 ≤ i) && decide (i < m.size)

/-- The store `p[i] = v` of a `u8`. -/
def Mem.store (m : Mem) (i : Int) (v : Nat) : Mem :=
  { m with data := fun j => if j = i then v % 256 else m.data j }

/-- The buffer `malloc( n )` returns when it is not `NULL`, with arbitrary
contents `junk`. -/
def malloc (n : Int) (junk : Int → Nat) : Mem :=
  { size := n, data := junk }

/-- The temporary buffer `p_plane[i_plane] = malloc( i_lines * i_stride * 2 * 2 )`
of the converter. The argument is the product of `int`, taken from left to
right; `b_alloc` tells whether `malloc` returned a buffer. `NULL`, which the
code does not test for, is a buffer of size 0: no access to it is inside. A
negative product reaches `malloc` as a `size_t` above `INT_MAX`; for it the
model is on the safe side and takes no offset to be inside the buffer. -/
def p_plane (i_lines i_stride : Int) (junk : Int → Nat) (b_alloc : Bool) : Mem :=
  if b_alloc = true then malloc (cmul (cmul (cmul i_lines i_stride) 2) 2) junk
  else { size := 0, data := junk }

/-- The call `pf_memcpy( dst + d, src + s, n )`, where `pf_memcpy` is the
`memcpy` the application has selected: the buffer written, and whether the call
was defined (the length is not negative and, unless it is 0, both ranges lie
inside their buffers). -/
def pf_memcpy (dst : Mem) (d : Int) (src : Mem) (s : Int) (n : Int) : Mem × Bool :=
  ({ dst with data := fun j => if d ≤ j ∧ j < d + n then src.data (s + (j - d)) else dst.data j },
   decide (0 ≤ n) &&
     (decide (n = 0) ||
      (decide (0 ≤ d) && decide (d + n ≤ dst.size) && decide (0 ≤ s) &&
        decide (s + n ≤ src.size))))

/-- The loop `for( i = 0; i < n; i++ ) body`, for a body that changes neither
`i` nor `n`: the body is run for `i = 0, ..., n - 1` in this order. -/
def forLoop {σ : Type} : Nat → (Nat → σ → σ) → σ → σ
  | 0, _, s => s
  | n + 1, body, s => body n (forLoop n body s)

/-- The state of a loop nest of the converter: the buffer written, the running
pointers `p_dst` (into it) and `p_src`, and whether all accesses so far were
inside their buffers. -/
structure Cursor where
  mem : Mem
  p_dst : Int
  p_src : Int
  ok : Bool

/-- One row of a block copy: `pf_memcpy( p_dst, p_src, n )`, then both pointers
are advanced. This is the body of the loop over the first plane and of the
loops that copy the temporary planes to the picture. -/
def copyLine (src : Mem) (n i_dst_step i_src_step : Int) (_i_y : Nat) (st : Cursor) : Cursor :=
  { mem := (pf_memcpy st.mem st.p_dst src st.p_src n).1,
    p_dst := st.p_dst + i_dst_step,
    p_src := st.p_src + i_src_step,
    ok := st.ok && (pf_memcpy st.mem st.p_dst src st.p_src n).2 }

/-- The body of the loop over `i_x` in the first pass:
`p_dst[2 * i_x] = p_src[i_x]; p_dst[2 * i_x + 1] = ( p_src[i_x] + p_src[i_x + 1]) / 2;`. -/
def doubleSample (src : Mem) (i_x : Nat) (st : Cursor) : Cursor :=
  { st with
    mem := (st.mem.store (st.p_dst + 2 * i_x) (src.data (st.p_src + i_x))).store
             (st.p_dst + 2 * i_x + 1)
             ((src.data (st.p_src + i_x) + src.data (st.p_src + i_x + 1)) / 2),
    ok := st.ok && src.inb (st.p_src + i_x) && src.inb (st.p_src + i_x + 1) &&
          st.mem.inb (st.p_dst + 2 * i_x) && st.mem.inb (st.p_dst + 2 * i_x + 1) }

/-- The body of the loop over `i_y` in the first pass ("for each source line"):
the loop over `i_x`, the two stores of the last sample, where `i_x` has the
value the loop left it with, and the advance of both pointers. -/
def doubleLine (src : Mem) (i_stride : Int) (_i_y : Nat) (st : Cursor) : Cursor :=
  let st1 := forLoop (i_stride - 1).toNat (doubleSample src) st
  let i_x : Int := (i_stride - 1).toNat
  { mem := (st1.mem.store (st1.p_dst + (2 * i_stride - 2)) (src.data (st1.p_src + i_x))).store
             (st1.p_dst + (2 * i_stride - 1)) (src.data (st1.p_src + i_x)),
    p_dst := st1.p_dst + 4 * i_stride,
    p_src := st1.p_src + i_stride,
    ok := st1.ok && src.inb (st1.p_src + i_x) &&
          st1.mem.inb (st1.p_dst + (2 * i_stride - 2)) &&
          st1.mem.inb (st1.p_dst + (2 * i_stride - 1)) }

/-- The first pass over one plane: every source line is doubled horizontally
into every other line of the temporary buffer. -/
def horizontalDoubling (src : Mem) (i_stride i_lines : Int) (scratch : Mem) : Cursor :=
  forLoop i_lines.toNat (doubleLine src i_stride)
    { mem := scratch, p_dst := 0, p_src := 0, ok := true }

/-- The body of the loop over `i_x` in the second pass:
`p_dst[i_x] = ( p_src[i_x] + p_src[i_x + 4*i_stride])/2;`, where both pointers
point into the temporary buffer. -/
def averageSample (i_stride : Int) (i_x : Nat) (st : Cursor) : Cursor :=
  { st with
    mem := st.mem.store (st.p_dst + i_x)
             ((st.mem.data (st.p_src + i_x) + st.mem.data (st.p_src + i_x + 4 * i_stride)) / 2),
    ok := st.ok && st.mem.inb (st.p_src + i_x) && st.mem.inb (st.p_src + i_x + 4 * i_stride) &&
          st.mem.inb (st.p_dst + i_x) }

/-- The body of the loop over `i_y` in the second pass. -/
def averageLine (i_stride : Int) (_i_y : Nat) (st : Cursor) : Cursor :=
  let st1 := forLoop (2 * i_stride).toNat (averageSample i_stride) st
  { st1 with p_dst := st1.p_dst + 4 * i_stride, p_src := st1.p_src + 4 * i_stride }

/-- The second pass over one plane: the lines in between are averaged, the last
line is a copy of the one before it. -/
def verticalInterpolation (i_stride i_lines : Int) (st0 : Cursor) : Cursor :=
  let st := forLoop (i_lines - 1).toNat (averageLine i_stride)
    { st0 with p_dst := 2 * i_stride, p_src := 0 }
  { st with
    mem := (pf_memcpy st.mem st.p_dst st.mem st.p_src (2 * i_stride)).1,
    ok := st.ok && (pf_memcpy st.mem st.p_dst st.mem st.p_src (2 * i_stride)).2 }

/-- A plane of a `picture_t`. -/
structure plane_t where
  p_pixels : Mem
  i_pitch : Int
  i_lines : Int

/-- The planes of a `picture_t`. -/
structure picture_t where
  p : Nat → plane_t

/-- An `AVPicture`. -/
structure AVPicture where
  data : Nat → Mem
  linesize : Nat → Int

/-- The third pass over one plane, "copy to p_pic, by block": the rows of the
temporary plane are copied to the plane of the picture. Here `i_stride` is the
variable of that name as the second pass has left it. -/
def copyDown (scratch : Mem) (pl : plane_t) (i_stride i_lines : Int) : Cursor :=
  forLoop (min pl.i_lines (2 * i_lines)).toNat
    (copyLine scratch (min (2 * i_stride) pl.i_pitch) pl.i_pitch (2 * i_stride))
    { mem := pl.p_pixels, p_dst := 0, p_src := 0, ok := true }

/-- `ffmpeg_ConvertPictureI410toI420`, for the `width` and `height` of
`p_vdec->p_context`: the picture written, and whether every access was inside
its buffer. `b_alloc i_plane` tells whether `malloc` returned a buffer for the
plane, and `junk i_plane` is what it left in that buffer. In the last loop
`i_stride` is not assigned again: it still holds `linesize[2]`, for both
planes. -/
def ffmpeg_ConvertPictureI410toI420 (p_pic : picture_t) (p_avpicture : AVPicture)
    (i_height i_width : Int) (junk : Nat → Int → Nat) (b_alloc : Nat → Bool) :
    picture_t × Bool :=
  let luma := forLoop i_height.toNat
    (copyLine (p_avpicture.data 0) i_width (p_pic.p 0).i_pitch (p_avpicture.linesize 0))
    { mem := (p_pic.p 0).p_pixels, p_dst := 0, p_src := 0, ok := true }
  let i_lines := Int.tdiv i_height 4
  let h1 := horizontalDoubling (p_avpicture.data 1) (p_avpicture.linesize 1) i_lines
    (p_plane i_lines (p_avpicture.linesize 1) (junk 1) (b_alloc 1))
  let h2 := horizontalDoubling (p_avpicture.data 2) (p_avpicture.linesize 2) i_lines
    (p_plane i_lines (p_avpicture.linesize 2) (junk 2) (b_alloc 2))
  let v1 := verticalInterpolation (p_avpicture.linesize 1) i_lines h1
  let v2 := verticalInterpolation (p_avpicture.linesize 2) i_lines h2
  let i_stride := p_avpicture.linesize 2
  let c1 := copyDown v1.mem (p_pic.p 1) i_stride i_lines
  let c2 := copyDown v2.mem (p_pic.p 2) i_stride i_lines
  ({ p := fun i =>
       if i = 0 then { p_pic.p 0 with p_pixels := luma.mem }
       else if i = 1 then { p_pic.p 1 with p_pixels := c1.mem }
       else if i = 2 then { p_pic.p 2 with p_pixels := c2.mem }
       else p_pic.p i },
   luma.ok && v1.ok && v2.ok && c1.ok && c2.ok)

/-! ## Observing a call -/

/-- The calls made between two states: what the log has gained. -/
def emitted (s s' : vdec_thread_t) : List Event := s'.log.drop s.log.length

/-- The subsystem and purpose of a recorded call. -/
inductive Kind where
  | source
  | decoder (hurry_up : Int)
  | negotiation
  | acquire (site : Site)
  | wait
  | link
  | transfer
  | postproc
  | present
  | config
  | codec
  | module
deriving DecidableEq, Repr

/-- The kind of each recorded call. -/
def Event.kind : Event → Kind
  | .input_ExtractPES _ => .source
  | .input_ExtractPES_discard => .source
  | .GetPESData => .source
  | .input_DeletePES => .source
  | .avcodec_decode_video hurry_up _ => .decoder hurry_up
  | .vlc_object_find _ => .negotiation
  | .vlc_object_detach _ => .negotiation
  | .vlc_object_release _ => .negotiation
  | .vlc_object_attach _ => .negotiation
  | .vout_DestroyThread _ => .negotiation
  | .vout_CreateThread _ _ _ _ _ => .negotiation
  | .vout_CreatePicture site _ => .acquire site
  | .msleep => .wait
  | .vout_LinkPicture _ => .link
  | .vout_UnlinkPicture _ => .link
  | .copyPlanes _ => .transfer
  | .convertI410toI420 _ => .transfer
  | .pf_postprocess _ _ => .postproc
  | .vout_DatePicture _ _ => .present
  | .vout_DisplayPicture _ => .present
  | .config_GetInt _ _ => .config
  | .avcodec_open _ => .codec
  | .vlc_object_create => .module
  | .module_Need _ => .module
  | .pf_getmode _ _ _ => .module
  | .module_Unneed => .module
  | .vlc_object_destroy => .module

/-- The state `s'` continues the log of `s` by calls whose kinds satisfy `K`. -/
def LogExt (K : Kind → Prop) (s s' : vdec_thread_t) : Prop :=
  ∃ d, s'.log = s.log ++ d ∧ ∀ e ∈ d, K e.kind

/-- The fields of the lateness policy and of the configuration agree. -/
def SamePolicy (s s' : vdec_thread_t) : Prop :=
  s'.b_hurry_up = s.b_hurry_up ∧ s'.i_frame_late = s.i_frame_late ∧
  s'.i_frame_error = s.i_frame_error ∧ s'.b_direct_rendering = s.b_direct_rendering ∧
  s'.i_pp_mode = s.i_pp_mode ∧ s'.p_pp = s.p_pp ∧ s'.hurry_up = s.hurry_up

/-- The retention window and the link counts agree. -/
def SameWindow (s s' : vdec_thread_t) : Prop :=
  s'.p_lastpic = s.p_lastpic ∧ s'.p_secondlastpic = s.p_secondlastpic ∧
  s'.i_refcount = s.i_refcount

/-- What the decoder and the source have reported for the current frame agrees:
the geometry and the time stamp. -/
def SameFrame (s s' : vdec_thread_t) : Prop :=
  s'.width = s.width ∧ s'.height = s.height ∧
  s'.aspect_ratio_info = s.aspect_ratio_info ∧ s'.pix_fmt = s.pix_fmt ∧ s'.pts = s.pts

/-- What a helper leaves alone that only talks to the other subsystems: the
policy, the window, the reported geometry and the video output of the thread,
with a log continued by calls of the kinds `K`. -/
def Quiet (K : Kind → Prop) (s s' : vdec_thread_t) : Prop :=
  LogExt K s s' ∧ SamePolicy s s' ∧ SameWindow s s' ∧ SameFrame s s' ∧ s'.p_vout = s.p_vout

/-- What pulling a frame from the source leaves alone: as `Quiet`, but for the
time stamp. -/
def Pulled (K : Kind → Prop) (s s' : vdec_thread_t) : Prop :=
  LogExt K s s' ∧ SamePolicy s s' ∧ SameWindow s s' ∧
  (s'.width = s.width ∧ s'.height = s.height ∧
    s'.aspect_ratio_info = s.aspect_ratio_info ∧ s'.pix_fmt = s.pix_fmt) ∧
  s'.p_vout = s.p_vout

/-- As `Quiet`, for a call that may replace the video output of the thread. -/
def Mild (K : Kind → Prop) (s s' : vdec_thread_t) : Prop :=
  LogExt K s s' ∧ SamePolicy s s' ∧ SameWindow s s' ∧ SameFrame s s'

/-- As `Mild`, for a call that may also change the window. -/
def Calm (K : Kind → Prop) (s s' : vdec_thread_t) : Prop :=
  LogExt K s s' ∧ SamePolicy s s' ∧ SameFrame s s'

/-- Successive calls of the callback `ffmpeg_GetFrameBuf`, each of which
succeeds (it answers 0 and runs into no undefined behaviour): the state after
the last of them, or `none` when one of them fails. -/
def insertAll (c : Consts) : vdec_thread_t → List Oracle → Option vdec_thread_t
  | s, [] => some s
  | s, o :: os =>
    if (ffmpeg_GetFrameBuf c s o).2 = 0 ∧ (ffmpeg_GetFrameBuf c s o).1.undef = false
    then insertAll c (ffmpeg_GetFrameBuf c s o).1 os
    else none

/-- The calls of an acquisition that is given up at its retry `n` (counted from
0): `n` unsuccessful requests each followed by a wait, and the unsuccessful
request after which the loop returns. -/
def retries (site : Site) : Nat → List Event
  | 0 => [.vout_CreatePicture site none]
  | n + 1 => .vout_CreatePicture site none :: .msleep :: retries site n

/-- The first unsuccessful request of the loop "Get a new picture" at which
`b_die` or `b_error` is found set, for the values the flags have before the loop
and the flags raised by the other threads at each request; `none` when a picture
is handed out before that. -/
def firstCancel (b_die b_error : Bool) : List Attempt → Option Nat
  | [] => none
  | a :: rest =>
    if (b_die || a.b_die) || (b_error || a.b_error) then some 0
    else (firstCancel (b_die || a.b_die) (b_error || a.b_error) rest).map (· + 1)

/-- Nothing but the log and the flag `undef` differs. -/
def Framed (s s' : vdec_thread_t) : Prop :=
  s' = { s with undef := s'.undef, log := s'.log }

/-- Nothing but the log and the post-processing mode differs. -/
def Tuned (s s' : vdec_thread_t) : Prop :=
  s' = { s with i_pp_mode := s'.i_pp_mode, log := s'.log }

/-- The codecs whose case of the `switch` of `InitThread_Video` gets a
post-processing module: the MSMPEG4 variants, MPEG4, H263 and H263I. -/
def postProcessable (k : CodecConsts) (i_codec_id : Int) : Prop :=
  i_codec_id = k.CODEC_ID_MSMPEG4V1 ∨ i_codec_id = k.CODEC_ID_MSMPEG4V2 ∨
  i_codec_id = k.CODEC_ID_MSMPEG4V3 ∨ i_codec_id = k.CODEC_ID_MPEG4 ∨
  i_codec_id = k.CODEC_ID_H263 ∨ i_codec_id = k.CODEC_ID_H263I

/-! ## The lateness script -/

/-- What a call of the entry point did with its frame: `N` decode and present,
`H` decode with hurry and no presentation, `S` skip the decoding. -/
inductive Decision where
  | N
  | H
  | S
deriving DecidableEq, Repr

/-- The decoder was called with the hurry setting `h`. -/
def decodedWith (h : Int) (l : List Event) : Bool :=
  l.any fun e => decide (e.kind = .decoder h)

/-- The decoder was called. -/
def decoded (l : List Event) : Bool :=
  l.any fun e => match e with
    | .avcodec_decode_video _ _ => true
    | _ => false

/-- A picture was handed to the video output for display. -/
def presented (l : List Event) : Bool :=
  l.any fun e => match e with
    | .vout_DisplayPicture _ => true
    | _ => false

/-- The decision read off the calls made during one call of the entry point. -/
def classify (l : List Event) : Option Decision :=
  if decoded l = false ∧ presented l = false then some .S
  else if decodedWith 2 l = true ∧ presented l = false then some .H
  else if decodedWith 0 l = true ∧ presented l = true then some .N
  else none

/-- The states after each of a sequence of calls of the entry point; every call
starts with an empty log, so that the log of a state holds the calls of the
last call only. -/
def runFrames (c : Consts) : vdec_thread_t → List Oracle → List vdec_thread_t
  | _, [] => []
  | s, o :: os =>
    DecodeThread_Video c { s with log := [] } o ::
      runFrames c (DecodeThread_Video c { s with log := [] } o) os

/-- An environment in which a frame is there, is decoded into a picture, is
late, and can be presented: the decoder reports a display size and a pixel
format of the table, a video output can be created, and a picture is free at
once. -/
def LateFrame (c : Consts) (o : Oracle) : Prop :=
  (∃ p ∈ o.pes, 0 < p.i_pes_size) ∧ (∀ p ∈ o.pes, p.i_pts ≤ o.mdate) ∧
  0 ≤ o.i_status ∧ o.b_gotpicture ≠ 0 ∧ o.linesize0 ≠ 0 ∧
  o.dec_width ≠ 0 ∧ o.dec_height ≠ 0 ∧
  ffmpeg_PixFmtToChroma c o.dec_pix_fmt ≠ none ∧ o.spawn ≠ none ∧ o.misses = []

/-- A thread that has not run into undefined behaviour and whose
post-processing, if any is configured, has its module, and in direct mode its
video output. -/
def Ready (s : vdec_thread_t) : Prop :=
  s.undef = false ∧
  (s.i_pp_mode ≠ 0 → s.p_pp = true ∧ (s.b_direct_rendering ≠ 0 → s.p_vout ≠ none))

/-- The decisions and counter values that the lateness policy of the
specification (its section 4.6: draw up to a counter of 4, hurry from 5 to 7,
skip and decrement from 8 on) prescribes for `n` consecutive late frames,
started with the counter at `k`. -/
def policyScript : Int → Nat → List (Option Decision × Int)
  | _, 0 => []
  | k, n + 1 =>
    if k ≤ 4 then (some .N, k + 1) :: policyScript (k + 1) n
    else if k < 8 then (some .H, k + 1) :: policyScript (k + 1) n
    else (some .S, k - 1) :: policyScript (k - 1) n

/-! ## Concrete inputs for evaluations -/

/-- The setup of a stream of 720 by 576 whose codec has no capabilities and
identifier 0, before `InitThread_Video`. -/
def exampleSetup : vdec_setup_t where
  workaround_bugs := 0
  error_resilience := 0
  flags := 0
  get_buffer_callback := false
  extradata := none
  extradata_size := 0
  quant_store := none
  qstride := 0
  p_demux_data := some { biSize := 40, biWidth := 720, biHeight := 576 }
  i_fourcc := 0
  capabilities := 0
  p_format := none
  i_codec_id := 0

/-- A thread just initialised: indirect mode, hurry-up enabled, no video
output, an empty window, no post-processing. -/
def exampleThread : vdec_thread_t where
  width := 0
  height := 0
  aspect_ratio_info := 0
  pix_fmt := 0
  hurry_up := 0
  dr_opaque_frame := none
  b_die := false
  b_error := false
  b_hurry_up := 1
  i_frame_late := 0
  i_frame_error := 0
  pts := 0
  i_buffer := 0
  b_direct_rendering := 0
  p_vout := none
  p_lastpic := none
  p_secondlastpic := none
  i_pp_mode := 0
  p_pp := false
  setup := exampleSetup
  i_refcount := fun _ => 0
  undef := false
  log := []

/-- A late PAL frame in 4:2:0 with the 4:3 code: one packet of 100 bytes with
time stamp 0 seen at time 1000, decoded into a picture; no video output to be
found, creation succeeds, picture `p_pic` is free at once. -/
def exampleFrame (p_pic : Nat) : Oracle where
  pes := [{ i_pts := 0, i_pes_size := 100 }]
  dec_width := 720
  dec_height := 576
  dec_aspect_ratio_info := 2
  dec_pix_fmt := 0
  dec_getbuf := true
  i_status := 100
  b_gotpicture := 1
  linesize0 := 720
  mdate := 1000
  child := none
  anywhere := none
  spawn := some 1
  misses := []
  p_pic := p_pic

/-- A thread in direct rendering whose decoder has reported a PAL frame with the
4:3 code, as `ffmpeg_GetFrameBuf` finds it when the decoder calls it. -/
def directThread : vdec_thread_t :=
  { exampleThread with b_direct_rendering := 1, width := 720, height := 576,
                        aspect_ratio_info := 2 }

/-- A thread in direct rendering whose window holds the pictures 9 and 8: the
callback has been called twice, for the pictures 8 and 9. -/
def windowThread : vdec_thread_t :=
  (ffmpeg_GetFrameBuf stdConsts (ffmpeg_GetFrameBuf stdConsts directThread (exampleFrame 8)).1
    (exampleFrame 9)).1

/-- The frame of `exampleFrame` in an environment whose video output has no
free picture, and in which `b_die` is raised before the second request. -/
def shutdownFrame : Oracle :=
  { exampleFrame 7 with
    misses := [{ b_die := false, b_error := false }, { b_die := true, b_error := false }] }

/-- A thread before `InitThread_Video` whose codec is MPEG4 with the capability
of direct rendering, for a stream of 720 by 576 in 4:2:0 without codec data. -/
def mpeg4Thread : vdec_thread_t :=
  { exampleThread with setup := { exampleSetup with i_codec_id := 8, capabilities := 2 } }

/-- An environment of `InitThread_Video` in which the codec opens, the only
variable set is `ffmpeg-pp-q` (to 3), a post-processing module is found and its
`pf_getmode` answers 5. -/
def exampleInit : InitOracle where
  config := fun psz_name => if psz_name = "ffmpeg-pp-q" then 3 else 0
  avcodec_open := 0
  dec := exampleFrame 7
  module_Need := true
  pf_getmode := fun _ _ => 5

/-- The buffer that holds the bytes of a list. -/
def memOfList (l : List Nat) : Mem :=
  { size := l.length, data := fun i => if 0 ≤ i then l.getD i.toNat 0 else 0 }

/-- The first `n` bytes of a buffer. -/
def Mem.toList (m : Mem) (n : Nat) : List Nat :=
  (List.range n).map fun i => m.data i

/-- A 4:1:0 picture of 8 by 4 pixels: luma of 32 bytes, and two chroma planes
of one line each, given with their strides. -/
def examplePicture410 (chroma1 chroma2 : List Nat) : AVPicture where
  data := fun i =>
    if i = 0 then memOfList (List.replicate 32 16)
    else if i = 1 then memOfList chroma1
    else memOfList chroma2
  linesize := fun i => if i = 0 then 8 else if i = 1 then chroma1.length else chroma2.length

/-- A 4:2:0 picture of the video output for 8 by 4 pixels, with chroma pitch
`i_pitch`, every byte of which holds the mark 999 (no sample has this value). -/
def exampleTarget (i_pitch : Nat) : picture_t where
  p := fun i =>
    if i = 0 then { p_pixels := memOfList (List.replicate 32 999), i_pitch := 8, i_lines := 4 }
    else { p_pixels := memOfList (List.replicate (2 * i_pitch) 999), i_pitch := i_pitch,
           i_lines := 2 }

/-- A PAL video output in I420 with the given aspect, as a candidate for
`vlc_object_find`. -/
def exampleCandidate (i_aspect : Int) : vout_thread_t where
  id := 9
  i_width := 720
  i_height := 576
  i_chroma := fourccLE 'I' '4' '2' '0'
  i_aspect := i_aspect

/-! ## The converter passes in closed form -/

/-- The sample of column `c` of a source line doubled horizontally, for a line
that starts at offset `q` and has the stride `s`, in closed form: an even
column is the source sample, an odd column the average (rounded down) of the
sample and the next one, and the last two columns are the last sample. -/
def doubledSample (src : Int → Nat) (q s c : Int) : Nat :=
  if c < 2 * s - 2 then
    if c % 2 = 0 then src (q + c / 2) % 256
    else ((src (q + c / 2) + src (q + c / 2 + 1)) / 2) % 256
  else src (q + (s - 1)) % 256

/-- The sample at offset `j` of the plane both passes produce from a source
plane of `L` lines with the stride `s`: with line `j / (2 s)` and column
`j % (2 s)`, an even line `2 r` is source line `r` doubled, an odd line
`2 r + 1` is the average of the doubled lines `r` and `r + 1`, and the last
line is the doubled line `L - 1`. -/
def upsampledSample (src : Int → Nat) (s L j : Int) : Nat :=
  if j / (2 * s) % 2 = 0 then
    doubledSample src (s * (j / (2 * s) / 2)) s (j % (2 * s))
  else if j / (2 * s) / 2 + 1 < L then
    ((doubledSample src (s * (j / (2 * s) / 2)) s (j % (2 * s))
      + doubledSample src (s * (j / (2 * s) / 2 + 1)) s (j % (2 * s))) / 2) % 256
  else doubledSample src (s * (j / (2 * s) / 2)) s (j % (2 * s))

/-! # Properties -/

/-! ## Arithmetic lemmas -/

theorem wrap32_of_inInt32 {x : Int} (h : inInt32 x) : wrap32 x = x := by
  unfold inInt32 at h
  unfold wrap32
  omega

theorem inInt32_wrap32 (x : Int) : inInt32 (wrap32 x) := by
  unfold inInt32 wrap32
  omega

theorem inInt32_tdiv {a b : Int} (ha : inInt32 a) (hb : 0 < b) : inInt32 (a.tdiv b) := by
  have h1 : (a.tdiv b).natAbs ≤ a.natAbs := by
    rw [Int.natAbs_tdiv]
    exact Nat.div_le_self _ _
  have h2 : 0 ≤ a → 0 ≤ a.tdiv b := fun h => Int.tdiv_nonneg h (le_of_lt hb)
  have h3 : a ≤ 0 → a.tdiv b ≤ 0 := by
    intro h
    have h4 := Int.tdiv_nonneg (Int.neg_nonneg.2 h) (le_of_lt hb)
    rw [Int.neg_tdiv] at h4
    omega
  unfold inInt32 at *
  omega

theorem cdiv_of_pos {a b : Int} (ha : inInt32 a) (hb : 0 < b) : cdiv a b = some (a.tdiv b) := by
  unfold cdiv
  rw [if_neg (ne_of_gt hb), wrap32_of_inInt32 (inInt32_tdiv ha hb)]

theorem cmul_of_inInt32 {a b : Int} (h : inInt32 (a * b)) : cmul a b = a * b :=
  wrap32_of_inInt32 h

/-! ## Aspect Resolver -/

/-- C4. For every width, every height above 0 and every aspect code,
`ffmpeg_FfAspect` returns a value fixed by the code alone: the C value of
`VOUT_ASPECT_FACTOR * 4 / 3` for the two 4:3 codes, that of
`VOUT_ASPECT_FACTOR * 16 / 9` for the two 16:9 codes, and that of
`VOUT_ASPECT_FACTOR * width / height` (truncating division) for the square code
and for every other code; where the product fits an `int` the C value is the
mathematical one. -/
theorem ffmpeg_FfAspect_three_values (c : Consts) (i_width i_height i_ffaspect : Int)
    (hwf : c.wf) (hh : 0 < i_height) :
    ((i_ffaspect = c.FF_ASPECT_4_3_625 ∨ i_ffaspect = c.FF_ASPECT_4_3_525) →
      ffmpeg_FfAspect c i_width i_height i_ffaspect
        = some ((cmul c.VOUT_ASPECT_FACTOR 4).tdiv 3)) ∧
    ((i_ffaspect = c.FF_ASPECT_16_9_625 ∨ i_ffaspect = c.FF_ASPECT_16_9_525) →
      ffmpeg_FfAspect c i_width i_height i_ffaspect
        = some ((cmul c.VOUT_ASPECT_FACTOR 16).tdiv 9)) ∧
    ((i_ffaspect = c.FF_ASPECT_SQUARE ∨
        (i_ffaspect ≠ c.FF_ASPECT_4_3_625 ∧ i_ffaspect ≠ c.FF_ASPECT_4_3_525 ∧
         i_ffaspect ≠ c.FF_ASPECT_16_9_625 ∧ i_ffaspect ≠ c.FF_ASPECT_16_9_525)) →
      ffmpeg_FfAspect c i_width i_height i_ffaspect
        = some ((cmul c.VOUT_ASPECT_FACTOR i_width).tdiv i_height)) ∧
    (inInt32 (c.VOUT_ASPECT_FACTOR * 4) →
      (cmul c.VOUT_ASPECT_FACTOR 4).tdiv 3 = (c.VOUT_ASPECT_FACTOR * 4).tdiv 3) ∧
    (inInt32 (c.VOUT_ASPECT_FACTOR * 16) →
      (cmul c.VOUT_ASPECT_FACTOR 16).tdiv 9 = (c.VOUT_ASPECT_FACTOR * 16).tdiv 9) ∧
    (inInt32 (c.VOUT_ASPECT_FACTOR * i_width) →
      (cmul c.VOUT_ASPECT_FACTOR i_width).tdiv i_height
        = (c.VOUT_ASPECT_FACTOR * i_width).tdiv i_height) := by
  have hd : c.FF_ASPECT_SQUARE ≠ c.FF_ASPECT_4_3_625 ∧ c.FF_ASPECT_SQUARE ≠ c.FF_ASPECT_4_3_525 ∧
      c.FF_ASPECT_SQUARE ≠ c.FF_ASPECT_16_9_625 ∧ c.FF_ASPECT_SQUARE ≠ c.FF_ASPECT_16_9_525 ∧
      c.FF_ASPECT_4_3_625 ≠ c.FF_ASPECT_16_9_625 ∧ c.FF_ASPECT_4_3_625 ≠ c.FF_ASPECT_16_9_525 ∧
      c.FF_ASPECT_4_3_525 ≠ c.FF_ASPECT_16_9_625 ∧ c.FF_ASPECT_4_3_525 ≠ c.FF_ASPECT_16_9_525 := by
    unfold Consts.wf at hwf
    simp only [List.nodup_cons, List.mem_cons, List.mem_singleton, not_or] at hwf
    tauto
  obtain ⟨d1, d2, d3, d4, d5, d6, d7, d8⟩ := hd
  refine ⟨?_, ?_, ?_, ?_, ?_, ?_⟩
  · intro h
    unfold ffmpeg_FfAspect
    rw [if_pos h]
    exact cdiv_of_pos (inInt32_wrap32 _) (by decide)
  · intro h
    have h1 : ¬ (i_ffaspect = c.FF_ASPECT_4_3_625 ∨ i_ffaspect = c.FF_ASPECT_4_3_525) := by
      rcases h with h | h <;> subst h <;> simp [Ne.symm d5, Ne.symm d6, Ne.symm d7, Ne.symm d8]
    unfold ffmpeg_FfAspect
    rw [if_neg h1, if_pos h]
    exact cdiv_of_pos (inInt32_wrap32 _) (by decide)
  · intro h
    have h1 : ¬ (i_ffaspect = c.FF_ASPECT_4_3_625 ∨ i_ffaspect = c.FF_ASPECT_4_3_525) := by
      rcases h with h | h
      · subst h; simp [d1, d2]
      · simp [h.1, h.2.1]
    have h2 : ¬ (i_ffaspect = c.FF_ASPECT_16_9_625 ∨ i_ffaspect = c.FF_ASPECT_16_9_525) := by
      rcases h with h | h
      · subst h; simp [d3, d4]
      · simp [h.2.2.1, h.2.2.2]
    unfold ffmpeg_FfAspect
    rw [if_neg h1, if_neg h2]
    exact cdiv_of_pos (inInt32_wrap32 _) hh
  · intro h; rw [cmul_of_inInt32 h]
  · intro h; rw [cmul_of_inInt32 h]
  · intro h; rw [cmul_of_inInt32 h]

theorem stdConsts_wf : stdConsts.wf := by
  unfold Consts.wf stdConsts
  decide

/-- C4, at a PAL frame with the square code: 432000 * 720 / 576 = 540000. -/
theorem ffmpeg_FfAspect_three_values_witness :
    stdConsts.wf ∧ (0 : Int) < 576 ∧
    ffmpeg_FfAspect stdConsts 720 576 1 = some 540000 ∧
    ffmpeg_FfAspect stdConsts 720 576 2 = some 576000 ∧
    ffmpeg_FfAspect stdConsts 720 576 5 = some 768000 := by
  have h := ffmpeg_FfAspect_three_values stdConsts 720 576 1 stdConsts_wf (by decide)
  refine ⟨stdConsts_wf, by decide, ?_, by decide, by decide⟩
  rw [h.2.2.1 (Or.inl rfl)]
  decide

/-! ## Sink Negotiator -/

theorem ffmpeg_FfAspect_isSome (c : Consts) (i_width i_height i_ffaspect : Int)
    (hh : i_height ≠ 0) : ∃ a, ffmpeg_FfAspect c i_width i_height i_ffaspect = some a := by
  have key : ∀ a b : Int, b ≠ 0 → ∃ r, cdiv a b = some r := by
    intro a b hb
    exact ⟨_, by unfold cdiv; rw [if_neg hb]⟩
  unfold ffmpeg_FfAspect
  split
  · exact key _ _ (by decide)
  · split
    · exact key _ _ (by decide)
    · exact key _ _ hh

/-- C8. With a zero width or a zero height `ffmpeg_CreateVout` returns no video
output and does nothing else: the state, and with it the log of calls, is
unchanged, so no video output is looked up, detached, destroyed or created. -/
theorem ffmpeg_CreateVout_no_display_size (c : Consts) (s : vdec_thread_t) (o : Oracle)
    (i_width i_height i_aspect i_chroma : Int) (h : i_width = 0 ∨ i_height = 0) :
    (ffmpeg_CreateVout c s o i_width i_height i_aspect i_chroma).2 = none ∧
    (ffmpeg_CreateVout c s o i_width i_height i_aspect i_chroma).1 = s ∧
    (ffmpeg_CreateVout c s o i_width i_height i_aspect i_chroma).1.log = s.log := by
  unfold ffmpeg_CreateVout
  rw [if_pos h]
  exact ⟨rfl, rfl, rfl⟩

/-- C8, with a zero width and the PAL height. -/
theorem ffmpeg_CreateVout_no_display_size_witness :
    (ffmpeg_CreateVout stdConsts exampleThread (exampleFrame 7) 0 576 2 0).2 = none ∧
    (ffmpeg_CreateVout stdConsts exampleThread (exampleFrame 7) 0 576 2 0).1 = exampleThread ∧
    (ffmpeg_CreateVout stdConsts exampleThread (exampleFrame 7) 0 576 2 0).1.log
      = exampleThread.log :=
  ffmpeg_CreateVout_no_display_size stdConsts exampleThread (exampleFrame 7) 0 576 2 0
    (Or.inl rfl)

/-- C9 (defect of the code). `ffmpeg_CreateVout` overwrites `i_aspect` with the
resolved aspect and then hands it to `ffmpeg_CheckVout` as if it were the
aspect code, so the resolver runs twice. For a PAL request with a 4:3 code the
target aspect is 576000. A candidate with exactly the target geometry, which
`ffmpeg_CheckVout` accepts when given the code, is destroyed and replaced by a
new video output; a candidate whose aspect is 540000 (width/height), which
`ffmpeg_CheckVout` rejects when given the code, is reattached and returned. -/
theorem ffmpeg_CreateVout_resolves_aspect_twice :
    ffmpeg_FfAspect stdConsts 720 576 2 = some 576000 ∧
    ffmpeg_CheckVout stdConsts (some (exampleCandidate 576000)) 720 576 2
      (fourccLE 'I' '4' '2' '0') = some 1 ∧
    (ffmpeg_CreateVout stdConsts exampleThread
        { exampleFrame 7 with child := some (exampleCandidate 576000) }
        720 576 2 (fourccLE 'I' '4' '2' '0')).2
      = some { id := 1, i_width := 720, i_height := 576, i_chroma := fourccLE 'I' '4' '2' '0',
               i_aspect := 576000 } ∧
    (ffmpeg_CreateVout stdConsts exampleThread
        { exampleFrame 7 with child := some (exampleCandidate 576000) }
        720 576 2 (fourccLE 'I' '4' '2' '0')).1.log
      = [.vlc_object_find (some (exampleCandidate 576000)),
         .vlc_object_detach (exampleCandidate 576000),
         .vlc_object_release (exampleCandidate 576000),
         .vout_DestroyThread (exampleCandidate 576000),
         .vout_CreateThread 720 576 (fourccLE 'I' '4' '2' '0') 576000
           (some { id := 1, i_width := 720, i_height := 576,
                   i_chroma := fourccLE 'I' '4' '2' '0', i_aspect := 576000 })] ∧
    ffmpeg_CheckVout stdConsts (some (exampleCandidate 540000)) 720 576 2
      (fourccLE 'I' '4' '2' '0') = some 0 ∧
    (ffmpeg_CreateVout stdConsts exampleThread
        { exampleFrame 7 with child := some (exampleCandidate 540000) }
        720 576 2 (fourccLE 'I' '4' '2' '0')).2
      = some (exampleCandidate 540000) ∧
    (ffmpeg_CreateVout stdConsts exampleThread
        { exampleFrame 7 with child := some (exampleCandidate 540000) }
        720 576 2 (fourccLE 'I' '4' '2' '0')).1.log
      = [.vlc_object_find (some (exampleCandidate 540000)),
         .vlc_object_detach (exampleCandidate 540000),
         .vlc_object_attach (exampleCandidate 540000),
         .vlc_object_release (exampleCandidate 540000)] := by
  refine ⟨by decide, by decide, by decide, by decide, by decide, by decide, by decide⟩

/-! ## Logs and untouched fields -/

theorem LogExt.lrefl (K : Kind → Prop) (s : vdec_thread_t) : LogExt K s s :=
  ⟨[], by simp, by simp⟩

theorem LogExt.of_log_eq {K : Kind → Prop} {s s' : vdec_thread_t} (h : s'.log = s.log) :
    LogExt K s s' :=
  ⟨[], by simp [h], by simp⟩

theorem LogExt.ltrans {K : Kind → Prop} {s s' s'' : vdec_thread_t}
    (h1 : LogExt K s s') (h2 : LogExt K s' s'') : LogExt K s s'' := by
  obtain ⟨d1, e1, p1⟩ := h1
  obtain ⟨d2, e2, p2⟩ := h2
  refine ⟨d1 ++ d2, by rw [e2, e1, List.append_assoc], ?_⟩
  intro e he
  rcases List.mem_append.1 he with h | h
  · exact p1 e h
  · exact p2 e h

theorem LogExt.lemit {K : Kind → Prop} (s : vdec_thread_t) (e : Event) (h : K e.kind) :
    LogExt K s (s.emit e) :=
  ⟨[e], rfl, by simpa using h⟩

theorem forall_emitted {K : Kind → Prop} {s s' : vdec_thread_t} (h : LogExt K s s') :
    ∀ e ∈ emitted s s', K e.kind := by
  obtain ⟨d, e1, p1⟩ := h
  unfold emitted
  rw [e1, List.drop_left]
  exact p1

theorem SamePolicy.polrefl (s : vdec_thread_t) : SamePolicy s s :=
  ⟨rfl, rfl, rfl, rfl, rfl, rfl, rfl⟩

theorem SamePolicy.poltrans {s s' s'' : vdec_thread_t}
    (h1 : SamePolicy s s') (h2 : SamePolicy s' s'') : SamePolicy s s'' := by
  unfold SamePolicy at *
  obtain ⟨a1, a2, a3, a4, a5, a6, a7⟩ := h1
  obtain ⟨b1, b2, b3, b4, b5, b6, b7⟩ := h2
  exact ⟨b1.trans a1, b2.trans a2, b3.trans a3, b4.trans a4, b5.trans a5, b6.trans a6,
    b7.trans a7⟩

theorem SameWindow.winrefl (s : vdec_thread_t) : SameWindow s s := ⟨rfl, rfl, rfl⟩

theorem SameWindow.wintrans {s s' s'' : vdec_thread_t}
    (h1 : SameWindow s s') (h2 : SameWindow s' s'') : SameWindow s s'' := by
  unfold SameWindow at *
  exact ⟨h2.1.trans h1.1, h2.2.1.trans h1.2.1, h2.2.2.trans h1.2.2⟩

theorem SameFrame.frrefl (s : vdec_thread_t) : SameFrame s s := ⟨rfl, rfl, rfl, rfl, rfl⟩

theorem SameFrame.frtrans {s s' s'' : vdec_thread_t}
    (h1 : SameFrame s s') (h2 : SameFrame s' s'') : SameFrame s s'' := by
  unfold SameFrame at *
  exact ⟨h2.1.trans h1.1, h2.2.1.trans h1.2.1, h2.2.2.1.trans h1.2.2.1,
    h2.2.2.2.1.trans h1.2.2.2.1, h2.2.2.2.2.trans h1.2.2.2.2⟩

theorem Quiet.qrefl (K : Kind → Prop) (s : vdec_thread_t) : Quiet K s s :=
  ⟨LogExt.lrefl K s, SamePolicy.polrefl s, SameWindow.winrefl s, SameFrame.frrefl s, rfl⟩

theorem Quiet.qtrans {K : Kind → Prop} {s s' s'' : vdec_thread_t}
    (h1 : Quiet K s s') (h2 : Quiet K s' s'') : Quiet K s s'' :=
  ⟨h1.1.ltrans h2.1, h1.2.1.poltrans h2.2.1, h1.2.2.1.wintrans h2.2.2.1, h1.2.2.2.1.frtrans h2.2.2.2.1,
    h2.2.2.2.2.trans h1.2.2.2.2⟩

theorem Mild.mrefl (K : Kind → Prop) (s : vdec_thread_t) : Mild K s s :=
  ⟨LogExt.lrefl K s, SamePolicy.polrefl s, SameWindow.winrefl s, SameFrame.frrefl s⟩

theorem Mild.mtrans {K : Kind → Prop} {s s' s'' : vdec_thread_t}
    (h1 : Mild K s s') (h2 : Mild K s' s'') : Mild K s s'' :=
  ⟨h1.1.ltrans h2.1, h1.2.1.poltrans h2.2.1, h1.2.2.1.wintrans h2.2.2.1, h1.2.2.2.frtrans h2.2.2.2⟩

theorem Calm.crefl (K : Kind → Prop) (s : vdec_thread_t) : Calm K s s :=
  ⟨LogExt.lrefl K s, SamePolicy.polrefl s, SameFrame.frrefl s⟩

theorem Calm.ctrans {K : Kind → Prop} {s s' s'' : vdec_thread_t}
    (h1 : Calm K s s') (h2 : Calm K s' s'') : Calm K s s'' :=
  ⟨h1.1.ltrans h2.1, h1.2.1.poltrans h2.2.1, h1.2.2.frtrans h2.2.2⟩

theorem Quiet.mild {K : Kind → Prop} {s s' : vdec_thread_t} (h : Quiet K s s') : Mild K s s' :=
  ⟨h.1, h.2.1, h.2.2.1, h.2.2.2.1⟩

theorem Mild.mcalm {K : Kind → Prop} {s s' : vdec_thread_t} (h : Mild K s s') : Calm K s s' :=
  ⟨h.1, h.2.1, h.2.2.2⟩

theorem Quiet.qcalm {K : Kind → Prop} {s s' : vdec_thread_t} (h : Quiet K s s') : Calm K s s' :=
  h.mild.mcalm

/-- A state that differs from `s'` in none of the fields `Quiet` speaks of. -/
theorem Quiet.qsame {K : Kind → Prop} {s s' x : vdec_thread_t} (hq : Quiet K s s')
    (h : x.log = s'.log ∧ SamePolicy s' x ∧ SameWindow s' x ∧ SameFrame s' x ∧
      x.p_vout = s'.p_vout) : Quiet K s x :=
  hq.qtrans ⟨LogExt.of_log_eq h.1, h.2.1, h.2.2.1, h.2.2.2.1, h.2.2.2.2⟩

theorem Mild.msame {K : Kind → Prop} {s s' x : vdec_thread_t} (hq : Mild K s s')
    (h : x.log = s'.log ∧ SamePolicy s' x ∧ SameWindow s' x ∧ SameFrame s' x) :
    Mild K s x :=
  hq.mtrans ⟨LogExt.of_log_eq h.1, h.2.1, h.2.2.1, h.2.2.2⟩

theorem Calm.csame {K : Kind → Prop} {s s' x : vdec_thread_t} (hq : Calm K s s')
    (h : x.log = s'.log ∧ SamePolicy s' x ∧ SameFrame s' x) : Calm K s x :=
  hq.ctrans ⟨LogExt.of_log_eq h.1, h.2.1, h.2.2⟩

theorem Quiet.qemit {K : Kind → Prop} {s s' : vdec_thread_t} {e : Event} {k : Kind} (h : K k)
    (hk : e.kind = k) (hq : Quiet K s s') : Quiet K s (s'.emit e) :=
  hq.qtrans ⟨LogExt.lemit s' e (hk ▸ h), ⟨rfl, rfl, rfl, rfl, rfl, rfl, rfl⟩, ⟨rfl, rfl, rfl⟩,
    ⟨rfl, rfl, rfl, rfl, rfl⟩, rfl⟩

theorem Calm.cemit {K : Kind → Prop} {s s' : vdec_thread_t} {e : Event} {k : Kind} (h : K k)
    (hk : e.kind = k) (hq : Calm K s s') : Calm K s (s'.emit e) :=
  hq.ctrans ⟨LogExt.lemit s' e (hk ▸ h), ⟨rfl, rfl, rfl, rfl, rfl, rfl, rfl⟩, ⟨rfl, rfl, rfl, rfl, rfl⟩⟩

theorem spawnVout_quiet {K : Kind → Prop} (hK : K .negotiation) {s s' : vdec_thread_t}
    (o : Oracle) (w h ch a : Int) (hq : Quiet K s s') : Quiet K s (spawnVout s' o w h ch a).1 :=
  Quiet.qemit hK (by rfl) hq

theorem ffmpeg_CreateVout_quiet {K : Kind → Prop} (hK : K .negotiation) (c : Consts)
    {s0 s : vdec_thread_t} (o : Oracle) (w h a ch : Int) (hq : Quiet K s0 s) :
    Quiet K s0 (ffmpeg_CreateVout c s o w h a ch).1 := by
  unfold ffmpeg_CreateVout
  by_cases h0 : w = 0 ∨ h = 0
  · rw [if_pos h0]; exact hq
  · rw [if_neg h0]
    dsimp only
    cases hA : ffmpeg_FfAspect c w h a with
    | none => exact Quiet.qsame hq ⟨rfl, ⟨rfl, rfl, rfl, rfl, rfl, rfl, rfl⟩, ⟨rfl, rfl, rfl⟩, ⟨rfl, rfl, rfl, rfl, rfl⟩, rfl⟩
    | some asp =>
      dsimp only
      have key : ∀ (s1 : vdec_thread_t) (p : Option vout_thread_t), Quiet K s0 s1 →
          Quiet K s0 (match p with
            | none => spawnVout s1 o w h (if ch = 0 then c.VLC_FOURCC 'I' '4' '2' '0' else ch) asp
            | some v =>
              match ffmpeg_CheckVout c (some v) w h asp
                  (if ch = 0 then c.VLC_FOURCC 'I' '4' '2' '0' else ch) with
              | none => ({ s1 with undef := true }, none)
              | some r =>
                if r = 0 then
                  spawnVout
                    (((s1.emit (.vlc_object_detach v)).emit (.vlc_object_release v)).emit
                      (.vout_DestroyThread v))
                    o w h (if ch = 0 then c.VLC_FOURCC 'I' '4' '2' '0' else ch) asp
                else
                  (((s1.emit (.vlc_object_detach v)).emit (.vlc_object_attach v)).emit
                    (.vlc_object_release v), some v)).1 := by
        intro s1 p h1
        cases p with
        | none => exact spawnVout_quiet hK _ _ _ _ _ h1
        | some v =>
          dsimp only
          cases ffmpeg_CheckVout c (some v) w h asp
              (if ch = 0 then c.VLC_FOURCC 'I' '4' '2' '0' else ch) with
          | none => exact Quiet.qsame h1 ⟨rfl, ⟨rfl, rfl, rfl, rfl, rfl, rfl, rfl⟩, ⟨rfl, rfl, rfl⟩, ⟨rfl, rfl, rfl, rfl, rfl⟩, rfl⟩
          | some r =>
            dsimp only
            by_cases hr : r = 0
            · rw [if_pos hr]
              exact spawnVout_quiet hK _ _ _ _ _
                (Quiet.qemit hK (by rfl) (Quiet.qemit hK (by rfl) (Quiet.qemit hK (by rfl) h1)))
            · rw [if_neg hr]
              exact Quiet.qemit hK (by rfl) (Quiet.qemit hK (by rfl) (Quiet.qemit hK (by rfl) h1))
      cases hc : o.child with
      | some v =>
        exact key (s.emit (.vlc_object_find (some v))) (some v) (Quiet.qemit hK (by rfl) hq)
      | none =>
        exact key ((s.emit (.vlc_object_find none)).emit (.vlc_object_find o.anywhere)) o.anywhere
          (Quiet.qemit hK (by rfl) (Quiet.qemit hK (by rfl) hq))

theorem getNewPicture_quiet {K : Kind → Prop} (site : Site) (hK1 : K (.acquire site))
    (hK2 : K .wait) (misses : List Attempt) (p_pic : Nat) {s0 : vdec_thread_t} :
    ∀ s : vdec_thread_t, Quiet K s0 s → Quiet K s0 (getNewPicture site misses p_pic s).1 := by
  induction misses with
  | nil =>
    intro s hq
    exact Quiet.qemit hK1 (by rfl) hq
  | cons a rest ih =>
    intro s hq
    unfold getNewPicture
    dsimp only
    have h1 : Quiet K s0 { s.emit (.vout_CreatePicture site none) with
        b_die := s.b_die || a.b_die, b_error := s.b_error || a.b_error } :=
      Quiet.qsame (Quiet.qemit hK1 (by rfl) hq) ⟨rfl, ⟨rfl, rfl, rfl, rfl, rfl, rfl, rfl⟩, ⟨rfl, rfl, rfl⟩, ⟨rfl, rfl, rfl, rfl, rfl⟩, rfl⟩
    split
    · exact h1
    · exact ih _ (Quiet.qemit hK2 (by rfl) h1)

theorem checkOurVout_mild {K : Kind → Prop} (hK : K .negotiation) (c : Consts)
    {s0 s : vdec_thread_t} (o : Oracle) (hq : Mild K s0 s) :
    Mild K s0 (checkOurVout c s o).1 := by
  unfold checkOurVout
  cases ffmpeg_PixFmtToChroma c s.pix_fmt with
  | none => exact Mild.msame hq ⟨rfl, ⟨rfl, rfl, rfl, rfl, rfl, rfl, rfl⟩, ⟨rfl, rfl, rfl⟩, ⟨rfl, rfl, rfl, rfl, rfl⟩⟩
  | some ch =>
    dsimp only
    cases ffmpeg_CheckVout c s.p_vout s.width s.height s.aspect_ratio_info ch with
    | none => exact Mild.msame hq ⟨rfl, ⟨rfl, rfl, rfl, rfl, rfl, rfl, rfl⟩, ⟨rfl, rfl, rfl⟩, ⟨rfl, rfl, rfl, rfl, rfl⟩⟩
    | some r =>
      dsimp only
      have h1 := hq.mtrans
        (ffmpeg_CreateVout_quiet hK c o s.width s.height s.aspect_ratio_info ch
          (Quiet.qrefl K s)).mild
      by_cases hr : r = 0
      · rw [if_pos hr]
        split
        · exact Mild.msame h1 ⟨rfl, ⟨rfl, rfl, rfl, rfl, rfl, rfl, rfl⟩, ⟨rfl, rfl, rfl⟩, ⟨rfl, rfl, rfl, rfl, rfl⟩⟩
        · split
          · exact Mild.msame h1 ⟨rfl, ⟨rfl, rfl, rfl, rfl, rfl, rfl, rfl⟩, ⟨rfl, rfl, rfl⟩, ⟨rfl, rfl, rfl, rfl, rfl⟩⟩
          · exact Mild.msame h1 ⟨rfl, ⟨rfl, rfl, rfl, rfl, rfl, rfl, rfl⟩, ⟨rfl, rfl, rfl⟩, ⟨rfl, rfl, rfl, rfl, rfl⟩⟩
      · rw [if_neg hr]
        exact hq

theorem ffmpeg_CopyPicture_quiet {K : Kind → Prop} (hK : K .transfer) (c : Consts)
    {s0 s : vdec_thread_t} (p_pic : Nat) (hq : Quiet K s0 s) :
    Quiet K s0 (ffmpeg_CopyPicture c s p_pic) := by
  unfold ffmpeg_CopyPicture
  cases ffmpeg_PixFmtToChroma c s.pix_fmt with
  | none => exact Quiet.qsame hq ⟨rfl, ⟨rfl, rfl, rfl, rfl, rfl, rfl, rfl⟩, ⟨rfl, rfl, rfl⟩, ⟨rfl, rfl, rfl, rfl, rfl⟩, rfl⟩
  | some ch =>
    dsimp only
    split
    · exact Quiet.qemit hK (by rfl) hq
    · split
      · exact Quiet.qemit hK (by rfl) hq
      · exact Quiet.qsame hq ⟨rfl, ⟨rfl, rfl, rfl, rfl, rfl, rfl, rfl⟩, ⟨rfl, rfl, rfl⟩, ⟨rfl, rfl, rfl, rfl, rfl⟩, rfl⟩

theorem ffmpeg_PostProcPicture_quiet {K : Kind → Prop} (hK : K .postproc) (c : Consts)
    {s0 s : vdec_thread_t} (p_pic : Option Nat) (hq : Quiet K s0 s) :
    Quiet K s0 (ffmpeg_PostProcPicture c s p_pic) := by
  unfold ffmpeg_PostProcPicture
  split
  · split
    · exact Quiet.qsame hq ⟨rfl, ⟨rfl, rfl, rfl, rfl, rfl, rfl, rfl⟩, ⟨rfl, rfl, rfl⟩, ⟨rfl, rfl, rfl, rfl, rfl⟩, rfl⟩
    · split
      · split
        · exact Quiet.qemit hK (by rfl) hq
        · exact Quiet.qsame hq ⟨rfl, ⟨rfl, rfl, rfl, rfl, rfl, rfl, rfl⟩, ⟨rfl, rfl, rfl⟩, ⟨rfl, rfl, rfl, rfl, rfl⟩, rfl⟩
      · exact hq
  · exact hq

theorem Pulled.prefl (K : Kind → Prop) (s : vdec_thread_t) : Pulled K s s :=
  ⟨LogExt.lrefl K s, SamePolicy.polrefl s, SameWindow.winrefl s, ⟨rfl, rfl, rfl, rfl⟩, rfl⟩

theorem Pulled.ptrans {K : Kind → Prop} {s s' s'' : vdec_thread_t}
    (h1 : Pulled K s s') (h2 : Pulled K s' s'') : Pulled K s s'' :=
  ⟨h1.1.ltrans h2.1, h1.2.1.poltrans h2.2.1, h1.2.2.1.wintrans h2.2.2.1,
    ⟨h2.2.2.2.1.1.trans h1.2.2.2.1.1, h2.2.2.2.1.2.1.trans h1.2.2.2.1.2.1,
      h2.2.2.2.1.2.2.1.trans h1.2.2.2.1.2.2.1, h2.2.2.2.1.2.2.2.trans h1.2.2.2.1.2.2.2⟩,
    h2.2.2.2.2.trans h1.2.2.2.2⟩

theorem Pulled.psame {K : Kind → Prop} {s s' x : vdec_thread_t} (hq : Pulled K s s')
    (h : x.log = s'.log ∧ SamePolicy s' x ∧ SameWindow s' x ∧
      (x.width = s'.width ∧ x.height = s'.height ∧
        x.aspect_ratio_info = s'.aspect_ratio_info ∧ x.pix_fmt = s'.pix_fmt) ∧
      x.p_vout = s'.p_vout) : Pulled K s x :=
  hq.ptrans ⟨LogExt.of_log_eq h.1, h.2.1, h.2.2.1, h.2.2.2.1, h.2.2.2.2⟩

theorem Pulled.pemit {K : Kind → Prop} {s s' : vdec_thread_t} {e : Event} {k : Kind} (h : K k)
    (hk : e.kind = k) (hq : Pulled K s s') : Pulled K s (s'.emit e) :=
  hq.ptrans ⟨LogExt.lemit s' e (hk ▸ h), ⟨rfl, rfl, rfl, rfl, rfl, rfl, rfl⟩, ⟨rfl, rfl, rfl⟩,
    ⟨rfl, rfl, rfl, rfl⟩, rfl⟩

theorem pullFrame_quiet {K : Kind → Prop} (hK : K .source) (pes : List pes_packet_t)
    {s0 : vdec_thread_t} :
    ∀ s : vdec_thread_t, Pulled K s0 s → Pulled K s0 (pullFrame pes s).1 := by
  induction pes with
  | nil =>
    intro s hq
    exact Pulled.psame (Pulled.pemit hK (by rfl) hq) ⟨rfl, ⟨rfl, rfl, rfl, rfl, rfl, rfl, rfl⟩, ⟨rfl, rfl, rfl⟩, ⟨rfl, rfl, rfl, rfl⟩, rfl⟩
  | cons p rest ih =>
    intro s hq
    unfold pullFrame
    dsimp only
    have h1 : Pulled K s0 { s.emit (.input_ExtractPES (some p)) with pts := p.i_pts } :=
      Pulled.psame (Pulled.pemit hK (by rfl) hq) ⟨rfl, ⟨rfl, rfl, rfl, rfl, rfl, rfl, rfl⟩, ⟨rfl, rfl, rfl⟩, ⟨rfl, rfl, rfl, rfl⟩, rfl⟩
    split
    · split
      · exact Pulled.pemit hK (by rfl) (Pulled.pemit hK (by rfl) (Pulled.psame h1 ⟨rfl, ⟨rfl, rfl, rfl, rfl, rfl, rfl, rfl⟩, ⟨rfl, rfl, rfl⟩, ⟨rfl, rfl, rfl, rfl⟩, rfl⟩))
      · exact Pulled.pemit hK (by rfl) (Pulled.pemit hK (by rfl) h1)
    · exact ih _ (Pulled.pemit hK (by rfl) h1)

theorem sendPicture_quiet {K : Kind → Prop} (hK1 : K .postproc) (hK2 : K .present) (c : Consts)
    {s0 s : vdec_thread_t} (p_pic : Option Nat) (hq : Quiet K s0 s) :
    Quiet K s0 (sendPicture c s p_pic) := by
  unfold sendPicture
  dsimp only
  have h1 := ffmpeg_PostProcPicture_quiet hK1 c p_pic hq
  split
  · exact h1
  · exact Quiet.qemit hK2 (by rfl) (Quiet.qemit hK2 (by rfl) h1)

/-- The tail of the indirect branch of `presentPicture`, after the check of
the video output. -/
theorem presentPicture_tail_quiet {K : Kind → Prop}
    (hK2 : K (.acquire .orchestrator)) (hK3 : K .wait) (hK4 : K .transfer)
    (hK5 : K .postproc) (hK6 : K .present) (c : Consts)
    {s0 s : vdec_thread_t} (o : Oracle) (hq : Quiet K s0 s) :
    Quiet K s0
      (match (getNewPicture .orchestrator o.misses o.p_pic s).2 with
       | none => (getNewPicture .orchestrator o.misses o.p_pic s).1
       | some p_pic =>
         if (ffmpeg_CopyPicture c (getNewPicture .orchestrator o.misses o.p_pic s).1 p_pic).undef
         then ffmpeg_CopyPicture c (getNewPicture .orchestrator o.misses o.p_pic s).1 p_pic
         else sendPicture c
           (ffmpeg_CopyPicture c (getNewPicture .orchestrator o.misses o.p_pic s).1 p_pic)
           (some p_pic)) := by
  have h2 := getNewPicture_quiet .orchestrator hK2 hK3 o.misses o.p_pic _ hq
  split
  · exact h2
  · rename_i p_pic hp
    have h3 := ffmpeg_CopyPicture_quiet hK4 c p_pic h2
    split
    · exact h3
    · exact sendPicture_quiet hK5 hK6 c _ h3

theorem presentPicture_mild {K : Kind → Prop} (hK1 : K .negotiation)
    (hK2 : K (.acquire .orchestrator)) (hK3 : K .wait) (hK4 : K .transfer)
    (hK5 : K .postproc) (hK6 : K .present) (c : Consts)
    {s0 s : vdec_thread_t} (o : Oracle) (hq : Mild K s0 s) :
    Mild K s0 (presentPicture c s o) := by
  unfold presentPicture
  split
  · dsimp only
    have h1 := checkOurVout_mild hK1 c o hq
    split
    · exact h1
    · exact h1.mtrans
        (presentPicture_tail_quiet hK2 hK3 hK4 hK5 hK6 c o (Quiet.qrefl K _)).mild
  · exact hq.mtrans (sendPicture_quiet hK5 hK6 c _ (Quiet.qrefl K s)).mild

theorem vout_LinkPicture_calm {K : Kind → Prop} (hK : K .link) {s0 s : vdec_thread_t}
    (p_pic : Nat) (hq : Calm K s0 s) : Calm K s0 (vout_LinkPicture s p_pic) :=
  hq.ctrans ⟨⟨[.vout_LinkPicture p_pic], rfl, by simpa using hK⟩,
    ⟨rfl, rfl, rfl, rfl, rfl, rfl, rfl⟩, ⟨rfl, rfl, rfl, rfl, rfl⟩⟩

theorem vout_UnlinkPicture_calm {K : Kind → Prop} (hK : K .link) {s0 s : vdec_thread_t}
    (p_pic : Nat) (hq : Calm K s0 s) : Calm K s0 (vout_UnlinkPicture s p_pic) :=
  hq.ctrans ⟨⟨[.vout_UnlinkPicture p_pic], rfl, by simpa using hK⟩,
    ⟨rfl, rfl, rfl, rfl, rfl, rfl, rfl⟩, ⟨rfl, rfl, rfl, rfl, rfl⟩⟩

theorem retainPicture_calm {K : Kind → Prop} (hK : K .link) {s0 s : vdec_thread_t}
    (p_pic : Nat) (hq : Calm K s0 s) : Calm K s0 (retainPicture s p_pic) := by
  have h3 := vout_LinkPicture_calm hK p_pic hq
  unfold retainPicture
  dsimp only
  split
  · rename_i q hq2
    exact Calm.csame (vout_UnlinkPicture_calm hK q h3) ⟨rfl, ⟨rfl, rfl, rfl, rfl, rfl, rfl, rfl⟩, ⟨rfl, rfl, rfl, rfl, rfl⟩⟩
  · exact Calm.csame h3 ⟨rfl, ⟨rfl, rfl, rfl, rfl, rfl, rfl, rfl⟩, ⟨rfl, rfl, rfl, rfl, rfl⟩⟩

/-- What the callback leaves alone: it may change the window and the video
output, not the policy nor the reported geometry. -/
theorem ffmpeg_GetFrameBuf_calm {K : Kind → Prop} (hK1 : K .negotiation)
    (hK2 : K (.acquire .callback)) (hK3 : K .wait) (hK4 : K .link) (c : Consts)
    {s0 s : vdec_thread_t} (o : Oracle) (hq : Calm K s0 s) :
    Calm K s0 (ffmpeg_GetFrameBuf c s o).1 := by
  have h1 := checkOurVout_mild hK1 c o (Mild.mrefl K s)
  have h2 := h1.mtrans (getNewPicture_quiet .callback hK2 hK3 o.misses o.p_pic _
    (Quiet.qrefl K _)).mild
  unfold ffmpeg_GetFrameBuf
  dsimp only
  split
  · exact hq.ctrans h1.mcalm
  · split
    · exact hq.ctrans h2.mcalm
    · exact retainPicture_calm hK4 _ (hq.ctrans h2.mcalm)

theorem avcodec_decode_video_log {K : Kind → Prop}
    (c : Consts) (s : vdec_thread_t) (o : Oracle) (i_frame_size : Int)
    (hKd : K (.decoder s.hurry_up)) (hK1 : K .negotiation)
    (hK2 : K (.acquire .callback)) (hK3 : K .wait) (hK4 : K .link) :
    LogExt K s (avcodec_decode_video c s o i_frame_size) ∧
    SamePolicy s (avcodec_decode_video c s o i_frame_size) := by
  have h0 : Calm K { s.emit (.avcodec_decode_video s.hurry_up i_frame_size) with
        width := o.dec_width, height := o.dec_height,
        aspect_ratio_info := o.dec_aspect_ratio_info, pix_fmt := o.dec_pix_fmt }
      { s.emit (.avcodec_decode_video s.hurry_up i_frame_size) with
        width := o.dec_width, height := o.dec_height,
        aspect_ratio_info := o.dec_aspect_ratio_info, pix_fmt := o.dec_pix_fmt } :=
    Calm.crefl K _
  have h1 : LogExt K s { s.emit (.avcodec_decode_video s.hurry_up i_frame_size) with
        width := o.dec_width, height := o.dec_height,
        aspect_ratio_info := o.dec_aspect_ratio_info, pix_fmt := o.dec_pix_fmt } :=
    ⟨[.avcodec_decode_video s.hurry_up i_frame_size], rfl, by simpa using hKd⟩
  unfold avcodec_decode_video
  dsimp only
  split
  · have h2 := ffmpeg_GetFrameBuf_calm hK1 hK2 hK3 hK4 c o h0
    exact ⟨h1.ltrans h2.1, SamePolicy.poltrans ⟨rfl, rfl, rfl, rfl, rfl, rfl, rfl⟩ h2.2.1⟩
  · exact ⟨h1, ⟨rfl, rfl, rfl, rfl, rfl, rfl, rfl⟩⟩

/-- The fields no part of `DecodeThread_Video` writes, and `hurry_up`, which
only its lateness decision writes. -/
theorem SamePolicy.config {s s' : vdec_thread_t} (h : SamePolicy s s') :
    s'.b_hurry_up = s.b_hurry_up ∧ s'.b_direct_rendering = s.b_direct_rendering ∧
    s'.i_pp_mode = s.i_pp_mode ∧ s'.p_pp = s.p_pp ∧ s'.hurry_up = s.hurry_up :=
  ⟨h.1, h.2.2.2.1, h.2.2.2.2.1, h.2.2.2.2.2.1, h.2.2.2.2.2.2⟩

/-- The calls of `decodeFrame`: the source, the decoder with the hurry setting
in force, what the callback does, and, only when drawing is enabled, the calls
of the presentation. The configuration is untouched. -/
theorem decodeFrame_log {K : Kind → Prop} (c : Consts) (s : vdec_thread_t) (o : Oracle)
    (b_drawpicture : Int) (hKs : K .source) (hKd : K (.decoder s.hurry_up))
    (hK1 : K .negotiation) (hK2 : K (.acquire .callback)) (hK3 : K .wait) (hK4 : K .link)
    (hKp : b_drawpicture ≠ 0 →
      K (.acquire .orchestrator) ∧ K .transfer ∧ K .postproc ∧ K .present) :
    LogExt K s (decodeFrame c s o b_drawpicture) ∧
    (decodeFrame c s o b_drawpicture).b_hurry_up = s.b_hurry_up ∧
    (decodeFrame c s o b_drawpicture).b_direct_rendering = s.b_direct_rendering ∧
    (decodeFrame c s o b_drawpicture).i_pp_mode = s.i_pp_mode ∧
    (decodeFrame c s o b_drawpicture).p_pp = s.p_pp ∧
    (decodeFrame c s o b_drawpicture).hurry_up = s.hurry_up := by
  have h1 := pullFrame_quiet hKs o.pes s (Pulled.prefl K s)
  unfold decodeFrame
  dsimp only
  split
  · exact ⟨h1.1, h1.2.1.config⟩
  · rename_i sz hsz
    have hKd' : K (.decoder (pullFrame o.pes s).1.hurry_up) := by
      rw [h1.2.1.config.2.2.2.2]; exact hKd
    have h2 := avcodec_decode_video_log c (pullFrame o.pes s).1 o sz hKd' hK1 hK2 hK3 hK4
    have h12 : LogExt K s (avcodec_decode_video c (pullFrame o.pes s).1 o sz) ∧
        SamePolicy s (avcodec_decode_video c (pullFrame o.pes s).1 o sz) :=
      ⟨h1.1.ltrans h2.1, h1.2.1.poltrans h2.2⟩
    split
    · exact ⟨h12.1, h12.2.config⟩
    · split
      · exact ⟨h12.1.ltrans (LogExt.of_log_eq rfl), h12.2.config⟩
      · have hu : (updateFrameLate (avcodec_decode_video c (pullFrame o.pes s).1 o sz) o.mdate).log
            = (avcodec_decode_video c (pullFrame o.pes s).1 o sz).log ∧
            (updateFrameLate (avcodec_decode_video c (pullFrame o.pes s).1 o sz) o.mdate).b_hurry_up
            = (avcodec_decode_video c (pullFrame o.pes s).1 o sz).b_hurry_up ∧
            (updateFrameLate (avcodec_decode_video c (pullFrame o.pes s).1 o sz)
              o.mdate).b_direct_rendering
            = (avcodec_decode_video c (pullFrame o.pes s).1 o sz).b_direct_rendering ∧
            (updateFrameLate (avcodec_decode_video c (pullFrame o.pes s).1 o sz) o.mdate).i_pp_mode
            = (avcodec_decode_video c (pullFrame o.pes s).1 o sz).i_pp_mode ∧
            (updateFrameLate (avcodec_decode_video c (pullFrame o.pes s).1 o sz) o.mdate).p_pp
            = (avcodec_decode_video c (pullFrame o.pes s).1 o sz).p_pp ∧
            (updateFrameLate (avcodec_decode_video c (pullFrame o.pes s).1 o sz) o.mdate).hurry_up
            = (avcodec_decode_video c (pullFrame o.pes s).1 o sz).hurry_up := by
          unfold updateFrameLate
          split <;> exact ⟨rfl, rfl, rfl, rfl, rfl, rfl⟩
        obtain ⟨e1, e2, e3, e4, e5, e6⟩ := hu
        have hc := h12.2.config
        have hx : LogExt K s
            (updateFrameLate (avcodec_decode_video c (pullFrame o.pes s).1 o sz) o.mdate) :=
          h12.1.ltrans (LogExt.of_log_eq e1)
        split
        · exact ⟨hx, e2.trans hc.1, e3.trans hc.2.1, e4.trans hc.2.2.1,
            e5.trans hc.2.2.2.1, e6.trans hc.2.2.2.2⟩
        · rename_i hnd
          obtain ⟨k1, k2, k3, k4⟩ := hKp (fun h => hnd (Or.inr (Or.inr h)))
          have hp := presentPicture_mild hK1 k1 hK3 k2 k3 k4 c o (Mild.mrefl K
            (updateFrameLate (avcodec_decode_video c (pullFrame o.pes s).1 o sz) o.mdate))
          have hpc := hp.2.1.config
          exact ⟨hx.ltrans hp.1, (hpc.1.trans e2).trans hc.1, (hpc.2.1.trans e3).trans hc.2.1,
            (hpc.2.2.1.trans e4).trans hc.2.2.1, (hpc.2.2.2.1.trans e5).trans hc.2.2.2.1,
            (hpc.2.2.2.2.trans e6).trans hc.2.2.2.2⟩

theorem LogExt.weaken {K K' : Kind → Prop} {s s' : vdec_thread_t} (h : LogExt K s s')
    (hk : ∀ k, K k → K' k) : LogExt K' s s' := by
  obtain ⟨d, e1, p1⟩ := h
  exact ⟨d, e1, fun e he => hk _ (p1 e he)⟩

theorem emitted_eq_of_log {s s' : vdec_thread_t} {d : List Event}
    (e1 : s'.log = s.log ++ d) : emitted s s' = d := by
  unfold emitted
  rw [e1, List.drop_left]

/-- A call made between `a` and `b` is among the calls made between `s` and
`b`, when `a` continues `s` and `b` continues `a`. -/
theorem mem_emitted_left {K K' : Kind → Prop} {s a b : vdec_thread_t} {e : Event}
    (h1 : LogExt K s a) (h2 : LogExt K' a b) (he : e ∈ emitted a b) : e ∈ emitted s b := by
  obtain ⟨d1, e1, -⟩ := h1
  obtain ⟨d2, e2, -⟩ := h2
  unfold emitted at *
  rw [e2, List.drop_left] at he
  rw [e2, e1, List.append_assoc, List.drop_left]
  exact List.mem_append_right _ he

/-- A call made between `s` and `a` is among the calls made between `s` and
`b`, when `b` continues `a`. -/
theorem mem_emitted_right {K K' : Kind → Prop} {s a b : vdec_thread_t} {e : Event}
    (h1 : LogExt K s a) (h2 : LogExt K' a b) (he : e ∈ emitted s a) : e ∈ emitted s b := by
  obtain ⟨d1, e1, -⟩ := h1
  obtain ⟨d2, e2, -⟩ := h2
  unfold emitted at *
  rw [e1, List.drop_left] at he
  rw [e2, e1, List.append_assoc, List.drop_left]
  exact List.mem_append_left _ he

theorem allKinds : ∀ k : Kind, (fun _ : Kind => True) k := fun _ => trivial

/-- The source hands out a frame when one of its packets has a payload. -/
theorem pullFrame_some (pes : List pes_packet_t) (h : ∃ p ∈ pes, 0 < p.i_pes_size) :
    ∀ s : vdec_thread_t, ∃ p ∈ pes, 0 < p.i_pes_size ∧
      (pullFrame pes s).2 = some p.i_pes_size ∧ (pullFrame pes s).1.pts = p.i_pts := by
  induction pes with
  | nil => simp at h
  | cons q rest ih =>
    intro s
    unfold pullFrame
    dsimp only
    by_cases hq : q.i_pes_size > 0
    · rw [if_pos hq]
      refine ⟨q, List.mem_cons_self _ _, hq, rfl, ?_⟩
      split <;> rfl
    · rw [if_neg hq]
      have h' : ∃ p ∈ rest, 0 < p.i_pes_size := by
        obtain ⟨p, hp, hp2⟩ := h
        rcases List.mem_cons.1 hp with h1 | h1
        · subst h1; exact absurd hp2 hq
        · exact ⟨p, h1, hp2⟩
      obtain ⟨p, hp, hp2, hp3, hp4⟩ := ih h' ((({ s.emit (.input_ExtractPES (some q)) with
        pts := q.i_pts } : vdec_thread_t)).emit .input_DeletePES)
      exact ⟨p, List.mem_cons_of_mem _ hp, hp2, hp3, hp4⟩

/-- The source answers `NULL` when none of its packets has a payload. -/
theorem pullFrame_none (pes : List pes_packet_t) (h : ∀ p ∈ pes, p.i_pes_size ≤ 0) :
    ∀ s : vdec_thread_t, (pullFrame pes s).2 = none ∧ (pullFrame pes s).1.b_error = true := by
  induction pes with
  | nil => intro s; exact ⟨rfl, rfl⟩
  | cons q rest ih =>
    intro s
    unfold pullFrame
    dsimp only
    have hq : ¬ q.i_pes_size > 0 := by
      have := h q (List.mem_cons_self _ _)
      omega
    rw [if_neg hq]
    exact ih (fun p hp => h p (List.mem_cons_of_mem _ hp)) _

theorem avcodec_decode_video_mem (c : Consts) (s : vdec_thread_t) (o : Oracle) (sz : Int) :
    Event.avcodec_decode_video s.hurry_up sz ∈ emitted s (avcodec_decode_video c s o sz) := by
  have h1 : LogExt (fun _ => True) s { s.emit (.avcodec_decode_video s.hurry_up sz) with
        width := o.dec_width, height := o.dec_height,
        aspect_ratio_info := o.dec_aspect_ratio_info, pix_fmt := o.dec_pix_fmt } :=
    ⟨[.avcodec_decode_video s.hurry_up sz], rfl, fun _ _ => trivial⟩
  have h0 : Event.avcodec_decode_video s.hurry_up sz ∈
      emitted s { s.emit (.avcodec_decode_video s.hurry_up sz) with
        width := o.dec_width, height := o.dec_height,
        aspect_ratio_info := o.dec_aspect_ratio_info, pix_fmt := o.dec_pix_fmt } := by
    unfold emitted
    show _ ∈ List.drop s.log.length (s.log ++ [_])
    rw [List.drop_left]
    exact List.mem_singleton.2 rfl
  unfold avcodec_decode_video
  dsimp only
  split
  · exact mem_emitted_right h1
      (ffmpeg_GetFrameBuf_calm (K := fun _ => True) trivial trivial trivial trivial c o
        (Calm.crefl _ _)).1 h0
  · exact h0

/-- After the decoder has been called, `decodeFrame` only adds to the log. -/
theorem decodeFrame_extends (c : Consts) (s : vdec_thread_t) (o : Oracle) (d sz : Int)
    (hsz : (pullFrame o.pes s).2 = some sz) :
    LogExt (fun _ => True) (avcodec_decode_video c (pullFrame o.pes s).1 o sz)
      (decodeFrame c s o d) := by
  unfold decodeFrame
  dsimp only
  rw [hsz]
  dsimp only
  split
  · exact LogExt.lrefl _ _
  · split
    · exact LogExt.of_log_eq rfl
    · have hu : (updateFrameLate (avcodec_decode_video c (pullFrame o.pes s).1 o sz) o.mdate).log
          = (avcodec_decode_video c (pullFrame o.pes s).1 o sz).log := by
        unfold updateFrameLate
        split <;> rfl
      split
      · exact LogExt.of_log_eq hu
      · exact (LogExt.of_log_eq hu).ltrans
          (presentPicture_mild (K := fun _ => True) trivial trivial trivial trivial trivial
            trivial c o (Mild.mrefl _ _)).1

/-- When the source hands out a frame, `decodeFrame` calls the decoder, with
the hurry setting in force. -/
theorem decodeFrame_decodes (c : Consts) (s : vdec_thread_t) (o : Oracle) (d : Int)
    (h : ∃ p ∈ o.pes, 0 < p.i_pes_size) :
    ∃ sz, Event.avcodec_decode_video s.hurry_up sz ∈ emitted s (decodeFrame c s o d) := by
  obtain ⟨p, -, -, hp, -⟩ := pullFrame_some o.pes h s
  have h1 := pullFrame_quiet (K := fun _ => True) trivial o.pes s (Pulled.prefl _ s)
  have h2 := avcodec_decode_video_mem c (pullFrame o.pes s).1 o p.i_pes_size
  have h3 := decodeFrame_extends c s o d p.i_pes_size hp
  have h4 := avcodec_decode_video_log (K := fun _ => True) c (pullFrame o.pes s).1 o
    p.i_pes_size trivial trivial trivial trivial trivial
  rw [h1.2.1.config.2.2.2.2] at h2
  exact ⟨p.i_pes_size, mem_emitted_left h1.1 (h4.1.ltrans h3) (mem_emitted_right h4.1 h3 h2)⟩

/-- With drawing enabled, a frame that the decoder turned into a picture goes
on to `presentPicture`, from the very state in which the same call with drawing
disabled ends. -/
theorem decodeFrame_presents (c : Consts) (s : vdec_thread_t) (o : Oracle)
    (h : ∃ p ∈ o.pes, 0 < p.i_pes_size) (hs : 0 ≤ o.i_status) (hg : o.b_gotpicture ≠ 0)
    (hl : o.linesize0 ≠ 0) (hu : (decodeFrame c s o 0).undef = false) :
    decodeFrame c s o 1 = presentPicture c (decodeFrame c s o 0) o := by
  obtain ⟨p, -, -, hp, -⟩ := pullFrame_some o.pes h s
  unfold decodeFrame at hu ⊢
  dsimp only at hu ⊢
  rw [hp] at hu ⊢
  dsimp only at hu ⊢
  by_cases h1 : (avcodec_decode_video c (pullFrame o.pes s).1 o p.i_pes_size).undef = true
  · rw [if_pos h1] at hu
    rw [h1] at hu
    exact absurd hu (by decide)
  · rw [if_neg h1, if_neg (not_lt.2 hs)]
    rw [if_neg h1, if_neg (not_lt.2 hs)]
    have e1 : ¬ (o.b_gotpicture = 0 ∨ o.linesize0 = 0 ∨ (1 : Int) = 0) := by
      intro h2
      rcases h2 with h2 | h2 | h2
      · exact hg h2
      · exact hl h2
      · exact absurd h2 (by decide)
    rw [if_neg e1, if_pos (Or.inr (Or.inr rfl))]

/-! ## Geometry Matcher -/

theorem updateFrameLate_eq (s : vdec_thread_t) (m : Int) :
    updateFrameLate s m = { s with i_frame_late := (updateFrameLate s m).i_frame_late } := by
  unfold updateFrameLate
  split <;> rfl

theorem avcodec_decode_video_indirect (c : Consts) (s : vdec_thread_t) (o : Oracle) (sz : Int)
    (h : s.b_direct_rendering = 0) :
    avcodec_decode_video c s o sz =
      { s.emit (.avcodec_decode_video s.hurry_up sz) with
        width := o.dec_width, height := o.dec_height,
        aspect_ratio_info := o.dec_aspect_ratio_info, pix_fmt := o.dec_pix_fmt } := by
  unfold avcodec_decode_video
  dsimp only
  rw [if_neg]
  intro h1
  exact h1.1 h

/-- A video output that passes the check is kept as it is. -/
theorem checkOurVout_match (c : Consts) (s : vdec_thread_t) (o : Oracle) (ch : Int)
    (hpf : ffmpeg_PixFmtToChroma c s.pix_fmt = some ch)
    (hck : ffmpeg_CheckVout c s.p_vout s.width s.height s.aspect_ratio_info ch = some 1) :
    checkOurVout c s o = (s, true) := by
  unfold checkOurVout
  rw [hpf]
  dsimp only
  rw [hck]
  dsimp only
  rw [if_neg (by decide)]

/-- In indirect mode, with a video output that passes the check, the
presentation leaves the video output alone and negotiates nothing. -/
theorem presentPicture_match {K : Kind → Prop}
    (hK2 : K (.acquire .orchestrator)) (hK3 : K .wait) (hK4 : K .transfer)
    (hK5 : K .postproc) (hK6 : K .present) (c : Consts) (s : vdec_thread_t) (o : Oracle)
    (ch : Int) (hdr : s.b_direct_rendering = 0)
    (hpf : ffmpeg_PixFmtToChroma c s.pix_fmt = some ch)
    (hck : ffmpeg_CheckVout c s.p_vout s.width s.height s.aspect_ratio_info ch = some 1) :
    Quiet K s (presentPicture c s o) := by
  unfold presentPicture
  rw [if_pos hdr]
  dsimp only
  rw [checkOurVout_match c s o ch hpf hck]
  dsimp only
  rw [if_neg (by decide)]
  exact presentPicture_tail_quiet hK2 hK3 hK4 hK5 hK6 c o (Quiet.qrefl K s)

/-- In indirect mode, a frame whose geometry the present video output matches
leaves the video output alone and negotiates nothing. -/
theorem decodeFrame_match {K : Kind → Prop} (hKs : K .source) (hKd : ∀ h, K (.decoder h))
    (hK2 : K (.acquire .orchestrator)) (hK3 : K .wait) (hK4 : K .transfer)
    (hK5 : K .postproc) (hK6 : K .present) (c : Consts) (s : vdec_thread_t) (o : Oracle)
    (d ch : Int) (v : vout_thread_t) (hdr : s.b_direct_rendering = 0) (hv : s.p_vout = some v)
    (hpf : ffmpeg_PixFmtToChroma c o.dec_pix_fmt = some ch)
    (hck : ffmpeg_CheckVout c (some v) o.dec_width o.dec_height o.dec_aspect_ratio_info ch
      = some 1) :
    LogExt K s (decodeFrame c s o d) ∧ (decodeFrame c s o d).p_vout = some v := by
  have h1 := pullFrame_quiet hKs o.pes s (Pulled.prefl K s)
  have hdr1 : (pullFrame o.pes s).1.b_direct_rendering = 0 := h1.2.1.config.2.1.trans hdr
  have hv1 : (pullFrame o.pes s).1.p_vout = some v := h1.2.2.2.2.trans hv
  unfold decodeFrame
  dsimp only
  split
  · exact ⟨h1.1, hv1⟩
  · rename_i sz hsz
    rw [avcodec_decode_video_indirect c _ o sz hdr1]
    have h2 : LogExt K s ({ (pullFrame o.pes s).1.emit
          (.avcodec_decode_video (pullFrame o.pes s).1.hurry_up sz) with
        width := o.dec_width, height := o.dec_height,
        aspect_ratio_info := o.dec_aspect_ratio_info, pix_fmt := o.dec_pix_fmt }) :=
      h1.1.ltrans ⟨[.avcodec_decode_video (pullFrame o.pes s).1.hurry_up sz], rfl,
        by simpa using hKd _⟩
    split
    · exact ⟨h2, hv1⟩
    · split
      · exact ⟨h2.ltrans (LogExt.of_log_eq rfl), hv1⟩
      · rw [updateFrameLate_eq]
        split
        · exact ⟨h2.ltrans (LogExt.of_log_eq rfl), hv1⟩
        · have h3 := presentPicture_match hK2 hK3 hK4 hK5 hK6 c
            { ({ (pullFrame o.pes s).1.emit
                (.avcodec_decode_video (pullFrame o.pes s).1.hurry_up sz) with
              width := o.dec_width, height := o.dec_height,
              aspect_ratio_info := o.dec_aspect_ratio_info, pix_fmt := o.dec_pix_fmt }
              : vdec_thread_t) with
              i_frame_late := (updateFrameLate ({ (pullFrame o.pes s).1.emit
                (.avcodec_decode_video (pullFrame o.pes s).1.hurry_up sz) with
              width := o.dec_width, height := o.dec_height,
              aspect_ratio_info := o.dec_aspect_ratio_info, pix_fmt := o.dec_pix_fmt }
              : vdec_thread_t) o.mdate).i_frame_late }
            o ch hdr1 hpf (by rw [← hv1] at hck; exact hck)
          exact ⟨h2.ltrans ((LogExt.of_log_eq rfl).ltrans h3.1), h3.2.2.2.2.trans hv1⟩

/-- One call of the entry point in indirect mode, on a frame whose geometry the
present video output matches. -/
theorem DecodeThread_Video_match {K : Kind → Prop} (hKs : K .source) (hKd : ∀ h, K (.decoder h))
    (hK2 : K (.acquire .orchestrator)) (hK3 : K .wait) (hK4 : K .transfer)
    (hK5 : K .postproc) (hK6 : K .present) (c : Consts) (s : vdec_thread_t) (o : Oracle)
    (ch : Int) (v : vout_thread_t) (hdr : s.b_direct_rendering = 0) (hv : s.p_vout = some v)
    (hpf : ffmpeg_PixFmtToChroma c o.dec_pix_fmt = some ch)
    (hck : ffmpeg_CheckVout c (some v) o.dec_width o.dec_height o.dec_aspect_ratio_info ch
      = some 1) :
    LogExt K s (DecodeThread_Video c s o) ∧ (DecodeThread_Video c s o).p_vout = some v ∧
    (DecodeThread_Video c s o).b_direct_rendering = 0 := by
  unfold DecodeThread_Video
  split
  · split
    · have h := decodeFrame_match hKs hKd hK2 hK3 hK4 hK5 hK6 c { s with hurry_up := 2 } o 0 ch v
        hdr hv hpf hck
      have h2 := decodeFrame_log (K := fun _ => True) c { s with hurry_up := 2 } o 0 trivial
        trivial trivial trivial trivial trivial (fun _ => ⟨trivial, trivial, trivial, trivial⟩)
      exact ⟨(LogExt.of_log_eq rfl).ltrans h.1, h.2, h2.2.2.1.trans hdr⟩
    · exact ⟨LogExt.lemit _ _ hKs, hv, hdr⟩
  · have h := decodeFrame_match hKs hKd hK2 hK3 hK4 hK5 hK6 c { s with hurry_up := 0 } o 1 ch v
      hdr hv hpf hck
    have h2 := decodeFrame_log (K := fun _ => True) c { s with hurry_up := 0 } o 1 trivial
      trivial trivial trivial trivial trivial (fun _ => ⟨trivial, trivial, trivial, trivial⟩)
    exact ⟨(LogExt.of_log_eq rfl).ltrans h.1, h.2, h2.2.2.1.trans hdr⟩

/-- Any number of such calls. -/
theorem foldl_DecodeThread_Video_match {K : Kind → Prop} (hKs : K .source)
    (hKd : ∀ h, K (.decoder h))
    (hK2 : K (.acquire .orchestrator)) (hK3 : K .wait) (hK4 : K .transfer)
    (hK5 : K .postproc) (hK6 : K .present) (c : Consts) (ch : Int) (v : vout_thread_t)
    (os : List Oracle) :
    ∀ s : vdec_thread_t, s.b_direct_rendering = 0 → s.p_vout = some v →
    (∀ o ∈ os, ffmpeg_PixFmtToChroma c o.dec_pix_fmt = some ch ∧
      ffmpeg_CheckVout c (some v) o.dec_width o.dec_height o.dec_aspect_ratio_info ch = some 1) →
    LogExt K s (os.foldl (DecodeThread_Video c) s) ∧
    (os.foldl (DecodeThread_Video c) s).p_vout = some v := by
  induction os with
  | nil => intro s _ hv _; exact ⟨LogExt.lrefl K s, hv⟩
  | cons o rest ih =>
    intro s hdr hv hos
    have ho := hos o (List.mem_cons_self _ _)
    have h1 := DecodeThread_Video_match hKs hKd hK2 hK3 hK4 hK5 hK6 c s o ch v hdr hv ho.1 ho.2
    have h2 := ih (DecodeThread_Video c s o) h1.2.2 h1.2.1
      (fun o' ho' => hos o' (List.mem_cons_of_mem _ ho'))
    exact ⟨h1.1.ltrans h2.1, h2.2⟩

/-- What `ffmpeg_CreateVout` returns for non-zero dimensions: a video output
it found, or the one `vout_CreateThread` made for the target geometry. -/
theorem ffmpeg_CreateVout_result (c : Consts) (s : vdec_thread_t) (o : Oracle)
    (w h asp ch a : Int) (hw : w ≠ 0) (hh : h ≠ 0)
    (ha : ffmpeg_FfAspect c w h asp = some a) (v : vout_thread_t)
    (hv : (ffmpeg_CreateVout c s o w h asp ch).2 = some v) :
    (o.child = some v ∨ (o.child = none ∧ o.anywhere = some v)) ∨
    (∃ id, o.spawn = some id ∧
      v = { id := id, i_width := w, i_height := h,
            i_chroma := (if ch = 0 then c.VLC_FOURCC 'I' '4' '2' '0' else ch), i_aspect := a }) := by
  unfold ffmpeg_CreateVout at hv
  rw [if_neg (by intro h0; rcases h0 with h0 | h0; exact hw h0; exact hh h0)] at hv
  dsimp only at hv
  rw [ha] at hv
  dsimp only at hv
  have hsp : ∀ s1 : vdec_thread_t,
      (spawnVout s1 o w h (if ch = 0 then c.VLC_FOURCC 'I' '4' '2' '0' else ch) a).2 = some v →
      ∃ id, o.spawn = some id ∧
      v = { id := id, i_width := w, i_height := h,
            i_chroma := (if ch = 0 then c.VLC_FOURCC 'I' '4' '2' '0' else ch), i_aspect := a } := by
    intro s1 h1
    unfold spawnVout vout_CreateThread at h1
    dsimp only at h1
    cases hs : o.spawn with
    | none => rw [hs] at h1; simp at h1
    | some id =>
      rw [hs] at h1
      simp only [Option.map_some', Option.some.injEq] at h1
      exact ⟨id, rfl, h1.symm⟩
  have key : ∀ (s1 : vdec_thread_t) (p : Option vout_thread_t),
      (match p with
        | none => spawnVout s1 o w h (if ch = 0 then c.VLC_FOURCC 'I' '4' '2' '0' else ch) a
        | some v' =>
          match ffmpeg_CheckVout c (some v') w h a
              (if ch = 0 then c.VLC_FOURCC 'I' '4' '2' '0' else ch) with
          | none => ({ s1 with undef := true }, none)
          | some r =>
            if r = 0 then
              spawnVout
                (((s1.emit (.vlc_object_detach v')).emit (.vlc_object_release v')).emit
                  (.vout_DestroyThread v'))
                o w h (if ch = 0 then c.VLC_FOURCC 'I' '4' '2' '0' else ch) a
            else
              (((s1.emit (.vlc_object_detach v')).emit (.vlc_object_attach v')).emit
                (.vlc_object_release v'), some v')).2 = some v →
      p = some v ∨ (∃ id, o.spawn = some id ∧
        v = { id := id, i_width := w, i_height := h,
              i_chroma := (if ch = 0 then c.VLC_FOURCC 'I' '4' '2' '0' else ch),
              i_aspect := a }) := by
    intro s1 p h1
    cases p with
    | none => exact Or.inr (hsp _ h1)
    | some v' =>
      dsimp only at h1
      cases hck : ffmpeg_CheckVout c (some v') w h a
          (if ch = 0 then c.VLC_FOURCC 'I' '4' '2' '0' else ch) with
      | none => rw [hck] at h1; simp at h1
      | some r =>
        rw [hck] at h1
        dsimp only at h1
        by_cases hr : r = 0
        · rw [if_pos hr] at h1
          exact Or.inr (hsp _ h1)
        · rw [if_neg hr] at h1
          exact Or.inl h1
  cases hc : o.child with
  | some v' =>
    rw [hc] at hv
    rcases key (s.emit (.vlc_object_find (some v'))) (some v') hv with h1 | h1
    · exact Or.inl (Or.inl h1)
    · exact Or.inr h1
  | none =>
    rw [hc] at hv
    rcases key ((s.emit (.vlc_object_find none)).emit (.vlc_object_find o.anywhere))
      o.anywhere hv with h1 | h1
    · exact Or.inl (Or.inr ⟨rfl, h1⟩)
    · exact Or.inr h1

/-- With no video output to be found, `ffmpeg_CreateVout` returns what
`vout_CreateThread` makes for the target geometry. -/
theorem ffmpeg_CreateVout_spawn (c : Consts) (s : vdec_thread_t) (o : Oracle)
    (w h asp ch a : Int) (hw : w ≠ 0) (hh : h ≠ 0)
    (ha : ffmpeg_FfAspect c w h asp = some a) (h1 : o.child = none) (h2 : o.anywhere = none) :
    (ffmpeg_CreateVout c s o w h asp ch).2 =
      vout_CreateThread o.spawn w h (if ch = 0 then c.VLC_FOURCC 'I' '4' '2' '0' else ch) a := by
  unfold ffmpeg_CreateVout
  rw [if_neg (by intro h0; rcases h0 with h0 | h0; exact hw h0; exact hh h0)]
  dsimp only
  rw [ha]
  dsimp only
  rw [h1]
  dsimp only
  rw [h2]
  rfl

/-- The check passes on a video output with the target geometry. -/
theorem ffmpeg_CheckVout_of_geometry (c : Consts) (w h asp ch a : Int)
    (ha : ffmpeg_FfAspect c w h asp = some a) (v : vout_thread_t)
    (h1 : v.i_width = w) (h2 : v.i_height = h)
    (h3 : v.i_chroma = (if ch = 0 then c.VLC_FOURCC 'I' '4' '2' '0' else ch))
    (h4 : v.i_aspect = a) :
    ffmpeg_CheckVout c (some v) w h asp ch = some 1 := by
  unfold ffmpeg_CheckVout
  dsimp only
  rw [if_neg (not_not.2 h1), if_neg (not_not.2 h2), if_neg (not_not.2 h3), ha]
  dsimp only
  rw [if_neg (not_not.2 h4)]

/-- C3. The Geometry Matcher is reflexive. For every width and height above 0,
every aspect code and every mapped chroma (0 included), the aspect resolves to
a value `a`, and every video output whose render geometry is (width, height,
chroma or I420 when chroma is 0, `a`) passes `ffmpeg_CheckVout` for (width,
height, aspect code, chroma). Such is the video output `ffmpeg_CreateVout`
makes: what it returns is a video output it found or one with this geometry,
and with none found it is the one `vout_CreateThread` made. Consequently, in
indirect mode, any number of calls of the entry point on frames of this
geometry, started with such a video output, keep it and negotiate nothing. -/
theorem ffmpeg_CheckVout_reflexive (c : Consts) (i_width i_height i_aspect i_chroma : Int)
    (hw : 0 < i_width) (hh : 0 < i_height) :
    ∃ a, ffmpeg_FfAspect c i_width i_height i_aspect = some a ∧
    (∀ v : vout_thread_t, v.i_width = i_width → v.i_height = i_height →
      v.i_chroma = (if i_chroma = 0 then c.VLC_FOURCC 'I' '4' '2' '0' else i_chroma) →
      v.i_aspect = a →
      ffmpeg_CheckVout c (some v) i_width i_height i_aspect i_chroma = some 1) ∧
    (∀ (s : vdec_thread_t) (o : Oracle) (v : vout_thread_t),
      (ffmpeg_CreateVout c s o i_width i_height i_aspect i_chroma).2 = some v →
      (o.child = some v ∨ (o.child = none ∧ o.anywhere = some v)) ∨
      (v.i_width = i_width ∧ v.i_height = i_height ∧
       v.i_chroma = (if i_chroma = 0 then c.VLC_FOURCC 'I' '4' '2' '0' else i_chroma) ∧
       v.i_aspect = a ∧
       ffmpeg_CheckVout c (some v) i_width i_height i_aspect i_chroma = some 1)) ∧
    (∀ (s : vdec_thread_t) (o : Oracle) (id : Nat),
      o.child = none → o.anywhere = none → o.spawn = some id →
      (ffmpeg_CreateVout c s o i_width i_height i_aspect i_chroma).2 =
        some { id := id, i_width := i_width, i_height := i_height,
               i_chroma := (if i_chroma = 0 then c.VLC_FOURCC 'I' '4' '2' '0' else i_chroma),
               i_aspect := a }) ∧
    (∀ (s : vdec_thread_t) (v : vout_thread_t) (os : List Oracle),
      s.b_direct_rendering = 0 → s.p_vout = some v →
      v.i_width = i_width → v.i_height = i_height →
      v.i_chroma = (if i_chroma = 0 then c.VLC_FOURCC 'I' '4' '2' '0' else i_chroma) →
      v.i_aspect = a →
      (∀ o ∈ os, o.dec_width = i_width ∧ o.dec_height = i_height ∧
        o.dec_aspect_ratio_info = i_aspect ∧
        ffmpeg_PixFmtToChroma c o.dec_pix_fmt = some i_chroma) →
      (os.foldl (DecodeThread_Video c) s).p_vout = some v ∧
      ∀ e ∈ emitted s (os.foldl (DecodeThread_Video c) s), e.kind ≠ .negotiation) := by
  obtain ⟨a, ha⟩ := ffmpeg_FfAspect_isSome c i_width i_height i_aspect (ne_of_gt hh)
  refine ⟨a, ha, ?_, ?_, ?_, ?_⟩
  · intro v h1 h2 h3 h4
    exact ffmpeg_CheckVout_of_geometry c _ _ _ _ a ha v h1 h2 h3 h4
  · intro s o v hv
    rcases ffmpeg_CreateVout_result c s o _ _ _ _ a (ne_of_gt hw) (ne_of_gt hh) ha v hv with h | h
    · exact Or.inl h
    · obtain ⟨id, -, hid⟩ := h
      subst hid
      exact Or.inr ⟨rfl, rfl, rfl, rfl,
        ffmpeg_CheckVout_of_geometry c _ _ _ _ a ha _ rfl rfl rfl rfl⟩
  · intro s o id h1 h2 h3
    rw [ffmpeg_CreateVout_spawn c s o _ _ _ _ a (ne_of_gt hw) (ne_of_gt hh) ha h1 h2, h3]
    rfl
  · intro s v os hdr hv h1 h2 h3 h4 hos
    have h := foldl_DecodeThread_Video_match (K := fun k => k ≠ .negotiation) (by decide)
      (by intro h; simp) (by decide) (by decide) (by decide) (by decide) (by decide)
      c i_chroma v os s hdr hv (by
        intro o ho
        obtain ⟨e1, e2, e3, e4⟩ := hos o ho
        rw [e1, e2, e3]
        exact ⟨e4, ffmpeg_CheckVout_of_geometry c _ _ _ _ a ha v h1 h2 h3 h4⟩)
    exact ⟨h.2, forall_emitted h.1⟩

/-- C3, on a PAL stream with the 4:3 code whose pixel format (4:1:0) has no
direct mapping: the first frame creates the video output, and one hundred more
frames keep it and negotiate nothing. -/
theorem ffmpeg_CheckVout_reflexive_witness :
    (0 : Int) < 720 ∧ (0 : Int) < 576 ∧
    (DecodeThread_Video stdConsts exampleThread
        { exampleFrame 7 with dec_pix_fmt := PIX_FMT_YUV410P }).p_vout
      = some { id := 1, i_width := 720, i_height := 576, i_chroma := fourccLE 'I' '4' '2' '0',
               i_aspect := 576000 } ∧
    ((List.replicate 100 { exampleFrame 7 with dec_pix_fmt := PIX_FMT_YUV410P }).foldl
        (DecodeThread_Video stdConsts)
        (DecodeThread_Video stdConsts exampleThread
          { exampleFrame 7 with dec_pix_fmt := PIX_FMT_YUV410P })).p_vout
      = some { id := 1, i_width := 720, i_height := 576, i_chroma := fourccLE 'I' '4' '2' '0',
               i_aspect := 576000 } ∧
    (∀ e ∈ emitted
        (DecodeThread_Video stdConsts exampleThread
          { exampleFrame 7 with dec_pix_fmt := PIX_FMT_YUV410P })
        ((List.replicate 100 { exampleFrame 7 with dec_pix_fmt := PIX_FMT_YUV410P }).foldl
          (DecodeThread_Video stdConsts)
          (DecodeThread_Video stdConsts exampleThread
            { exampleFrame 7 with dec_pix_fmt := PIX_FMT_YUV410P })),
      e.kind ≠ .negotiation) := by
  obtain ⟨a, ha, -, -, -, h⟩ :=
    ffmpeg_CheckVout_reflexive stdConsts 720 576 2 0 (by decide) (by decide)
  have ha' : a = 576000 := by
    have : ffmpeg_FfAspect stdConsts 720 576 2 = some 576000 := by decide
    rw [this] at ha
    exact (Option.some.inj ha).symm
  subst ha'
  have hv : (DecodeThread_Video stdConsts exampleThread
        { exampleFrame 7 with dec_pix_fmt := PIX_FMT_YUV410P }).p_vout
      = some { id := 1, i_width := 720, i_height := 576, i_chroma := fourccLE 'I' '4' '2' '0',
               i_aspect := 576000 } := by decide
  have h' := h (DecodeThread_Video stdConsts exampleThread
      { exampleFrame 7 with dec_pix_fmt := PIX_FMT_YUV410P })
    { id := 1, i_width := 720, i_height := 576, i_chroma := fourccLE 'I' '4' '2' '0',
      i_aspect := 576000 }
    (List.replicate 100 { exampleFrame 7 with dec_pix_fmt := PIX_FMT_YUV410P })
    (by decide) hv rfl rfl (by decide) rfl (by
      intro o ho
      rw [List.eq_of_mem_replicate ho]
      decide)
  exact ⟨by decide, by decide, hv, h'.1, h'.2⟩

/-! ## Negotiation without a display size -/

theorem pullFrame_flags (pes : List pes_packet_t) :
    ∀ s : vdec_thread_t, (pullFrame pes s).1.undef = s.undef ∧
      (pullFrame pes s).1.b_die = s.b_die ∧
      ((pullFrame pes s).2 ≠ none → (pullFrame pes s).1.b_error = s.b_error) := by
  induction pes with
  | nil => intro s; exact ⟨rfl, rfl, fun h => absurd rfl h⟩
  | cons q rest ih =>
    intro s
    unfold pullFrame
    dsimp only
    split
    · split <;> exact ⟨rfl, rfl, fun _ => rfl⟩
    · exact ih _

/-- In indirect mode, a frame pulled and decoded without drawing ends in the
state after the update of the lateness counter. -/
theorem decodeFrame_nodraw_indirect (c : Consts) (s : vdec_thread_t) (o : Oracle) (sz : Int)
    (hsz : (pullFrame o.pes s).2 = some sz) (hdr : s.b_direct_rendering = 0)
    (hu : s.undef = false) (hs : 0 ≤ o.i_status) :
    decodeFrame c s o 0 =
      updateFrameLate
        { (pullFrame o.pes s).1.emit
            (.avcodec_decode_video (pullFrame o.pes s).1.hurry_up sz) with
          width := o.dec_width, height := o.dec_height,
          aspect_ratio_info := o.dec_aspect_ratio_info, pix_fmt := o.dec_pix_fmt }
        o.mdate := by
  have h1 := pullFrame_quiet (K := fun _ => True) trivial o.pes s (Pulled.prefl _ s)
  have hdr1 : (pullFrame o.pes s).1.b_direct_rendering = 0 := h1.2.1.config.2.1.trans hdr
  have hu1 : (pullFrame o.pes s).1.undef = false := (pullFrame_flags o.pes s).1.trans hu
  unfold decodeFrame
  dsimp only
  rw [hsz]
  dsimp only
  rw [avcodec_decode_video_indirect c _ o sz hdr1]
  split
  · rename_i h
    exact absurd (hu1.symm.trans h) Bool.false_ne_true
  · split
    · rename_i h
      omega
    · split
      · rfl
      · rename_i h
        exact absurd (Or.inr (Or.inr rfl)) h

/-- The block "Check our vout" when the present video output does not match
and the reported width or height is zero: `ffmpeg_CreateVout` returns `NULL`,
which is stored in `p_vout`, and `b_error` is set. -/
theorem checkOurVout_no_display_size (c : Consts) (s : vdec_thread_t) (o : Oracle) (ch : Int)
    (hu : s.undef = false) (hz : s.width = 0 ∨ s.height = 0)
    (hpf : ffmpeg_PixFmtToChroma c s.pix_fmt = some ch)
    (hck : ffmpeg_CheckVout c s.p_vout s.width s.height s.aspect_ratio_info ch = some 0) :
    checkOurVout c s o = ({ s with p_vout := none, b_error := true }, false) := by
  unfold checkOurVout
  rw [hpf]
  dsimp only
  rw [hck]
  dsimp only
  rw [if_pos rfl]
  unfold ffmpeg_CreateVout
  rw [if_pos hz]
  dsimp only
  rw [if_neg (fun h => Bool.false_ne_true (hu.symm.trans h))]

/-- With nothing to be found, `ffmpeg_CreateVout` asks twice and creates. -/
theorem ffmpeg_CreateVout_spawn_eq (c : Consts) (s : vdec_thread_t) (o : Oracle)
    (w h asp ch a : Int) (hw : w ≠ 0) (hh : h ≠ 0)
    (ha : ffmpeg_FfAspect c w h asp = some a) (h1 : o.child = none) (h2 : o.anywhere = none) :
    ffmpeg_CreateVout c s o w h asp ch =
      spawnVout ((s.emit (.vlc_object_find none)).emit (.vlc_object_find none)) o w h
        (if ch = 0 then c.VLC_FOURCC 'I' '4' '2' '0' else ch) a := by
  unfold ffmpeg_CreateVout
  rw [if_neg (by intro h0; rcases h0 with h0 | h0; exact hw h0; exact hh h0)]
  dsimp only
  rw [ha]
  dsimp only
  rw [h1]
  dsimp only
  rw [h2]

/-- The entry point on a frame that is to be drawn, in indirect mode: the call
is the presentation of the state after decoding. -/
theorem DecodeThread_Video_draw_indirect (c : Consts) (s : vdec_thread_t) (o : Oracle)
    (hreg : s.b_hurry_up = 0 ∨ s.i_frame_late ≤ 4) (hdr : s.b_direct_rendering = 0)
    (hu : s.undef = false) (hf : ∃ p ∈ o.pes, 0 < p.i_pes_size) (hs : 0 ≤ o.i_status)
    (hg : o.b_gotpicture ≠ 0) (hl : o.linesize0 ≠ 0) :
    ∃ x : vdec_thread_t, DecodeThread_Video c s o = presentPicture c x o ∧
      x = decodeFrame c { s with hurry_up := 0 } o 0 ∧
      x.width = o.dec_width ∧ x.height = o.dec_height ∧
      x.aspect_ratio_info = o.dec_aspect_ratio_info ∧ x.pix_fmt = o.dec_pix_fmt ∧
      x.p_vout = s.p_vout ∧ x.undef = false ∧ x.b_direct_rendering = 0 ∧
      x.b_error = s.b_error ∧ x.b_die = s.b_die ∧
      LogExt (fun k => k = .source ∨ ∃ h, k = .decoder h) s x := by
  obtain ⟨p, -, -, hp, -⟩ := pullFrame_some o.pes hf { s with hurry_up := 0 }
  have hx := decodeFrame_nodraw_indirect c { s with hurry_up := 0 } o p.i_pes_size hp hdr hu hs
  have h1 := pullFrame_quiet (K := fun k => k = .source ∨ ∃ h, k = .decoder h)
    (Or.inl rfl) o.pes { s with hurry_up := 0 } (Pulled.prefl _ _)
  have hfl := pullFrame_flags o.pes { s with hurry_up := 0 }
  have hd : DecodeThread_Video c s o = decodeFrame c { s with hurry_up := 0 } o 1 := by
    unfold DecodeThread_Video
    rw [if_neg]
    intro h
    rcases hreg with h1 | h1
    · exact h.1 h1
    · omega
  refine ⟨decodeFrame c { s with hurry_up := 0 } o 0, ?_, rfl, ?_⟩
  · rw [hd]
    refine decodeFrame_presents c _ o hf hs hg hl ?_
    rw [hx, updateFrameLate_eq]
    exact hfl.1.trans hu
  · rw [hx, updateFrameLate_eq]
    refine ⟨rfl, rfl, rfl, rfl, h1.2.2.2.2, hfl.1.trans hu, h1.2.1.config.2.1.trans hdr,
      hfl.2.2 (by rw [hp]; simp), hfl.2.1, ?_⟩
    exact (LogExt.of_log_eq rfl).ltrans (h1.1.ltrans
      ⟨[.avcodec_decode_video _ p.i_pes_size], rfl, by
        intro e he
        rw [List.mem_singleton.1 he]
        exact Or.inr ⟨_, rfl⟩⟩)

/-- C7, refuted as stated. On a frame for which the decoder reports a zero
width, the call of the entry point sets the error flag of the fifo, which was
clear before: the negotiation failed because there is no display size, and the
code treats this like any other failure to create a video output. -/
theorem no_display_size_sets_b_error :
    exampleThread.b_error = false ∧
    (ffmpeg_CreateVout stdConsts exampleThread { exampleFrame 7 with dec_width := 0 }
      0 576 2 (fourccLE 'I' '4' '2' '0')).2 = none ∧
    (DecodeThread_Video stdConsts exampleThread { exampleFrame 7 with dec_width := 0 }).b_error
      = true := by
  refine ⟨by decide, by decide, by decide⟩

/-- C7, amended. When the negotiation fails because the decoder reports a zero
width or height, the frame is not presented, `p_vout` is `NULL` afterwards, and
the error flag IS set, in the entry point (indirect mode) and in the callback
`ffmpeg_GetFrameBuf` (which returns -1) alike. A later call of the entry point
with non-zero dimensions negotiates again: with no video output to be found it
ends with the video output created for the reported geometry. -/
theorem no_display_size_is_fatal (c : Consts) (s : vdec_thread_t) (o : Oracle) (ch : Int)
    (hu : s.undef = false) (hz : o.dec_width = 0 ∨ o.dec_height = 0)
    (hpf : ffmpeg_PixFmtToChroma c o.dec_pix_fmt = some ch)
    (hck : ffmpeg_CheckVout c s.p_vout o.dec_width o.dec_height o.dec_aspect_ratio_info ch
      = some 0) :
    ((s.b_hurry_up = 0 ∨ s.i_frame_late ≤ 4) → s.b_direct_rendering = 0 →
      (∃ p ∈ o.pes, 0 < p.i_pes_size) → 0 ≤ o.i_status → o.b_gotpicture ≠ 0 →
      o.linesize0 ≠ 0 →
      (DecodeThread_Video c s o).b_error = true ∧ (DecodeThread_Video c s o).p_vout = none ∧
      (DecodeThread_Video c s o).undef = false ∧
      (∀ e ∈ emitted s (DecodeThread_Video c s o),
        e.kind ≠ .present ∧ e.kind ≠ .acquire .orchestrator ∧ e.kind ≠ .negotiation)) ∧
    (s.width = o.dec_width → s.height = o.dec_height →
      s.aspect_ratio_info = o.dec_aspect_ratio_info → s.pix_fmt = o.dec_pix_fmt →
      ffmpeg_GetFrameBuf c s o = ({ s with p_vout := none, b_error := true }, -1)) ∧
    (∀ (o2 : Oracle) (s2 : vdec_thread_t) (ch2 a : Int) (id : Nat),
      s2.p_vout = none → s2.undef = false →
      (s2.b_hurry_up = 0 ∨ s2.i_frame_late ≤ 4) → s2.b_direct_rendering = 0 →
      (∃ p ∈ o2.pes, 0 < p.i_pes_size) → 0 ≤ o2.i_status → o2.b_gotpicture ≠ 0 →
      o2.linesize0 ≠ 0 → o2.dec_width ≠ 0 → o2.dec_height ≠ 0 →
      ffmpeg_PixFmtToChroma c o2.dec_pix_fmt = some ch2 →
      ffmpeg_FfAspect c o2.dec_width o2.dec_height o2.dec_aspect_ratio_info = some a →
      o2.child = none → o2.anywhere = none → o2.spawn = some id →
      (DecodeThread_Video c s2 o2).p_vout =
        some { id := id, i_width := o2.dec_width, i_height := o2.dec_height,
               i_chroma := (if ch2 = 0 then c.VLC_FOURCC 'I' '4' '2' '0' else ch2),
               i_aspect := a }) := by
  refine ⟨?_, ?_, ?_⟩
  · intro hreg hdr hf hs hg hl
    obtain ⟨x, hx, -, e1, e2, e3, e4, e5, e6, e7, -, -, e10⟩ :=
      DecodeThread_Video_draw_indirect c s o hreg hdr hu hf hs hg hl
    have hco := checkOurVout_no_display_size c x o ch e6 (by rw [e1, e2]; exact hz)
      (by rw [e4]; exact hpf) (by rw [e1, e2, e3, e5]; exact hck)
    have hp : presentPicture c x o = { x with p_vout := none, b_error := true } := by
      unfold presentPicture
      rw [if_pos e7]
      dsimp only
      rw [hco]
      rfl
    rw [hx, hp]
    refine ⟨rfl, rfl, e6, ?_⟩
    have h2 : LogExt (fun k => k = .source ∨ ∃ h, k = .decoder h) s
        { x with p_vout := none, b_error := true } := e10.ltrans (LogExt.of_log_eq rfl)
    intro e he
    have h3 := forall_emitted h2 e he
    rcases h3 with h3 | ⟨h, h3⟩ <;> rw [h3] <;> simp
  · intro e1 e2 e3 e4
    have hco := checkOurVout_no_display_size c s o ch hu (by rw [e1, e2]; exact hz)
      (by rw [e4]; exact hpf) (by rw [e1, e2, e3]; exact hck)
    unfold ffmpeg_GetFrameBuf
    dsimp only
    rw [hco]
    rfl
  · intro o2 s2 ch2 a id hv hu2 hreg hdr hf hs hg hl hw hh hpf2 ha h1 h2 h3
    obtain ⟨x, hx, -, e1, e2, e3, e4, e5, e6, e7, -, -, -⟩ :=
      DecodeThread_Video_draw_indirect c s2 o2 hreg hdr hu2 hf hs hg hl
    have hcv := ffmpeg_CreateVout_spawn_eq c x o2 x.width x.height x.aspect_ratio_info ch2 a
      (by rw [e1]; exact hw) (by rw [e2]; exact hh) (by rw [e1, e2, e3]; exact ha) h1 h2
    have hco : (checkOurVout c x o2).2 = true ∧ (checkOurVout c x o2).1.p_vout =
        some { id := id, i_width := o2.dec_width, i_height := o2.dec_height,
               i_chroma := (if ch2 = 0 then c.VLC_FOURCC 'I' '4' '2' '0' else ch2),
               i_aspect := a } := by
      unfold checkOurVout
      rw [e4, hpf2]
      dsimp only
      rw [e5, hv]
      have hn : ffmpeg_CheckVout c none x.width x.height x.aspect_ratio_info ch2 = some 0 := rfl
      rw [hn]
      dsimp only
      rw [if_pos rfl, hcv]
      unfold spawnVout vout_CreateThread
      rw [h3]
      dsimp only [Option.map_some', vdec_thread_t.emit]
      rw [if_neg (fun h => Bool.false_ne_true (e6.symm.trans h))]
      exact ⟨rfl, by rw [e1, e2]⟩
    rw [hx]
    unfold presentPicture
    rw [if_pos e7]
    dsimp only
    rw [if_neg (by rw [hco.1]; decide)]
    have ht := presentPicture_tail_quiet (K := fun _ => True) trivial trivial trivial trivial
      trivial c o2 (Quiet.qrefl _ (checkOurVout c x o2).1)
    exact ht.2.2.2.2.trans hco.2

/-- C7 amended, evaluated: the frame with a zero width sets the error flag and
leaves no video output; the next frame, with the PAL size, creates one. -/
theorem no_display_size_is_fatal_witness :
    (DecodeThread_Video stdConsts exampleThread { exampleFrame 7 with dec_width := 0 }).b_error
      = true ∧
    (DecodeThread_Video stdConsts exampleThread { exampleFrame 7 with dec_width := 0 }).p_vout
      = none ∧
    (∀ e ∈ emitted exampleThread
        (DecodeThread_Video stdConsts exampleThread { exampleFrame 7 with dec_width := 0 }),
      e.kind ≠ .present ∧ e.kind ≠ .acquire .orchestrator ∧ e.kind ≠ .negotiation) ∧
    ffmpeg_GetFrameBuf stdConsts
        { exampleThread with height := 576, aspect_ratio_info := 2 }
        { exampleFrame 7 with dec_width := 0 }
      = ({ exampleThread with height := 576, aspect_ratio_info := 2, p_vout := none,
                              b_error := true }, -1) ∧
    (DecodeThread_Video stdConsts
        (DecodeThread_Video stdConsts exampleThread { exampleFrame 7 with dec_width := 0 })
        (exampleFrame 7)).p_vout
      = some { id := 1, i_width := 720, i_height := 576, i_chroma := fourccLE 'I' '4' '2' '0',
               i_aspect := 576000 } := by
  have h := no_display_size_is_fatal stdConsts exampleThread
    { exampleFrame 7 with dec_width := 0 } (fourccLE 'I' '4' '2' '0') (by decide)
    (Or.inl rfl) (by decide) (by decide)
  have h1 := h.1 (Or.inr (by decide)) (by decide) ⟨_, List.mem_singleton.2 rfl, by decide⟩
    (by decide) (by decide) (by decide)
  have h2 := no_display_size_is_fatal stdConsts
    { exampleThread with height := 576, aspect_ratio_info := 2 }
    { exampleFrame 7 with dec_width := 0 } (fourccLE 'I' '4' '2' '0') (by decide)
    (Or.inl rfl) (by decide) (by decide)
  have h3 := h.2.2 (exampleFrame 7)
    (DecodeThread_Video stdConsts exampleThread { exampleFrame 7 with dec_width := 0 })
    (fourccLE 'I' '4' '2' '0') 576000 1 (by decide) (by decide) (Or.inr (by decide))
    (by decide) ⟨_, List.mem_singleton.2 rfl, by decide⟩ (by decide) (by decide) (by decide)
    (by decide) (by decide) (by decide) (by decide) rfl rfl rfl
  exact ⟨h1.1, h1.2.1, h1.2.2.2, h2.2.1 rfl rfl rfl rfl, h3⟩

/-! ## Retention window -/

theorem getNewPicture_result (site : Site) (misses : List Attempt) (p_pic : Nat) :
    ∀ (s : vdec_thread_t) (p : Nat), (getNewPicture site misses p_pic s).2 = some p →
      p = p_pic := by
  induction misses with
  | nil =>
    intro s p h
    exact (Option.some.inj h).symm
  | cons a rest ih =>
    intro s p h
    unfold getNewPicture at h
    dsimp only at h
    split at h
    · simp at h
    · exact ih _ p h

/-- A successful call of the callback ends in `retainPicture`, on the picture
the video output handed out. -/
theorem ffmpeg_GetFrameBuf_success (c : Consts) (s : vdec_thread_t) (o : Oracle)
    (h : (ffmpeg_GetFrameBuf c s o).2 = 0) :
    ffmpeg_GetFrameBuf c s o =
      (retainPicture (getNewPicture .callback o.misses o.p_pic (checkOurVout c s o).1).1
        o.p_pic, 0) := by
  unfold ffmpeg_GetFrameBuf at h ⊢
  dsimp only at h ⊢
  split at h
  · simp at h
  · rename_i hc
    rw [if_neg hc]
    split at h
    · simp at h
    · rename_i p hp
      have hpp := getNewPicture_result _ _ _ _ _ hp
      subst hpp
      rfl

/-- The window after `retainPicture`. -/
theorem retainPicture_window (s : vdec_thread_t) (p_pic : Nat) :
    (retainPicture s p_pic).p_lastpic = some p_pic ∧
    (retainPicture s p_pic).p_secondlastpic = s.p_lastpic ∧
    (∀ q, (retainPicture s p_pic).i_refcount q =
      s.i_refcount q + (if q = p_pic then 1 else 0)
        - (if s.p_secondlastpic = some q then 1 else 0)) := by
  unfold retainPicture vout_LinkPicture
  dsimp only [vdec_thread_t.emit]
  cases hs : s.p_secondlastpic with
  | none =>
    refine ⟨rfl, rfl, ?_⟩
    intro q
    show (if q = p_pic then s.i_refcount q + 1 else s.i_refcount q) = _
    by_cases hq : q = p_pic
    · simp [hq]
    · simp [hq]
  | some r =>
    unfold vout_UnlinkPicture
    dsimp only [vdec_thread_t.emit]
    refine ⟨rfl, rfl, ?_⟩
    intro q
    show (if q = r then (if q = p_pic then s.i_refcount q + 1 else s.i_refcount q) - 1
      else (if q = p_pic then s.i_refcount q + 1 else s.i_refcount q)) = _
    simp only [Option.some.injEq]
    split_ifs <;> omega

/-- A successful call of the callback inserts the picture it was handed: the
picture becomes `p_lastpic`, the former `p_lastpic` becomes `p_secondlastpic`,
the picture gains a link and the former `p_secondlastpic` loses one. -/
theorem ffmpeg_GetFrameBuf_insert (c : Consts) (s : vdec_thread_t) (o : Oracle)
    (h : (ffmpeg_GetFrameBuf c s o).2 = 0) :
    (ffmpeg_GetFrameBuf c s o).1.p_lastpic = some o.p_pic ∧
    (ffmpeg_GetFrameBuf c s o).1.p_secondlastpic = s.p_lastpic ∧
    (∀ q, (ffmpeg_GetFrameBuf c s o).1.i_refcount q =
      s.i_refcount q + (if q = o.p_pic then 1 else 0)
        - (if s.p_secondlastpic = some q then 1 else 0)) := by
  have h1 := checkOurVout_mild (K := fun _ => True) trivial c o (Mild.mrefl _ s)
  have h2 := h1.mtrans (getNewPicture_quiet (K := fun _ => True) .callback trivial trivial
    o.misses o.p_pic _ (Quiet.qrefl _ _)).mild
  obtain ⟨w1, w2, w3⟩ := h2.2.2.1
  rw [ffmpeg_GetFrameBuf_success c s o h]
  obtain ⟨r1, r2, r3⟩ := retainPicture_window
    (getNewPicture .callback o.misses o.p_pic (checkOurVout c s o).1).1 o.p_pic
  refine ⟨r1, r2.trans w1, ?_⟩
  intro q
  rw [r3 q, w2, w3]

/-- The two slots after a sequence of insertions, as a pure function of the
pictures inserted. -/
theorem window_foldl (ps : List Nat) :
    ps.foldl (fun (w : Option Nat × Option Nat) p => (some p, w.1)) (none, none) =
      (ps[ps.length - 1]?, if ps.length < 2 then none else ps[ps.length - 2]?) := by
  induction ps using List.reverseRecOn with
  | nil => rfl
  | append_singleton qs p ih =>
    rw [List.foldl_append, ih]
    simp only [List.foldl_cons, List.foldl_nil, List.length_append, List.length_singleton]
    have e1 : (qs ++ [p])[qs.length + 1 - 1]? = some p := by
      rw [Nat.add_sub_cancel]
      exact List.getElem?_concat_length qs p
    rw [e1]
    congr 1
    by_cases hq : qs.length = 0
    · have : qs = [] := List.length_eq_zero.1 hq
      subst this
      rfl
    · rw [if_neg (by omega)]
      have e2 : qs.length + 1 - 2 = qs.length - 1 := by omega
      rw [e2, List.getElem?_append_left (by omega)]

/-- The state after successful insertions: slots and link counts. -/
theorem insertAll_window (c : Consts) (os : List Oracle) :
    ∀ s s' : vdec_thread_t, insertAll c s os = some s' →
      (∀ q, s.i_refcount q = (if s.p_lastpic = some q then 1 else 0)
        + (if s.p_secondlastpic = some q then 1 else 0)) →
      (s'.p_lastpic, s'.p_secondlastpic) =
        (os.map (fun o => o.p_pic)).foldl
          (fun (w : Option Nat × Option Nat) p => (some p, w.1))
          (s.p_lastpic, s.p_secondlastpic) ∧
      (∀ q, s'.i_refcount q = (if s'.p_lastpic = some q then 1 else 0)
        + (if s'.p_secondlastpic = some q then 1 else 0)) := by
  induction os with
  | nil =>
    intro s s' h hinv
    unfold insertAll at h
    cases Option.some.inj h
    exact ⟨rfl, hinv⟩
  | cons o rest ih =>
    intro s s' h hinv
    unfold insertAll at h
    split at h
    · rename_i hok
      obtain ⟨i1, i2, i3⟩ := ffmpeg_GetFrameBuf_insert c s o hok.1
      have hinv' : ∀ q, (ffmpeg_GetFrameBuf c s o).1.i_refcount q =
          (if (ffmpeg_GetFrameBuf c s o).1.p_lastpic = some q then 1 else 0)
          + (if (ffmpeg_GetFrameBuf c s o).1.p_secondlastpic = some q then 1 else 0) := by
        intro q
        rw [i3, i1, i2, hinv q]
        simp only [Option.some.injEq]
        split_ifs <;> omega
      obtain ⟨r1, r2⟩ := ih _ s' h hinv'
      refine ⟨?_, r2⟩
      rw [r1, i1, i2]
      rfl
    · exact absurd h (by simp)

/-- C2. The retention window after `n` successful insertions by
`ffmpeg_GetFrameBuf`, started from an empty window with all link counts 0:
`p_lastpic` is the `n`-th picture inserted, `p_secondlastpic` the one before
(none if `n < 2`), the link count of every picture is the number of slots that
hold it; hence every picture still linked is one of the last two inserted, and
of any three linked pictures two are the same. -/
theorem retention_window (c : Consts) (s s' : vdec_thread_t) (os : List Oracle)
    (h1 : s.p_lastpic = none) (h2 : s.p_secondlastpic = none)
    (h3 : ∀ q, s.i_refcount q = 0) (h : insertAll c s os = some s') :
    s'.p_lastpic = (os.map (fun o => o.p_pic))[os.length - 1]? ∧
    s'.p_secondlastpic =
      (if os.length < 2 then none else (os.map (fun o => o.p_pic))[os.length - 2]?) ∧
    (∀ q, s'.i_refcount q = (if s'.p_lastpic = some q then 1 else 0)
        + (if s'.p_secondlastpic = some q then 1 else 0)) ∧
    (∀ q, s'.i_refcount q ≠ 0 →
      (os.map (fun o => o.p_pic))[os.length - 1]? = some q ∨
      (2 ≤ os.length ∧ (os.map (fun o => o.p_pic))[os.length - 2]? = some q)) ∧
    (∀ q1 q2 q3, s'.i_refcount q1 ≠ 0 → s'.i_refcount q2 ≠ 0 → s'.i_refcount q3 ≠ 0 →
      q1 = q2 ∨ q1 = q3 ∨ q2 = q3) := by
  have hinv : ∀ q, s.i_refcount q = (if s.p_lastpic = some q then 1 else 0)
      + (if s.p_secondlastpic = some q then 1 else 0) := by
    intro q
    rw [h3, h1, h2]
    simp
  obtain ⟨r1, r2⟩ := insertAll_window c os s s' h hinv
  rw [h1, h2, window_foldl, List.length_map] at r1
  have e1 : s'.p_lastpic = (os.map (fun o => o.p_pic))[os.length - 1]? :=
    congrArg Prod.fst r1
  have e2 : s'.p_secondlastpic =
      (if os.length < 2 then none else (os.map (fun o => o.p_pic))[os.length - 2]?) :=
    congrArg Prod.snd r1
  have key : ∀ q, s'.i_refcount q ≠ 0 → s'.p_lastpic = some q ∨ s'.p_secondlastpic = some q := by
    intro q hq
    rw [r2 q] at hq
    by_cases ha : s'.p_lastpic = some q
    · exact Or.inl ha
    · by_cases hb : s'.p_secondlastpic = some q
      · exact Or.inr hb
      · rw [if_neg ha, if_neg hb] at hq
        exact absurd rfl hq
  refine ⟨e1, e2, r2, ?_, ?_⟩
  · intro q hq
    rcases key q hq with ha | hb
    · exact Or.inl (e1 ▸ ha)
    · rw [e2] at hb
      by_cases hn : os.length < 2
      · rw [if_pos hn] at hb
        exact absurd hb (by simp)
      · rw [if_neg hn] at hb
        exact Or.inr ⟨by omega, hb⟩
  · intro q1 q2 q3 k1 k2 k3
    rcases key q1 k1 with a1 | a1 <;> rcases key q2 k2 with a2 | a2 <;>
      rcases key q3 k3 with a3 | a3
    · exact Or.inl (Option.some.inj (a1.symm.trans a2))
    · exact Or.inl (Option.some.inj (a1.symm.trans a2))
    · exact Or.inr (Or.inl (Option.some.inj (a1.symm.trans a3)))
    · exact Or.inr (Or.inr (Option.some.inj (a2.symm.trans a3)))
    · exact Or.inr (Or.inr (Option.some.inj (a2.symm.trans a3)))
    · exact Or.inr (Or.inl (Option.some.inj (a1.symm.trans a3)))
    · exact Or.inl (Option.some.inj (a1.symm.trans a2))
    · exact Or.inl (Option.some.inj (a1.symm.trans a2))

/-- C2, on three insertions of the pictures 7, 8 and 9: the window holds 9 and
8, each linked once, and 7 is no longer linked. -/
theorem retention_window_witness :
    (insertAll stdConsts directThread [exampleFrame 7, exampleFrame 8, exampleFrame 9]).map
      (fun s => (s.p_lastpic, s.p_secondlastpic, s.i_refcount 7, s.i_refcount 8,
        s.i_refcount 9))
      = some (some 9, some 8, 0, 1, 1) := by
  have hs : (insertAll stdConsts directThread
      [exampleFrame 7, exampleFrame 8, exampleFrame 9]).isSome = true := by decide
  cases h : insertAll stdConsts directThread [exampleFrame 7, exampleFrame 8, exampleFrame 9] with
  | none => rw [h] at hs; exact absurd hs (by decide)
  | some s' =>
    obtain ⟨e1, e2, e3, -, -⟩ := retention_window stdConsts directThread s'
      [exampleFrame 7, exampleFrame 8, exampleFrame 9] rfl rfl (fun _ => rfl) h
    have a1 : s'.p_lastpic = some 9 := e1
    have a2 : s'.p_secondlastpic = some 8 := e2
    have b7 := e3 7
    have b8 := e3 8
    have b9 := e3 9
    rw [a1, a2] at b7 b8 b9
    simp only [Option.map_some']
    rw [a1, a2, b7, b8, b9]
    decide

/-! ## A cooperating environment -/

/-- With a non-zero height the check is defined, and it passes only on a
video output that is there. -/
theorem ffmpeg_CheckVout_some (c : Consts) (pv : Option vout_thread_t) (w h asp ch : Int)
    (hh : h ≠ 0) :
    ∃ r, ffmpeg_CheckVout c pv w h asp ch = some r ∧ (r ≠ 0 → pv ≠ none) := by
  obtain ⟨a, ha⟩ := ffmpeg_FfAspect_isSome c w h asp hh
  unfold ffmpeg_CheckVout
  cases pv with
  | none => exact ⟨0, rfl, fun h0 => absurd rfl h0⟩
  | some v =>
    dsimp only
    rw [ha]
    dsimp only
    by_cases h1 : v.i_width ≠ w
    · rw [if_pos h1]
      exact ⟨0, rfl, fun _ => by simp⟩
    · rw [if_neg h1]
      by_cases h2 : v.i_height ≠ h
      · rw [if_pos h2]
        exact ⟨0, rfl, fun _ => by simp⟩
      · rw [if_neg h2]
        by_cases h3 : v.i_chroma ≠ (if ch = 0 then c.VLC_FOURCC 'I' '4' '2' '0' else ch)
        · rw [if_pos h3]
          exact ⟨0, rfl, fun _ => by simp⟩
        · rw [if_neg h3]
          by_cases h4 : v.i_aspect ≠ a
          · rw [if_pos h4]
            exact ⟨0, rfl, fun _ => by simp⟩
          · rw [if_neg h4]
            exact ⟨1, rfl, fun _ => by simp⟩

/-- With a display size and a `vout_CreateThread` that succeeds,
`ffmpeg_CreateVout` returns a video output and stays defined. -/
theorem ffmpeg_CreateVout_ok (c : Consts) (s : vdec_thread_t) (o : Oracle) (w h asp ch : Int)
    (hw : w ≠ 0) (hh : h ≠ 0) (hsp : o.spawn ≠ none) :
    (ffmpeg_CreateVout c s o w h asp ch).2 ≠ none ∧
    (ffmpeg_CreateVout c s o w h asp ch).1.undef = s.undef := by
  obtain ⟨a, ha⟩ := ffmpeg_FfAspect_isSome c w h asp hh
  obtain ⟨id, hid⟩ := Option.ne_none_iff_exists'.1 hsp
  have hspawn : ∀ (s1 : vdec_thread_t) (x y : Int),
      (spawnVout s1 o w h x y).2 ≠ none ∧ (spawnVout s1 o w h x y).1.undef = s1.undef := by
    intro s1 x y
    unfold spawnVout vout_CreateThread
    rw [hid]
    exact ⟨by simp, rfl⟩
  unfold ffmpeg_CreateVout
  rw [if_neg (by intro h0; rcases h0 with h0 | h0; exact hw h0; exact hh h0)]
  dsimp only
  rw [ha]
  dsimp only
  have key : ∀ (s1 : vdec_thread_t) (p : Option vout_thread_t), s1.undef = s.undef →
      (match p with
        | none => spawnVout s1 o w h (if ch = 0 then c.VLC_FOURCC 'I' '4' '2' '0' else ch) a
        | some v' =>
          match ffmpeg_CheckVout c (some v') w h a
              (if ch = 0 then c.VLC_FOURCC 'I' '4' '2' '0' else ch) with
          | none => ({ s1 with undef := true }, none)
          | some r =>
            if r = 0 then
              spawnVout
                (((s1.emit (.vlc_object_detach v')).emit (.vlc_object_release v')).emit
                  (.vout_DestroyThread v'))
                o w h (if ch = 0 then c.VLC_FOURCC 'I' '4' '2' '0' else ch) a
            else
              (((s1.emit (.vlc_object_detach v')).emit (.vlc_object_attach v')).emit
                (.vlc_object_release v'), some v')).2 ≠ none ∧
      (match p with
        | none => spawnVout s1 o w h (if ch = 0 then c.VLC_FOURCC 'I' '4' '2' '0' else ch) a
        | some v' =>
          match ffmpeg_CheckVout c (some v') w h a
              (if ch = 0 then c.VLC_FOURCC 'I' '4' '2' '0' else ch) with
          | none => ({ s1 with undef := true }, none)
          | some r =>
            if r = 0 then
              spawnVout
                (((s1.emit (.vlc_object_detach v')).emit (.vlc_object_release v')).emit
                  (.vout_DestroyThread v'))
                o w h (if ch = 0 then c.VLC_FOURCC 'I' '4' '2' '0' else ch) a
            else
              (((s1.emit (.vlc_object_detach v')).emit (.vlc_object_attach v')).emit
                (.vlc_object_release v'), some v')).1.undef = s.undef := by
    intro s1 p h1
    cases p with
    | none => exact ⟨(hspawn _ _ _).1, (hspawn _ _ _).2.trans h1⟩
    | some v' =>
      dsimp only
      obtain ⟨r, hr, -⟩ := ffmpeg_CheckVout_some c (some v') w h a
        (if ch = 0 then c.VLC_FOURCC 'I' '4' '2' '0' else ch) hh
      rw [hr]
      dsimp only
      by_cases hr0 : r = 0
      · rw [if_pos hr0]
        exact ⟨(hspawn _ _ _).1, (hspawn _ _ _).2.trans h1⟩
      · rw [if_neg hr0]
        exact ⟨by simp, h1⟩
  cases hc : o.child with
  | some v' => exact key (s.emit (.vlc_object_find (some v'))) (some v') rfl
  | none =>
    exact key ((s.emit (.vlc_object_find none)).emit (.vlc_object_find o.anywhere)) o.anywhere
      rfl

/-- The block "Check our vout" in a cooperating environment: the caller goes
on, with a video output, and nothing undefined has happened. -/
theorem checkOurVout_ok (c : Consts) (s : vdec_thread_t) (o : Oracle)
    (hu : s.undef = false) (hpf : ffmpeg_PixFmtToChroma c s.pix_fmt ≠ none)
    (hw : s.width ≠ 0) (hh : s.height ≠ 0) (hsp : o.spawn ≠ none) :
    (checkOurVout c s o).2 = true ∧ (checkOurVout c s o).1.undef = false ∧
    (checkOurVout c s o).1.p_vout ≠ none := by
  obtain ⟨ch, hch⟩ := Option.ne_none_iff_exists'.1 hpf
  obtain ⟨r, hr, hr2⟩ := ffmpeg_CheckVout_some c s.p_vout s.width s.height
    s.aspect_ratio_info ch hh
  obtain ⟨k1, k2⟩ := ffmpeg_CreateVout_ok c s o s.width s.height s.aspect_ratio_info ch hw hh hsp
  unfold checkOurVout
  rw [hch]
  dsimp only
  rw [hr]
  dsimp only
  by_cases hr0 : r = 0
  · rw [if_pos hr0]
    have hu' : (ffmpeg_CreateVout c s o s.width s.height s.aspect_ratio_info ch).1.undef
        = false := k2.trans hu
    split
    · rename_i h
      exact absurd (hu'.symm.trans h) Bool.false_ne_true
    · split
      · rename_i h
        exact absurd h k1
      · exact ⟨rfl, hu', by rename_i h; rw [h]; simp⟩
  · rw [if_neg hr0]
    exact ⟨rfl, hu, hr2 hr0⟩

theorem ffmpeg_CopyPicture_undef (c : Consts) (s : vdec_thread_t) (p_pic : Nat)
    (hpf : ffmpeg_PixFmtToChroma c s.pix_fmt ≠ none) :
    (ffmpeg_CopyPicture c s p_pic).undef = s.undef := by
  obtain ⟨ch, hch⟩ := Option.ne_none_iff_exists'.1 hpf
  unfold ffmpeg_CopyPicture
  rw [hch]
  dsimp only
  split
  · rfl
  · split <;> rfl

theorem ffmpeg_PostProcPicture_undef (c : Consts) (s : vdec_thread_t) (p_pic : Option Nat)
    (hpp : s.i_pp_mode ≠ 0 → s.p_pp = true ∧ s.p_vout ≠ none) :
    (ffmpeg_PostProcPicture c s p_pic).undef = s.undef := by
  unfold ffmpeg_PostProcPicture
  by_cases hm : s.i_pp_mode ≠ 0
  · rw [if_pos hm]
    obtain ⟨h1, h2⟩ := hpp hm
    obtain ⟨v, hv⟩ := Option.ne_none_iff_exists'.1 h2
    rw [hv]
    dsimp only
    split
    · rfl
    · rfl
  · rw [if_neg hm]

/-- The last three calls in a cooperating environment: the picture is
displayed. -/
theorem sendPicture_ok (c : Consts) (s : vdec_thread_t) (p_pic : Option Nat)
    (hu : s.undef = false) (hpp : s.i_pp_mode ≠ 0 → s.p_pp = true ∧ s.p_vout ≠ none) :
    (sendPicture c s p_pic).undef = false ∧
    Event.vout_DisplayPicture p_pic ∈ emitted s (sendPicture c s p_pic) := by
  have h1 := ffmpeg_PostProcPicture_undef c s p_pic hpp
  have h2 := ffmpeg_PostProcPicture_quiet (K := fun _ => True) trivial c p_pic (Quiet.qrefl _ s)
  unfold sendPicture
  dsimp only
  rw [if_neg (fun h => Bool.false_ne_true ((h1.trans hu).symm.trans h))]
  refine ⟨h1.trans hu, ?_⟩
  obtain ⟨d, hd, -⟩ := h2.1
  have e : (((ffmpeg_PostProcPicture c s p_pic).emit
        (.vout_DatePicture p_pic (ffmpeg_PostProcPicture c s p_pic).pts)).emit
        (.vout_DisplayPicture p_pic)).log
      = s.log ++ (d ++ [.vout_DatePicture p_pic (ffmpeg_PostProcPicture c s p_pic).pts,
          .vout_DisplayPicture p_pic]) := by
    show ((ffmpeg_PostProcPicture c s p_pic).log ++ [_]) ++ [_] = _
    rw [hd]
    simp
  rw [emitted_eq_of_log e]
  simp

/-- The presentation in a cooperating environment: a picture is displayed,
nothing undefined happens, and the thread has a video output afterwards if it
had one before or is in indirect mode. -/
theorem presentPicture_ok (c : Consts) (s : vdec_thread_t) (o : Oracle)
    (hr : Ready s) (hpf : ffmpeg_PixFmtToChroma c s.pix_fmt ≠ none)
    (hw : s.width ≠ 0) (hh : s.height ≠ 0) (hsp : o.spawn ≠ none) (hm : o.misses = []) :
    Ready (presentPicture c s o) ∧
    ∃ p, Event.vout_DisplayPicture p ∈ emitted s (presentPicture c s o) := by
  obtain ⟨hu, hpp⟩ := hr
  have hmild := presentPicture_mild (K := fun _ => True) trivial trivial trivial trivial trivial
    trivial c o (Mild.mrefl _ s)
  have hcfg := hmild.2.1.config
  by_cases hdr : s.b_direct_rendering = 0
  · obtain ⟨c1, c2, c3⟩ := checkOurVout_ok c s o hu hpf hw hh hsp
    have hc := checkOurVout_mild (K := fun _ => True) trivial c o (Mild.mrefl _ s)
    have hq1 : Quiet (fun _ => True) (checkOurVout c s o).1
        ((checkOurVout c s o).1.emit (.vout_CreatePicture .orchestrator (some o.p_pic))) :=
      Quiet.qemit trivial (by rfl) (Quiet.qrefl _ _)
    have hq2 := ffmpeg_CopyPicture_quiet (K := fun _ => True) trivial c o.p_pic hq1
    have hpf2 : ffmpeg_PixFmtToChroma c
        ((checkOurVout c s o).1.emit
          (.vout_CreatePicture .orchestrator (some o.p_pic))).pix_fmt ≠ none := by
      have e : ((checkOurVout c s o).1.emit
          (.vout_CreatePicture .orchestrator (some o.p_pic))).pix_fmt = s.pix_fmt :=
        hc.2.2.2.2.2.2.1
      rw [e]
      exact hpf
    have hu2 := (ffmpeg_CopyPicture_undef c _ o.p_pic hpf2).trans c2
    have hsend := sendPicture_ok c _ (some o.p_pic) hu2 (by
      intro _
      refine ⟨?_, ?_⟩
      · rw [hq2.2.1.config.2.2.2.1, hc.2.1.config.2.2.2.1]
        exact (hpp (by
          rename_i h
          rw [hq2.2.1.config.2.2.1, hc.2.1.config.2.2.1] at h
          exact h)).1
      · rw [hq2.2.2.2.2]
        exact c3)
    have heq : presentPicture c s o = sendPicture c
        (ffmpeg_CopyPicture c ((checkOurVout c s o).1.emit
          (.vout_CreatePicture .orchestrator (some o.p_pic))) o.p_pic) (some o.p_pic) := by
      unfold presentPicture
      rw [if_pos hdr]
      dsimp only
      rw [if_neg (by rw [c1]; decide), hm]
      dsimp only [getNewPicture]
      rw [if_neg (fun h => Bool.false_ne_true (hu2.symm.trans h))]
    refine ⟨⟨by rw [heq]; exact hsend.1, ?_⟩, some o.p_pic, ?_⟩
    · intro hmode
      rw [hcfg.2.2.2.1, hcfg.2.1]
      rw [hcfg.2.2.1] at hmode
      exact ⟨(hpp hmode).1, fun h => absurd hdr h⟩
    · rw [heq]
      exact mem_emitted_left (hc.1.ltrans hq2.1)
        (sendPicture_quiet (K := fun _ => True) trivial trivial c (some o.p_pic)
          (Quiet.qrefl _ _)).1 hsend.2
  · have hpp' : s.i_pp_mode ≠ 0 → s.p_pp = true ∧ s.p_vout ≠ none :=
      fun h => ⟨(hpp h).1, (hpp h).2 hdr⟩
    have hsend := sendPicture_ok c s s.dr_opaque_frame hu hpp'
    have hq := sendPicture_quiet (K := fun _ => True) trivial trivial c s.dr_opaque_frame
      (Quiet.qrefl _ s)
    have heq : presentPicture c s o = sendPicture c s s.dr_opaque_frame := by
      unfold presentPicture
      rw [if_neg hdr]
    rw [heq]
    refine ⟨⟨hsend.1, ?_⟩, s.dr_opaque_frame, hsend.2⟩
    intro hmode
    rw [hq.2.1.config.2.2.2.1, hq.2.1.config.2.1, hq.2.2.2.2]
    rw [hq.2.1.config.2.2.1] at hmode
    exact hpp hmode

theorem retainPicture_keeps (s : vdec_thread_t) (p_pic : Nat) :
    (retainPicture s p_pic).undef = s.undef ∧ (retainPicture s p_pic).p_vout = s.p_vout := by
  unfold retainPicture vout_LinkPicture
  dsimp only [vdec_thread_t.emit]
  cases s.p_secondlastpic with
  | none => exact ⟨rfl, rfl⟩
  | some q =>
    unfold vout_UnlinkPicture
    dsimp only [vdec_thread_t.emit]
    exact ⟨rfl, rfl⟩

/-- The callback in a cooperating environment. -/
theorem ffmpeg_GetFrameBuf_ok (c : Consts) (s : vdec_thread_t) (o : Oracle)
    (hu : s.undef = false) (hpf : ffmpeg_PixFmtToChroma c s.pix_fmt ≠ none)
    (hw : s.width ≠ 0) (hh : s.height ≠ 0) (hsp : o.spawn ≠ none) (hm : o.misses = []) :
    (ffmpeg_GetFrameBuf c s o).1.undef = false ∧ (ffmpeg_GetFrameBuf c s o).1.p_vout ≠ none ∧
    (ffmpeg_GetFrameBuf c s o).2 = 0 := by
  obtain ⟨c1, c2, c3⟩ := checkOurVout_ok c s o hu hpf hw hh hsp
  have heq : ffmpeg_GetFrameBuf c s o =
      (retainPicture ((checkOurVout c s o).1.emit
        (.vout_CreatePicture .callback (some o.p_pic))) o.p_pic, 0) := by
    unfold ffmpeg_GetFrameBuf
    dsimp only
    rw [if_neg (by rw [c1]; decide), hm]
    rfl
  rw [heq]
  obtain ⟨k1, k2⟩ := retainPicture_keeps ((checkOurVout c s o).1.emit
    (.vout_CreatePicture .callback (some o.p_pic))) o.p_pic
  exact ⟨k1.trans c2, by rw [k2]; exact c3, rfl⟩

/-- The decoder in a cooperating environment: it reports the geometry of the
oracle, leaves policy and time stamp alone, runs into nothing undefined, and
does not lose the video output. -/
theorem avcodec_decode_video_ok (c : Consts) (s : vdec_thread_t) (o : Oracle) (sz : Int)
    (hu : s.undef = false) (hpf : ffmpeg_PixFmtToChroma c o.dec_pix_fmt ≠ none)
    (hw : o.dec_width ≠ 0) (hh : o.dec_height ≠ 0) (hsp : o.spawn ≠ none)
    (hm : o.misses = []) :
    (avcodec_decode_video c s o sz).undef = false ∧
    (avcodec_decode_video c s o sz).width = o.dec_width ∧
    (avcodec_decode_video c s o sz).height = o.dec_height ∧
    (avcodec_decode_video c s o sz).pix_fmt = o.dec_pix_fmt ∧
    (avcodec_decode_video c s o sz).pts = s.pts ∧
    SamePolicy s (avcodec_decode_video c s o sz) ∧
    (s.p_vout ≠ none → (avcodec_decode_video c s o sz).p_vout ≠ none) := by
  have hcalm := ffmpeg_GetFrameBuf_calm (K := fun _ => True) trivial trivial trivial trivial c o
    (Calm.crefl _ { s.emit (.avcodec_decode_video s.hurry_up sz) with
        width := o.dec_width, height := o.dec_height,
        aspect_ratio_info := o.dec_aspect_ratio_info, pix_fmt := o.dec_pix_fmt })
  have hok := ffmpeg_GetFrameBuf_ok c { s.emit (.avcodec_decode_video s.hurry_up sz) with
        width := o.dec_width, height := o.dec_height,
        aspect_ratio_info := o.dec_aspect_ratio_info, pix_fmt := o.dec_pix_fmt } o
    hu hpf hw hh hsp hm
  unfold avcodec_decode_video
  dsimp only
  split
  · obtain ⟨f1, f2, f3, f4, f5⟩ := hcalm.2.2
    exact ⟨hok.1, f1, f2, f4, f5,
      SamePolicy.poltrans ⟨rfl, rfl, rfl, rfl, rfl, rfl, rfl⟩ hcalm.2.1, fun _ => hok.2.1⟩
  · exact ⟨hu, rfl, rfl, rfl, rfl, ⟨rfl, rfl, rfl, rfl, rfl, rfl, rfl⟩, fun h => h⟩

theorem updateFrameLate_late (s : vdec_thread_t) (m : Int) (h : s.pts ≤ m) :
    updateFrameLate s m = { s with i_frame_late := wrap32 (s.i_frame_late + 1) } := by
  unfold updateFrameLate
  rw [if_pos h]

/-- A late frame in a cooperating environment: the counter goes up by one (in
`int` arithmetic), the thread stays ready, and with drawing enabled a picture
is displayed. -/
theorem decodeFrame_late (c : Consts) (s : vdec_thread_t) (o : Oracle) (d : Int)
    (hr : Ready s) (ho : LateFrame c o) :
    Ready (decodeFrame c s o d) ∧
    (decodeFrame c s o d).i_frame_late = wrap32 (s.i_frame_late + 1) ∧
    (d ≠ 0 → ∃ p, Event.vout_DisplayPicture p ∈ emitted s (decodeFrame c s o d)) := by
  obtain ⟨hf, hlate, hs, hg, hl, hw, hh, hpf, hsp, hm⟩ := ho
  obtain ⟨hu, hpp⟩ := hr
  obtain ⟨p, hp_mem, -, hsz, hpts⟩ := pullFrame_some o.pes hf s
  have hpull := pullFrame_quiet (K := fun _ => True) trivial o.pes s (Pulled.prefl _ s)
  have hfl := pullFrame_flags o.pes s
  have hu1 : (pullFrame o.pes s).1.undef = false := hfl.1.trans hu
  obtain ⟨d1, d2, d3, d4, d5, d6, d7⟩ :=
    avcodec_decode_video_ok c (pullFrame o.pes s).1 o p.i_pes_size hu1 hpf hw hh hsp hm
  have hlog1 := (avcodec_decode_video_log (K := fun _ => True) c (pullFrame o.pes s).1 o
    p.i_pes_size trivial trivial trivial trivial trivial).1
  have hpol : SamePolicy s (avcodec_decode_video c (pullFrame o.pes s).1 o p.i_pes_size) :=
    hpull.2.1.poltrans d6
  have hle : (avcodec_decode_video c (pullFrame o.pes s).1 o p.i_pes_size).pts ≤ o.mdate := by
    rw [d5, hpts]
    exact hlate p hp_mem
  have hr2 : Ready { avcodec_decode_video c (pullFrame o.pes s).1 o p.i_pes_size with
      i_frame_late := wrap32
        ((avcodec_decode_video c (pullFrame o.pes s).1 o p.i_pes_size).i_frame_late + 1) } := by
    refine ⟨d1, ?_⟩
    intro hmode
    have hmode' : s.i_pp_mode ≠ 0 := by
      rw [← hpol.config.2.2.1]; exact hmode
    refine ⟨hpol.config.2.2.2.1.trans (hpp hmode').1, ?_⟩
    intro hdr
    have hdr' : s.b_direct_rendering ≠ 0 := by
      rw [← hpol.config.2.1]; exact hdr
    exact d7 (by rw [hpull.2.2.2.2]; exact (hpp hmode').2 hdr')
  have hl2 : (avcodec_decode_video c (pullFrame o.pes s).1 o p.i_pes_size).i_frame_late
      = s.i_frame_late := hpol.2.1
  unfold decodeFrame
  dsimp only
  rw [hsz]
  dsimp only
  rw [if_neg (fun h => Bool.false_ne_true (d1.symm.trans h)), if_neg (not_lt.2 hs),
    updateFrameLate_late _ _ hle]
  by_cases hd : d = 0
  · rw [if_pos (Or.inr (Or.inr hd))]
    exact ⟨hr2, by rw [← hl2], fun h => absurd hd h⟩
  · rw [if_neg (by
      intro h
      rcases h with h | h | h
      · exact hg h
      · exact hl h
      · exact hd h)]
    obtain ⟨q1, p', q2⟩ := presentPicture_ok c _ o hr2 (by rw [d4]; exact hpf)
      (by rw [d2]; exact hw) (by rw [d3]; exact hh) hsp hm
    have hmild := presentPicture_mild (K := fun _ => True) trivial trivial trivial trivial
      trivial trivial c o (Mild.mrefl _
        { avcodec_decode_video c (pullFrame o.pes s).1 o p.i_pes_size with
          i_frame_late := wrap32
            ((avcodec_decode_video c (pullFrame o.pes s).1 o p.i_pes_size).i_frame_late + 1) })
    have hstep : LogExt (fun _ => True) s
        { avcodec_decode_video c (pullFrame o.pes s).1 o p.i_pes_size with
          i_frame_late := wrap32
            ((avcodec_decode_video c (pullFrame o.pes s).1 o p.i_pes_size).i_frame_late + 1) } :=
      (hpull.1.ltrans hlog1).ltrans (LogExt.of_log_eq rfl)
    refine ⟨q1, ?_, fun _ => ⟨p', ?_⟩⟩
    · rw [hmild.2.1.2.1, ← hl2]
    · exact mem_emitted_left hstep hmild.1 q2

/-! ## Lateness Policy -/

/-- C10. The lateness decision of `DecodeThread_Video`, for every state and
every answer of the environment. (i) With hurry-up disabled or a counter of at
most 4, every call of the decoder has the hurry setting 0, the decoder is
called when the source hands out a frame, and a frame decoded into a picture
goes on to presentation. (ii) With hurry-up enabled and a counter between 5
and 7, every call of the decoder has the hurry setting 2, the decoder is called
when the source hands out a frame, and the orchestrator neither asks the video
output for a picture nor transfers, post-processes, dates or displays one.
(iii) With hurry-up enabled and a counter of 8 or more the decoder is not
called. -/
theorem lateness_decision (c : Consts) (s : vdec_thread_t) (o : Oracle) :
    ((s.b_hurry_up = 0 ∨ s.i_frame_late ≤ 4) →
      (∀ e ∈ emitted s (DecodeThread_Video c s o), ∀ h, e.kind = .decoder h → h = 0) ∧
      ((∃ p ∈ o.pes, 0 < p.i_pes_size) →
        ∃ sz, Event.avcodec_decode_video 0 sz ∈ emitted s (DecodeThread_Video c s o)) ∧
      ((∃ p ∈ o.pes, 0 < p.i_pes_size) → 0 ≤ o.i_status → o.b_gotpicture ≠ 0 →
        o.linesize0 ≠ 0 → (decodeFrame c { s with hurry_up := 0 } o 0).undef = false →
        DecodeThread_Video c s o
          = presentPicture c (decodeFrame c { s with hurry_up := 0 } o 0) o)) ∧
    ((s.b_hurry_up ≠ 0 ∧ 4 < s.i_frame_late ∧ s.i_frame_late < 8) →
      (∀ e ∈ emitted s (DecodeThread_Video c s o), ∀ h, e.kind = .decoder h → h = 2) ∧
      ((∃ p ∈ o.pes, 0 < p.i_pes_size) →
        ∃ sz, Event.avcodec_decode_video 2 sz ∈ emitted s (DecodeThread_Video c s o)) ∧
      (∀ e ∈ emitted s (DecodeThread_Video c s o),
        e.kind ≠ .acquire .orchestrator ∧ e.kind ≠ .transfer ∧ e.kind ≠ .postproc ∧
        e.kind ≠ .present)) ∧
    ((s.b_hurry_up ≠ 0 ∧ 8 ≤ s.i_frame_late) →
      ∀ e ∈ emitted s (DecodeThread_Video c s o), ∀ h, e.kind ≠ .decoder h) := by
  refine ⟨?_, ?_, ?_⟩
  · intro hc
    have hd : DecodeThread_Video c s o = decodeFrame c { s with hurry_up := 0 } o 1 := by
      unfold DecodeThread_Video
      rw [if_neg]
      intro h
      rcases hc with h1 | h1
      · exact h.1 h1
      · omega
    rw [hd]
    refine ⟨?_, ?_, ?_⟩
    · have h1 := (decodeFrame_log (K := fun k => ∀ h, k = .decoder h → h = 0) c
        { s with hurry_up := 0 } o 1 (by intro h hk; cases hk)
        (by intro h hk; cases hk; rfl) (by intro h hk; cases hk) (by intro h hk; cases hk)
        (by intro h hk; cases hk) (by intro h hk; cases hk)
        (fun _ => ⟨(by intro h hk; cases hk), (by intro h hk; cases hk),
          (by intro h hk; cases hk), (by intro h hk; cases hk)⟩)).1
      exact forall_emitted h1
    · intro hf
      exact decodeFrame_decodes c { s with hurry_up := 0 } o 1 hf
    · intro hf hs hg hl hu
      exact decodeFrame_presents c { s with hurry_up := 0 } o hf hs hg hl hu
  · intro hc
    have hd : DecodeThread_Video c s o = decodeFrame c { s with hurry_up := 2 } o 0 := by
      unfold DecodeThread_Video
      rw [if_pos ⟨hc.1, hc.2.1⟩, if_pos hc.2.2]
    rw [hd]
    refine ⟨?_, ?_, ?_⟩
    · have h1 := (decodeFrame_log (K := fun k => ∀ h, k = .decoder h → h = 2) c
        { s with hurry_up := 2 } o 0 (by intro h hk; cases hk)
        (by intro h hk; cases hk; rfl) (by intro h hk; cases hk) (by intro h hk; cases hk)
        (by intro h hk; cases hk) (by intro h hk; cases hk)
        (fun h => absurd rfl h)).1
      exact forall_emitted h1
    · intro hf
      exact decodeFrame_decodes c { s with hurry_up := 2 } o 0 hf
    · have h1 := (decodeFrame_log (K := fun k => k ≠ .acquire .orchestrator ∧ k ≠ .transfer ∧
          k ≠ .postproc ∧ k ≠ .present) c
        { s with hurry_up := 2 } o 0 (by decide) (by simp) (by decide) (by decide)
        (by decide) (by decide) (fun h => absurd rfl h)).1
      exact forall_emitted h1
  · intro hc
    have hd : (DecodeThread_Video c s o).log = s.log ++ [.input_ExtractPES_discard] := by
      unfold DecodeThread_Video
      rw [if_pos ⟨hc.1, by omega⟩, if_neg (by omega)]
      rfl
    rw [emitted_eq_of_log hd]
    intro e he h hk
    rw [List.mem_singleton.1 he] at hk
    cases hk

/-- C10, evaluated on a late frame: with a counter of 5 and hurry-up enabled
the call decodes with setting 2 and presents nothing, with a counter of 0 it
decodes with setting 0 and displays the picture, with a counter of 8 it only
discards a packet. -/
theorem lateness_decision_witness :
    (emitted { exampleThread with i_frame_late := 5 }
        (DecodeThread_Video stdConsts { exampleThread with i_frame_late := 5 } (exampleFrame 7))
      = [.input_ExtractPES (some { i_pts := 0, i_pes_size := 100 }), .GetPESData,
         .input_DeletePES, .avcodec_decode_video 2 100]) ∧
    (∀ e ∈ emitted { exampleThread with i_frame_late := 5 }
        (DecodeThread_Video stdConsts { exampleThread with i_frame_late := 5 } (exampleFrame 7)),
      e.kind ≠ .acquire .orchestrator ∧ e.kind ≠ .transfer ∧ e.kind ≠ .postproc ∧
      e.kind ≠ .present) ∧
    (DecodeThread_Video stdConsts exampleThread (exampleFrame 7)
      = presentPicture stdConsts
          (decodeFrame stdConsts { exampleThread with hurry_up := 0 } (exampleFrame 7) 0)
          (exampleFrame 7)) ∧
    (Event.vout_DisplayPicture (some 7)
      ∈ emitted exampleThread (DecodeThread_Video stdConsts exampleThread (exampleFrame 7))) ∧
    (∀ e ∈ emitted { exampleThread with i_frame_late := 8 }
        (DecodeThread_Video stdConsts { exampleThread with i_frame_late := 8 } (exampleFrame 7)),
      ∀ h, e.kind ≠ .decoder h) :=
  ⟨by decide,
   ((lateness_decision stdConsts { exampleThread with i_frame_late := 5 } (exampleFrame 7)).2.1
      ⟨by decide, by decide, by decide⟩).2.2,
   ((lateness_decision stdConsts exampleThread (exampleFrame 7)).1 (Or.inr (by decide))).2.2
      ⟨_, List.mem_singleton.2 rfl, by decide⟩ (by decide) (by decide) (by decide) (by decide),
   by decide,
   (lateness_decision stdConsts { exampleThread with i_frame_late := 8 } (exampleFrame 7)).2.2
      ⟨by decide, by decide⟩⟩

theorem presented_true {l : List Event} {p : Option Nat}
    (h : Event.vout_DisplayPicture p ∈ l) : presented l = true := by
  unfold presented
  rw [List.any_eq_true]
  exact ⟨_, h, rfl⟩

theorem presented_false {l : List Event} (h : ∀ e ∈ l, e.kind ≠ .present) :
    presented l = false := by
  unfold presented
  rw [List.any_eq_false]
  intro e he
  have h1 := h e he
  cases e <;> first | exact Bool.false_ne_true | exact absurd rfl h1

theorem decodedWith_true {l : List Event} {hu sz : Int}
    (h : Event.avcodec_decode_video hu sz ∈ l) : decodedWith hu l = true := by
  unfold decodedWith
  rw [List.any_eq_true]
  exact ⟨_, h, by simp [Event.kind]⟩

theorem decoded_true {l : List Event} {hu sz : Int}
    (h : Event.avcodec_decode_video hu sz ∈ l) : decoded l = true := by
  unfold decoded
  rw [List.any_eq_true]
  exact ⟨_, h, rfl⟩

theorem classify_N {l : List Event} {sz : Int} {p : Option Nat}
    (h1 : Event.avcodec_decode_video 0 sz ∈ l) (h2 : Event.vout_DisplayPicture p ∈ l) :
    classify l = some .N := by
  unfold classify
  rw [decoded_true h1, presented_true h2, decodedWith_true h1]
  simp

theorem classify_H {l : List Event} {sz : Int}
    (h1 : Event.avcodec_decode_video 2 sz ∈ l) (h2 : ∀ e ∈ l, e.kind ≠ .present) :
    classify l = some .H := by
  unfold classify
  rw [decoded_true h1, presented_false h2, decodedWith_true h1]
  simp

/-- One call of the entry point on a late frame in a cooperating environment,
with hurry-up enabled: the decision and the counter afterwards, by the counter
before. -/
theorem DecodeThread_Video_late_step (c : Consts) (s : vdec_thread_t) (o : Oracle)
    (hr : Ready s) (hh : s.b_hurry_up ≠ 0) (ho : LateFrame c o) :
    Ready (DecodeThread_Video c { s with log := [] } o) ∧
    (DecodeThread_Video c { s with log := [] } o).b_hurry_up ≠ 0 ∧
    (s.i_frame_late ≤ 4 →
      (DecodeThread_Video c { s with log := [] } o).i_frame_late = wrap32 (s.i_frame_late + 1) ∧
      classify (DecodeThread_Video c { s with log := [] } o).log = some .N) ∧
    (4 < s.i_frame_late → s.i_frame_late < 8 →
      (DecodeThread_Video c { s with log := [] } o).i_frame_late = wrap32 (s.i_frame_late + 1) ∧
      classify (DecodeThread_Video c { s with log := [] } o).log = some .H) ∧
    (8 ≤ s.i_frame_late →
      (DecodeThread_Video c { s with log := [] } o).i_frame_late = wrap32 (s.i_frame_late - 1) ∧
      classify (DecodeThread_Video c { s with log := [] } o).log = some .S) := by
  have hem : ∀ x : vdec_thread_t, emitted { s with log := [] } x = x.log := fun _ => rfl
  by_cases h4 : s.i_frame_late ≤ 4
  · have hd : DecodeThread_Video c { s with log := [] } o
        = decodeFrame c { s with log := [], hurry_up := 0 } o 1 := by
      unfold DecodeThread_Video
      rw [if_neg]
      intro h
      exact absurd h.2 (not_lt.2 h4)
    obtain ⟨r1, r2, r3⟩ := decodeFrame_late c { s with log := [], hurry_up := 0 } o 1 hr ho
    obtain ⟨p, hp⟩ := r3 (by decide)
    obtain ⟨sz, hsz⟩ := decodeFrame_decodes c { s with log := [], hurry_up := 0 } o 1 ho.1
    have hlog := decodeFrame_log (K := fun _ => True) c { s with log := [], hurry_up := 0 } o 1
      trivial trivial trivial trivial trivial trivial
      (fun _ => ⟨trivial, trivial, trivial, trivial⟩)
    rw [hd]
    refine ⟨r1, by rw [hlog.2.1]; exact hh, fun _ => ⟨r2, classify_N hsz hp⟩,
      fun h _ => absurd h4 (not_le.2 h), fun h => absurd h4 (by omega)⟩
  · by_cases h8 : s.i_frame_late < 8
    · have hd : DecodeThread_Video c { s with log := [] } o
          = decodeFrame c { s with log := [], hurry_up := 2 } o 0 := by
        unfold DecodeThread_Video
        rw [if_pos ⟨hh, not_le.1 h4⟩, if_pos h8]
      obtain ⟨r1, r2, -⟩ := decodeFrame_late c { s with log := [], hurry_up := 2 } o 0 hr ho
      obtain ⟨sz, hsz⟩ := decodeFrame_decodes c { s with log := [], hurry_up := 2 } o 0 ho.1
      have hlog := decodeFrame_log (K := fun k => k ≠ .present) c
        { s with log := [], hurry_up := 2 } o 0
        (by decide) (by simp) (by decide) (by decide) (by decide) (by decide)
        (fun h => absurd rfl h)
      rw [hd]
      refine ⟨r1, by rw [hlog.2.1]; exact hh, fun h => absurd h h4,
        fun _ _ => ⟨r2, classify_H hsz (forall_emitted hlog.1)⟩, fun h => absurd h8 (by omega)⟩
    · have hd : DecodeThread_Video c { s with log := [] } o
          = { s with log := [.input_ExtractPES_discard],
                     i_frame_late := wrap32 (s.i_frame_late - 1) } := by
        unfold DecodeThread_Video
        rw [if_pos ⟨hh, not_le.1 h4⟩, if_neg h8]
        rfl
      rw [hd]
      exact ⟨hr, hh, fun h => absurd h h4, fun _ h => absurd h h8, fun _ => ⟨rfl, rfl⟩⟩

/-- The decisions and counters of any number of calls on late frames, with
hurry-up enabled, follow the policy step by step. -/
theorem runFrames_policyScript (c : Consts) (os : List Oracle) :
    ∀ s : vdec_thread_t, Ready s → s.b_hurry_up ≠ 0 →
      0 ≤ s.i_frame_late → s.i_frame_late ≤ 8 → (∀ o ∈ os, LateFrame c o) →
      (runFrames c s os).map (fun x => (classify x.log, x.i_frame_late))
        = policyScript s.i_frame_late os.length := by
  induction os with
  | nil => intro s _ _ _ _ _; rfl
  | cons o rest ih =>
    intro s hr hh h0 h8 hos
    obtain ⟨r1, r2, r3, r4, r5⟩ :=
      DecodeThread_Video_late_step c s o hr hh (hos o (List.mem_cons_self _ _))
    have hrest := fun hlo hhi => ih (DecodeThread_Video c { s with log := [] } o) r1 r2 hlo hhi
      (fun o' ho' => hos o' (List.mem_cons_of_mem _ ho'))
    have hw1 : wrap32 (s.i_frame_late + 1) = s.i_frame_late + 1 :=
      wrap32_of_inInt32 (by unfold inInt32; omega)
    have hw2 : wrap32 (s.i_frame_late - 1) = s.i_frame_late - 1 :=
      wrap32_of_inInt32 (by unfold inInt32; omega)
    simp only [runFrames, List.map_cons, List.length_cons, policyScript]
    by_cases h4 : s.i_frame_late ≤ 4
    · obtain ⟨e1, e2⟩ := r3 h4
      rw [hw1] at e1
      rw [if_pos h4, hrest (by omega) (by omega), e1, e2]
    · by_cases h8' : s.i_frame_late < 8
      · obtain ⟨e1, e2⟩ := r4 (not_le.1 h4) h8'
        rw [hw1] at e1
        rw [if_neg h4, if_pos h8', hrest (by omega) (by omega), e1, e2]
      · obtain ⟨e1, e2⟩ := r5 (not_lt.1 h8')
        rw [hw2] at e1
        rw [if_neg h4, if_neg h8', hrest (by omega) (by omega), e1, e2]

/-- C1, refuted as stated. Ten late frames from a counter of 0 with hurry-up
enabled do not give the decisions N,N,N,N,H,H,H,S,S,S with the counters
1,2,3,4,5,6,7,8,7,6: the fifth frame still finds a counter of 4 and is
presented, the skip comes with the ninth frame, and the tenth, which finds a
counter of 7, is decoded with hurry again. -/
theorem lateness_script_as_stated_fails :
    (runFrames stdConsts exampleThread (List.replicate 10 (exampleFrame 7))).map
        (fun x => classify x.log)
      ≠ [some .N, some .N, some .N, some .N, some .H, some .H, some .H, some .S, some .S,
         some .S] ∧
    (runFrames stdConsts exampleThread (List.replicate 10 (exampleFrame 7))).map
        (fun x => x.i_frame_late)
      ≠ [1, 2, 3, 4, 5, 6, 7, 8, 7, 6] := by
  refine ⟨by decide, by decide⟩

/-- C1, amended. From a counter of 0 with hurry-up enabled, ten consecutive
calls of the entry point on late frames that decode into pictures, in an
environment that lets pictures be presented, make exactly the decisions
N,N,N,N,N,H,H,H,S,H and leave the counter at 1,2,3,4,5,6,7,8,7,8. -/
theorem lateness_script (c : Consts) (s : vdec_thread_t) (os : List Oracle)
    (hlen : os.length = 10) (h0 : s.i_frame_late = 0) (hh : s.b_hurry_up ≠ 0) (hr : Ready s)
    (hos : ∀ o ∈ os, LateFrame c o) :
    (runFrames c s os).map (fun x => classify x.log)
      = [some .N, some .N, some .N, some .N, some .N, some .H, some .H, some .H, some .S,
         some .H] ∧
    (runFrames c s os).map (fun x => x.i_frame_late) = [1, 2, 3, 4, 5, 6, 7, 8, 7, 8] := by
  have h := runFrames_policyScript c os s hr hh (by omega) (by omega) hos
  rw [hlen, h0] at h
  have e : policyScript 0 10 =
      [(some .N, 1), (some .N, 2), (some .N, 3), (some .N, 4), (some .N, 5), (some .H, 6),
       (some .H, 7), (some .H, 8), (some .S, 7), (some .H, 8)] := by decide
  rw [e] at h
  have h1 := congrArg (List.map Prod.fst) h
  have h2 := congrArg (List.map Prod.snd) h
  simp only [List.map_map] at h1 h2
  exact ⟨h1, h2⟩

/-- C1 amended, on ten copies of the example frame. -/
theorem lateness_script_witness :
    (runFrames stdConsts exampleThread (List.replicate 10 (exampleFrame 7))).map
        (fun x => classify x.log)
      = [some .N, some .N, some .N, some .N, some .N, some .H, some .H, some .H, some .S,
         some .H] ∧
    (runFrames stdConsts exampleThread (List.replicate 10 (exampleFrame 7))).map
        (fun x => x.i_frame_late) = [1, 2, 3, 4, 5, 6, 7, 8, 7, 8] :=
  lateness_script stdConsts exampleThread (List.replicate 10 (exampleFrame 7)) (by decide)
    (by decide) (by decide) ⟨by decide, fun h => absurd rfl h⟩
    (by
      intro o ho
      rw [List.eq_of_mem_replicate ho]
      exact ⟨⟨_, List.mem_singleton.2 rfl, by decide⟩, by decide, by decide, by decide,
        by decide, by decide, by decide, by decide, by decide, by decide⟩)


/-! ## Chroma Converter: the passes, sample by sample -/

theorem forLoop_doubleSample (src : Mem) (st0 : Cursor) (n : Nat) :
    (forLoop n (doubleSample src) st0).p_dst = st0.p_dst ∧
    (forLoop n (doubleSample src) st0).p_src = st0.p_src ∧
    (forLoop n (doubleSample src) st0).mem.size = st0.mem.size ∧
    ∀ j, (forLoop n (doubleSample src) st0).mem.data j =
      if st0.p_dst ≤ j ∧ j < st0.p_dst + 2 * n then
        (if (j - st0.p_dst) % 2 = 0 then src.data (st0.p_src + (j - st0.p_dst) / 2) % 256
         else ((src.data (st0.p_src + (j - st0.p_dst) / 2)
                + src.data (st0.p_src + (j - st0.p_dst) / 2 + 1)) / 2) % 256)
      else st0.mem.data j := by
  induction n with
  | zero =>
    refine ⟨rfl, rfl, rfl, ?_⟩
    intro j
    rw [if_neg (by intro h; have := h.1; have := h.2; simp at *; omega)]
    rfl
  | succ n ih =>
    obtain ⟨i1, i2, i3, i4⟩ := ih
    refine ⟨i1, i2, i3, ?_⟩
    intro j
    show (if j = (forLoop n (doubleSample src) st0).p_dst + 2 * (n : Int) + 1 then _
      else if j = (forLoop n (doubleSample src) st0).p_dst + 2 * (n : Int) then _
      else (forLoop n (doubleSample src) st0).mem.data j) = _
    rw [i1, i2, i4 j]
    have hc : ((n + 1 : Nat) : Int) = (n : Int) + 1 := by push_cast; rfl
    rw [hc]
    by_cases h1 : j = st0.p_dst + 2 * (n : Int) + 1
    · have e1 : (j - st0.p_dst) / 2 = (n : Int) := by omega
      have e2 : ¬ ((j - st0.p_dst) % 2 = 0) := by omega
      have e3 : st0.p_dst ≤ j ∧ j < st0.p_dst + 2 * ((n : Int) + 1) := by omega
      simp only [if_pos h1, if_pos e3, if_neg e2, e1]
    · by_cases h2 : j = st0.p_dst + 2 * (n : Int)
      · have e1 : (j - st0.p_dst) / 2 = (n : Int) := by omega
        have e2 : (j - st0.p_dst) % 2 = 0 := by omega
        have e3 : st0.p_dst ≤ j ∧ j < st0.p_dst + 2 * ((n : Int) + 1) := by omega
        simp only [if_neg h1, if_pos h2, if_pos e3, if_pos e2, e1]
      · by_cases h3 : st0.p_dst ≤ j ∧ j < st0.p_dst + 2 * (n : Int)
        · have e3 : st0.p_dst ≤ j ∧ j < st0.p_dst + 2 * ((n : Int) + 1) := by omega
          simp only [if_neg h1, if_neg h2, if_pos h3, if_pos e3]
        · have e3 : ¬ (st0.p_dst ≤ j ∧ j < st0.p_dst + 2 * ((n : Int) + 1)) := by omega
          simp only [if_neg h1, if_neg h2, if_neg h3, if_neg e3]

/-- One source line doubled: the line written and the pointers advanced. -/
theorem doubleLine_spec (src : Mem) (s : Int) (hs : 1 ≤ s) (y : Nat) (st : Cursor) :
    (doubleLine src s y st).p_dst = st.p_dst + 4 * s ∧
    (doubleLine src s y st).p_src = st.p_src + s ∧
    (doubleLine src s y st).mem.size = st.mem.size ∧
    ∀ j, (doubleLine src s y st).mem.data j =
      if st.p_dst ≤ j ∧ j < st.p_dst + 2 * s then doubledSample src.data st.p_src s (j - st.p_dst)
      else st.mem.data j := by
  obtain ⟨i1, i2, i3, i4⟩ := forLoop_doubleSample src st (s - 1).toNat
  have hn : (((s - 1).toNat : Nat) : Int) = s - 1 := Int.toNat_of_nonneg (by omega)
  refine ⟨by show _ + 4 * s = _; rw [i1], by show _ + s = _; rw [i2], i3, ?_⟩
  intro j
  show (if j = (forLoop (s - 1).toNat (doubleSample src) st).p_dst + (2 * s - 1) then _
    else if j = (forLoop (s - 1).toNat (doubleSample src) st).p_dst + (2 * s - 2) then _
    else (forLoop (s - 1).toNat (doubleSample src) st).mem.data j) = _
  rw [i1, i2, i4 j, hn]
  unfold doubledSample
  by_cases h1 : j = st.p_dst + (2 * s - 1)
  · have e1 : st.p_dst ≤ j ∧ j < st.p_dst + 2 * s := by omega
    have e2 : ¬ (j - st.p_dst < 2 * s - 2) := by omega
    simp only [if_pos h1, if_pos e1, if_neg e2]
  · by_cases h2 : j = st.p_dst + (2 * s - 2)
    · have e1 : st.p_dst ≤ j ∧ j < st.p_dst + 2 * s := by omega
      have e2 : ¬ (j - st.p_dst < 2 * s - 2) := by omega
      simp only [if_neg h1, if_pos h2, if_pos e1, if_neg e2]
    · by_cases h3 : st.p_dst ≤ j ∧ j < st.p_dst + 2 * (s - 1)
      · have e1 : st.p_dst ≤ j ∧ j < st.p_dst + 2 * s := by omega
        have e2 : j - st.p_dst < 2 * s - 2 := by omega
        simp only [if_neg h1, if_neg h2, if_pos h3, if_pos e1, if_pos e2]
      · have e1 : ¬ (st.p_dst ≤ j ∧ j < st.p_dst + 2 * s) := by omega
        simp only [if_neg h1, if_neg h2, if_neg h3, if_neg e1]

/-- The first pass: after `y` source lines, line `2 r` of the temporary plane
holds source line `r` doubled, for every `r < y`, and nothing else has been
written. -/
theorem forLoop_doubleLine (src : Mem) (s : Int) (hs : 1 ≤ s) (st0 : Cursor) (y : Nat) :
    (forLoop y (doubleLine src s) st0).p_dst = st0.p_dst + 4 * s * y ∧
    (forLoop y (doubleLine src s) st0).p_src = st0.p_src + s * y ∧
    (forLoop y (doubleLine src s) st0).mem.size = st0.mem.size ∧
    (∀ r : Nat, r < y → ∀ c : Int, 0 ≤ c → c < 2 * s →
      (forLoop y (doubleLine src s) st0).mem.data (st0.p_dst + 4 * s * r + c)
        = doubledSample src.data (st0.p_src + s * r) s c) ∧
    (∀ j, (∀ r : Nat, r < y →
        ¬ (st0.p_dst + 4 * s * r ≤ j ∧ j < st0.p_dst + 4 * s * r + 2 * s)) →
      (forLoop y (doubleLine src s) st0).mem.data j = st0.mem.data j) := by
  induction y with
  | zero =>
    refine ⟨by simp [forLoop], by simp [forLoop], rfl, ?_, ?_⟩
    · intro r hr
      exact absurd hr (Nat.not_lt_zero r)
    · intro j _
      rfl
  | succ y ih =>
    obtain ⟨i1, i2, i3, i4, i5⟩ := ih
    obtain ⟨k1, k2, k3, k4⟩ := doubleLine_spec src s hs y (forLoop y (doubleLine src s) st0)
    have hc : ((y + 1 : Nat) : Int) = (y : Int) + 1 := by push_cast; rfl
    refine ⟨?_, ?_, ?_, ?_, ?_⟩
    · show (doubleLine src s y (forLoop y (doubleLine src s) st0)).p_dst = _
      rw [k1, i1, hc]
      ring
    · show (doubleLine src s y (forLoop y (doubleLine src s) st0)).p_src = _
      rw [k2, i2, hc]
      ring
    · show (doubleLine src s y (forLoop y (doubleLine src s) st0)).mem.size = _
      rw [k3, i3]
    · intro r hr c hc0 hc1
      show (doubleLine src s y (forLoop y (doubleLine src s) st0)).mem.data _ = _
      rw [k4, i1, i2]
      by_cases hry : r = y
      · subst hry
        have e1 : st0.p_dst + 4 * s * (r : Int) ≤ st0.p_dst + 4 * s * r + c ∧
            st0.p_dst + 4 * s * r + c < st0.p_dst + 4 * s * r + 2 * s := by
          constructor <;> linarith
        have e2 : st0.p_dst + 4 * s * (r : Int) + c - (st0.p_dst + 4 * s * r) = c := by ring
        rw [if_pos e1, e2]
      · have hlt : r < y := by omega
        have hm : s * ((r : Int) + 1) ≤ s * y :=
          Int.mul_le_mul_of_nonneg_left (by omega) (by omega)
        have e1 : ¬ (st0.p_dst + 4 * s * (y : Int) ≤ st0.p_dst + 4 * s * r + c ∧
            st0.p_dst + 4 * s * r + c < st0.p_dst + 4 * s * y + 2 * s) := by
          intro h
          nlinarith [h.1]
        rw [if_neg e1]
        exact i4 r hlt c hc0 hc1
    · intro j hj
      show (doubleLine src s y (forLoop y (doubleLine src s) st0)).mem.data _ = _
      rw [k4, i1]
      have e1 : ¬ (st0.p_dst + 4 * s * (y : Int) ≤ j ∧ j < st0.p_dst + 4 * s * y + 2 * s) :=
        hj y (Nat.lt_succ_self y)
      rw [if_neg e1]
      exact i5 j (fun r hr => hj r (Nat.lt_succ_of_lt hr))

theorem forLoop_averageSample (s : Int) (st0 : Cursor) (hd : st0.p_dst = st0.p_src + 2 * s)
    (n : Nat) (hn : (n : Int) ≤ 2 * s) :
    (forLoop n (averageSample s) st0).p_dst = st0.p_dst ∧
    (forLoop n (averageSample s) st0).p_src = st0.p_src ∧
    (forLoop n (averageSample s) st0).mem.size = st0.mem.size ∧
    ∀ j, (forLoop n (averageSample s) st0).mem.data j =
      if st0.p_dst ≤ j ∧ j < st0.p_dst + n then
        ((st0.mem.data (st0.p_src + (j - st0.p_dst))
          + st0.mem.data (st0.p_src + (j - st0.p_dst) + 4 * s)) / 2) % 256
      else st0.mem.data j := by
  induction n with
  | zero =>
    refine ⟨rfl, rfl, rfl, ?_⟩
    intro j
    rw [if_neg (by intro h; have := h.1; have := h.2; simp at *; omega)]
    rfl
  | succ n ih =>
    have hc : ((n + 1 : Nat) : Int) = (n : Int) + 1 := by push_cast; rfl
    rw [hc] at hn
    obtain ⟨i1, i2, i3, i4⟩ := ih (by omega)
    refine ⟨i1, i2, i3, ?_⟩
    intro j
    show (if j = (forLoop n (averageSample s) st0).p_dst + (n : Int) then
        (((forLoop n (averageSample s) st0).mem.data
            ((forLoop n (averageSample s) st0).p_src + (n : Int))
          + (forLoop n (averageSample s) st0).mem.data
            ((forLoop n (averageSample s) st0).p_src + (n : Int) + 4 * s)) / 2) % 256
      else (forLoop n (averageSample s) st0).mem.data j) = _
    rw [i1, i2, i4 j, i4 (st0.p_src + (n : Int)), i4 (st0.p_src + (n : Int) + 4 * s), hc]
    have r1 : ¬ (st0.p_dst ≤ st0.p_src + (n : Int) ∧ st0.p_src + (n : Int) < st0.p_dst + n) := by
      omega
    have r2 : ¬ (st0.p_dst ≤ st0.p_src + (n : Int) + 4 * s ∧
        st0.p_src + (n : Int) + 4 * s < st0.p_dst + n) := by omega
    rw [if_neg r1, if_neg r2]
    by_cases h1 : j = st0.p_dst + (n : Int)
    · have e1 : st0.p_dst ≤ j ∧ j < st0.p_dst + ((n : Int) + 1) := by omega
      have e2 : j - st0.p_dst = (n : Int) := by omega
      simp only [if_pos h1, if_pos e1, e2]
    · by_cases h3 : st0.p_dst ≤ j ∧ j < st0.p_dst + (n : Int)
      · have e1 : st0.p_dst ≤ j ∧ j < st0.p_dst + ((n : Int) + 1) := by omega
        simp only [if_neg h1, if_pos h3, if_pos e1]
      · have e1 : ¬ (st0.p_dst ≤ j ∧ j < st0.p_dst + ((n : Int) + 1)) := by omega
        simp only [if_neg h1, if_neg h3, if_neg e1]

/-- One line of the second pass: the line at `p_dst` becomes the average of the
lines at `p_src` and at `p_src + 4 * i_stride`. -/
theorem averageLine_spec (s : Int) (hs : 0 ≤ s) (y : Nat) (st : Cursor)
    (hd : st.p_dst = st.p_src + 2 * s) :
    (averageLine s y st).p_dst = st.p_dst + 4 * s ∧
    (averageLine s y st).p_src = st.p_src + 4 * s ∧
    (averageLine s y st).mem.size = st.mem.size ∧
    ∀ j, (averageLine s y st).mem.data j =
      if st.p_dst ≤ j ∧ j < st.p_dst + 2 * s then
        ((st.mem.data (st.p_src + (j - st.p_dst))
          + st.mem.data (st.p_src + (j - st.p_dst) + 4 * s)) / 2) % 256
      else st.mem.data j := by
  have hn : (((2 * s).toNat : Nat) : Int) = 2 * s := Int.toNat_of_nonneg (by omega)
  obtain ⟨i1, i2, i3, i4⟩ := forLoop_averageSample s st hd (2 * s).toNat (by omega)
  refine ⟨by show _ + 4 * s = _; rw [i1], by show _ + 4 * s = _; rw [i2], i3, ?_⟩
  intro j
  show (forLoop (2 * s).toNat (averageSample s) st).mem.data j = _
  rw [i4 j, hn]

/-- The loop of the second pass: after `y` rounds the lines `2 r + 1` with
`r < y` hold the averages of their neighbours, and nothing else has changed. -/
theorem forLoop_averageLine (s : Int) (hs : 1 ≤ s) (st0 : Cursor) (hd : st0.p_dst = 2 * s)
    (hq : st0.p_src = 0) (y : Nat) :
    (forLoop y (averageLine s) st0).p_dst = 2 * s + 4 * s * y ∧
    (forLoop y (averageLine s) st0).p_src = 4 * s * y ∧
    (forLoop y (averageLine s) st0).mem.size = st0.mem.size ∧
    (∀ r : Nat, r < y → ∀ c : Int, 0 ≤ c → c < 2 * s →
      (forLoop y (averageLine s) st0).mem.data (2 * s + 4 * s * r + c)
        = ((st0.mem.data (4 * s * r + c) + st0.mem.data (4 * s * r + c + 4 * s)) / 2) % 256) ∧
    (∀ j, (∀ r : Nat, r < y → ¬ (2 * s + 4 * s * r ≤ j ∧ j < 2 * s + 4 * s * r + 2 * s)) →
      (forLoop y (averageLine s) st0).mem.data j = st0.mem.data j) := by
  induction y with
  | zero =>
    refine ⟨by simp [forLoop, hd], by simp [forLoop, hq], rfl, ?_, ?_⟩
    · intro r hr
      exact absurd hr (Nat.not_lt_zero r)
    · intro j _
      rfl
  | succ y ih =>
    obtain ⟨i1, i2, i3, i4, i5⟩ := ih
    obtain ⟨k1, k2, k3, k4⟩ := averageLine_spec s (by omega) y (forLoop y (averageLine s) st0)
      (by rw [i1, i2]; ring)
    have hc : ((y + 1 : Nat) : Int) = (y : Int) + 1 := by push_cast; rfl
    have hy0 : (0 : Int) ≤ y := Int.ofNat_nonneg y
    have even : ∀ j, 4 * s * (y : Int) ≤ j →
        (forLoop y (averageLine s) st0).mem.data j = st0.mem.data j := by
      intro j hj
      apply i5
      intro r hr h
      have hm : s * ((r : Int) + 1) ≤ s * y :=
        Int.mul_le_mul_of_nonneg_left (by omega) (by omega)
      nlinarith [h.1, h.2]
    refine ⟨?_, ?_, ?_, ?_, ?_⟩
    · show (averageLine s y (forLoop y (averageLine s) st0)).p_dst = _
      rw [k1, i1, hc]
      ring
    · show (averageLine s y (forLoop y (averageLine s) st0)).p_src = _
      rw [k2, i2, hc]
      ring
    · show (averageLine s y (forLoop y (averageLine s) st0)).mem.size = _
      rw [k3, i3]
    · intro r hr c hc0 hc1
      show (averageLine s y (forLoop y (averageLine s) st0)).mem.data _ = _
      rw [k4, i1, i2]
      by_cases hry : r = y
      · subst hry
        have e1 : 2 * s + 4 * s * (r : Int) ≤ 2 * s + 4 * s * r + c ∧
            2 * s + 4 * s * r + c < 2 * s + 4 * s * r + 2 * s := by
          constructor <;> linarith
        have e2 : 4 * s * (r : Int) + (2 * s + 4 * s * r + c - (2 * s + 4 * s * r))
            = 4 * s * r + c := by ring
        rw [if_pos e1, e2, even _ (by nlinarith), even _ (by nlinarith)]
      · have hlt : r < y := by omega
        have hm : s * ((r : Int) + 1) ≤ s * y :=
          Int.mul_le_mul_of_nonneg_left (by omega) (by omega)
        have e1 : ¬ (2 * s + 4 * s * (y : Int) ≤ 2 * s + 4 * s * r + c ∧
            2 * s + 4 * s * r + c < 2 * s + 4 * s * y + 2 * s) := by
          intro h
          nlinarith [h.1]
        rw [if_neg e1]
        exact i4 r hlt c hc0 hc1
    · intro j hj
      show (averageLine s y (forLoop y (averageLine s) st0)).mem.data _ = _
      rw [k4, i1]
      have e1 : ¬ (2 * s + 4 * s * (y : Int) ≤ j ∧ j < 2 * s + 4 * s * y + 2 * s) :=
        hj y (Nat.lt_succ_self y)
      rw [if_neg e1]
      exact i5 j (fun r hr => hj r (Nat.lt_succ_of_lt hr))

/-- The second pass, line by line, in terms of the plane `g1` it starts from:
the lines `2 r` are left as they are, line `2 r + 1` is the average of the
lines `2 r` and `2 r + 2`, and the last line is a copy of the line before it. -/
theorem verticalInterpolation_spec (s L : Int) (hs : 1 ≤ s) (hL : 1 ≤ L) (st0 : Cursor) :
    (verticalInterpolation s L st0).mem.size = st0.mem.size ∧
    (∀ r : Nat, (r : Int) < L → ∀ c : Int, 0 ≤ c → c < 2 * s →
      (verticalInterpolation s L st0).mem.data (4 * s * r + c) = st0.mem.data (4 * s * r + c)) ∧
    (∀ r : Nat, (r : Int) + 1 < L → ∀ c : Int, 0 ≤ c → c < 2 * s →
      (verticalInterpolation s L st0).mem.data (2 * s + 4 * s * r + c)
        = ((st0.mem.data (4 * s * r + c) + st0.mem.data (4 * s * r + c + 4 * s)) / 2) % 256) ∧
    (∀ c : Int, 0 ≤ c → c < 2 * s →
      (verticalInterpolation s L st0).mem.data (2 * s + 4 * s * (L - 1) + c)
        = st0.mem.data (4 * s * (L - 1) + c)) := by
  have hn : (((L - 1).toNat : Nat) : Int) = L - 1 := Int.toNat_of_nonneg (by omega)
  obtain ⟨i1, i2, i3, i4, i5⟩ := forLoop_averageLine s hs
    { st0 with p_dst := 2 * s, p_src := 0 } rfl rfl (L - 1).toNat
  rw [hn] at i1 i2
  have even : ∀ r : Nat, (r : Int) < L → ∀ c : Int, 0 ≤ c → c < 2 * s →
      (forLoop (L - 1).toNat (averageLine s) { st0 with p_dst := 2 * s, p_src := 0 }).mem.data
        (4 * s * r + c) = st0.mem.data (4 * s * r + c) := by
    intro r hr c hc0 hc1
    apply i5
    intro r' hr' h
    by_cases hle : r ≤ r'
    · have hm : s * (r : Int) ≤ s * r' :=
        Int.mul_le_mul_of_nonneg_left (by omega) (by omega)
      nlinarith [h.1]
    · have hm : s * ((r' : Int) + 1) ≤ s * r :=
        Int.mul_le_mul_of_nonneg_left (by omega) (by omega)
      nlinarith [h.2]
  have hdata : ∀ j, (verticalInterpolation s L st0).mem.data j =
      if 2 * s + 4 * s * (L - 1) ≤ j ∧ j < 2 * s + 4 * s * (L - 1) + 2 * s then
        (forLoop (L - 1).toNat (averageLine s) { st0 with p_dst := 2 * s, p_src := 0 }).mem.data
          (4 * s * (L - 1) + (j - (2 * s + 4 * s * (L - 1))))
      else
        (forLoop (L - 1).toNat (averageLine s) { st0 with p_dst := 2 * s, p_src := 0 }).mem.data
          j := by
    intro j
    show (if (forLoop (L - 1).toNat (averageLine s)
          { st0 with p_dst := 2 * s, p_src := 0 }).p_dst ≤ j ∧
        j < (forLoop (L - 1).toNat (averageLine s)
          { st0 with p_dst := 2 * s, p_src := 0 }).p_dst + 2 * s then
        (forLoop (L - 1).toNat (averageLine s) { st0 with p_dst := 2 * s, p_src := 0 }).mem.data
          ((forLoop (L - 1).toNat (averageLine s)
            { st0 with p_dst := 2 * s, p_src := 0 }).p_src +
            (j - (forLoop (L - 1).toNat (averageLine s)
              { st0 with p_dst := 2 * s, p_src := 0 }).p_dst))
      else _) = _
    rw [i1, i2]
  refine ⟨i3, ?_, ?_, ?_⟩
  · intro r hr c hc0 hc1
    rw [hdata]
    have hm : s * (r : Int) ≤ s * (L - 1) :=
      Int.mul_le_mul_of_nonneg_left (by omega) (by omega)
    rw [if_neg (by intro h; nlinarith [h.1])]
    exact even r hr c hc0 hc1
  · intro r hr c hc0 hc1
    rw [hdata]
    have hm : s * ((r : Int) + 1) ≤ s * (L - 1) :=
      Int.mul_le_mul_of_nonneg_left (by omega) (by omega)
    rw [if_neg (by intro h; nlinarith [h.1])]
    exact i4 r (by omega) c hc0 hc1
  · intro c hc0 hc1
    rw [hdata]
    rw [if_pos (by constructor <;> linarith)]
    have e : 4 * s * (L - 1) + (2 * s + 4 * s * (L - 1) + c - (2 * s + 4 * s * (L - 1)))
        = 4 * s * (((L - 1).toNat : Nat) : Int) + c := by
      rw [hn]; ring
    rw [e, even (L - 1).toNat (by omega) c hc0 hc1, hn]

/-- A line all of whose samples, padding included, are `V` doubles to `V`. -/
theorem doubledSample_const (src : Int → Nat) (q s c : Int) (V : Nat) (hV : V ≤ 255)
    (hc0 : 0 ≤ c) (hc1 : c < 2 * s) (h : ∀ i, q ≤ i → i < q + s → src i = V) :
    doubledSample src q s c = V := by
  have hv : V % 256 = V := Nat.mod_eq_of_lt (by omega)
  unfold doubledSample
  split
  · split
    · rw [h _ (by omega) (by omega), hv]
    · rw [h _ (by omega) (by omega), h _ (by omega) (by omega)]
      have : (V + V) / 2 = V := by omega
      rw [this, hv]
  · rw [h _ (by omega) (by omega), hv]

/-- The temporary plane after both passes, for a source plane all of whose
samples are `V`: every byte of its `2 L` lines of `2 s` bytes is `V`. -/
theorem scratch_const (src : Mem) (s L : Int) (hs : 1 ≤ s) (hL : 1 ≤ L) (scratch : Mem)
    (V : Nat) (hV : V ≤ 255) (h : ∀ i, 0 ≤ i → i < s * L → src.data i = V) :
    ∀ j, 0 ≤ j → j < 4 * s * L →
      (verticalInterpolation s L (horizontalDoubling src s L scratch)).mem.data j = V := by
  have hn : ((L.toNat : Nat) : Int) = L := Int.toNat_of_nonneg (by omega)
  obtain ⟨-, -, -, p4, -⟩ := forLoop_doubleLine src s hs
    { mem := scratch, p_dst := 0, p_src := 0, ok := true } L.toNat
  obtain ⟨-, v2, v3, v4⟩ := verticalInterpolation_spec s L hs hL (horizontalDoubling src s L scratch)
  have g1 : ∀ r : Nat, (r : Int) < L → ∀ c : Int, 0 ≤ c → c < 2 * s →
      (horizontalDoubling src s L scratch).mem.data (4 * s * r + c) = V := by
    intro r hr c hc0 hc1
    have e := p4 r (by omega) c hc0 hc1
    simp only [zero_add] at e
    show (forLoop L.toNat (doubleLine src s)
      { mem := scratch, p_dst := 0, p_src := 0, ok := true }).mem.data _ = _
    rw [e]
    apply doubledSample_const _ _ _ _ _ hV hc0 hc1
    intro i hi0 hi1
    have hr0 : (0 : Int) ≤ r := Int.ofNat_nonneg r
    have hm : s * ((r : Int) + 1) ≤ s * L :=
      Int.mul_le_mul_of_nonneg_left (by omega) (by omega)
    have hm0 : 0 ≤ s * (r : Int) := Int.mul_nonneg (by omega) hr0
    exact h i (by linarith) (by nlinarith)
  intro j hj0 hj1
  have h2s : 0 < 2 * s := by omega
  have d1 : 2 * s * (j / (2 * s)) + j % (2 * s) = j := Int.ediv_add_emod j (2 * s)
  have d2 : 0 ≤ j % (2 * s) := Int.emod_nonneg j (by omega)
  have d3 : j % (2 * s) < 2 * s := Int.emod_lt_of_pos j h2s
  have d4 : 0 ≤ j / (2 * s) := Int.ediv_nonneg hj0 (by omega)
  have d5 : j / (2 * s) < 2 * L := Int.ediv_lt_of_lt_mul h2s (by linarith)
  have hr : ((( j / (2 * s) / 2).toNat : Nat) : Int) = j / (2 * s) / 2 :=
    Int.toNat_of_nonneg (by omega)
  by_cases hev : j / (2 * s) % 2 = 0
  · have hρ : j / (2 * s) = 2 * (j / (2 * s) / 2) := by omega
    have ej : j = 4 * s * (((j / (2 * s) / 2).toNat : Nat) : Int) + j % (2 * s) := by
      rw [hr]
      have : 2 * s * (j / (2 * s)) = 4 * s * (j / (2 * s) / 2) := by
        rw [hρ]
        have : 2 * (j / (2 * s) / 2) / 2 = j / (2 * s) / 2 := by omega
        rw [this]
        ring
      linarith
    rw [ej, v2 _ (by rw [hr]; omega) _ d2 d3]
    exact g1 _ (by rw [hr]; omega) _ d2 d3
  · have hρ : j / (2 * s) = 2 * (j / (2 * s) / 2) + 1 := by omega
    have ej : j = 2 * s + 4 * s * (((j / (2 * s) / 2).toNat : Nat) : Int) + j % (2 * s) := by
      rw [hr]
      have : 2 * s * (j / (2 * s)) = 2 * s + 4 * s * (j / (2 * s) / 2) := by
        have e3 : 2 * s * (j / (2 * s)) = 2 * s * (2 * (j / (2 * s) / 2) + 1) := by
          rw [← hρ]
        rw [e3]
        ring
      linarith
    by_cases hlast : j / (2 * s) / 2 + 1 < L
    · rw [ej, v3 _ (by rw [hr]; exact hlast) _ d2 d3,
        g1 _ (by rw [hr]; omega) _ d2 d3]
      have e4 : 4 * s * (((j / (2 * s) / 2).toNat : Nat) : Int) + j % (2 * s) + 4 * s
          = 4 * s * (((j / (2 * s) / 2 + 1).toNat : Nat) : Int) + j % (2 * s) := by
        rw [hr, Int.toNat_of_nonneg (by omega)]
        ring
      rw [e4, g1 _ (by rw [Int.toNat_of_nonneg (by omega)]; exact hlast) _ d2 d3]
      have hv : V % 256 = V := Nat.mod_eq_of_lt (by omega)
      have : (V + V) / 2 = V := by omega
      rw [this, hv]
    · have hL1 : j / (2 * s) / 2 = L - 1 := by omega
      have ej' : j = 2 * s + 4 * s * (L - 1) + j % (2 * s) := by
        rw [hr, hL1] at ej
        exact ej
      rw [ej', v4 _ d2 d3]
      have e5 : 4 * s * (L - 1) + j % (2 * s)
          = 4 * s * (((L - 1).toNat : Nat) : Int) + j % (2 * s) := by
        rw [Int.toNat_of_nonneg (by omega)]
      rw [e5]
      exact g1 _ (by rw [Int.toNat_of_nonneg (by omega)]; omega) _ d2 d3

/-- A block copy of `R` rows of `n` bytes with the row steps `a` (written) and
`b` (read), `n ≤ a`: row `y` of the buffer written is row `y` of the source,
and nothing else has changed. -/
theorem forLoop_copyLine (src : Mem) (n a b : Int) (hna : n ≤ a) (st0 : Cursor) (R : Nat) :
    (forLoop R (copyLine src n a b) st0).p_dst = st0.p_dst + a * R ∧
    (forLoop R (copyLine src n a b) st0).p_src = st0.p_src + b * R ∧
    (forLoop R (copyLine src n a b) st0).mem.size = st0.mem.size ∧
    (∀ y : Nat, y < R → ∀ k : Int, 0 ≤ k → k < n →
      (forLoop R (copyLine src n a b) st0).mem.data (st0.p_dst + a * y + k)
        = src.data (st0.p_src + b * y + k)) ∧
    (∀ j, (∀ y : Nat, y < R → ¬ (st0.p_dst + a * y ≤ j ∧ j < st0.p_dst + a * y + n)) →
      (forLoop R (copyLine src n a b) st0).mem.data j = st0.mem.data j) := by
  induction R with
  | zero =>
    refine ⟨by simp [forLoop], by simp [forLoop], rfl, ?_, ?_⟩
    · intro y hy
      exact absurd hy (Nat.not_lt_zero y)
    · intro j _
      rfl
  | succ R ih =>
    obtain ⟨i1, i2, i3, i4, i5⟩ := ih
    have hc : ((R + 1 : Nat) : Int) = (R : Int) + 1 := by push_cast; rfl
    have hdata : ∀ j, (forLoop (R + 1) (copyLine src n a b) st0).mem.data j =
        if st0.p_dst + a * R ≤ j ∧ j < st0.p_dst + a * R + n then
          src.data (st0.p_src + b * R + (j - (st0.p_dst + a * R)))
        else (forLoop R (copyLine src n a b) st0).mem.data j := by
      intro j
      show (if (forLoop R (copyLine src n a b) st0).p_dst ≤ j ∧
          j < (forLoop R (copyLine src n a b) st0).p_dst + n then
          src.data ((forLoop R (copyLine src n a b) st0).p_src +
            (j - (forLoop R (copyLine src n a b) st0).p_dst))
        else _) = _
      rw [i1, i2]
    refine ⟨?_, ?_, i3, ?_, ?_⟩
    · show (forLoop R (copyLine src n a b) st0).p_dst + a = _
      rw [i1, hc]
      ring
    · show (forLoop R (copyLine src n a b) st0).p_src + b = _
      rw [i2, hc]
      ring
    · intro y hy k hk0 hk1
      rw [hdata]
      by_cases hyR : y = R
      · subst hyR
        rw [if_pos (by constructor <;> linarith)]
        have e : st0.p_src + b * (y : Int) + (st0.p_dst + a * y + k - (st0.p_dst + a * y))
            = st0.p_src + b * y + k := by ring
        rw [e]
      · have hm : a * ((y : Int) + 1) ≤ a * R :=
          Int.mul_le_mul_of_nonneg_left (by omega) (by omega)
        rw [if_neg (by intro h; nlinarith [h.1])]
        exact i4 y (by omega) k hk0 hk1
    · intro j hj
      rw [hdata, if_neg (hj R (Nat.lt_succ_self R))]
      exact i5 j (fun y hy => hj y (Nat.lt_succ_of_lt hy))

/-- The third pass on one plane: the bytes `0 .. min(2 * i_stride, pitch) - 1`
of the rows `0 .. min(lines, 2 * i_lines) - 1` of the plane of the picture are
those of the rows of the temporary plane, read with the row step
`2 * i_stride`; no other byte of the plane is written. -/
theorem copyDown_spec (scratch : Mem) (pl : plane_t) (s2 L : Int) :
    (∀ y : Nat, (y : Int) < min pl.i_lines (2 * L) →
      ∀ k : Int, 0 ≤ k → k < min (2 * s2) pl.i_pitch →
      (copyDown scratch pl s2 L).mem.data (pl.i_pitch * y + k)
        = scratch.data (2 * s2 * y + k)) ∧
    (∀ j, (∀ y : Nat, (y : Int) < min pl.i_lines (2 * L) →
        ¬ (pl.i_pitch * y ≤ j ∧ j < pl.i_pitch * y + min (2 * s2) pl.i_pitch)) →
      (copyDown scratch pl s2 L).mem.data j = pl.p_pixels.data j) := by
  obtain ⟨-, -, -, i4, i5⟩ := forLoop_copyLine scratch (min (2 * s2) pl.i_pitch) pl.i_pitch
    (2 * s2) (min_le_right _ _)
    { mem := pl.p_pixels, p_dst := 0, p_src := 0, ok := true }
    (min pl.i_lines (2 * L)).toNat
  constructor
  · intro y hy k hk0 hk1
    have e := i4 y (by omega) k hk0 hk1
    simp only [zero_add] at e
    exact e
  · intro j hj
    apply i5
    intro y hy
    have e := hj y (by omega)
    simp only [zero_add]
    exact e

/-- The temporary plane after both passes: every byte of its `2 L` lines of
`2 s` bytes is the upsampled sample of the source plane, whatever `malloc` had
left in the buffer. -/
theorem scratch_spec (src : Mem) (s L : Int) (hs : 1 ≤ s) (hL : 1 ≤ L) (scratch : Mem) :
    ∀ j, 0 ≤ j → j < 4 * s * L →
      (verticalInterpolation s L (horizontalDoubling src s L scratch)).mem.data j
        = upsampledSample src.data s L j := by
  have hn : ((L.toNat : Nat) : Int) = L := Int.toNat_of_nonneg (by omega)
  obtain ⟨-, -, -, p4, -⟩ := forLoop_doubleLine src s hs
    { mem := scratch, p_dst := 0, p_src := 0, ok := true } L.toNat
  obtain ⟨-, v2, v3, v4⟩ := verticalInterpolation_spec s L hs hL (horizontalDoubling src s L scratch)
  have g1 : ∀ r : Int, 0 ≤ r → r < L → ∀ c : Int, 0 ≤ c → c < 2 * s →
      (horizontalDoubling src s L scratch).mem.data (4 * s * r + c)
        = doubledSample src.data (s * r) s c := by
    intro r hr0 hr c hc0 hc1
    have e := p4 r.toNat (by omega) c hc0 hc1
    simp only [zero_add, Int.toNat_of_nonneg hr0] at e
    exact e
  intro j hj0 hj1
  have h2s : 0 < 2 * s := by omega
  have d1 : 2 * s * (j / (2 * s)) + j % (2 * s) = j := Int.ediv_add_emod j (2 * s)
  have d2 : 0 ≤ j % (2 * s) := Int.emod_nonneg j (by omega)
  have d3 : j % (2 * s) < 2 * s := Int.emod_lt_of_pos j h2s
  have d4 : 0 ≤ j / (2 * s) := Int.ediv_nonneg hj0 (by omega)
  have d5 : j / (2 * s) < 2 * L := Int.ediv_lt_of_lt_mul h2s (by linarith)
  have hr : ((( j / (2 * s) / 2).toNat : Nat) : Int) = j / (2 * s) / 2 :=
    Int.toNat_of_nonneg (by omega)
  unfold upsampledSample
  by_cases hev : j / (2 * s) % 2 = 0
  · rw [if_pos hev]
    have hρ : j / (2 * s) = 2 * (j / (2 * s) / 2) := by omega
    have ej : j = 4 * s * (((j / (2 * s) / 2).toNat : Nat) : Int) + j % (2 * s) := by
      rw [hr]
      have : 2 * s * (j / (2 * s)) = 4 * s * (j / (2 * s) / 2) := by
        have e3 : 2 * s * (j / (2 * s)) = 2 * s * (2 * (j / (2 * s) / 2)) := by
          rw [← hρ]
        rw [e3]
        ring
      linarith
    have key : (verticalInterpolation s L (horizontalDoubling src s L scratch)).mem.data
        (4 * s * (((j / (2 * s) / 2).toNat : Nat) : Int) + j % (2 * s))
        = doubledSample src.data (s * (j / (2 * s) / 2)) s (j % (2 * s)) := by
      rw [v2 _ (by rw [hr]; omega) _ d2 d3, hr]
      exact g1 _ (by omega) (by omega) _ d2 d3
    rw [← ej] at key
    exact key
  · rw [if_neg hev]
    have hρ : j / (2 * s) = 2 * (j / (2 * s) / 2) + 1 := by omega
    have ej : j = 2 * s + 4 * s * (((j / (2 * s) / 2).toNat : Nat) : Int) + j % (2 * s) := by
      rw [hr]
      have : 2 * s * (j / (2 * s)) = 2 * s + 4 * s * (j / (2 * s) / 2) := by
        have e3 : 2 * s * (j / (2 * s)) = 2 * s * (2 * (j / (2 * s) / 2) + 1) := by
          rw [← hρ]
        rw [e3]
        ring
      linarith
    by_cases hlast : j / (2 * s) / 2 + 1 < L
    · rw [if_pos hlast]
      have key : (verticalInterpolation s L (horizontalDoubling src s L scratch)).mem.data
          (2 * s + 4 * s * (((j / (2 * s) / 2).toNat : Nat) : Int) + j % (2 * s))
          = ((doubledSample src.data (s * (j / (2 * s) / 2)) s (j % (2 * s))
            + doubledSample src.data (s * (j / (2 * s) / 2 + 1)) s (j % (2 * s))) / 2) % 256 := by
        rw [v3 _ (by rw [hr]; exact hlast) _ d2 d3, hr,
          g1 _ (by omega) (by omega) _ d2 d3]
        have e4 : 4 * s * (j / (2 * s) / 2) + j % (2 * s) + 4 * s
            = 4 * s * (j / (2 * s) / 2 + 1) + j % (2 * s) := by ring
        rw [e4, g1 _ (by omega) hlast _ d2 d3]
      rw [← ej] at key
      exact key
    · rw [if_neg hlast]
      have hL1 : j / (2 * s) / 2 = L - 1 := by omega
      have ej' : j = 2 * s + 4 * s * (L - 1) + j % (2 * s) := by
        rw [hr, hL1] at ej
        exact ej
      have key : (verticalInterpolation s L (horizontalDoubling src s L scratch)).mem.data
          (2 * s + 4 * s * (L - 1) + j % (2 * s))
          = doubledSample src.data (s * (j / (2 * s) / 2)) s (j % (2 * s)) := by
        rw [v4 _ d2 d3, hL1]
        exact g1 _ (by omega) (by omega) _ d2 d3
      rw [← ej'] at key
      exact key

/-! ## Chroma Converter: the planes of the picture -/

/-- The chroma plane `i` of the converted picture is the third pass applied to
the temporary plane the first two passes make of source plane `i`, with the
stride of plane 2 as `i_stride`. -/
theorem ffmpeg_ConvertPictureI410toI420_plane (p_pic : picture_t) (av : AVPicture)
    (i_height i_width : Int) (junk : Nat → Int → Nat) (b_alloc : Nat → Bool) (i : Nat)
    (hi : i = 1 ∨ i = 2) :
    ((ffmpeg_ConvertPictureI410toI420 p_pic av i_height i_width junk b_alloc).1.p i).p_pixels
      = (copyDown
          (verticalInterpolation (av.linesize i) (Int.tdiv i_height 4)
            (horizontalDoubling (av.data i) (av.linesize i) (Int.tdiv i_height 4)
              (p_plane (Int.tdiv i_height 4) (av.linesize i) (junk i) (b_alloc i)))).mem
          (p_pic.p i) (av.linesize 2) (Int.tdiv i_height 4)).mem := by
  rcases hi with rfl | rfl <;> rfl

/-- An offset the third pass reads lies inside the temporary plane when the
stride of plane 2 is not above the stride of the plane. -/
theorem copyDown_offset (s2 si L : Int) (y : Nat) (k : Int) (hs2 : 1 ≤ s2) (hsi : s2 ≤ si)
    (hy : (y : Int) < 2 * L) (hk0 : 0 ≤ k) (hk1 : k < 2 * s2) :
    0 ≤ 2 * s2 * y + k ∧ 2 * s2 * y + k < 4 * si * L := by
  have hy0 : (0 : Int) ≤ y := Int.ofNat_nonneg y
  have a0 : 0 ≤ s2 * (y : Int) := Int.mul_nonneg (by omega) hy0
  have a1 : s2 * ((y : Int) + 1) ≤ s2 * (2 * L) :=
    Int.mul_le_mul_of_nonneg_left (by omega) (by omega)
  have a2 : s2 * L ≤ si * L := Int.mul_le_mul_of_nonneg_right hsi (by omega)
  constructor
  · linarith
  · have e1 : s2 * ((y : Int) + 1) = s2 * y + s2 := by ring
    have e2 : s2 * (2 * L) = 2 * (s2 * L) := by ring
    have e3 : 2 * s2 * (y : Int) = 2 * (s2 * y) := by ring
    have e4 : 4 * si * L = 4 * (si * L) := by ring
    rw [e1, e2] at a1
    rw [e3, e4]
    linarith

/-- The chroma plane `i` of the converted picture, byte by byte: the bytes the
third pass writes are upsampled samples of source plane `i`, read at the row
step `2 * linesize[2]`, and every other byte of the plane is as it was. -/
theorem ffmpeg_ConvertPictureI410toI420_chroma (p_pic : picture_t) (av : AVPicture)
    (i_height i_width : Int) (junk : Nat → Int → Nat) (b_alloc : Nat → Bool) (i : Nat)
    (hi : i = 1 ∨ i = 2)
    (hL : 1 ≤ Int.tdiv i_height 4) (hs2 : 1 ≤ av.linesize 2)
    (hsi : av.linesize 2 ≤ av.linesize i) :
    (∀ y : Nat, (y : Int) < min (p_pic.p i).i_lines (2 * Int.tdiv i_height 4) →
      ∀ k : Int, 0 ≤ k → k < min (2 * av.linesize 2) (p_pic.p i).i_pitch →
      ((ffmpeg_ConvertPictureI410toI420 p_pic av i_height i_width junk b_alloc).1.p i).p_pixels.data
          ((p_pic.p i).i_pitch * y + k)
        = upsampledSample (av.data i).data (av.linesize i) (Int.tdiv i_height 4)
            (2 * av.linesize 2 * y + k)) ∧
    (∀ j, (∀ y : Nat, (y : Int) < min (p_pic.p i).i_lines (2 * Int.tdiv i_height 4) →
        ¬ ((p_pic.p i).i_pitch * y ≤ j ∧
            j < (p_pic.p i).i_pitch * y + min (2 * av.linesize 2) (p_pic.p i).i_pitch)) →
      ((ffmpeg_ConvertPictureI410toI420 p_pic av i_height i_width junk b_alloc).1.p i).p_pixels.data j
        = (p_pic.p i).p_pixels.data j) := by
  rw [ffmpeg_ConvertPictureI410toI420_plane p_pic av i_height i_width junk b_alloc i hi]
  obtain ⟨c1, c2⟩ := copyDown_spec
    (verticalInterpolation (av.linesize i) (Int.tdiv i_height 4)
      (horizontalDoubling (av.data i) (av.linesize i) (Int.tdiv i_height 4)
        (p_plane (Int.tdiv i_height 4) (av.linesize i) (junk i) (b_alloc i)))).mem
    (p_pic.p i) (av.linesize 2) (Int.tdiv i_height 4)
  refine ⟨?_, c2⟩
  intro y hy k hk0 hk1
  rw [c1 y hy k hk0 hk1]
  obtain ⟨b0, b1⟩ := copyDown_offset (av.linesize 2) (av.linesize i) (Int.tdiv i_height 4) y k
    hs2 hsi (lt_of_lt_of_le hy (min_le_right _ _)) hk0 (lt_of_lt_of_le hk1 (min_le_left _ _))
  exact scratch_spec (av.data i) (av.linesize i) (Int.tdiv i_height 4) (by omega) hL _ _ b0 b1

/-! ## Chroma Converter: a constant field -/

/-- A doubled line whose visible samples (the first `w` of the line) are `V` is
`V` in the columns `0 .. 2 w - 2`, and in column `2 w - 1` as well when the line
has no padding (`s = w`). -/
theorem doubledSample_visible (src : Int → Nat) (q s c w : Int) (V : Nat) (hV : V ≤ 255)
    (hs : 1 ≤ s) (hc0 : 0 ≤ c) (hc1 : c < 2 * s) (hvis : c < 2 * w - 1 ∨ s = w)
    (h : ∀ x, 0 ≤ x → x < w → src (q + x) = V) :
    doubledSample src q s c = V := by
  have hv : V % 256 = V := Nat.mod_eq_of_lt (by omega)
  unfold doubledSample
  split
  · split
    · rw [h _ (by omega) (by omega), hv]
    · have e : q + c / 2 + 1 = q + (c / 2 + 1) := by ring
      rw [e, h _ (by omega) (by omega), h _ (by omega) (by omega)]
      have : (V + V) / 2 = V := by omega
      rw [this, hv]
  · rw [h _ (by omega) (by omega), hv]

/-- Row and column of an offset of the temporary plane. -/
theorem row_column (s y k : Int) (hk0 : 0 ≤ k) (hk1 : k < 2 * s) :
    (2 * s * y + k) / (2 * s) = y ∧ (2 * s * y + k) % (2 * s) = k := by
  have h2s : 2 * s ≠ 0 := by omega
  have e : 2 * s * y + k = k + 2 * s * y := by ring
  rw [e, Int.add_mul_ediv_left k y h2s, Int.add_mul_emod_self_left,
    Int.ediv_eq_zero_of_lt hk0 hk1, Int.emod_eq_of_lt hk0 hk1]
  exact ⟨by omega, rfl⟩

/-- The upsampled plane of a source plane whose visible samples (`w` columns by
`L` rows) are `V` is `V` in the columns `0 .. 2 w - 2` of every row, and in
column `2 w - 1` as well when the lines have no padding. -/
theorem upsampledSample_visible (src : Int → Nat) (s L w y k : Int) (V : Nat) (hV : V ≤ 255)
    (hs : 1 ≤ s) (hy0 : 0 ≤ y) (hy1 : y < 2 * L) (hk0 : 0 ≤ k) (hk1 : k < 2 * s)
    (hvis : k < 2 * w - 1 ∨ s = w)
    (h : ∀ r x : Int, 0 ≤ r → r < L → 0 ≤ x → x < w → src (s * r + x) = V) :
    upsampledSample src s L (2 * s * y + k) = V := by
  obtain ⟨e1, e2⟩ := row_column s y k hk0 hk1
  have hv : V % 256 = V := Nat.mod_eq_of_lt (by omega)
  have line : ∀ r : Int, 0 ≤ r → r < L → doubledSample src (s * r) s k = V := fun r hr0 hr1 =>
    doubledSample_visible src (s * r) s k w V hV hs hk0 hk1 hvis (fun x hx0 hx1 => h r x hr0 hr1 hx0 hx1)
  unfold upsampledSample
  rw [e1, e2]
  split
  · exact line _ (by omega) (by omega)
  · split
    · rename_i hlast
      rw [line _ (by omega) (by omega), line _ (by omega) hlast]
      have : (V + V) / 2 = V := by omega
      rw [this, hv]
    · exact line _ (by omega) (by omega)

/-- C5 as stated fails on the code. The picture is 8 by 4, so a source chroma
plane has 2 columns and 1 row, both samples of which are 100 in both planes;
the source stride is 4 and the two bytes of padding hold 0. Every access of the
conversion is inside its buffer, and the visible area of target plane 1 (4
columns by 2 rows, pitch 4) receives 50 in column 3 of both rows: the first
pass averages the last sample of the line with the padding next to it. With 255
in the padding that column receives 177; the columns 0 to 2 are 100 both times.
When only plane 1 is padded (stride 4, the stride of plane 2 being 2), the
third pass reads its temporary plane with the stride of plane 2, and row 1 of
target plane 1 receives what the padding has become. -/
theorem constant_field_as_stated_fails :
    (∀ x : Nat, x < 2 →
      ((examplePicture410 [100, 100, 0, 0] [100, 100, 0, 0]).data 1).data x = 100) ∧
    (ffmpeg_ConvertPictureI410toI420 (exampleTarget 4)
      (examplePicture410 [100, 100, 0, 0] [100, 100, 0, 0]) 4 8 (fun _ _ => 7)
        (fun _ => true)).2 = true ∧
    ((ffmpeg_ConvertPictureI410toI420 (exampleTarget 4)
      (examplePicture410 [100, 100, 0, 0] [100, 100, 0, 0]) 4 8 (fun _ _ => 7)
        (fun _ => true)).1.p 1).p_pixels.toList 8
      = [100, 100, 100, 50, 100, 100, 100, 50] ∧
    ((ffmpeg_ConvertPictureI410toI420 (exampleTarget 4)
      (examplePicture410 [100, 100, 255, 255] [100, 100, 255, 255]) 4 8 (fun _ _ => 7)
        (fun _ => true)).1.p 1).p_pixels.toList 8
      = [100, 100, 100, 177, 100, 100, 100, 177] ∧
    ((ffmpeg_ConvertPictureI410toI420 (exampleTarget 4)
      (examplePicture410 [100, 100, 0, 0] [100, 100]) 4 8 (fun _ _ => 7)
        (fun _ => true)).1.p 1).p_pixels.toList 8
      = [100, 100, 100, 50, 0, 0, 0, 0] := by
  decide

/-- C5, amended: with padding in the stride, the last visible column is
averaged with the padding. Let the two chroma planes have the same stride
`linesize[i] = linesize[2] >= 1` and at least one line, and let all samples of
source chroma plane `i` (1 or 2), `width / 4` columns by `height / 4` rows, be
`V`, with `V` in 0..255; the padding is arbitrary. Then every byte that
`ffmpeg_ConvertPictureI410toI420` writes into plane `i` of the picture (the
bytes `0 .. min(2 * linesize[2], pitch) - 1` of the rows
`0 .. min(lines, 2 * (height / 4)) - 1`) in a column `0 .. 2 * (width / 4) - 2`
is `V`, and so is the byte in column `2 * (width / 4) - 1` when the stride is
`width / 4` (no padding). With padding, that column holds in every even row
`2 r` the average, rounded down, of `V` and the padding byte next to source row
`r` (as a byte). Every other byte of the plane is as it was. -/
theorem constant_field_preserved (p_pic : picture_t) (av : AVPicture)
    (i_height i_width : Int) (junk : Nat → Int → Nat) (b_alloc : Nat → Bool) (i : Nat)
    (hi : i = 1 ∨ i = 2) (V : Nat) (hV : V ≤ 255)
    (hL : 1 ≤ Int.tdiv i_height 4) (hs2 : 1 ≤ av.linesize 2)
    (heq : av.linesize i = av.linesize 2)
    (hsrc : ∀ r x : Int, 0 ≤ r → r < Int.tdiv i_height 4 → 0 ≤ x → x < Int.tdiv i_width 4 →
      (av.data i).data (av.linesize i * r + x) = V) :
    (∀ y : Nat, (y : Int) < min (p_pic.p i).i_lines (2 * Int.tdiv i_height 4) →
      ∀ k : Int, 0 ≤ k → k < min (2 * av.linesize 2) (p_pic.p i).i_pitch →
      (k < 2 * Int.tdiv i_width 4 - 1 ∨ av.linesize i = Int.tdiv i_width 4) →
      ((ffmpeg_ConvertPictureI410toI420 p_pic av i_height i_width junk b_alloc).1.p i).p_pixels.data
          ((p_pic.p i).i_pitch * y + k) = V) ∧
    (∀ r : Nat, ((2 * r : Nat) : Int) < min (p_pic.p i).i_lines (2 * Int.tdiv i_height 4) →
      1 ≤ Int.tdiv i_width 4 → Int.tdiv i_width 4 < av.linesize i →
      2 * Int.tdiv i_width 4 - 1 < (p_pic.p i).i_pitch →
      ((ffmpeg_ConvertPictureI410toI420 p_pic av i_height i_width junk b_alloc).1.p i).p_pixels.data
          ((p_pic.p i).i_pitch * ((2 * r : Nat) : Int) + (2 * Int.tdiv i_width 4 - 1))
        = ((V + (av.data i).data (av.linesize i * r + Int.tdiv i_width 4)) / 2) % 256) ∧
    (∀ j, (∀ y : Nat, (y : Int) < min (p_pic.p i).i_lines (2 * Int.tdiv i_height 4) →
        ¬ ((p_pic.p i).i_pitch * y ≤ j ∧
            j < (p_pic.p i).i_pitch * y + min (2 * av.linesize 2) (p_pic.p i).i_pitch)) →
      ((ffmpeg_ConvertPictureI410toI420 p_pic av i_height i_width junk b_alloc).1.p i).p_pixels.data j
        = (p_pic.p i).p_pixels.data j) := by
  obtain ⟨t1, t2⟩ := ffmpeg_ConvertPictureI410toI420_chroma p_pic av i_height i_width junk
    b_alloc i hi hL hs2 (le_of_eq heq.symm)
  have hs : 1 ≤ av.linesize i := by omega
  refine ⟨?_, ?_, t2⟩
  · intro y hy k hk0 hk1 hvis
    rw [t1 y hy k hk0 hk1, ← heq]
    have hk2 : k < 2 * av.linesize i := by
      rw [heq]
      exact lt_of_lt_of_le hk1 (min_le_left _ _)
    exact upsampledSample_visible (av.data i).data (av.linesize i) (Int.tdiv i_height 4)
      (Int.tdiv i_width 4) y k V hV hs (Int.ofNat_nonneg y)
      (lt_of_lt_of_le hy (min_le_right _ _)) hk0 hk2 hvis hsrc
  · intro r hy hw hpad hpitch
    have hk1 : 2 * Int.tdiv i_width 4 - 1 < min (2 * av.linesize 2) (p_pic.p i).i_pitch := by
      rw [← heq]
      exact lt_min (by omega) hpitch
    rw [t1 (2 * r) hy _ (by omega) hk1, ← heq]
    obtain ⟨e1, e2⟩ := row_column (av.linesize i) ((2 * r : Nat) : Int)
      (2 * Int.tdiv i_width 4 - 1) (by omega) (by omega)
    have hc : ((2 * r : Nat) : Int) = 2 * (r : Int) := by push_cast; rfl
    have hy2 : ((2 * r : Nat) : Int) < 2 * Int.tdiv i_height 4 :=
      lt_of_lt_of_le hy (min_le_right _ _)
    have hr0 : (0 : Int) ≤ r := Int.ofNat_nonneg r
    unfold upsampledSample
    rw [e1, e2, hc, if_pos (by omega)]
    have e3 : 2 * (r : Int) / 2 = r := by omega
    rw [e3]
    unfold doubledSample
    rw [if_pos (by omega), if_neg (by omega)]
    have e4 : (2 * Int.tdiv i_width 4 - 1) / 2 = Int.tdiv i_width 4 - 1 := by omega
    rw [e4]
    have e5 : av.linesize i * (r : Int) + (Int.tdiv i_width 4 - 1) + 1
        = av.linesize i * r + Int.tdiv i_width 4 := by ring
    rw [e5, hsrc r (Int.tdiv i_width 4 - 1) hr0 (by omega) (by omega) (by omega)]

/-- C5, on the 8 by 4 picture whose chroma planes have the stride 4, hold 100
in their 2 samples and 0 in the 2 bytes of padding: the columns 0 to 2 of both
rows of target plane 1 (pitch 4) are 100, and column 3 of row 0 is
`(100 + 0) / 2`. -/
theorem constant_field_preserved_witness :
    (∀ y : Nat, (y : Int) < min ((exampleTarget 4).p 1).i_lines (2 * Int.tdiv 4 4) →
      ∀ k : Int, 0 ≤ k →
      k < min (2 * (examplePicture410 [100, 100, 0, 0] [100, 100, 0, 0]).linesize 2)
        ((exampleTarget 4).p 1).i_pitch →
      (k < 2 * Int.tdiv 8 4 - 1 ∨
        (examplePicture410 [100, 100, 0, 0] [100, 100, 0, 0]).linesize 1 = Int.tdiv 8 4) →
      ((ffmpeg_ConvertPictureI410toI420 (exampleTarget 4)
        (examplePicture410 [100, 100, 0, 0] [100, 100, 0, 0]) 4 8 (fun _ _ => 7)
          (fun _ => true)).1.p 1).p_pixels.data
          (((exampleTarget 4).p 1).i_pitch * y + k) = 100) ∧
    ((ffmpeg_ConvertPictureI410toI420 (exampleTarget 4)
      (examplePicture410 [100, 100, 0, 0] [100, 100, 0, 0]) 4 8 (fun _ _ => 7)
        (fun _ => true)).1.p 1).p_pixels.data
        (((exampleTarget 4).p 1).i_pitch * ((2 * 0 : Nat) : Int) + (2 * Int.tdiv 8 4 - 1))
      = ((100 + ((examplePicture410 [100, 100, 0, 0] [100, 100, 0, 0]).data 1).data
          ((examplePicture410 [100, 100, 0, 0] [100, 100, 0, 0]).linesize 1 * (0 : Nat)
            + Int.tdiv 8 4)) / 2) % 256 :=
  ⟨(constant_field_preserved (exampleTarget 4)
      (examplePicture410 [100, 100, 0, 0] [100, 100, 0, 0]) 4 8 (fun _ _ => 7) (fun _ => true) 1
      (Or.inl rfl) 100 (by decide) (by decide) (by decide) (by decide)
      (by
        intro r x hr0 hr1 hx0 hx1
        have e1 : Int.tdiv 4 4 = 1 := by decide
        have e2 : Int.tdiv 8 4 = 2 := by decide
        rw [e1] at hr1
        rw [e2] at hx1
        have hr : r = 0 := by omega
        have hx : x = 0 ∨ x = 1 := by omega
        subst hr
        rcases hx with rfl | rfl <;> rfl)).1,
   (constant_field_preserved (exampleTarget 4)
      (examplePicture410 [100, 100, 0, 0] [100, 100, 0, 0]) 4 8 (fun _ _ => 7) (fun _ => true) 1
      (Or.inl rfl) 100 (by decide) (by decide) (by decide) (by decide)
      (by
        intro r x hr0 hr1 hx0 hx1
        have e1 : Int.tdiv 4 4 = 1 := by decide
        have e2 : Int.tdiv 8 4 = 2 := by decide
        rw [e1] at hr1
        rw [e2] at hx1
        have hr : r = 0 := by omega
        have hx : x = 0 ∨ x = 1 := by omega
        subst hr
        rcases hx with rfl | rfl <;> rfl)).2.1 0 (by decide) (by decide) (by decide)
      (by decide)⟩

/-! ## Chroma Converter: the size of the plane produced -/

/-- The first call of `pullFrame` is `input_ExtractPES`, answered by the first
packet of the source or by `NULL`. -/
theorem pullFrame_head (pes : List pes_packet_t) (s : vdec_thread_t) :
    ∃ rest, (pullFrame pes s).1.log = s.log ++ Event.input_ExtractPES pes.head? :: rest := by
  cases pes with
  | nil => exact ⟨[], rfl⟩
  | cons p tl =>
    unfold pullFrame
    dsimp only
    by_cases hp : p.i_pes_size > 0
    · rw [if_pos hp]
      refine ⟨[.GetPESData, .input_DeletePES], ?_⟩
      split <;> simp [vdec_thread_t.emit]
    · rw [if_neg hp]
      obtain ⟨d, hd, -⟩ := (pullFrame_quiet (K := fun _ => True) trivial tl
        (({ s.emit (.input_ExtractPES (some p)) with pts := p.i_pts }).emit .input_DeletePES)
        (Pulled.prefl _ _)).1
      refine ⟨.input_DeletePES :: d, ?_⟩
      rw [hd]
      show ((_ ++ [_]) ++ [_]) ++ d = _
      simp

/-- What `decodeFrame` records continues what its `pullFrame` has recorded. -/
theorem decodeFrame_after_pull (c : Consts) (s : vdec_thread_t) (o : Oracle) (d : Int) :
    LogExt (fun _ => True) (pullFrame o.pes s).1 (decodeFrame c s o d) := by
  cases h : (pullFrame o.pes s).2 with
  | none =>
    have e : decodeFrame c s o d = (pullFrame o.pes s).1 := by
      unfold decodeFrame
      dsimp only
      rw [h]
    exact LogExt.of_log_eq (by rw [e])
  | some sz =>
    exact (avcodec_decode_video_log (K := fun _ => True) c _ o sz trivial trivial trivial
      trivial trivial).1.ltrans (decodeFrame_extends c s o d sz h)

/-- Every call of `decodeFrame` begins with a call of `input_ExtractPES`. -/
theorem decodeFrame_head (c : Consts) (s : vdec_thread_t) (o : Oracle) (d : Int) :
    ∃ rest, emitted s (decodeFrame c s o d) = Event.input_ExtractPES o.pes.head? :: rest := by
  obtain ⟨r1, h1⟩ := pullFrame_head o.pes s
  obtain ⟨r2, h2, -⟩ := decodeFrame_after_pull c s o d
  refine ⟨r1 ++ r2, ?_⟩
  apply emitted_eq_of_log
  rw [h2, h1]
  simp

/-- C11. With hurry enabled and a counter `c >= 8` the call of
`DecodeThread_Video` makes exactly one call, `input_ExtractPES( p_fifo, NULL )`,
which pulls one coded frame from the source and discards it: the decoder is not
called, nothing is presented, the counter becomes exactly `c - 1`, and nothing
else of the state changes, in particular not the video output, the window, the
link counts and the error flag. Every other call begins by pulling from the
source with `input_ExtractPES`, which answers with the first packet the source
has. -/
theorem skip_path (c : Consts) (s : vdec_thread_t) (o : Oracle) (hr : inInt32 s.i_frame_late) :
    (s.b_hurry_up ≠ 0 ∧ 8 ≤ s.i_frame_late →
      DecodeThread_Video c s o
        = { s with i_frame_late := s.i_frame_late - 1,
                   log := s.log ++ [.input_ExtractPES_discard] } ∧
      emitted s (DecodeThread_Video c s o) = [.input_ExtractPES_discard] ∧
      decoded (emitted s (DecodeThread_Video c s o)) = false ∧
      presented (emitted s (DecodeThread_Video c s o)) = false ∧
      (DecodeThread_Video c s o).i_frame_late = s.i_frame_late - 1 ∧
      (DecodeThread_Video c s o).p_vout = s.p_vout ∧
      SameWindow s (DecodeThread_Video c s o) ∧
      (DecodeThread_Video c s o).b_error = s.b_error) ∧
    (¬ (s.b_hurry_up ≠ 0 ∧ 8 ≤ s.i_frame_late) →
      ∃ rest, emitted s (DecodeThread_Video c s o)
        = Event.input_ExtractPES o.pes.head? :: rest) := by
  constructor
  · rintro ⟨hh, hc⟩
    have hw : wrap32 (s.i_frame_late - 1) = s.i_frame_late - 1 := by
      apply wrap32_of_inInt32
      unfold inInt32 at hr ⊢
      omega
    have e : DecodeThread_Video c s o
        = { s with i_frame_late := s.i_frame_late - 1,
                   log := s.log ++ [.input_ExtractPES_discard] } := by
      unfold DecodeThread_Video
      rw [if_pos ⟨hh, by omega⟩, if_neg (by omega), hw]
      rfl
    have el : emitted s (DecodeThread_Video c s o) = [.input_ExtractPES_discard] :=
      emitted_eq_of_log (by rw [e])
    refine ⟨e, el, ?_, ?_, ?_, ?_, ?_, ?_⟩
    · rw [el]; rfl
    · rw [el]; rfl
    · rw [e]
    · rw [e]
    · rw [e]; exact ⟨rfl, rfl, rfl⟩
    · rw [e]
  · intro hn
    unfold DecodeThread_Video
    by_cases h1 : s.b_hurry_up ≠ 0 ∧ s.i_frame_late > 4
    · rw [if_pos h1]
      have h2 : s.i_frame_late < 8 := by
        by_contra h3
        exact hn ⟨h1.1, by omega⟩
      rw [if_pos h2]
      exact decodeFrame_head c { s with hurry_up := 2 } o 0
    · rw [if_neg h1]
      exact decodeFrame_head c { s with hurry_up := 0 } o 1

/-- C11, on a thread whose counter is 8: the call discards one frame and leaves
the counter at 7; with the counter at 7 the call begins by pulling the packet
of the source. -/
theorem skip_path_witness :
    emitted { exampleThread with i_frame_late := 8 }
        (DecodeThread_Video stdConsts { exampleThread with i_frame_late := 8 } (exampleFrame 7))
      = [.input_ExtractPES_discard] ∧
    (DecodeThread_Video stdConsts { exampleThread with i_frame_late := 8 }
      (exampleFrame 7)).i_frame_late = 7 ∧
    (∃ rest, emitted { exampleThread with i_frame_late := 7 }
        (DecodeThread_Video stdConsts { exampleThread with i_frame_late := 7 } (exampleFrame 7))
      = Event.input_ExtractPES (some { i_pts := 0, i_pes_size := 100 }) :: rest) :=
  ⟨((skip_path stdConsts { exampleThread with i_frame_late := 8 } (exampleFrame 7)
      (by decide)).1 ⟨by decide, by decide⟩).2.1,
   ((skip_path stdConsts { exampleThread with i_frame_late := 8 } (exampleFrame 7)
      (by decide)).1 ⟨by decide, by decide⟩).2.2.2.2.1,
   (skip_path stdConsts { exampleThread with i_frame_late := 7 } (exampleFrame 7)
      (by decide)).2 (by decide)⟩

/-! ## Cancellation of the acquisition -/

theorem Framed.fsame (s : vdec_thread_t) : Framed s s := rfl

theorem Framed.fstep {s s' x : vdec_thread_t} (h : Framed s s')
    (hx : x = { s' with undef := x.undef, log := x.log }) : Framed s x := by
  unfold Framed at h ⊢
  rw [hx, h]

theorem Framed.flags {s s' : vdec_thread_t} (h : Framed s s') :
    s'.b_die = s.b_die ∧ s'.b_error = s.b_error ∧ s'.p_vout = s.p_vout ∧
    SamePolicy s s' ∧ SameWindow s s' ∧ SameFrame s s' := by
  unfold Framed at h
  have e1 := congrArg vdec_thread_t.b_die h
  have e2 := congrArg vdec_thread_t.b_error h
  have e3 := congrArg vdec_thread_t.p_vout h
  have a1 := congrArg vdec_thread_t.b_hurry_up h
  have a2 := congrArg vdec_thread_t.i_frame_late h
  have a3 := congrArg vdec_thread_t.i_frame_error h
  have a4 := congrArg vdec_thread_t.b_direct_rendering h
  have a5 := congrArg vdec_thread_t.i_pp_mode h
  have a6 := congrArg vdec_thread_t.p_pp h
  have a7 := congrArg vdec_thread_t.hurry_up h
  have w1 := congrArg vdec_thread_t.p_lastpic h
  have w2 := congrArg vdec_thread_t.p_secondlastpic h
  have w3 := congrArg vdec_thread_t.i_refcount h
  have f1 := congrArg vdec_thread_t.width h
  have f2 := congrArg vdec_thread_t.height h
  have f3 := congrArg vdec_thread_t.aspect_ratio_info h
  have f4 := congrArg vdec_thread_t.pix_fmt h
  have f5 := congrArg vdec_thread_t.pts h
  exact ⟨e1, e2, e3, ⟨a1, a2, a3, a4, a5, a6, a7⟩, ⟨w1, w2, w3⟩, ⟨f1, f2, f3, f4, f5⟩⟩

/-- The negotiation changes nothing of the thread but the log (and `undef`). -/
theorem ffmpeg_CreateVout_framed (c : Consts) {s0 s : vdec_thread_t} (o : Oracle)
    (w h a ch : Int) (hq : Framed s0 s) : Framed s0 (ffmpeg_CreateVout c s o w h a ch).1 := by
  unfold ffmpeg_CreateVout
  by_cases h0 : w = 0 ∨ h = 0
  · rw [if_pos h0]; exact hq
  · rw [if_neg h0]
    dsimp only
    cases hA : ffmpeg_FfAspect c w h a with
    | none => exact hq.fstep rfl
    | some asp =>
      dsimp only
      have key : ∀ (s1 : vdec_thread_t) (p : Option vout_thread_t), Framed s0 s1 →
          Framed s0 (match p with
            | none => spawnVout s1 o w h (if ch = 0 then c.VLC_FOURCC 'I' '4' '2' '0' else ch) asp
            | some v =>
              match ffmpeg_CheckVout c (some v) w h asp
                  (if ch = 0 then c.VLC_FOURCC 'I' '4' '2' '0' else ch) with
              | none => ({ s1 with undef := true }, none)
              | some r =>
                if r = 0 then
                  spawnVout
                    (((s1.emit (.vlc_object_detach v)).emit (.vlc_object_release v)).emit
                      (.vout_DestroyThread v))
                    o w h (if ch = 0 then c.VLC_FOURCC 'I' '4' '2' '0' else ch) asp
                else
                  (((s1.emit (.vlc_object_detach v)).emit (.vlc_object_attach v)).emit
                    (.vlc_object_release v), some v)).1 := by
        intro s1 p h1
        cases p with
        | none => exact h1.fstep rfl
        | some v =>
          dsimp only
          cases ffmpeg_CheckVout c (some v) w h asp
              (if ch = 0 then c.VLC_FOURCC 'I' '4' '2' '0' else ch) with
          | none => exact h1.fstep rfl
          | some r =>
            dsimp only
            by_cases hr : r = 0
            · rw [if_pos hr]
              exact h1.fstep rfl
            · rw [if_neg hr]
              exact h1.fstep rfl
      cases hc : o.child with
      | some v' => exact key (s.emit (.vlc_object_find (some v'))) (some v') (hq.fstep rfl)
      | none =>
        exact key ((s.emit (.vlc_object_find none)).emit (.vlc_object_find o.anywhere))
          o.anywhere (hq.fstep rfl)

/-- When the block "Check our vout" lets the caller go on, it has not touched
the flags of the fifo. -/
theorem checkOurVout_flags (c : Consts) (s : vdec_thread_t) (o : Oracle)
    (h : (checkOurVout c s o).2 = true) :
    (checkOurVout c s o).1.b_die = s.b_die ∧ (checkOurVout c s o).1.b_error = s.b_error := by
  have hf := fun ch => (ffmpeg_CreateVout_framed c o s.width s.height s.aspect_ratio_info ch
    (Framed.fsame s)).flags
  unfold checkOurVout at h ⊢
  cases hp : ffmpeg_PixFmtToChroma c s.pix_fmt with
  | none => rw [hp] at h; simp at h
  | some ch =>
    rw [hp] at h
    dsimp only at h ⊢
    cases hk : ffmpeg_CheckVout c s.p_vout s.width s.height s.aspect_ratio_info ch with
    | none => rw [hk] at h; simp at h
    | some r =>
      rw [hk] at h
      dsimp only at h ⊢
      by_cases hr : r = 0
      · rw [if_pos hr] at h ⊢
        have hf' := hf ch
        generalize ffmpeg_CreateVout c s o s.width s.height s.aspect_ratio_info ch = sv
          at h hf' ⊢
        obtain ⟨x, pv⟩ := sv
        dsimp only at h hf' ⊢
        cases hu : x.undef
        · cases pv with
          | none => simp [hu] at h
          | some v => simpa [hu] using And.intro hf'.1 hf'.2.1
        · simp [hu] at h
      · rw [if_neg hr]
        exact ⟨rfl, rfl⟩

/-- A loop "Get a new picture" that finds a flag set at its retry `n` returns at
that retry: it has made `n + 1` unsuccessful requests and `n` waits, hands out
no picture, and leaves a flag set. -/
theorem getNewPicture_cancel (site : Site) (p_pic : Nat) (misses : List Attempt) :
    ∀ (s : vdec_thread_t) (n : Nat), firstCancel s.b_die s.b_error misses = some n →
      (getNewPicture site misses p_pic s).2 = none ∧
      (getNewPicture site misses p_pic s).1.log = s.log ++ retries site n ∧
      ((getNewPicture site misses p_pic s).1.b_die = true ∨
        (getNewPicture site misses p_pic s).1.b_error = true) := by
  induction misses with
  | nil =>
    intro s n h
    exact absurd h (by simp [firstCancel])
  | cons a rest ih =>
    intro s n h
    unfold firstCancel at h
    unfold getNewPicture
    dsimp only
    by_cases hc : ((s.b_die || a.b_die) || (s.b_error || a.b_error)) = true
    · rw [if_pos hc] at h
      rw [if_pos hc]
      have hn : n = 0 := by
        simp only [Option.some.injEq] at h
        exact h.symm
      subst hn
      refine ⟨rfl, rfl, ?_⟩
      simp only [Bool.or_eq_true] at hc ⊢
      tauto
    · rw [if_neg hc] at h
      rw [if_neg hc]
      cases hm : firstCancel (s.b_die || a.b_die) (s.b_error || a.b_error) rest with
      | none => rw [hm] at h; exact absurd h (by simp)
      | some m =>
        rw [hm] at h
        simp only [Option.map_some', Option.some.injEq] at h
        subst h
        obtain ⟨i1, i2, i3⟩ := ih
          (({ s.emit (.vout_CreatePicture site none) with
              b_die := s.b_die || a.b_die, b_error := s.b_error || a.b_error }).emit .msleep)
          m hm
        refine ⟨i1, ?_, i3⟩
        rw [i2]
        show ((s.log ++ [_]) ++ [_]) ++ retries site m = s.log ++ retries site (m + 1)
        simp [retries]

/-- In indirect mode the part of `DecodeThread_Video` before the presentation
leaves the window alone. -/
theorem decodeFrame_nodraw_window (c : Consts) (s : vdec_thread_t) (o : Oracle)
    (hdr : s.b_direct_rendering = 0) (hu : s.undef = false)
    (hf : ∃ p ∈ o.pes, 0 < p.i_pes_size) (hs : 0 ≤ o.i_status) :
    SameWindow s (decodeFrame c s o 0) := by
  obtain ⟨p, -, -, hsz, -⟩ := pullFrame_some o.pes hf s
  rw [decodeFrame_nodraw_indirect c s o _ hsz hdr hu hs, updateFrameLate_eq]
  have hp := (pullFrame_quiet (K := fun _ => True) trivial o.pes s (Pulled.prefl _ s)).2.2.1
  exact ⟨hp.1, hp.2.1, hp.2.2⟩

/-- A cancelled acquisition in the callback: what `ffmpeg_GetFrameBuf` returns. -/
theorem ffmpeg_GetFrameBuf_cancel (c : Consts) (s : vdec_thread_t) (o : Oracle) (n : Nat)
    (hv : (checkOurVout c s o).2 = true)
    (hn : firstCancel s.b_die s.b_error o.misses = some n) :
    ffmpeg_GetFrameBuf c s o
        = ((getNewPicture .callback o.misses o.p_pic (checkOurVout c s o).1).1, -1) ∧
    (getNewPicture .callback o.misses o.p_pic (checkOurVout c s o).1).1.log
        = (checkOurVout c s o).1.log ++ retries .callback n := by
  have hfl := checkOurVout_flags c s o hv
  have hc := getNewPicture_cancel .callback o.p_pic o.misses (checkOurVout c s o).1 n
    (by rw [hfl.1, hfl.2]; exact hn)
  refine ⟨?_, hc.2.1⟩
  unfold ffmpeg_GetFrameBuf
  dsimp only
  rw [if_neg (by rw [hv]; decide), hc.1]

/-- A cancelled acquisition in indirect mode: what `presentPicture` returns. -/
theorem presentPicture_cancel (c : Consts) (x : vdec_thread_t) (o : Oracle) (n : Nat)
    (hdr : x.b_direct_rendering = 0) (hv : (checkOurVout c x o).2 = true)
    (hn : firstCancel x.b_die x.b_error o.misses = some n) :
    presentPicture c x o
        = (getNewPicture .orchestrator o.misses o.p_pic (checkOurVout c x o).1).1 ∧
    (getNewPicture .orchestrator o.misses o.p_pic (checkOurVout c x o).1).1.log
        = (checkOurVout c x o).1.log ++ retries .orchestrator n := by
  have hfl := checkOurVout_flags c x o hv
  have hc := getNewPicture_cancel .orchestrator o.p_pic o.misses (checkOurVout c x o).1 n
    (by rw [hfl.1, hfl.2]; exact hn)
  refine ⟨?_, hc.2.1⟩
  unfold presentPicture
  rw [if_pos hdr]
  dsimp only
  rw [if_neg (by rw [hv]; decide), hc.1]

/-- From "Check our vout" through a loop "Get a new picture" no picture is
linked, transferred or presented, and the window stays as it is. -/
theorem acquire_keeps_window (c : Consts) (x : vdec_thread_t) (o : Oracle) (site : Site) :
    LogExt (fun k => k ≠ .link ∧ k ≠ .transfer ∧ k ≠ .present) x
      (getNewPicture site o.misses o.p_pic (checkOurVout c x o).1).1 ∧
    SameWindow x (getNewPicture site o.misses o.p_pic (checkOurVout c x o).1).1 := by
  have m1 := checkOurVout_mild (K := fun k => k ≠ .link ∧ k ≠ .transfer ∧ k ≠ .present)
    ⟨by decide, by decide, by decide⟩ c o (Mild.mrefl _ x)
  have q1 := getNewPicture_quiet (K := fun k => k ≠ .link ∧ k ≠ .transfer ∧ k ≠ .present) site
    (by cases site <;> exact ⟨by decide, by decide, by decide⟩)
    ⟨by decide, by decide, by decide⟩ o.misses o.p_pic (checkOurVout c x o).1 (Quiet.qrefl _ _)
  exact ⟨m1.1.ltrans q1.1, m1.2.2.1.wintrans q1.2.2.1⟩

/-- C12 as stated fails on the code. In direct mode the window holds the
pictures 9 and 8, each linked once, from earlier frames. The next call of
`ffmpeg_GetFrameBuf` finds no free picture and, at its second request, `b_die`
set: it returns -1 at that request, and the pictures 8 and 9 are still linked
afterwards, so buffers are left referenced. -/
theorem cancellation_as_stated_fails :
    firstCancel windowThread.b_die windowThread.b_error shutdownFrame.misses = some 1 ∧
    (ffmpeg_GetFrameBuf stdConsts windowThread shutdownFrame).2 = -1 ∧
    (ffmpeg_GetFrameBuf stdConsts windowThread shutdownFrame).1.p_lastpic = some 9 ∧
    (ffmpeg_GetFrameBuf stdConsts windowThread shutdownFrame).1.p_secondlastpic = some 8 ∧
    (ffmpeg_GetFrameBuf stdConsts windowThread shutdownFrame).1.i_refcount 9 = 1 ∧
    (ffmpeg_GetFrameBuf stdConsts windowThread shutdownFrame).1.i_refcount 8 = 1 := by
  decide

/-- C12, amended: a cancelled acquisition leaves every link count as it was,
which is zero only for buffers that were not referenced before. Let the loop
"Get a new picture" find `b_die` or `b_error` set at its retry `n`, after an
unsuccessful request. In direct mode `ffmpeg_GetFrameBuf`, once its video output
is checked, makes `n + 1` unsuccessful requests and `n` waits and returns -1; in
indirect mode `DecodeThread_Video`, when it has a picture to draw and its video
output is checked, makes the same calls and returns without presenting. In both
modes the call links, transfers and presents no picture, and the window and the
link count of every picture are as before the call. -/
theorem cancellation (c : Consts) (s : vdec_thread_t) (o : Oracle) (n : Nat)
    (hn : firstCancel s.b_die s.b_error o.misses = some n) :
    ((checkOurVout c s o).2 = true →
      (ffmpeg_GetFrameBuf c s o).2 = -1 ∧
      (ffmpeg_GetFrameBuf c s o).1.log = (checkOurVout c s o).1.log ++ retries .callback n ∧
      (∀ e ∈ emitted s (ffmpeg_GetFrameBuf c s o).1,
        e.kind ≠ .link ∧ e.kind ≠ .transfer ∧ e.kind ≠ .present) ∧
      SameWindow s (ffmpeg_GetFrameBuf c s o).1) ∧
    ((s.b_hurry_up = 0 ∨ s.i_frame_late ≤ 4) → s.b_direct_rendering = 0 → s.undef = false →
      (∃ p ∈ o.pes, 0 < p.i_pes_size) → 0 ≤ o.i_status → o.b_gotpicture ≠ 0 →
      o.linesize0 ≠ 0 →
      (checkOurVout c (decodeFrame c { s with hurry_up := 0 } o 0) o).2 = true →
      (DecodeThread_Video c s o).log
        = (checkOurVout c (decodeFrame c { s with hurry_up := 0 } o 0) o).1.log
            ++ retries .orchestrator n ∧
      presented (emitted s (DecodeThread_Video c s o)) = false ∧
      (∀ e ∈ emitted s (DecodeThread_Video c s o),
        e.kind ≠ .link ∧ e.kind ≠ .transfer ∧ e.kind ≠ .present) ∧
      SameWindow s (DecodeThread_Video c s o)) := by
  constructor
  · intro hv
    obtain ⟨e1, e2⟩ := ffmpeg_GetFrameBuf_cancel c s o n hv hn
    obtain ⟨a1, a2⟩ := acquire_keeps_window c s o .callback
    rw [e1]
    exact ⟨rfl, e2, forall_emitted a1, a2⟩
  · intro hreg hdr hu hf hs hg hl hv
    obtain ⟨x, e1, e2, -, -, -, -, -, -, hxdr, hxe, hxd, hlog⟩ :=
      DecodeThread_Video_draw_indirect c s o hreg hdr hu hf hs hg hl
    subst e2
    have hw0 := decodeFrame_nodraw_window c { s with hurry_up := 0 } o hdr hu hf hs
    have hw : SameWindow s (decodeFrame c { s with hurry_up := 0 } o 0) :=
      ⟨hw0.1, hw0.2.1, hw0.2.2⟩
    obtain ⟨p1, p2⟩ := presentPicture_cancel c _ o n hxdr hv (by rw [hxd, hxe]; exact hn)
    obtain ⟨a1, a2⟩ := acquire_keeps_window c (decodeFrame c { s with hurry_up := 0 } o 0) o
      .orchestrator
    have hl1 : LogExt (fun k => k ≠ .link ∧ k ≠ .transfer ∧ k ≠ .present) s
        (decodeFrame c { s with hurry_up := 0 } o 0) := by
      apply hlog.weaken
      intro k hk
      rcases hk with rfl | ⟨h, rfl⟩
      · exact ⟨by decide, by decide, by decide⟩
      · exact ⟨fun h => Kind.noConfusion h, fun h => Kind.noConfusion h,
          fun h => Kind.noConfusion h⟩
    have hall := forall_emitted (hl1.ltrans a1)
    rw [e1, p1]
    exact ⟨p2, presented_false (fun e he => (hall e he).2.2), hall, hw.wintrans a2⟩

/-- C12, on the thread whose window holds the pictures 9 and 8, in direct mode,
and on a fresh thread in indirect mode, with `b_die` raised before the second
request: the callback returns -1 after two requests and one wait, the
per-frame call presents nothing, and the window is as before. -/
theorem cancellation_witness :
    ((ffmpeg_GetFrameBuf stdConsts windowThread shutdownFrame).2 = -1 ∧
      (ffmpeg_GetFrameBuf stdConsts windowThread shutdownFrame).1.log
        = (checkOurVout stdConsts windowThread shutdownFrame).1.log ++ retries .callback 1 ∧
      (∀ e ∈ emitted windowThread (ffmpeg_GetFrameBuf stdConsts windowThread shutdownFrame).1,
        e.kind ≠ .link ∧ e.kind ≠ .transfer ∧ e.kind ≠ .present) ∧
      SameWindow windowThread (ffmpeg_GetFrameBuf stdConsts windowThread shutdownFrame).1) ∧
    (presented (emitted exampleThread (DecodeThread_Video stdConsts exampleThread shutdownFrame))
        = false ∧
      SameWindow exampleThread (DecodeThread_Video stdConsts exampleThread shutdownFrame)) :=
  ⟨(cancellation stdConsts windowThread shutdownFrame 1 (by decide)).1 (by decide),
   ⟨((cancellation stdConsts exampleThread shutdownFrame 1 (by decide)).2 (by decide)
      (by decide) (by decide) ⟨_, List.mem_singleton.2 rfl, by decide⟩ (by decide) (by decide)
      (by decide) (by decide)).2.1,
    ((cancellation stdConsts exampleThread shutdownFrame 1 (by decide)).2 (by decide)
      (by decide) (by decide) ⟨_, List.mem_singleton.2 rfl, by decide⟩ (by decide) (by decide)
      (by decide) (by decide)).2.2.2⟩⟩

/-! ## After the decoder has returned -/

/-- A call that does not take the skip path is `decodeFrame` with the hurry
setting and the draw flag the lateness decision has chosen. -/
theorem DecodeThread_Video_noskip (c : Consts) (s : vdec_thread_t) (o : Oracle)
    (h : s.b_hurry_up = 0 ∨ s.i_frame_late < 8) :
    ∃ hu d, DecodeThread_Video c s o = decodeFrame c { s with hurry_up := hu } o d := by
  unfold DecodeThread_Video
  by_cases h1 : s.b_hurry_up ≠ 0 ∧ s.i_frame_late > 4
  · rw [if_pos h1]
    have h2 : s.i_frame_late < 8 := by
      rcases h with h | h
      · exact absurd h h1.1
      · exact h
    rw [if_pos h2]
    exact ⟨2, 0, rfl⟩
  · rw [if_neg h1]
    exact ⟨0, 1, rfl⟩

/-- When the decoder makes no use of the callback, it changes the reported
geometry only. -/
theorem avcodec_decode_video_nocallback (c : Consts) (s : vdec_thread_t) (o : Oracle)
    (sz : Int) (h : s.b_direct_rendering = 0 ∨ o.dec_getbuf = false) :
    avcodec_decode_video c s o sz =
      { s.emit (.avcodec_decode_video s.hurry_up sz) with
        width := o.dec_width, height := o.dec_height,
        aspect_ratio_info := o.dec_aspect_ratio_info, pix_fmt := o.dec_pix_fmt } := by
  unfold avcodec_decode_video
  dsimp only
  rw [if_neg]
  intro h1
  rcases h with h | h
  · exact h1.1 h
  · rw [h] at h1
    exact absurd h1.2 (by decide)

/-- The decoder and its callback leave the time stamp alone. -/
theorem avcodec_decode_video_pts (c : Consts) (s : vdec_thread_t) (o : Oracle) (sz : Int) :
    (avcodec_decode_video c s o sz).pts = s.pts := by
  unfold avcodec_decode_video
  dsimp only
  split
  · exact (ffmpeg_GetFrameBuf_calm (K := fun _ => True) trivial trivial trivial trivial c o
      (Calm.crefl _ _)).2.2.2.2.2.2
  · rfl

/-- What `decodeFrame` does once the decoder has returned. -/
theorem decodeFrame_status (c : Consts) (s : vdec_thread_t) (o : Oracle) (d sz : Int)
    (hsz : (pullFrame o.pes s).2 = some sz) (hu : (decodeFrame c s o d).undef = false) :
    (avcodec_decode_video c (pullFrame o.pes s).1 o sz).undef = false ∧
    (o.i_status < 0 →
      decodeFrame c s o d =
        { avcodec_decode_video c (pullFrame o.pes s).1 o sz with
          i_frame_error :=
            wrap32 ((avcodec_decode_video c (pullFrame o.pes s).1 o sz).i_frame_error + 1) }) ∧
    (0 ≤ o.i_status →
      decodeFrame c s o d =
        if o.b_gotpicture = 0 ∨ o.linesize0 = 0 ∨ d = 0
        then updateFrameLate (avcodec_decode_video c (pullFrame o.pes s).1 o sz) o.mdate
        else presentPicture c
          (updateFrameLate (avcodec_decode_video c (pullFrame o.pes s).1 o sz) o.mdate) o) := by
  have e : decodeFrame c s o d =
      if (avcodec_decode_video c (pullFrame o.pes s).1 o sz).undef = true
      then avcodec_decode_video c (pullFrame o.pes s).1 o sz
      else if o.i_status < 0 then
        { avcodec_decode_video c (pullFrame o.pes s).1 o sz with
          i_frame_error :=
            wrap32 ((avcodec_decode_video c (pullFrame o.pes s).1 o sz).i_frame_error + 1) }
      else if o.b_gotpicture = 0 ∨ o.linesize0 = 0 ∨ d = 0
        then updateFrameLate (avcodec_decode_video c (pullFrame o.pes s).1 o sz) o.mdate
        else presentPicture c
          (updateFrameLate (avcodec_decode_video c (pullFrame o.pes s).1 o sz) o.mdate) o := by
    unfold decodeFrame
    dsimp only
    rw [hsz]
  have hu1 : (avcodec_decode_video c (pullFrame o.pes s).1 o sz).undef = false := by
    cases h1 : (avcodec_decode_video c (pullFrame o.pes s).1 o sz).undef
    · rfl
    · rw [e, if_pos h1, h1] at hu
      exact absurd hu (by decide)
  have hn : ¬ (avcodec_decode_video c (pullFrame o.pes s).1 o sz).undef = true :=
    fun h => Bool.false_ne_true (hu1.symm.trans h)
  refine ⟨hu1, ?_, ?_⟩
  · intro hs
    rw [e, if_neg hn, if_pos hs]
  · intro hs
    rw [e, if_neg hn, if_neg (by omega)]

/-- C13 as stated fails on the code. In direct rendering the decoder asks for
its frame buffer through `ffmpeg_GetFrameBuf` and then reports an error: the
errored-frame count goes from 0 to 1, but the callback has created a video
output (there was none) and has put picture 7 into the window (it was empty),
linked once. -/
theorem decode_error_as_stated_fails :
    ({ exampleThread with b_direct_rendering := 1 } : vdec_thread_t).p_vout = none ∧
    ({ exampleThread with b_direct_rendering := 1 } : vdec_thread_t).p_lastpic = none ∧
    (DecodeThread_Video stdConsts { exampleThread with b_direct_rendering := 1 }
      { exampleFrame 7 with i_status := -1 }).undef = false ∧
    (DecodeThread_Video stdConsts { exampleThread with b_direct_rendering := 1 }
      { exampleFrame 7 with i_status := -1 }).i_frame_error = 1 ∧
    (DecodeThread_Video stdConsts { exampleThread with b_direct_rendering := 1 }
      { exampleFrame 7 with i_status := -1 }).p_vout
      = some { id := 1, i_width := 720, i_height := 576, i_chroma := fourccLE 'I' '4' '2' '0',
               i_aspect := 576000 } ∧
    (DecodeThread_Video stdConsts { exampleThread with b_direct_rendering := 1 }
      { exampleFrame 7 with i_status := -1 }).p_lastpic = some 7 ∧
    (DecodeThread_Video stdConsts { exampleThread with b_direct_rendering := 1 }
      { exampleFrame 7 with i_status := -1 }).i_refcount 7 = 1 := by
  decide

/-- C13, amended: after a decode error `DecodeThread_Video` itself changes
nothing but the errored-frame count; what the callback did while the decoder ran
stays. For every call that is not skipped, gets a frame from the source and whose
decoder returns a negative status (the call running into nothing undefined, the
count below `INT_MAX`): the errored-frame count increases by exactly one, nothing
is presented, and the lateness counter is unchanged. In indirect mode, and in
direct mode when the decoder has not called `ffmpeg_GetFrameBuf`, the video
output, the window with its link counts and the error flag are unchanged too. In
general the state is the one the decoder returned with, but for the count. -/
theorem decode_error (c : Consts) (s : vdec_thread_t) (o : Oracle)
    (hskip : s.b_hurry_up = 0 ∨ s.i_frame_late < 8) (hf : ∃ p ∈ o.pes, 0 < p.i_pes_size)
    (hst : o.i_status < 0) (hu : (DecodeThread_Video c s o).undef = false)
    (he : inInt32 s.i_frame_error) (hmax : s.i_frame_error < 2147483647) :
    (DecodeThread_Video c s o).i_frame_error = s.i_frame_error + 1 ∧
    presented (emitted s (DecodeThread_Video c s o)) = false ∧
    (DecodeThread_Video c s o).i_frame_late = s.i_frame_late ∧
    (s.b_direct_rendering = 0 ∨ o.dec_getbuf = false →
      (DecodeThread_Video c s o).p_vout = s.p_vout ∧
      SameWindow s (DecodeThread_Video c s o) ∧
      (DecodeThread_Video c s o).b_error = s.b_error) ∧
    (∃ h sz, DecodeThread_Video c s o =
      { avcodec_decode_video c (pullFrame o.pes { s with hurry_up := h }).1 o sz with
        i_frame_error := s.i_frame_error + 1 }) := by
  obtain ⟨h, d, e⟩ := DecodeThread_Video_noskip c s o hskip
  obtain ⟨p, -, -, hsz, -⟩ := pullFrame_some o.pes hf { s with hurry_up := h }
  rw [e] at hu ⊢
  obtain ⟨hu1, herr, -⟩ := decodeFrame_status c { s with hurry_up := h } o d _ hsz hu
  have hp := pullFrame_quiet (K := fun k => k ≠ .present) (by decide) o.pes
    { s with hurry_up := h } (Pulled.prefl _ _)
  have hd := avcodec_decode_video_log (K := fun k => k ≠ .present) c
    (pullFrame o.pes { s with hurry_up := h }).1 o p.i_pes_size
    (fun h => Kind.noConfusion h) (by decide) (by decide) (by decide) (by decide)
  have hpol := hp.2.1.poltrans hd.2
  have hw : wrap32 (s.i_frame_error + 1) = s.i_frame_error + 1 := by
    apply wrap32_of_inInt32
    unfold inInt32 at he ⊢
    omega
  have hcount : (avcodec_decode_video c (pullFrame o.pes { s with hurry_up := h }).1 o
      p.i_pes_size).i_frame_error = s.i_frame_error := hpol.2.2.1
  rw [herr hst, hcount, hw]
  refine ⟨rfl, ?_, hpol.2.1, ?_, h, p.i_pes_size, rfl⟩
  · apply presented_false
    obtain ⟨d1, hd1, hk1⟩ := hp.1.ltrans hd.1
    have hl : LogExt (fun k => k ≠ .present) s
        { avcodec_decode_video c (pullFrame o.pes { s with hurry_up := h }).1 o p.i_pes_size with
          i_frame_error := s.i_frame_error + 1 } := ⟨d1, hd1, hk1⟩
    exact forall_emitted hl
  · intro hno
    have hdr : (pullFrame o.pes { s with hurry_up := h }).1.b_direct_rendering = 0 ∨
        o.dec_getbuf = false := by
      rcases hno with h1 | h1
      · exact Or.inl (hp.2.1.config.2.1.trans h1)
      · exact Or.inr h1
    rw [avcodec_decode_video_nocallback c _ o _ hdr]
    refine ⟨hp.2.2.2.2, ⟨hp.2.2.1.1, hp.2.2.1.2.1, hp.2.2.1.2.2⟩, ?_⟩
    exact (pullFrame_flags o.pes { s with hurry_up := h }).2.2 (by rw [hsz]; simp)

/-- C13, on a fresh thread in indirect mode whose decoder reports an error: the
count goes to 1, nothing is presented, and counter, video output, window and
error flag are as before. -/
theorem decode_error_witness :
    (DecodeThread_Video stdConsts exampleThread { exampleFrame 7 with i_status := -1 }).i_frame_error
      = exampleThread.i_frame_error + 1 ∧
    presented (emitted exampleThread
      (DecodeThread_Video stdConsts exampleThread { exampleFrame 7 with i_status := -1 })) = false ∧
    (DecodeThread_Video stdConsts exampleThread { exampleFrame 7 with i_status := -1 }).i_frame_late
      = exampleThread.i_frame_late ∧
    ((DecodeThread_Video stdConsts exampleThread { exampleFrame 7 with i_status := -1 }).p_vout
      = exampleThread.p_vout ∧
     SameWindow exampleThread
      (DecodeThread_Video stdConsts exampleThread { exampleFrame 7 with i_status := -1 }) ∧
     (DecodeThread_Video stdConsts exampleThread { exampleFrame 7 with i_status := -1 }).b_error
      = exampleThread.b_error) :=
  have h := decode_error stdConsts exampleThread { exampleFrame 7 with i_status := -1 }
    (by decide) ⟨_, List.mem_singleton.2 rfl, by decide⟩ (by decide) (by decide) (by decide)
    (by decide)
  ⟨h.1, h.2.1, h.2.2.1, h.2.2.2.1 (Or.inl rfl)⟩

/-! ## The update of the lateness counter -/

/-- The frame `pullFrame` hands to the decoder is the first packet of the source
that has a payload, and `pts` is its time stamp. -/
theorem pullFrame_find (pes : List pes_packet_t) :
    ∀ (s : vdec_thread_t) (p : pes_packet_t),
      pes.find? (fun q => decide (q.i_pes_size > 0)) = some p →
      (pullFrame pes s).2 = some p.i_pes_size ∧ (pullFrame pes s).1.pts = p.i_pts := by
  induction pes with
  | nil =>
    intro s p h
    exact absurd h (by simp)
  | cons q rest ih =>
    intro s p h
    unfold pullFrame
    dsimp only
    by_cases hq : q.i_pes_size > 0
    · rw [if_pos hq]
      rw [List.find?_cons_of_pos _ (by simpa using hq)] at h
      simp only [Option.some.injEq] at h
      subst h
      constructor
      · rfl
      · split <;> rfl
    · rw [if_neg hq]
      rw [List.find?_cons_of_neg _ (by simpa using hq)] at h
      exact ih _ p h

/-- The block "Update frame late count", field by field. -/
theorem updateFrameLate_fields (s : vdec_thread_t) (m : Int) :
    (updateFrameLate s m).pts = s.pts ∧
    (s.pts ≤ m → (updateFrameLate s m).i_frame_late = wrap32 (s.i_frame_late + 1)) ∧
    (m < s.pts → (updateFrameLate s m).i_frame_late = 0) := by
  unfold updateFrameLate
  by_cases h : s.pts ≤ m
  · rw [if_pos h]
    exact ⟨rfl, fun _ => rfl, fun h2 => absurd h (by omega)⟩
  · rw [if_neg h]
    exact ⟨rfl, fun h2 => absurd h2 h, fun _ => rfl⟩

/-- C14. For every call of `DecodeThread_Video` that is not skipped, hands the
frame `p` (the first packet of the source with a payload) to the decoder and
gets a status `>= 0` back, the call running into nothing undefined and the
counter being below `INT_MAX`: afterwards `pts` is the time stamp of `p`, and
the lateness counter is 0 when that time stamp is strictly later than `mdate()`
and the previous value plus exactly 1 otherwise. This holds whatever
`b_gotpicture` and `linesize[0]` are and whether the picture is drawn or not. -/
theorem lateness_counter_update (c : Consts) (s : vdec_thread_t) (o : Oracle)
    (p : pes_packet_t) (hskip : s.b_hurry_up = 0 ∨ s.i_frame_late < 8)
    (hp : o.pes.find? (fun q => decide (q.i_pes_size > 0)) = some p)
    (hst : 0 ≤ o.i_status) (hu : (DecodeThread_Video c s o).undef = false)
    (hl : inInt32 s.i_frame_late) (hmax : s.i_frame_late < 2147483647) :
    (DecodeThread_Video c s o).pts = p.i_pts ∧
    (o.mdate < p.i_pts → (DecodeThread_Video c s o).i_frame_late = 0) ∧
    (p.i_pts ≤ o.mdate → (DecodeThread_Video c s o).i_frame_late = s.i_frame_late + 1) := by
  obtain ⟨h, d, e⟩ := DecodeThread_Video_noskip c s o hskip
  obtain ⟨hsz, hpts⟩ := pullFrame_find o.pes { s with hurry_up := h } p hp
  rw [e] at hu ⊢
  obtain ⟨-, -, hok⟩ := decodeFrame_status c { s with hurry_up := h } o d _ hsz hu
  have hq := pullFrame_quiet (K := fun _ => True) trivial o.pes
    { s with hurry_up := h } (Pulled.prefl _ _)
  have hd := avcodec_decode_video_log (K := fun _ => True) c
    (pullFrame o.pes { s with hurry_up := h }).1 o p.i_pes_size
    trivial trivial trivial trivial trivial
  have hpol := hq.2.1.poltrans hd.2
  have hlate : (avcodec_decode_video c (pullFrame o.pes { s with hurry_up := h }).1 o
      p.i_pes_size).i_frame_late = s.i_frame_late := hpol.2.1
  have hpts1 : (avcodec_decode_video c (pullFrame o.pes { s with hurry_up := h }).1 o
      p.i_pes_size).pts = p.i_pts := (avcodec_decode_video_pts c _ o _).trans hpts
  have hw : wrap32 (s.i_frame_late + 1) = s.i_frame_late + 1 := by
    apply wrap32_of_inInt32
    unfold inInt32 at hl ⊢
    omega
  obtain ⟨u1, u2, u3⟩ := updateFrameLate_fields
    (avcodec_decode_video c (pullFrame o.pes { s with hurry_up := h }).1 o p.i_pes_size) o.mdate
  rw [hpts1] at u1 u2 u3
  rw [hlate, hw] at u2
  have hm := presentPicture_mild (K := fun _ => True) trivial trivial trivial trivial trivial
    trivial c o (Mild.mrefl _
      (updateFrameLate
        (avcodec_decode_video c (pullFrame o.pes { s with hurry_up := h }).1 o p.i_pes_size)
        o.mdate))
  rw [hok hst]
  by_cases hc : o.b_gotpicture = 0 ∨ o.linesize0 = 0 ∨ d = 0
  · rw [if_pos hc]
    exact ⟨u1, u3, u2⟩
  · rw [if_neg hc]
    have k1 := hm.2.1.2.1
    have k2 := hm.2.2.2.2.2.2.2
    rw [k1, k2]
    exact ⟨u1, u3, u2⟩

/-- C14, on a fresh thread: a frame stamped 0 seen at time 1000 takes the counter
from 0 to 1. -/
theorem lateness_counter_update_witness :
    (DecodeThread_Video stdConsts exampleThread (exampleFrame 7)).pts = 0 ∧
    (DecodeThread_Video stdConsts exampleThread (exampleFrame 7)).i_frame_late = 0 + 1 :=
  have h := lateness_counter_update stdConsts exampleThread (exampleFrame 7)
    { i_pts := 0, i_pes_size := 100 } (by decide) (by decide) (by decide) (by decide)
    (by decide) (by decide)
  ⟨h.1, h.2.2 (by decide)⟩

/-! ## Teardown -/

/-- One line `if( p ) vout_UnlinkPicture( p_vdec->p_vout, p );` of
`EndThread_Video`. -/
theorem unlink_if_present (x : Option Nat) (s : vdec_thread_t) :
    (match x with
      | some q => vout_UnlinkPicture s q
      | none => s).log = s.log ++ x.toList.map Event.vout_UnlinkPicture ∧
    (∀ q, (match x with
      | some q => vout_UnlinkPicture s q
      | none => s).i_refcount q = s.i_refcount q - (if x = some q then 1 else 0)) ∧
    (match x with
      | some q => vout_UnlinkPicture s q
      | none => s).p_lastpic = s.p_lastpic ∧
    (match x with
      | some q => vout_UnlinkPicture s q
      | none => s).p_pp = s.p_pp ∧
    (match x with
      | some q => vout_UnlinkPicture s q
      | none => s).p_vout = s.p_vout := by
  cases x with
  | none => simp
  | some r =>
    refine ⟨rfl, ?_, rfl, rfl, rfl⟩
    intro q
    show (if q = r then s.i_refcount q - 1 else s.i_refcount q) = _
    by_cases hq : q = r
    · simp [hq]
    · have : ¬ r = q := fun h => hq h.symm
      simp [hq, this]

/-- The end of `EndThread_Video`, after the two lines that unlink: the module is
released and the video output reattached, which links and unlinks nothing. -/
theorem EndThread_Video_tail (s2 : vdec_thread_t) :
    ∃ rest,
      (match (if s2.p_pp = true
          then { (s2.emit .module_Unneed).emit .vlc_object_destroy with p_pp := false }
          else s2).p_vout with
        | some v =>
          ((if s2.p_pp = true
            then { (s2.emit .module_Unneed).emit .vlc_object_destroy with p_pp := false }
            else s2).emit (.vlc_object_detach v)).emit (.vlc_object_attach v)
        | none =>
          (if s2.p_pp = true
            then { (s2.emit .module_Unneed).emit .vlc_object_destroy with p_pp := false }
            else s2)).log = s2.log ++ rest ∧
      (∀ e ∈ rest, e.kind ≠ .link) ∧
      (match (if s2.p_pp = true
          then { (s2.emit .module_Unneed).emit .vlc_object_destroy with p_pp := false }
          else s2).p_vout with
        | some v =>
          ((if s2.p_pp = true
            then { (s2.emit .module_Unneed).emit .vlc_object_destroy with p_pp := false }
            else s2).emit (.vlc_object_detach v)).emit (.vlc_object_attach v)
        | none =>
          (if s2.p_pp = true
            then { (s2.emit .module_Unneed).emit .vlc_object_destroy with p_pp := false }
            else s2)).i_refcount = s2.i_refcount := by
  cases hp : s2.p_pp <;> cases hv : s2.p_vout
  · refine ⟨[], ?_, by simp, ?_⟩ <;> simp [hv]
  · rename_i v
    refine ⟨[.vlc_object_detach v, .vlc_object_attach v], ?_, ?_, ?_⟩
    · simp [hv, vdec_thread_t.emit]
    · intro e he
      simp only [List.mem_cons, List.mem_singleton, List.not_mem_nil, or_false] at he
      rcases he with rfl | rfl <;> simp [Event.kind]
    · simp [hv, vdec_thread_t.emit]
  · refine ⟨[.module_Unneed, .vlc_object_destroy], ?_, ?_, ?_⟩
    · simp [hv, vdec_thread_t.emit]
    · intro e he
      simp only [List.mem_cons, List.mem_singleton, List.not_mem_nil, or_false] at he
      rcases he with rfl | rfl <;> simp [Event.kind]
    · simp [hv, vdec_thread_t.emit]
  · rename_i v
    refine ⟨[.module_Unneed, .vlc_object_destroy, .vlc_object_detach v, .vlc_object_attach v],
      ?_, ?_, ?_⟩
    · simp [hv, vdec_thread_t.emit]
    · intro e he
      simp only [List.mem_cons, List.mem_singleton, List.not_mem_nil, or_false] at he
      rcases he with rfl | rfl | rfl | rfl <;> simp [Event.kind]
    · simp [hv, vdec_thread_t.emit]

/-- `EndThread_Video` as its four steps. -/
theorem EndThread_Video_eq (s s1 s2 : vdec_thread_t)
    (h1 : s1 = match s.p_secondlastpic with
      | some q => vout_UnlinkPicture s q
      | none => s)
    (h2 : s2 = match s1.p_lastpic with
      | some q => vout_UnlinkPicture s1 q
      | none => s1) :
    EndThread_Video s =
      match (if s2.p_pp = true
          then { (s2.emit .module_Unneed).emit .vlc_object_destroy with p_pp := false }
          else s2).p_vout with
        | some v =>
          ((if s2.p_pp = true
            then { (s2.emit .module_Unneed).emit .vlc_object_destroy with p_pp := false }
            else s2).emit (.vlc_object_detach v)).emit (.vlc_object_attach v)
        | none =>
          (if s2.p_pp = true
            then { (s2.emit .module_Unneed).emit .vlc_object_destroy with p_pp := false }
            else s2) := by
  subst h2
  subst h1
  rfl

/-- C15 as stated fails on the code. The window holds picture 9 as `p_lastpic`,
the most recently inserted, and picture 8 as `p_secondlastpic`. The calls of
`EndThread_Video` are: unlink 8, unlink 9, then detach and attach the video
output. The older picture is unlinked first, not the most recent one. -/
theorem releaseAll_as_stated_fails :
    windowThread.p_lastpic = some 9 ∧ windowThread.p_secondlastpic = some 8 ∧
    emitted windowThread (EndThread_Video windowThread)
      = [.vout_UnlinkPicture 8, .vout_UnlinkPicture 9,
         .vlc_object_detach { id := 1, i_width := 720, i_height := 576,
                              i_chroma := fourccLE 'I' '4' '2' '0', i_aspect := 576000 },
         .vlc_object_attach { id := 1, i_width := 720, i_height := 576,
                              i_chroma := fourccLE 'I' '4' '2' '0', i_aspect := 576000 }] := by
  decide

/-- C15, amended: the entries are unlinked in the order of their insertion. For
every state of the window `EndThread_Video` calls `vout_UnlinkPicture` once for
each entry that is present, first for `p_secondlastpic`, the older one, then for
`p_lastpic`, the most recently inserted, and makes no other call that links or
unlinks. Each of the two calls takes one from the link count of its picture;
when the link count of every picture is the number of window slots that hold
it, the link count of every picture is zero afterwards. -/
theorem releaseAll (s : vdec_thread_t) :
    (∃ rest, emitted s (EndThread_Video s)
        = s.p_secondlastpic.toList.map Event.vout_UnlinkPicture
          ++ s.p_lastpic.toList.map Event.vout_UnlinkPicture ++ rest ∧
      ∀ e ∈ rest, e.kind ≠ .link) ∧
    (∀ q, (EndThread_Video s).i_refcount q =
      s.i_refcount q - (if s.p_secondlastpic = some q then 1 else 0)
        - (if s.p_lastpic = some q then 1 else 0)) ∧
    ((∀ q, s.i_refcount q = (if s.p_lastpic = some q then 1 else 0)
        + (if s.p_secondlastpic = some q then 1 else 0)) →
      ∀ q, (EndThread_Video s).i_refcount q = 0) := by
  obtain ⟨a1, a2, a3, -, -⟩ := unlink_if_present s.p_secondlastpic s
  generalize h1 : (match s.p_secondlastpic with
      | some q => vout_UnlinkPicture s q
      | none => s) = s1 at a1 a2 a3
  obtain ⟨b1, b2, -, -, -⟩ := unlink_if_present s1.p_lastpic s1
  generalize h2 : (match s1.p_lastpic with
      | some q => vout_UnlinkPicture s1 q
      | none => s1) = s2 at b1 b2
  obtain ⟨rest, c1, c2, c3⟩ := EndThread_Video_tail s2
  rw [← EndThread_Video_eq s s1 s2 h1.symm h2.symm] at c1 c3
  have hcount : ∀ q, (EndThread_Video s).i_refcount q =
      s.i_refcount q - (if s.p_secondlastpic = some q then 1 else 0)
        - (if s.p_lastpic = some q then 1 else 0) := by
    intro q
    rw [c3, b2 q, a2 q, a3]
  refine ⟨⟨rest, ?_, c2⟩, hcount, ?_⟩
  · apply emitted_eq_of_log
    rw [c1, b1, a1, a3]
    simp
  · intro hinv q
    rw [hcount q, hinv q]
    omega

/-- C15, on a window that holds the pictures 9 and 8, each linked once: the link
count of every picture is zero after `EndThread_Video`. -/
theorem releaseAll_witness :
    ∀ q, (EndThread_Video
      { exampleThread with
        p_lastpic := some 9, p_secondlastpic := some 8,
        i_refcount := fun q => (if (some 9 : Option Nat) = some q then 1 else 0)
          + (if (some 8 : Option Nat) = some q then 1 else 0) }).i_refcount q = 0 :=
  (releaseAll
    { exampleThread with
      p_lastpic := some 9, p_secondlastpic := some 8,
      i_refcount := fun q => (if (some 9 : Option Nat) = some q then 1 else 0)
        + (if (some 8 : Option Nat) = some q then 1 else 0) }).2.2 (fun _ => rfl)

/-! ## Initialisation -/

/-- The reads of the configuration leave the decoder state alone but for the
settings they are stored in. -/
theorem getConfiguration_keeps (k : CodecConsts) (s : vdec_thread_t) (o : InitOracle) :
    (getConfiguration k s o).pix_fmt = s.pix_fmt ∧
    (getConfiguration k s o).setup.capabilities = s.setup.capabilities ∧
    (getConfiguration k s o).setup.i_codec_id = s.setup.i_codec_id ∧
    (getConfiguration k s o).undef = s.undef := by
  unfold getConfiguration config_GetInt
  dsimp only [vdec_thread_t.emit]
  split <;> exact ⟨rfl, rfl, rfl, rfl⟩

/-- The choice of the rendering mode. -/
theorem selectRendering_spec (k : CodecConsts) (s : vdec_thread_t) :
    (selectRendering k s).b_direct_rendering =
      (if Int.land s.setup.capabilities k.CODEC_CAP_DR1 ≠ 0 ∧ s.pix_fmt ≠ PIX_FMT_YUV410P
        then 1 else 0) ∧
    (selectRendering k s).p_lastpic = none ∧ (selectRendering k s).p_secondlastpic = none ∧
    (selectRendering k s).setup.i_codec_id = s.setup.i_codec_id ∧
    (selectRendering k s).undef = s.undef := by
  unfold selectRendering
  dsimp only
  by_cases h : Int.land s.setup.capabilities k.CODEC_CAP_DR1 ≠ 0 ∧ s.pix_fmt ≠ PIX_FMT_YUV410P
  · rw [if_pos h, if_pos h]
    exact ⟨rfl, rfl, rfl, rfl, rfl⟩
  · rw [if_neg h, if_neg h]
    exact ⟨rfl, rfl, rfl, rfl, rfl⟩

theorem Framed.setup {s s' : vdec_thread_t} (h : Framed s s') : s'.setup = s.setup := by
  unfold Framed at h
  rw [h]

/-- The block "Check our vout" leaves the setup alone. -/
theorem checkOurVout_setup (c : Consts) (s : vdec_thread_t) (o : Oracle) :
    (checkOurVout c s o).1.setup = s.setup := by
  have hf := fun ch => (ffmpeg_CreateVout_framed c o s.width s.height s.aspect_ratio_info ch
    (Framed.fsame s)).setup
  unfold checkOurVout
  cases ffmpeg_PixFmtToChroma c s.pix_fmt with
  | none => rfl
  | some ch =>
    dsimp only
    cases ffmpeg_CheckVout c s.p_vout s.width s.height s.aspect_ratio_info ch with
    | none => rfl
    | some r =>
      dsimp only
      by_cases hr : r = 0
      · rw [if_pos hr]
        have hf' := hf ch
        generalize ffmpeg_CreateVout c s o s.width s.height s.aspect_ratio_info ch = sv at hf' ⊢
        obtain ⟨x, pv⟩ := sv
        dsimp only at hf' ⊢
        cases hu : x.undef
        · cases pv with
          | none => simpa [hu] using hf'
          | some v => simpa [hu] using hf'
        · simpa [hu] using hf'
      · rw [if_neg hr]

/-- The loop "Get a new picture" leaves the setup alone. -/
theorem getNewPicture_setup (site : Site) (misses : List Attempt) (p_pic : Nat) :
    ∀ s : vdec_thread_t, (getNewPicture site misses p_pic s).1.setup = s.setup := by
  induction misses with
  | nil => intro s; rfl
  | cons a rest ih =>
    intro s
    unfold getNewPicture
    dsimp only
    split
    · rfl
    · rw [ih]
      rfl

/-- The decoder and its callback leave the setup alone. -/
theorem avcodec_decode_video_setup (c : Consts) (s : vdec_thread_t) (o : Oracle) (sz : Int) :
    (avcodec_decode_video c s o sz).setup = s.setup := by
  have hg : ∀ x : vdec_thread_t, (ffmpeg_GetFrameBuf c x o).1.setup = x.setup := by
    intro x
    unfold ffmpeg_GetFrameBuf
    dsimp only
    split
    · exact checkOurVout_setup c x o
    · split
      · rw [getNewPicture_setup]
        exact checkOurVout_setup c x o
      · have e : ∀ (y : vdec_thread_t) (q : Nat), (retainPicture y q).setup = y.setup := by
          intro y q
          unfold retainPicture
          dsimp only
          split <;> rfl
        rw [e, getNewPicture_setup]
        exact checkOurVout_setup c x o
  unfold avcodec_decode_video
  dsimp only
  split
  · rw [hg]
    rfl
  · rfl

theorem Tuned.tsame (s : vdec_thread_t) : Tuned s s := rfl

theorem Tuned.tstep {s s' x : vdec_thread_t} (h : Tuned s s')
    (hx : x = { s' with i_pp_mode := x.i_pp_mode, log := x.log }) : Tuned s x := by
  unfold Tuned at h ⊢
  rw [hx, h]

theorem Tuned.fields {s s' : vdec_thread_t} (h : Tuned s s') :
    s'.b_direct_rendering = s.b_direct_rendering ∧ s'.p_lastpic = s.p_lastpic ∧
    s'.p_secondlastpic = s.p_secondlastpic ∧ s'.setup = s.setup ∧ s'.undef = s.undef ∧
    s'.p_pp = s.p_pp := by
  unfold Tuned at h
  have e1 := congrArg vdec_thread_t.b_direct_rendering h
  have e2 := congrArg vdec_thread_t.p_lastpic h
  have e3 := congrArg vdec_thread_t.p_secondlastpic h
  have e4 := congrArg vdec_thread_t.setup h
  have e5 := congrArg vdec_thread_t.undef h
  have e6 := congrArg vdec_thread_t.p_pp h
  exact ⟨e1, e2, e3, e4, e5, e6⟩

theorem overridingSetting_tuned {s0 s : vdec_thread_t} (o : InitOracle) (n : String) (b : Int)
    (h : Tuned s0 s) : Tuned s0 (overridingSetting s o n b) := by
  unfold overridingSetting config_GetInt
  dsimp only
  split
  · exact h.tstep rfl
  · exact h.tstep rfl

theorem overridingSettings_tuned (k : CodecConsts) (s : vdec_thread_t) (o : InitOracle) :
    Tuned s (overridingSettings k s o) := by
  unfold overridingSettings
  dsimp only
  exact overridingSetting_tuned o _ _ (overridingSetting_tuned o _ _
    (overridingSetting_tuned o _ _ (overridingSetting_tuned o _ _
      (overridingSetting_tuned o _ _ (overridingSetting_tuned o _ _
        ((Tuned.tsame s).tstep rfl))))))

/-- The condition of the block "Load post processing": it changes the log only,
and it is false only when the mode is 0. -/
theorem wantsPostProcessing_spec (s : vdec_thread_t) (o : InitOracle) :
    Tuned s (wantsPostProcessing s o).1 ∧
    (wantsPostProcessing s o).1.i_pp_mode = s.i_pp_mode ∧
    ((wantsPostProcessing s o).2 = false → s.i_pp_mode = 0) := by
  unfold wantsPostProcessing config_GetInt
  dsimp only
  split
  · exact ⟨(Tuned.tsame s).tstep rfl, rfl, fun h => by simp at h⟩
  · split
    · exact ⟨(Tuned.tsame s).tstep rfl, rfl, fun h => by simp at h⟩
    · refine ⟨(Tuned.tsame s).tstep rfl, rfl, ?_⟩
      intro h
      simpa using h

/-- The case of the codecs that can be post-processed: a mode other than 0 comes
with a module. -/
theorem getPostProcessingModule_spec (k : CodecConsts) (s : vdec_thread_t) (o : InitOracle) :
    (getPostProcessingModule k s o).b_direct_rendering = s.b_direct_rendering ∧
    (getPostProcessingModule k s o).p_lastpic = s.p_lastpic ∧
    (getPostProcessingModule k s o).p_secondlastpic = s.p_secondlastpic ∧
    (getPostProcessingModule k s o).setup.i_codec_id = s.setup.i_codec_id ∧
    (getPostProcessingModule k s o).undef = s.undef ∧
    ((getPostProcessingModule k s o).i_pp_mode ≠ 0 →
      (getPostProcessingModule k s o).p_pp = true) := by
  have hq : ∀ x : vdec_thread_t,
      (getModeUponQuality k x o).b_direct_rendering = x.b_direct_rendering ∧
      (getModeUponQuality k x o).p_lastpic = x.p_lastpic ∧
      (getModeUponQuality k x o).p_secondlastpic = x.p_secondlastpic ∧
      (getModeUponQuality k x o).setup.i_codec_id = x.setup.i_codec_id ∧
      (getModeUponQuality k x o).undef = x.undef ∧
      (getModeUponQuality k x o).p_pp = x.p_pp := by
    intro x
    unfold getModeUponQuality config_GetInt
    dsimp only [vdec_thread_t.emit]
    exact ⟨rfl, rfl, rfl, rfl, rfl, rfl⟩
  unfold getPostProcessingModule
  dsimp only
  by_cases hm : o.module_Need = false
  · rw [if_pos hm]
    exact ⟨rfl, rfl, rfl, rfl, rfl, fun h => absurd rfl h⟩
  · rw [if_neg hm]
    obtain ⟨q1, q2, q3, q4, q5, q6⟩ := hq
      (({ s.emit .vlc_object_create with p_pp := true } : vdec_thread_t).emit
        (.module_Need o.module_Need))
    exact ⟨q1, q2, q3, q4, q5, fun _ => q6⟩

/-- The block "Load post processing": it works on the mode, the module and the
table of quantizers only, and it leaves a mode other than 0 only for a codec
that can be post-processed, together with a module. -/
theorem loadPostProcessing_spec (k : CodecConsts) (s : vdec_thread_t) (o : InitOracle) :
    (loadPostProcessing k s o).b_direct_rendering = s.b_direct_rendering ∧
    (loadPostProcessing k s o).p_lastpic = s.p_lastpic ∧
    (loadPostProcessing k s o).p_secondlastpic = s.p_secondlastpic ∧
    (loadPostProcessing k s o).setup.i_codec_id = s.setup.i_codec_id ∧
    (loadPostProcessing k s o).undef = s.undef ∧
    ((loadPostProcessing k s o).i_pp_mode ≠ 0 →
      postProcessable k s.setup.i_codec_id ∧ (loadPostProcessing k s o).p_pp = true) := by
  obtain ⟨w1, w2, w3⟩ := wantsPostProcessing_spec (overridingSettings k s o) o
  have ht := ((overridingSettings_tuned k s o).tstep w1).fields
  have hid : (wantsPostProcessing (overridingSettings k s o) o).1.setup.i_codec_id
      = s.setup.i_codec_id := by rw [ht.2.2.2.1]
  unfold loadPostProcessing
  dsimp only
  by_cases hw : (wantsPostProcessing (overridingSettings k s o) o).2 = true
  · rw [if_pos hw]
    by_cases hc : postProcessable k
        (wantsPostProcessing (overridingSettings k s o) o).1.setup.i_codec_id
    · unfold postProcessable at hc
      rw [if_pos hc]
      obtain ⟨g1, g2, g3, g4, g5, g6⟩ := getPostProcessingModule_spec k
        (wantsPostProcessing (overridingSettings k s o) o).1 o
      refine ⟨g1.trans ht.1, g2.trans ht.2.1, g3.trans ht.2.2.1, g4.trans hid,
        g5.trans ht.2.2.2.2.1, fun h => ⟨?_, g6 h⟩⟩
      rw [← hid]
      exact hc
    · unfold postProcessable at hc
      rw [if_neg hc]
      exact ⟨ht.1, ht.2.1, ht.2.2.1, hid, ht.2.2.2.2.1, fun h => absurd rfl h⟩
  · rw [if_neg hw]
    refine ⟨ht.1, ht.2.1, ht.2.2.1, hid, ht.2.2.2.2.1, fun h => ?_⟩
    have h0 := w3 (by simpa using hw)
    rw [w2] at h
    exact absurd h0 h

/-- The block "init this codec with special data": it leaves the rendering mode
and the codec alone, and the window too unless the decoder of MPEG4 is handed
codec data in direct rendering and asks for a frame buffer. -/
theorem initSpecialData_spec (c : Consts) (k : CodecConsts) (s : vdec_thread_t)
    (o : InitOracle) (fmt : BITMAPINFOHEADER) :
    (initSpecialData c k s o fmt).b_direct_rendering = s.b_direct_rendering ∧
    (initSpecialData c k s o fmt).setup.i_codec_id = s.setup.i_codec_id ∧
    (s.b_direct_rendering = 0 ∨ o.dec.dec_getbuf = false ∨
        ¬ (fmt.biSize > k.sizeof_BITMAPINFOHEADER ∧ s.setup.i_codec_id = k.CODEC_ID_MPEG4) →
      (initSpecialData c k s o fmt).p_lastpic = s.p_lastpic ∧
      (initSpecialData c k s o fmt).p_secondlastpic = s.p_secondlastpic) := by
  unfold initSpecialData
  by_cases h1 : fmt.biSize > k.sizeof_BITMAPINFOHEADER
  · rw [if_pos h1]
    by_cases h2 : s.setup.i_codec_id = k.CODEC_ID_MPEG4
    · rw [if_pos h2]
      refine ⟨(avcodec_decode_video_log (K := fun _ => True) c s o.dec _ trivial trivial
        trivial trivial trivial).2.config.2.1, ?_, ?_⟩
      · rw [avcodec_decode_video_setup]
      · intro h
        have h' : s.b_direct_rendering = 0 ∨ o.dec.dec_getbuf = false := by
          rcases h with h | h | h
          · exact Or.inl h
          · exact Or.inr h
          · exact absurd ⟨h1, h2⟩ h
        rw [avcodec_decode_video_nocallback c s o.dec _ h']
        exact ⟨rfl, rfl⟩
    · rw [if_neg h2]
      split
      · exact ⟨rfl, rfl, fun _ => ⟨rfl, rfl⟩⟩
      · exact ⟨rfl, rfl, fun _ => ⟨rfl, rfl⟩⟩
  · rw [if_neg h1]
    exact ⟨rfl, rfl, fun _ => ⟨rfl, rfl⟩⟩

/-- `InitThread_Video` once `p_vdec->p_format` is there: the configuration is
read and the rendering mode chosen on a state `s2` that has the pixel format
and the codec of the entry state; then the codec is opened, handed its special
data, and post-processing is loaded. -/
theorem InitThread_Video_eq (c : Consts) (k : CodecConsts) (s : vdec_thread_t)
    (o : InitOracle) (fmt : BITMAPINFOHEADER)
    (hfmt : s.setup.p_demux_data = some fmt ∨
      (s.setup.p_demux_data = none ∧ s.setup.p_format = some fmt)) :
    ∃ s2 : vdec_thread_t, s2.pix_fmt = s.pix_fmt ∧
      s2.setup.capabilities = s.setup.capabilities ∧
      s2.setup.i_codec_id = s.setup.i_codec_id ∧
      InitThread_Video c k s o =
        if o.avcodec_open < 0 then
          ((selectRendering k (getConfiguration k s2 o)).emit (.avcodec_open o.avcodec_open), -1)
        else if (initSpecialData c k
            ((selectRendering k (getConfiguration k s2 o)).emit (.avcodec_open o.avcodec_open))
            o fmt).undef = true then
          (initSpecialData c k
            ((selectRendering k (getConfiguration k s2 o)).emit (.avcodec_open o.avcodec_open))
            o fmt, -1)
        else
          (loadPostProcessing k (initSpecialData c k
            ((selectRendering k (getConfiguration k s2 o)).emit (.avcodec_open o.avcodec_open))
            o fmt) o, 0) := by
  rcases hfmt with h | ⟨h1, h2⟩
  · refine ⟨{ ({ s with setup := { s.setup with p_format := some fmt } } : vdec_thread_t) with
      width := fmt.biWidth, height := fmt.biHeight }, rfl, rfl, rfl, ?_⟩
    unfold InitThread_Video
    rw [h]
  · refine ⟨{ s with width := fmt.biWidth, height := fmt.biHeight }, rfl, rfl, rfl, ?_⟩
    unfold InitThread_Video
    rw [h1]
    dsimp only
    rw [h2]

/-- The state in which `InitThread_Video` opens the codec: the rendering mode is
chosen, the window is empty, the codec is the one of the entry state. -/
theorem opened_spec (k : CodecConsts) (s s2 : vdec_thread_t) (o : InitOracle)
    (e1 : s2.pix_fmt = s.pix_fmt) (e2 : s2.setup.capabilities = s.setup.capabilities)
    (e3 : s2.setup.i_codec_id = s.setup.i_codec_id) :
    ((selectRendering k (getConfiguration k s2 o)).emit
        (.avcodec_open o.avcodec_open)).b_direct_rendering =
      (if Int.land s.setup.capabilities k.CODEC_CAP_DR1 ≠ 0 ∧ s.pix_fmt ≠ PIX_FMT_YUV410P
        then 1 else 0) ∧
    ((selectRendering k (getConfiguration k s2 o)).emit
        (.avcodec_open o.avcodec_open)).p_lastpic = none ∧
    ((selectRendering k (getConfiguration k s2 o)).emit
        (.avcodec_open o.avcodec_open)).p_secondlastpic = none ∧
    ((selectRendering k (getConfiguration k s2 o)).emit
        (.avcodec_open o.avcodec_open)).setup.i_codec_id = s.setup.i_codec_id := by
  obtain ⟨g1, g2, g3, -⟩ := getConfiguration_keeps k s2 o
  obtain ⟨r1, r2, r3, r4, -⟩ := selectRendering_spec k (getConfiguration k s2 o)
  rw [g1, g2, e1, e2] at r1
  exact ⟨r1, r2, r3, r4.trans (g3.trans e3)⟩

/-- C16. `ffmpeg_PostProcPicture` with the mode 0 makes no call and leaves the
state as it is. With a mode other than 0, a video output and the module that
`InitThread_Video` leaves with such a mode, it calls `pf_postprocess` on the
picture, with that mode, exactly when the chroma of the video output is I420 or
YV12, and otherwise makes no call and leaves the state as it is. After an
`InitThread_Video` that returns 0 the mode is other than 0 only for a codec
whose identifier is that of an MSMPEG4 variant, MPEG4, H263 or H263I, and then
the module is there. -/
theorem postproc_gate (c : Consts) (k : CodecConsts) :
    (∀ (s : vdec_thread_t) (p_pic : Option Nat), s.i_pp_mode = 0 →
      ffmpeg_PostProcPicture c s p_pic = s) ∧
    (∀ (s : vdec_thread_t) (p_pic : Option Nat) (v : vout_thread_t),
      s.i_pp_mode ≠ 0 → s.p_vout = some v → s.p_pp = true →
      ((v.i_chroma = c.VLC_FOURCC 'I' '4' '2' '0' ∨ v.i_chroma = c.VLC_FOURCC 'Y' 'V' '1' '2') →
        ffmpeg_PostProcPicture c s p_pic = s.emit (.pf_postprocess p_pic s.i_pp_mode)) ∧
      (¬ (v.i_chroma = c.VLC_FOURCC 'I' '4' '2' '0' ∨
          v.i_chroma = c.VLC_FOURCC 'Y' 'V' '1' '2') →
        ffmpeg_PostProcPicture c s p_pic = s)) ∧
    (∀ (s : vdec_thread_t) (o : InitOracle) (fmt : BITMAPINFOHEADER),
      (s.setup.p_demux_data = some fmt ∨
        (s.setup.p_demux_data = none ∧ s.setup.p_format = some fmt)) →
      (InitThread_Video c k s o).2 = 0 →
      (InitThread_Video c k s o).1.i_pp_mode ≠ 0 →
      postProcessable k s.setup.i_codec_id ∧ (InitThread_Video c k s o).1.p_pp = true) := by
  refine ⟨?_, ?_, ?_⟩
  · intro s p_pic h0
    unfold ffmpeg_PostProcPicture
    rw [if_neg (fun h => h h0)]
  · intro s p_pic v hm hv hp
    unfold ffmpeg_PostProcPicture
    rw [if_pos hm, hv]
    dsimp only
    constructor
    · intro hc
      rw [if_pos hc, if_pos hp]
    · intro hc
      rw [if_neg hc]
  · intro s o fmt hfmt hret hmode
    obtain ⟨s2, e1, e2, e3, e⟩ := InitThread_Video_eq c k s o fmt hfmt
    obtain ⟨-, -, -, o4⟩ := opened_spec k s s2 o e1 e2 e3
    obtain ⟨-, i2, -⟩ := initSpecialData_spec c k
      ((selectRendering k (getConfiguration k s2 o)).emit (.avcodec_open o.avcodec_open)) o fmt
    obtain ⟨-, -, -, -, -, l6⟩ := loadPostProcessing_spec k (initSpecialData c k
      ((selectRendering k (getConfiguration k s2 o)).emit (.avcodec_open o.avcodec_open)) o fmt) o
    rw [i2, o4] at l6
    rw [e] at hret hmode ⊢
    by_cases h1 : o.avcodec_open < 0
    · rw [if_pos h1] at hret
      simp at hret
    · rw [if_neg h1] at hret hmode ⊢
      by_cases h2 : (initSpecialData c k
          ((selectRendering k (getConfiguration k s2 o)).emit (.avcodec_open o.avcodec_open))
          o fmt).undef = true
      · rw [if_pos h2] at hret
        simp at hret
      · rw [if_neg h2] at hmode ⊢
        exact l6 hmode

/-- C16, on the MPEG4 thread with the quality 3 configured and a module found:
`InitThread_Video` returns 0 and leaves the mode 5, MPEG4 is one of the codecs
named, and the module is there. -/
theorem postproc_gate_witness :
    (InitThread_Video stdConsts stdCodecConsts mpeg4Thread exampleInit).2 = 0 ∧
    (InitThread_Video stdConsts stdCodecConsts mpeg4Thread exampleInit).1.i_pp_mode = 5 ∧
    postProcessable stdCodecConsts mpeg4Thread.setup.i_codec_id ∧
    (InitThread_Video stdConsts stdCodecConsts mpeg4Thread exampleInit).1.p_pp = true :=
  ⟨by decide, by decide,
   (postproc_gate stdConsts stdCodecConsts).2.2 mpeg4Thread exampleInit
     { biSize := 40, biWidth := 720, biHeight := 576 } (Or.inl rfl) (by decide) (by decide)⟩

/-! ## Chroma Converter: the accesses of the first pass -/

/-- The loop over `i_x` of the first pass stays inside both buffers when the
source has a byte after the last sample it doubles and the line fits into the
temporary buffer. -/
theorem forLoop_doubleSample_ok (src : Mem) (st0 : Cursor) (n : Nat) (h0 : st0.ok = true)
    (h1 : 0 ≤ st0.p_src) (h2 : 0 < n → st0.p_src + n < src.size) (h3 : 0 ≤ st0.p_dst)
    (h4 : st0.p_dst + 2 * n ≤ st0.mem.size) :
    (forLoop n (doubleSample src) st0).ok = true := by
  induction n with
  | zero => exact h0
  | succ n ih =>
    have hc : ((n + 1 : Nat) : Int) = (n : Int) + 1 := by push_cast; rfl
    rw [hc] at h2 h4
    have h2' := h2 (Nat.succ_pos n)
    have ih' := ih (fun _ => by omega) (by omega)
    obtain ⟨i1, i2, i3, -⟩ := forLoop_doubleSample src st0 n
    show ((forLoop n (doubleSample src) st0).ok &&
        src.inb ((forLoop n (doubleSample src) st0).p_src + (n : Int)) &&
        src.inb ((forLoop n (doubleSample src) st0).p_src + (n : Int) + 1) &&
        (forLoop n (doubleSample src) st0).mem.inb
          ((forLoop n (doubleSample src) st0).p_dst + 2 * (n : Int)) &&
        (forLoop n (doubleSample src) st0).mem.inb
          ((forLoop n (doubleSample src) st0).p_dst + 2 * (n : Int) + 1)) = true
    rw [ih', i1, i2]
    unfold Mem.inb
    rw [i3]
    have hn : (0 : Int) ≤ n := Int.ofNat_nonneg n
    simp only [Bool.true_and, Bool.and_eq_true, decide_eq_true_eq]
    refine ⟨⟨⟨⟨?_, ?_⟩, ?_, ?_⟩, ?_, ?_⟩, ?_, ?_⟩ <;> omega

/-- One source line is doubled inside both buffers when the line lies inside
the source and the doubled line inside the temporary buffer. -/
theorem doubleLine_ok (src : Mem) (s : Int) (hs : 1 ≤ s) (y : Nat) (st : Cursor)
    (h0 : st.ok = true) (h1 : 0 ≤ st.p_src) (h2 : st.p_src + s ≤ src.size)
    (h3 : 0 ≤ st.p_dst) (h4 : st.p_dst + 2 * s ≤ st.mem.size) :
    (doubleLine src s y st).ok = true := by
  have hn : (((s - 1).toNat : Nat) : Int) = s - 1 := Int.toNat_of_nonneg (by omega)
  obtain ⟨i1, i2, i3, -⟩ := forLoop_doubleSample src st (s - 1).toNat
  have ok1 := forLoop_doubleSample_ok src st (s - 1).toNat h0 h1
    (fun _ => by rw [hn]; omega) h3 (by rw [hn]; omega)
  show ((forLoop (s - 1).toNat (doubleSample src) st).ok &&
      src.inb ((forLoop (s - 1).toNat (doubleSample src) st).p_src + (((s - 1).toNat : Nat) : Int)) &&
      (forLoop (s - 1).toNat (doubleSample src) st).mem.inb
        ((forLoop (s - 1).toNat (doubleSample src) st).p_dst + (2 * s - 2)) &&
      (forLoop (s - 1).toNat (doubleSample src) st).mem.inb
        ((forLoop (s - 1).toNat (doubleSample src) st).p_dst + (2 * s - 1))) = true
  rw [ok1, i1, i2, hn]
  unfold Mem.inb
  rw [i3]
  simp only [Bool.true_and, Bool.and_eq_true, decide_eq_true_eq]
  refine ⟨⟨⟨?_, ?_⟩, ?_, ?_⟩, ?_, ?_⟩ <;> omega

/-- The first `y` source lines are doubled inside both buffers when these lines
lie inside the source and the lines written inside the temporary buffer. -/
theorem forLoop_doubleLine_ok (src : Mem) (s : Int) (hs : 1 ≤ s) (st0 : Cursor) (y : Nat)
    (h0 : st0.ok = true) (h1 : 0 ≤ st0.p_src) (h2 : st0.p_src + s * y ≤ src.size)
    (h3 : 0 ≤ st0.p_dst) (h4 : 0 < y → st0.p_dst + 4 * s * y - 2 * s ≤ st0.mem.size) :
    (forLoop y (doubleLine src s) st0).ok = true := by
  induction y with
  | zero => exact h0
  | succ y ih =>
    have hc : ((y + 1 : Nat) : Int) = (y : Int) + 1 := by push_cast; rfl
    rw [hc] at h2 h4
    have h4' := h4 (Nat.succ_pos y)
    have hy : (0 : Int) ≤ y := Int.ofNat_nonneg y
    have m0 : 0 ≤ s * (y : Int) := Int.mul_nonneg (by omega) hy
    have m1 : s * ((y : Int) + 1) = s * y + s := by ring
    have m2 : 4 * s * ((y : Int) + 1) = 4 * (s * y) + 4 * s := by ring
    have m3 : 4 * s * (y : Int) = 4 * (s * y) := by ring
    rw [m1] at h2
    rw [m2] at h4'
    have ih' := ih (by omega) (fun _ => by rw [m3]; omega)
    obtain ⟨i1, i2, i3, -, -⟩ := forLoop_doubleLine src s hs st0 y
    show (doubleLine src s y (forLoop y (doubleLine src s) st0)).ok = true
    apply doubleLine_ok src s hs y _ ih'
    · rw [i2]; omega
    · rw [i2]; omega
    · rw [i1, m3]; omega
    · rw [i1, i3, m3]; omega

/-! ## Chroma Mapper -/

/-- C18: the code reads outside the table. For the identifier -2 the index after
`++i_ffmpegchroma` is -1, which passes the test `> 7` and is used on the table
(`none` is that read), and so for `INT_MIN`; the identifiers from -1 on are
handled as claimed: 0 for `PIX_FMT_ANY`, I420 for `PIX_FMT_YUV420P` and
`PIX_FMT_YUV422`, RV24 for `PIX_FMT_RGB24`, 0 for `PIX_FMT_BGR24`, Y422 for
`PIX_FMT_YUV422P`, I444 for `PIX_FMT_YUV444P`, 0 for `PIX_FMT_YUV410P`, and 0
without a read for 7 and 1000. -/
theorem ffmpeg_PixFmtToChroma_below_table (c : Consts) :
    ffmpeg_PixFmtToChroma c (-2) = none ∧
    ffmpeg_PixFmtToChroma c (-2147483648) = none ∧
    ffmpeg_PixFmtToChroma c PIX_FMT_ANY = some 0 ∧
    ffmpeg_PixFmtToChroma c PIX_FMT_YUV420P = some (c.VLC_FOURCC 'I' '4' '2' '0') ∧
    ffmpeg_PixFmtToChroma c PIX_FMT_YUV422 = some (c.VLC_FOURCC 'I' '4' '2' '0') ∧
    ffmpeg_PixFmtToChroma c PIX_FMT_RGB24 = some (c.VLC_FOURCC 'R' 'V' '2' '4') ∧
    ffmpeg_PixFmtToChroma c PIX_FMT_BGR24 = some 0 ∧
    ffmpeg_PixFmtToChroma c PIX_FMT_YUV422P = some (c.VLC_FOURCC 'Y' '4' '2' '2') ∧
    ffmpeg_PixFmtToChroma c PIX_FMT_YUV444P = some (c.VLC_FOURCC 'I' '4' '4' '4') ∧
    ffmpeg_PixFmtToChroma c PIX_FMT_YUV410P = some 0 ∧
    ffmpeg_PixFmtToChroma c 7 = some 0 ∧
    ffmpeg_PixFmtToChroma c 1000 = some 0 :=
  ⟨rfl, rfl, rfl, rfl, rfl, rfl, rfl, rfl, rfl, rfl, rfl, rfl⟩

/-! ## Chroma Converter: the two passes as claimed -/

theorem doubledSample_lt (src : Int → Nat) (q s c : Int) : doubledSample src q s c < 256 := by
  unfold doubledSample
  split
  · split
    · exact Nat.mod_lt _ (by decide)
    · exact Nat.mod_lt _ (by decide)
  · exact Nat.mod_lt _ (by decide)

/-- The bytes of a buffer made of a list of bytes. -/
theorem memOfList_byte (l : List Nat) (h : ∀ v ∈ l, v ≤ 255) :
    ∀ j, (memOfList l).data j ≤ 255 := by
  intro j
  show (if 0 ≤ j then l.getD j.toNat 0 else 0) ≤ 255
  split
  · rw [List.getD_eq_getElem?_getD]
    cases hg : l[j.toNat]? with
    | none => simp
    | some v =>
      simp only [Option.getD_some]
      exact h v (List.getElem?_mem hg)
  · exact Nat.zero_le _

/-- The first pass over the stride. For a source plane of bytes with the stride
`s >= 1` (the `i_stride` the code works with) and every source row `r < L`,
after the first pass the doubled row of `r`, which starts at offset `4 s r` of
the temporary buffer, holds for every column `x < s - 1` of the stride the byte
`src[r][x]` at `2x` and `(src[r][x] + src[r][x+1]) / 2` at `2x + 1`, and
`src[r][s-1]` in its last two bytes. No byte after the stride of the row is
read: on a source buffer that ends with the stride of row `r`, the rows up to
`r` are processed with every access inside its buffer. -/
theorem doubled_row (src scratch : Mem) (s L : Int) (r : Nat) (hs : 1 ≤ s)
    (hr : (r : Int) < L) (hb : ∀ j, src.data j ≤ 255) :
    (∀ x : Int, 0 ≤ x → x < s - 1 →
      (horizontalDoubling src s L scratch).mem.data (4 * s * r + 2 * x)
        = src.data (s * r + x) ∧
      (horizontalDoubling src s L scratch).mem.data (4 * s * r + (2 * x + 1))
        = (src.data (s * r + x) + src.data (s * r + x + 1)) / 2) ∧
    (horizontalDoubling src s L scratch).mem.data (4 * s * r + (2 * s - 2))
      = src.data (s * r + (s - 1)) ∧
    (horizontalDoubling src s L scratch).mem.data (4 * s * r + (2 * s - 1))
      = src.data (s * r + (s - 1)) ∧
    (4 * s * ((r : Int) + 1) - 2 * s ≤ scratch.size →
      (forLoop (r + 1) (doubleLine { src with size := s * ((r : Int) + 1) } s)
        { mem := scratch, p_dst := 0, p_src := 0, ok := true }).ok = true) := by
  have hn : ((L.toNat : Nat) : Int) = L := Int.toNat_of_nonneg (by omega)
  obtain ⟨-, -, -, p4, -⟩ := forLoop_doubleLine src s hs
    { mem := scratch, p_dst := 0, p_src := 0, ok := true } L.toNat
  have g : ∀ c : Int, 0 ≤ c → c < 2 * s →
      (horizontalDoubling src s L scratch).mem.data (4 * s * r + c)
        = doubledSample src.data (s * r) s c := by
    intro c hc0 hc1
    have e := p4 r (by omega) c hc0 hc1
    simp only [zero_add] at e
    exact e
  have hmod : ∀ v : Nat, v ≤ 255 → v % 256 = v := fun v hv => Nat.mod_eq_of_lt (by omega)
  refine ⟨?_, ?_, ?_, ?_⟩
  · intro x hx0 hx1
    constructor
    · rw [g (2 * x) (by omega) (by omega)]
      unfold doubledSample
      rw [if_pos (by omega), if_pos (by omega)]
      have e : 2 * x / 2 = x := by omega
      rw [e]
      exact hmod _ (hb _)
    · rw [g (2 * x + 1) (by omega) (by omega)]
      unfold doubledSample
      rw [if_pos (by omega), if_neg (by omega)]
      have e : (2 * x + 1) / 2 = x := by omega
      rw [e]
      apply hmod
      have b1 := hb (s * r + x)
      have b2 := hb (s * r + x + 1)
      omega
  · rw [g (2 * s - 2) (by omega) (by omega)]
    unfold doubledSample
    rw [if_neg (by omega)]
    exact hmod _ (hb _)
  · rw [g (2 * s - 1) (by omega) (by omega)]
    unfold doubledSample
    rw [if_neg (by omega)]
    exact hmod _ (hb _)
  · intro hsz
    have hc : ((r + 1 : Nat) : Int) = (r : Int) + 1 := by push_cast; rfl
    apply forLoop_doubleLine_ok { src with size := s * ((r : Int) + 1) } s hs _ (r + 1) rfl
    · exact le_refl _
    · show (0 : Int) + s * ((r + 1 : Nat) : Int) ≤ s * ((r : Int) + 1)
      rw [hc]
      omega
    · exact le_refl _
    · intro _
      show (0 : Int) + 4 * s * ((r + 1 : Nat) : Int) - 2 * s ≤ scratch.size
      rw [hc]
      omega

/-- C19 as stated fails on the code. The picture is 8 by 4, so a row of a source
chroma plane has the width 2; its samples are 100 and 100, the stride is 4 and
the two bytes of padding hold 0. The doubled row is 100, 100, 100, 50 in the
visible columns: the last byte of the final pair, `out[2 * 2 - 1]`, is 50 and
not `src[1] = 100`. With 255 in the padding it is 177, so the byte after the
end of the row is read. -/
theorem horizontal_doubling_as_stated_fails :
    (horizontalDoubling (memOfList [100, 100, 0, 0]) 4 1
      (p_plane 1 4 (fun _ => 7) true)).mem.toList 8
      = [100, 100, 100, 50, 0, 0, 0, 0] ∧
    (horizontalDoubling (memOfList [100, 100, 255, 255]) 4 1
      (p_plane 1 4 (fun _ => 7) true)).mem.toList 8
      = [100, 100, 100, 177, 255, 255, 255, 255] ∧
    (memOfList [100, 100, 0, 0]).data 1 = 100 := by
  decide

/-- C19, amended: the first pass doubles the stride, not the row. For a source
plane of bytes with the row width `w >= 1` and the stride `s >= w` (the
`i_stride = linesize[i_plane]` the loops run over) and every source row
`r < L`, after the first pass the doubled row of `r`, at offset `4 s r` of the
temporary buffer, satisfies for every column `x < w - 1`: `out[2x] = src[r][x]`
and `out[2x+1] = (src[r][x] + src[r][x+1]) / 2`; `out[2w-2] = src[r][w-1]`; and
`out[2w-1]` is `src[r][w-1]` when the row has no padding (`s = w`), and
otherwise the average, rounded down, of `src[r][w-1]` and the padding byte
after it. The doubling goes on over the padding in the same way, up to the
final pair `out[2s-2] = out[2s-1]`, the last byte of the stride. No byte after
the stride of the row is read: on a source buffer that ends with the stride of
row `r`, the rows up to `r` are processed with every access inside its
buffer. -/
theorem horizontal_doubling (src scratch : Mem) (s L w : Int) (r : Nat) (hw : 1 ≤ w)
    (hws : w ≤ s) (hr : (r : Int) < L) (hb : ∀ j, src.data j ≤ 255) :
    (∀ x : Int, 0 ≤ x → x < w - 1 →
      (horizontalDoubling src s L scratch).mem.data (4 * s * r + 2 * x)
        = src.data (s * r + x) ∧
      (horizontalDoubling src s L scratch).mem.data (4 * s * r + (2 * x + 1))
        = (src.data (s * r + x) + src.data (s * r + x + 1)) / 2) ∧
    (horizontalDoubling src s L scratch).mem.data (4 * s * r + (2 * w - 2))
      = src.data (s * r + (w - 1)) ∧
    (s = w →
      (horizontalDoubling src s L scratch).mem.data (4 * s * r + (2 * w - 1))
        = src.data (s * r + (w - 1))) ∧
    (w < s →
      (horizontalDoubling src s L scratch).mem.data (4 * s * r + (2 * w - 1))
        = (src.data (s * r + (w - 1)) + src.data (s * r + w)) / 2) ∧
    (∀ x : Int, 0 ≤ x → x < s - 1 →
      (horizontalDoubling src s L scratch).mem.data (4 * s * r + 2 * x)
        = src.data (s * r + x) ∧
      (horizontalDoubling src s L scratch).mem.data (4 * s * r + (2 * x + 1))
        = (src.data (s * r + x) + src.data (s * r + x + 1)) / 2) ∧
    (horizontalDoubling src s L scratch).mem.data (4 * s * r + (2 * s - 2))
      = src.data (s * r + (s - 1)) ∧
    (horizontalDoubling src s L scratch).mem.data (4 * s * r + (2 * s - 1))
      = src.data (s * r + (s - 1)) ∧
    (4 * s * ((r : Int) + 1) - 2 * s ≤ scratch.size →
      (forLoop (r + 1) (doubleLine { src with size := s * ((r : Int) + 1) } s)
        { mem := scratch, p_dst := 0, p_src := 0, ok := true }).ok = true) := by
  obtain ⟨h1, h2, h3, h4⟩ := doubled_row src scratch s L r (by omega) hr hb
  refine ⟨fun x hx0 hx1 => h1 x hx0 (by omega), ?_, ?_, ?_, h1, h2, h3, h4⟩
  · by_cases hc : w = s
    · rw [hc]
      exact h2
    · have e1 : 4 * s * (r : Int) + (2 * w - 2) = 4 * s * r + 2 * (w - 1) := by ring
      rw [e1]
      exact (h1 (w - 1) (by omega) (by omega)).1
  · intro hc
    rw [← hc]
    exact h3
  · intro hc
    have e1 : 4 * s * (r : Int) + (2 * w - 1) = 4 * s * r + (2 * (w - 1) + 1) := by ring
    have e2 : s * (r : Int) + w = s * r + (w - 1) + 1 := by ring
    rw [e1, e2]
    exact (h1 (w - 1) (by omega) (by omega)).2

/-- C19, on a plane of one row of the width 2 and the stride 4, samples 10 and
20, padding 30 and 40: the last visible byte `out[3]` is the average of 20 and
the padding byte 30, and the row is processed inside a source buffer of 4
bytes. -/
theorem horizontal_doubling_witness :
    (horizontalDoubling (memOfList [10, 20, 30, 40]) 4 1 (p_plane 1 4 (fun _ => 7) true)).mem.data
        (4 * 4 * ((0 : Nat) : Int) + (2 * 2 - 1))
      = ((memOfList [10, 20, 30, 40]).data (4 * ((0 : Nat) : Int) + (2 - 1))
          + (memOfList [10, 20, 30, 40]).data (4 * ((0 : Nat) : Int) + 2)) / 2 ∧
    (horizontalDoubling (memOfList [10, 20, 30, 40]) 4 1 (p_plane 1 4 (fun _ => 7) true)).mem.toList 8
      = [10, 15, 20, 25, 30, 35, 40, 40] ∧
    (forLoop (0 + 1)
      (doubleLine { memOfList [10, 20, 30, 40] with size := 4 * (((0 : Nat) : Int) + 1) } 4)
      { mem := p_plane 1 4 (fun _ => 7) true, p_dst := 0, p_src := 0, ok := true }).ok = true :=
  ⟨(horizontal_doubling (memOfList [10, 20, 30, 40]) (p_plane 1 4 (fun _ => 7) true) 4 1 2 0
      (by decide) (by decide) (by decide) (memOfList_byte _ (by decide))).2.2.2.1 (by decide),
   by decide,
   (horizontal_doubling (memOfList [10, 20, 30, 40]) (p_plane 1 4 (fun _ => 7) true) 4 1 2 0
      (by decide) (by decide) (by decide) (memOfList_byte _ (by decide))).2.2.2.2.2.2.2
      (by decide)⟩

/-- C20. For a plane of `L >= 1` source rows, let `D[r]` be the doubled row of
`r` the first pass has written, `2 s` bytes at offset `4 s r` of the temporary
buffer. After the second pass the rows of the temporary plane, row `i` being the
`2 s` bytes at offset `2 s i`, are: row `2r` is `D[r]` for every `r < L`, row
`2r + 1` is column by column `(D[r] + D[r + 1]) / 2` for every `r < L - 1`, and
the last row `2L - 1` is `D[L - 1]`. -/
theorem vertical_interpolation (src scratch : Mem) (s L : Int) (hL : 1 ≤ L) :
    (∀ r : Nat, (r : Int) < L → ∀ c : Int, 0 ≤ c → c < 2 * s →
      (verticalInterpolation s L (horizontalDoubling src s L scratch)).mem.data
          (2 * s * (2 * r) + c)
        = (horizontalDoubling src s L scratch).mem.data (4 * s * r + c)) ∧
    (∀ r : Nat, (r : Int) < L - 1 → ∀ c : Int, 0 ≤ c → c < 2 * s →
      (verticalInterpolation s L (horizontalDoubling src s L scratch)).mem.data
          (2 * s * (2 * r + 1) + c)
        = ((horizontalDoubling src s L scratch).mem.data (4 * s * r + c)
          + (horizontalDoubling src s L scratch).mem.data (4 * s * (r + 1) + c)) / 2) ∧
    (∀ c : Int, 0 ≤ c → c < 2 * s →
      (verticalInterpolation s L (horizontalDoubling src s L scratch)).mem.data
          (2 * s * (2 * L - 1) + c)
        = (horizontalDoubling src s L scratch).mem.data (4 * s * (L - 1) + c)) := by
  by_cases hs : 1 ≤ s
  · have hn : ((L.toNat : Nat) : Int) = L := Int.toNat_of_nonneg (by omega)
    obtain ⟨-, v2, v3, v4⟩ := verticalInterpolation_spec s L hs hL
      (horizontalDoubling src s L scratch)
    obtain ⟨-, -, -, p4, -⟩ := forLoop_doubleLine src s hs
      { mem := scratch, p_dst := 0, p_src := 0, ok := true } L.toNat
    have g : ∀ r : Nat, (r : Int) < L → ∀ c : Int, 0 ≤ c → c < 2 * s →
        (horizontalDoubling src s L scratch).mem.data (4 * s * r + c) < 256 := by
      intro r hr c hc0 hc1
      have e := p4 r (by omega) c hc0 hc1
      simp only [zero_add] at e
      have e' : (horizontalDoubling src s L scratch).mem.data (4 * s * r + c)
          = doubledSample src.data (s * r) s c := e
      rw [e']
      exact doubledSample_lt _ _ _ _
    refine ⟨?_, ?_, ?_⟩
    · intro r hr c hc0 hc1
      have e : 2 * s * (2 * (r : Int)) + c = 4 * s * r + c := by ring
      rw [e]
      exact v2 r hr c hc0 hc1
    · intro r hr c hc0 hc1
      have e : 2 * s * (2 * (r : Int) + 1) + c = 2 * s + 4 * s * r + c := by ring
      have e2 : 4 * s * ((r : Int) + 1) + c = 4 * s * r + c + 4 * s := by ring
      rw [e, e2, v3 r (by omega) c hc0 hc1]
      apply Nat.mod_eq_of_lt
      have b1 := g r (by omega) c hc0 hc1
      have b2 := g (r + 1) (by push_cast; omega) c hc0 hc1
      have e3 : 4 * s * (((r + 1 : Nat) : Int)) + c = 4 * s * r + c + 4 * s := by
        push_cast
        ring
      rw [e3] at b2
      omega
    · intro c hc0 hc1
      have e : 2 * s * (2 * L - 1) + c = 2 * s + 4 * s * (L - 1) + c := by ring
      rw [e]
      exact v4 c hc0 hc1
  · refine ⟨?_, ?_, ?_⟩
    · intro r _ c hc0 hc1
      omega
    · intro r _ c hc0 hc1
      omega
    · intro c hc0 hc1
      omega

/-- C20, on a plane of two rows of two samples, 10, 20 and 30, 40: the doubled
rows are 10, 15, 20, 20 and 30, 35, 40, 40, and the plane after the second pass
is these two with their average 20, 25, 30, 30 in between and the second one
repeated at the end. -/
theorem vertical_interpolation_witness :
    (verticalInterpolation 2 2
      (horizontalDoubling (memOfList [10, 20, 30, 40]) 2 2 (malloc 16 (fun _ => 7)))).mem.toList 16
      = [10, 15, 20, 20, 20, 25, 30, 30, 30, 35, 40, 40, 30, 35, 40, 40] ∧
    (∀ c : Int, 0 ≤ c → c < 2 * 2 →
      (verticalInterpolation 2 2
        (horizontalDoubling (memOfList [10, 20, 30, 40]) 2 2 (malloc 16 (fun _ => 7)))).mem.data
          (2 * 2 * (2 * 2 - 1) + c)
        = (horizontalDoubling (memOfList [10, 20, 30, 40]) 2 2 (malloc 16 (fun _ => 7))).mem.data
            (4 * 2 * (2 - 1) + c)) :=
  ⟨by decide,
   (vertical_interpolation (memOfList [10, 20, 30, 40]) (malloc 16 (fun _ => 7)) 2 2
      (by decide)).2.2⟩

/-! ## The range of the lateness counter -/

/-- The counter after `decodeFrame` is the counter before, that plus one, or 0,
whatever the source, the decoder and the clock answer; the hurry-up setting of
the configuration stays. -/
theorem decodeFrame_counter (c : Consts) (s : vdec_thread_t) (o : Oracle) (d : Int) :
    ((decodeFrame c s o d).i_frame_late = s.i_frame_late ∨
      (decodeFrame c s o d).i_frame_late = wrap32 (s.i_frame_late + 1) ∨
      (decodeFrame c s o d).i_frame_late = 0) ∧
    (decodeFrame c s o d).b_hurry_up = s.b_hurry_up := by
  have hq := pullFrame_quiet (K := fun _ => True) trivial o.pes s (Pulled.prefl _ s)
  cases hsz : (pullFrame o.pes s).2 with
  | none =>
    have e : decodeFrame c s o d = (pullFrame o.pes s).1 := by
      unfold decodeFrame
      dsimp only
      rw [hsz]
    rw [e]
    exact ⟨Or.inl hq.2.1.2.1, hq.2.1.1⟩
  | some sz =>
    have hd := avcodec_decode_video_log (K := fun _ => True) c (pullFrame o.pes s).1 o sz
      trivial trivial trivial trivial trivial
    have hpol := hq.2.1.poltrans hd.2
    obtain ⟨-, u2, u3⟩ := updateFrameLate_fields
      (avcodec_decode_video c (pullFrame o.pes s).1 o sz) o.mdate
    have hub : (updateFrameLate (avcodec_decode_video c (pullFrame o.pes s).1 o sz)
        o.mdate).b_hurry_up = s.b_hurry_up := by
      rw [updateFrameLate_eq]
      exact hpol.1
    have hul : (updateFrameLate (avcodec_decode_video c (pullFrame o.pes s).1 o sz)
          o.mdate).i_frame_late = wrap32 (s.i_frame_late + 1) ∨
        (updateFrameLate (avcodec_decode_video c (pullFrame o.pes s).1 o sz)
          o.mdate).i_frame_late = 0 := by
      by_cases hp : (avcodec_decode_video c (pullFrame o.pes s).1 o sz).pts ≤ o.mdate
      · left
        rw [u2 hp, hpol.2.1]
      · right
        exact u3 (by omega)
    have hm := presentPicture_mild (K := fun _ => True) trivial trivial trivial trivial trivial
      trivial c o (Mild.mrefl _
        (updateFrameLate (avcodec_decode_video c (pullFrame o.pes s).1 o sz) o.mdate))
    have e : decodeFrame c s o d =
        if (avcodec_decode_video c (pullFrame o.pes s).1 o sz).undef = true
        then avcodec_decode_video c (pullFrame o.pes s).1 o sz
        else if o.i_status < 0 then
          { avcodec_decode_video c (pullFrame o.pes s).1 o sz with
            i_frame_error :=
              wrap32 ((avcodec_decode_video c (pullFrame o.pes s).1 o sz).i_frame_error + 1) }
        else if o.b_gotpicture = 0 ∨ o.linesize0 = 0 ∨ d = 0
          then updateFrameLate (avcodec_decode_video c (pullFrame o.pes s).1 o sz) o.mdate
          else presentPicture c
            (updateFrameLate (avcodec_decode_video c (pullFrame o.pes s).1 o sz) o.mdate) o := by
      unfold decodeFrame
      dsimp only
      rw [hsz]
    rw [e]
    split
    · exact ⟨Or.inl hpol.2.1, hpol.1⟩
    · split
      · exact ⟨Or.inl hpol.2.1, hpol.1⟩
      · split
        · exact ⟨Or.inr hul, hub⟩
        · rw [hm.2.1.2.1, hm.2.1.1]
          exact ⟨Or.inr hul, hub⟩

/-- One call keeps the counter in 0..8 when hurry-up is enabled. -/
theorem DecodeThread_Video_range (c : Consts) (s : vdec_thread_t) (o : Oracle)
    (hh : s.b_hurry_up ≠ 0) (h0 : 0 ≤ s.i_frame_late) (h8 : s.i_frame_late ≤ 8) :
    0 ≤ (DecodeThread_Video c s o).i_frame_late ∧ (DecodeThread_Video c s o).i_frame_late ≤ 8 ∧
    (DecodeThread_Video c s o).b_hurry_up ≠ 0 ∧
    (8 ≤ s.i_frame_late → (DecodeThread_Video c s o).i_frame_late = 7) := by
  have hw : ∀ x : Int, 0 ≤ x → x ≤ 8 → wrap32 x = x := by
    intro x hx0 hx8
    apply wrap32_of_inInt32
    unfold inInt32
    omega
  unfold DecodeThread_Video
  by_cases h1 : s.b_hurry_up ≠ 0 ∧ s.i_frame_late > 4
  · rw [if_pos h1]
    by_cases h2 : s.i_frame_late < 8
    · rw [if_pos h2]
      obtain ⟨hc, hb⟩ := decodeFrame_counter c { s with hurry_up := 2 } o 0
      dsimp only at hc hb
      rw [hw (s.i_frame_late + 1) (by omega) (by omega)] at hc
      refine ⟨?_, ?_, ?_, fun h => absurd h (by omega)⟩
      · rcases hc with hc | hc | hc <;> rw [hc] <;> omega
      · rcases hc with hc | hc | hc <;> rw [hc] <;> omega
      · rw [hb]; exact hh
    · rw [if_neg h2]
      have e : s.i_frame_late = 8 := by omega
      have e2 : (({ s with i_frame_late := wrap32 (s.i_frame_late - 1) } : vdec_thread_t).emit
          .input_ExtractPES_discard).i_frame_late = 7 := by
        show wrap32 (s.i_frame_late - 1) = 7
        rw [e]
        decide
      rw [e2]
      exact ⟨by decide, by decide, hh, fun _ => rfl⟩
  · rw [if_neg h1]
    have h4 : s.i_frame_late ≤ 4 := by
      by_contra h
      exact h1 ⟨hh, by omega⟩
    obtain ⟨hc, hb⟩ := decodeFrame_counter c { s with hurry_up := 0 } o 1
    dsimp only at hc hb
    rw [hw (s.i_frame_late + 1) (by omega) (by omega)] at hc
    refine ⟨?_, ?_, ?_, fun h => absurd h (by omega)⟩
    · rcases hc with hc | hc | hc <;> rw [hc] <;> omega
    · rcases hc with hc | hc | hc <;> rw [hc] <;> omega
    · rw [hb]; exact hh

/-- C22. With hurry-up enabled, `0 <= i_frame_late <= 8` is an invariant of
`DecodeThread_Video`: entered with the counter in 0..8 the call returns with the
counter in 0..8 and hurry-up still enabled, whatever the source, the decoder,
the video output and the clock answer; so it holds after every call of any
sequence of calls. The skip branch is taken only with the counter at 8 and
leaves it at 7. -/
theorem lateness_invariant (c : Consts) (os : List Oracle) :
    ∀ s : vdec_thread_t, s.b_hurry_up ≠ 0 → 0 ≤ s.i_frame_late → s.i_frame_late ≤ 8 →
      (∀ o : Oracle, 0 ≤ (DecodeThread_Video c s o).i_frame_late ∧
        (DecodeThread_Video c s o).i_frame_late ≤ 8 ∧
        (DecodeThread_Video c s o).b_hurry_up ≠ 0 ∧
        (8 ≤ s.i_frame_late →
          s.i_frame_late = 8 ∧ (DecodeThread_Video c s o).i_frame_late = 7)) ∧
      (∀ x ∈ runFrames c s os, 0 ≤ x.i_frame_late ∧ x.i_frame_late ≤ 8) := by
  induction os with
  | nil =>
    intro s hh h0 h8
    refine ⟨fun o => ?_, fun x hx => absurd hx (by simp [runFrames])⟩
    obtain ⟨r1, r2, r3, r4⟩ := DecodeThread_Video_range c s o hh h0 h8
    exact ⟨r1, r2, r3, fun h => ⟨by omega, r4 h⟩⟩
  | cons o os ih =>
    intro s hh h0 h8
    constructor
    · intro o'
      obtain ⟨r1, r2, r3, r4⟩ := DecodeThread_Video_range c s o' hh h0 h8
      exact ⟨r1, r2, r3, fun h => ⟨by omega, r4 h⟩⟩
    · intro x hx
      obtain ⟨r1, r2, r3, -⟩ := DecodeThread_Video_range c { s with log := [] } o hh h0 h8
      unfold runFrames at hx
      rcases List.mem_cons.1 hx with hx | hx
      · rw [hx]
        exact ⟨r1, r2⟩
      · exact (ih _ r3 r1 r2).2 x hx

/-- C22, on ten late frames from a fresh thread: the counters after the calls
are 1, 2, 3, 4, 5, 6, 7, 8, 7, 8, all in 0..8. -/
theorem lateness_invariant_witness :
    (runFrames stdConsts exampleThread (List.replicate 10 (exampleFrame 7))).map
        (fun x => x.i_frame_late) = [1, 2, 3, 4, 5, 6, 7, 8, 7, 8] ∧
    (∀ x ∈ runFrames stdConsts exampleThread (List.replicate 10 (exampleFrame 7)),
      0 ≤ x.i_frame_late ∧ x.i_frame_late ≤ 8) :=
  ⟨by decide,
   (lateness_invariant stdConsts (List.replicate 10 (exampleFrame 7)) exampleThread
      (by decide) (by decide) (by decide)).2⟩

/-! ## No division by zero in the check -/

/-- `ffmpeg_CheckVout` on a video output, by cases: the aspect is resolved only
when width, height and chroma agree, and then with the height of the video
output. -/
theorem ffmpeg_CheckVout_cases (c : Consts) (v : vout_thread_t) (w h a ch : Int) :
    (¬ (v.i_width = w ∧ v.i_height = h ∧
        v.i_chroma = (if ch = 0 then c.VLC_FOURCC 'I' '4' '2' '0' else ch)) →
      ffmpeg_CheckVout c (some v) w h a ch = some 0) ∧
    (v.i_width = w ∧ v.i_height = h ∧
        v.i_chroma = (if ch = 0 then c.VLC_FOURCC 'I' '4' '2' '0' else ch) →
      ffmpeg_CheckVout c (some v) w h a ch =
        (ffmpeg_FfAspect c w v.i_height a).map (fun asp => if v.i_aspect ≠ asp then 0 else 1)) := by
  unfold ffmpeg_CheckVout
  dsimp only
  constructor
  · intro hn
    by_cases h1 : v.i_width ≠ w
    · rw [if_pos h1]
    · rw [if_neg h1]
      by_cases h2 : v.i_height ≠ h
      · rw [if_pos h2]
      · rw [if_neg h2]
        by_cases h3 : v.i_chroma ≠ (if ch = 0 then c.VLC_FOURCC 'I' '4' '2' '0' else ch)
        · rw [if_pos h3]
        · exact absurd ⟨not_not.1 h1, not_not.1 h2, not_not.1 h3⟩ hn
  · rintro ⟨h1, h2, h3⟩
    rw [if_neg (not_not.2 h1), if_neg (not_not.2 h2), if_neg (not_not.2 h3), h2]
    cases ffmpeg_FfAspect c w h a with
    | none => rfl
    | some asp =>
      by_cases h4 : v.i_aspect = asp
      · simp [h4]
      · simp [h4]

/-- `ffmpeg_CreateVout` runs into no division by zero, and a video output it
returns has the height asked for, which is not 0. -/
theorem ffmpeg_CreateVout_height (c : Consts) (s : vdec_thread_t) (o : Oracle)
    (w h asp ch : Int) :
    (ffmpeg_CreateVout c s o w h asp ch).1.undef = s.undef ∧
    ∀ v : vout_thread_t,
      (ffmpeg_CreateVout c s o w h asp ch).2 = some v → v.i_height = h ∧ h ≠ 0 := by
  unfold ffmpeg_CreateVout
  by_cases h0 : w = 0 ∨ h = 0
  · rw [if_pos h0]
    exact ⟨rfl, fun v hv => by simp at hv⟩
  · rw [if_neg h0]
    have hh : h ≠ 0 := fun e => h0 (Or.inr e)
    obtain ⟨a, ha⟩ := ffmpeg_FfAspect_isSome c w h asp hh
    have hspawn : ∀ (s1 : vdec_thread_t) (x y : Int),
        (spawnVout s1 o w h x y).1.undef = s1.undef ∧
        ∀ v : vout_thread_t, (spawnVout s1 o w h x y).2 = some v → v.i_height = h ∧ h ≠ 0 := by
      intro s1 x y
      unfold spawnVout vout_CreateThread
      refine ⟨rfl, ?_⟩
      intro v hv
      cases hsp : o.spawn with
      | none => rw [hsp] at hv; simp at hv
      | some id =>
        rw [hsp] at hv
        simp only [Option.map_some', Option.some.injEq] at hv
        rw [← hv]
        exact ⟨rfl, hh⟩
    dsimp only
    rw [ha]
    dsimp only
    have key : ∀ (s1 : vdec_thread_t) (p : Option vout_thread_t), s1.undef = s.undef →
        (match p with
          | none => spawnVout s1 o w h (if ch = 0 then c.VLC_FOURCC 'I' '4' '2' '0' else ch) a
          | some v' =>
            match ffmpeg_CheckVout c (some v') w h a
                (if ch = 0 then c.VLC_FOURCC 'I' '4' '2' '0' else ch) with
            | none => ({ s1 with undef := true }, none)
            | some r =>
              if r = 0 then
                spawnVout
                  (((s1.emit (.vlc_object_detach v')).emit (.vlc_object_release v')).emit
                    (.vout_DestroyThread v'))
                  o w h (if ch = 0 then c.VLC_FOURCC 'I' '4' '2' '0' else ch) a
              else
                (((s1.emit (.vlc_object_detach v')).emit (.vlc_object_attach v')).emit
                  (.vlc_object_release v'), some v')).1.undef = s.undef ∧
        ∀ v : vout_thread_t, (match p with
          | none => spawnVout s1 o w h (if ch = 0 then c.VLC_FOURCC 'I' '4' '2' '0' else ch) a
          | some v' =>
            match ffmpeg_CheckVout c (some v') w h a
                (if ch = 0 then c.VLC_FOURCC 'I' '4' '2' '0' else ch) with
            | none => ({ s1 with undef := true }, none)
            | some r =>
              if r = 0 then
                spawnVout
                  (((s1.emit (.vlc_object_detach v')).emit (.vlc_object_release v')).emit
                    (.vout_DestroyThread v'))
                  o w h (if ch = 0 then c.VLC_FOURCC 'I' '4' '2' '0' else ch) a
              else
                (((s1.emit (.vlc_object_detach v')).emit (.vlc_object_attach v')).emit
                  (.vlc_object_release v'), some v')).2 = some v → v.i_height = h ∧ h ≠ 0 := by
      intro s1 p h1
      cases p with
      | none => exact ⟨(hspawn _ _ _).1.trans h1, (hspawn _ _ _).2⟩
      | some v' =>
        dsimp only
        obtain ⟨r, hr, -⟩ := ffmpeg_CheckVout_some c (some v') w h a
          (if ch = 0 then c.VLC_FOURCC 'I' '4' '2' '0' else ch) hh
        obtain ⟨k1, -⟩ := ffmpeg_CheckVout_cases c v' w h a
          (if ch = 0 then c.VLC_FOURCC 'I' '4' '2' '0' else ch)
        rw [hr]
        dsimp only
        by_cases hr0 : r = 0
        · rw [if_pos hr0]
          exact ⟨(hspawn _ _ _).1.trans h1, (hspawn _ _ _).2⟩
        · rw [if_neg hr0]
          refine ⟨h1, ?_⟩
          intro v hv
          simp only [Option.some.injEq] at hv
          rw [← hv]
          by_contra hne
          have hgeo : ¬ (v'.i_width = w ∧ v'.i_height = h ∧ v'.i_chroma =
              (if (if ch = 0 then c.VLC_FOURCC 'I' '4' '2' '0' else ch) = 0
                then c.VLC_FOURCC 'I' '4' '2' '0'
                else (if ch = 0 then c.VLC_FOURCC 'I' '4' '2' '0' else ch))) := by
            intro hg
            exact hne ⟨hg.2.1, hh⟩
          have h0' := k1 hgeo
          rw [hr] at h0'
          simp only [Option.some.injEq] at h0'
          exact hr0 h0'
    cases hc : o.child with
    | some v' => exact key (s.emit (.vlc_object_find (some v'))) (some v') rfl
    | none =>
      exact key ((s.emit (.vlc_object_find none)).emit (.vlc_object_find o.anywhere))
        o.anywhere rfl

/-- C24. `ffmpeg_CheckVout` answers 0 without a video output. On a video output
whose height is not 0 it runs into no division by zero, for every requested
width, height (0 included), aspect code and chroma: unless width, height and
chroma all agree the answer is 0 and the aspect is not resolved; when they
agree the aspect is resolved with the height of the video output, which is
defined. `ffmpeg_CreateVout` runs into no division by zero either, and every
video output it returns, created or found, has the height asked for, which is
not 0. -/
theorem ffmpeg_CheckVout_never_divides_by_zero (c : Consts) :
    (∀ w h a ch : Int, ffmpeg_CheckVout c none w h a ch = some 0) ∧
    (∀ (v : vout_thread_t) (w h a ch : Int), v.i_height ≠ 0 →
      (∃ r, ffmpeg_CheckVout c (some v) w h a ch = some r) ∧
      (¬ (v.i_width = w ∧ v.i_height = h ∧
          v.i_chroma = (if ch = 0 then c.VLC_FOURCC 'I' '4' '2' '0' else ch)) →
        ffmpeg_CheckVout c (some v) w h a ch = some 0) ∧
      (v.i_width = w ∧ v.i_height = h ∧
          v.i_chroma = (if ch = 0 then c.VLC_FOURCC 'I' '4' '2' '0' else ch) →
        ∃ asp, ffmpeg_FfAspect c w v.i_height a = some asp ∧
          ffmpeg_CheckVout c (some v) w h a ch = some (if v.i_aspect ≠ asp then 0 else 1))) ∧
    (∀ (s : vdec_thread_t) (o : Oracle) (w h a ch : Int),
      (ffmpeg_CreateVout c s o w h a ch).1.undef = s.undef ∧
      ∀ v : vout_thread_t, (ffmpeg_CreateVout c s o w h a ch).2 = some v →
        v.i_height = h ∧ v.i_height ≠ 0) := by
  refine ⟨fun _ _ _ _ => rfl, ?_, ?_⟩
  · intro v w h a ch hv
    obtain ⟨k1, k2⟩ := ffmpeg_CheckVout_cases c v w h a ch
    obtain ⟨asp, hasp⟩ := ffmpeg_FfAspect_isSome c w v.i_height a hv
    have k3 : v.i_width = w ∧ v.i_height = h ∧
          v.i_chroma = (if ch = 0 then c.VLC_FOURCC 'I' '4' '2' '0' else ch) →
        ∃ asp, ffmpeg_FfAspect c w v.i_height a = some asp ∧
          ffmpeg_CheckVout c (some v) w h a ch = some (if v.i_aspect ≠ asp then 0 else 1) := by
      intro hg
      refine ⟨asp, hasp, ?_⟩
      rw [k2 hg, hasp]
      rfl
    refine ⟨?_, k1, k3⟩
    by_cases hg : v.i_width = w ∧ v.i_height = h ∧
        v.i_chroma = (if ch = 0 then c.VLC_FOURCC 'I' '4' '2' '0' else ch)
    · obtain ⟨asp', -, e⟩ := k3 hg
      exact ⟨_, e⟩
    · exact ⟨_, k1 hg⟩
  · intro s o w h a ch
    obtain ⟨e1, e2⟩ := ffmpeg_CreateVout_height c s o w h a ch
    refine ⟨e1, fun v hv => ?_⟩
    obtain ⟨g1, g2⟩ := e2 v hv
    exact ⟨g1, by rw [g1]; exact g2⟩

/-- C24, on a PAL video output and a request with the height 0: the answer is 0
and nothing is divided; with the height 576 the aspect is resolved and the
answer is 1. -/
theorem ffmpeg_CheckVout_never_divides_by_zero_witness :
    ffmpeg_CheckVout stdConsts (some (exampleCandidate 576000)) 720 0 2 0 = some 0 ∧
    (∃ asp, ffmpeg_FfAspect stdConsts 720 (exampleCandidate 576000).i_height 2 = some asp ∧
      ffmpeg_CheckVout stdConsts (some (exampleCandidate 576000)) 720 576 2 0
        = some (if (exampleCandidate 576000).i_aspect ≠ asp then 0 else 1)) :=
  ⟨((ffmpeg_CheckVout_never_divides_by_zero stdConsts).2.1 (exampleCandidate 576000) 720 0 2 0
      (by decide)).2.1 (by decide),
   ((ffmpeg_CheckVout_never_divides_by_zero stdConsts).2.1 (exampleCandidate 576000) 720 576 2 0
      (by decide)).2.2 (by decide)⟩

/-! ## A mode other than 0 comes with its module -/

/-- C21 fails on the code. The picture is 8 by 4; source chroma plane 1 has the
stride 4 and holds 10, 20, 30, 40, source chroma plane 2 has the stride 2 and
holds 100, 100; both target chroma planes have the pitch 8 and 2 lines. The
temporary plane of plane 1 has 2 rows of 8 bytes, both 10, 15, 20, 25, 30, 35,
40, 40. Every access is inside its buffer, and target plane 1 receives 4 bytes
per row, read at the row step 4: row 0 is the first half of temporary row 0 and
row 1 is its second half, where 8 bytes per row, equal to temporary rows 0 and
1, are claimed. The third loop runs with the stride of plane 2 for both planes.
Target plane 2 is as claimed. With the strides exchanged the third pass reads
plane 1 after the end of its temporary buffer. -/
theorem copy_down_uses_stride_of_plane_2 :
    (verticalInterpolation 4 1
      (horizontalDoubling (memOfList [10, 20, 30, 40]) 4 1 (malloc 16 (fun _ => 7)))).mem.toList 16
      = [10, 15, 20, 25, 30, 35, 40, 40, 10, 15, 20, 25, 30, 35, 40, 40] ∧
    (ffmpeg_ConvertPictureI410toI420 (exampleTarget 8)
      (examplePicture410 [10, 20, 30, 40] [100, 100]) 4 8 (fun _ _ => 7) (fun _ => true)).2 = true ∧
    ((ffmpeg_ConvertPictureI410toI420 (exampleTarget 8)
      (examplePicture410 [10, 20, 30, 40] [100, 100]) 4 8 (fun _ _ => 7) (fun _ => true)).1.p 1).p_pixels.toList 16
      = [10, 15, 20, 25, 999, 999, 999, 999, 30, 35, 40, 40, 999, 999, 999, 999] ∧
    ((ffmpeg_ConvertPictureI410toI420 (exampleTarget 8)
      (examplePicture410 [10, 20, 30, 40] [100, 100]) 4 8 (fun _ _ => 7) (fun _ => true)).1.p 2).p_pixels.toList 16
      = [100, 100, 100, 100, 999, 999, 999, 999, 100, 100, 100, 100, 999, 999, 999, 999] ∧
    (ffmpeg_ConvertPictureI410toI420 (exampleTarget 8)
      (examplePicture410 [100, 100] [10, 20, 30, 40]) 4 8 (fun _ _ => 7) (fun _ => true)).2 = false := by
  decide

/-! ## Chroma Converter: the accesses of the second pass -/

/-- The loop over `i_x` of the second pass stays inside the temporary buffer
when the line read below the one written lies inside it. -/
theorem forLoop_averageSample_ok (s : Int) (st0 : Cursor) (hd : st0.p_dst = st0.p_src + 2 * s)
    (n : Nat) (hn : (n : Int) ≤ 2 * s) (h0 : st0.ok = true) (h1 : 0 ≤ st0.p_src)
    (h2 : st0.p_src + 6 * s ≤ st0.mem.size) :
    (forLoop n (averageSample s) st0).ok = true := by
  induction n with
  | zero => exact h0
  | succ n ih =>
    have hc : ((n + 1 : Nat) : Int) = (n : Int) + 1 := by push_cast; rfl
    rw [hc] at hn
    have ih' := ih (by omega)
    obtain ⟨i1, i2, i3, -⟩ := forLoop_averageSample s st0 hd n (by omega)
    show ((forLoop n (averageSample s) st0).ok &&
        (forLoop n (averageSample s) st0).mem.inb
          ((forLoop n (averageSample s) st0).p_src + (n : Int)) &&
        (forLoop n (averageSample s) st0).mem.inb
          ((forLoop n (averageSample s) st0).p_src + (n : Int) + 4 * s) &&
        (forLoop n (averageSample s) st0).mem.inb
          ((forLoop n (averageSample s) st0).p_dst + (n : Int))) = true
    rw [ih', i1, i2]
    unfold Mem.inb
    rw [i3]
    have hn0 : (0 : Int) ≤ n := Int.ofNat_nonneg n
    simp only [Bool.true_and, Bool.and_eq_true, decide_eq_true_eq]
    refine ⟨⟨⟨?_, ?_⟩, ?_, ?_⟩, ?_, ?_⟩ <;> omega

/-- One line of the second pass stays inside the temporary buffer when the
three lines from `p_src` on lie inside it. -/
theorem averageLine_ok (s : Int) (hs : 0 ≤ s) (y : Nat) (st : Cursor)
    (hd : st.p_dst = st.p_src + 2 * s) (h0 : st.ok = true) (h1 : 0 ≤ st.p_src)
    (h2 : st.p_src + 6 * s ≤ st.mem.size) :
    (averageLine s y st).ok = true := by
  have hn : (((2 * s).toNat : Nat) : Int) = 2 * s := Int.toNat_of_nonneg (by omega)
  exact forLoop_averageSample_ok s st hd (2 * s).toNat (by omega) h0 h1 h2

/-- The first `y` rounds of the second pass stay inside the temporary buffer
when the lines `0 .. 2 y` lie inside it. -/
theorem forLoop_averageLine_ok (s : Int) (hs : 1 ≤ s) (st0 : Cursor) (hd : st0.p_dst = 2 * s)
    (hq : st0.p_src = 0) (y : Nat) (h0 : st0.ok = true)
    (h2 : 0 < y → 4 * s * y + 2 * s ≤ st0.mem.size) :
    (forLoop y (averageLine s) st0).ok = true := by
  induction y with
  | zero => exact h0
  | succ y ih =>
    have hc : ((y + 1 : Nat) : Int) = (y : Int) + 1 := by push_cast; rfl
    rw [hc] at h2
    have h2' := h2 (Nat.succ_pos y)
    have hy : (0 : Int) ≤ y := Int.ofNat_nonneg y
    have m0 : 0 ≤ s * (y : Int) := Int.mul_nonneg (by omega) hy
    have m2 : 4 * s * ((y : Int) + 1) = 4 * (s * y) + 4 * s := by ring
    have m3 : 4 * s * (y : Int) = 4 * (s * y) := by ring
    rw [m2] at h2'
    have ih' := ih (fun _ => by rw [m3]; omega)
    obtain ⟨i1, i2, i3, -, -⟩ := forLoop_averageLine s hs st0 hd hq y
    show (averageLine s y (forLoop y (averageLine s) st0)).ok = true
    apply averageLine_ok s (by omega) y _ _ ih'
    · rw [i2, m3]; omega
    · rw [i2, i3, m3]; omega
    · rw [i1, i2]; ring

/-- The second pass stays inside a temporary buffer of `2 L` lines of `2 s`
bytes. -/
theorem verticalInterpolation_ok (s L : Int) (hs : 1 ≤ s) (hL : 1 ≤ L) (st0 : Cursor)
    (h0 : st0.ok = true) (hsz : 4 * s * L ≤ st0.mem.size) :
    (verticalInterpolation s L st0).ok = true := by
  have hn : (((L - 1).toNat : Nat) : Int) = L - 1 := Int.toNat_of_nonneg (by omega)
  have m0 : 0 ≤ s * (L - 1) := Int.mul_nonneg (by omega) (by omega)
  have m1 : 4 * s * (L - 1) = 4 * (s * (L - 1)) := by ring
  have m2 : 4 * s * L = 4 * (s * (L - 1)) + 4 * s := by ring
  rw [m2] at hsz
  obtain ⟨i1, i2, i3, -, -⟩ := forLoop_averageLine s hs
    { st0 with p_dst := 2 * s, p_src := 0 } rfl rfl (L - 1).toNat
  have ok1 := forLoop_averageLine_ok s hs { st0 with p_dst := 2 * s, p_src := 0 } rfl rfl
    (L - 1).toNat h0 (fun _ => by rw [hn, m1]; show _ ≤ st0.mem.size; omega)
  rw [hn, m1] at i1 i2
  have i3' : (forLoop (L - 1).toNat (averageLine s)
      { st0 with p_dst := 2 * s, p_src := 0 }).mem.size = st0.mem.size := i3
  show ((forLoop (L - 1).toNat (averageLine s) { st0 with p_dst := 2 * s, p_src := 0 }).ok &&
      (pf_memcpy
        (forLoop (L - 1).toNat (averageLine s) { st0 with p_dst := 2 * s, p_src := 0 }).mem
        (forLoop (L - 1).toNat (averageLine s) { st0 with p_dst := 2 * s, p_src := 0 }).p_dst
        (forLoop (L - 1).toNat (averageLine s) { st0 with p_dst := 2 * s, p_src := 0 }).mem
        (forLoop (L - 1).toNat (averageLine s) { st0 with p_dst := 2 * s, p_src := 0 }).p_src
        (2 * s)).2) = true
  rw [ok1, i1, i2]
  unfold pf_memcpy
  dsimp only
  rw [i3']
  simp only [Bool.true_and, Bool.and_eq_true, Bool.or_eq_true, decide_eq_true_eq]
  refine ⟨by omega, Or.inr ⟨⟨⟨?_, ?_⟩, ?_⟩, ?_⟩⟩ <;> omega

/-- The first pass stays inside the source plane of `L` lines of `s` bytes and
inside a temporary buffer of `2 L` lines of `2 s` bytes, whose size it keeps. -/
theorem horizontalDoubling_ok (src : Mem) (s L : Int) (hs : 1 ≤ s) (hL : 0 ≤ L) (scratch : Mem)
    (hsrc : s * L ≤ src.size) (hsz : 4 * s * L ≤ scratch.size) :
    (horizontalDoubling src s L scratch).ok = true ∧
    (horizontalDoubling src s L scratch).mem.size = scratch.size := by
  have hn : ((L.toNat : Nat) : Int) = L := Int.toNat_of_nonneg hL
  obtain ⟨-, -, i3, -, -⟩ := forLoop_doubleLine src s hs
    { mem := scratch, p_dst := 0, p_src := 0, ok := true } L.toNat
  refine ⟨?_, i3⟩
  apply forLoop_doubleLine_ok src s hs { mem := scratch, p_dst := 0, p_src := 0, ok := true }
    L.toNat rfl (le_refl _)
  · rw [hn]; show 0 + s * L ≤ src.size; omega
  · exact le_refl _
  · intro _
    rw [hn]
    show 0 + 4 * s * L - 2 * s ≤ scratch.size
    omega

/-- What the second pass needs: when it ends with every access inside the
buffer, for at least one line and a positive stride, the copy of the last line
ends at offset `4 s L`, inside the buffer. -/
theorem verticalInterpolation_ok_bound (s L : Int) (hs : 1 ≤ s) (hL : 1 ≤ L) (st0 : Cursor)
    (h : (verticalInterpolation s L st0).ok = true) : 4 * s * L ≤ st0.mem.size := by
  have hn : (((L - 1).toNat : Nat) : Int) = L - 1 := Int.toNat_of_nonneg (by omega)
  obtain ⟨i1, i2, i3, -, -⟩ := forLoop_averageLine s hs
    { st0 with p_dst := 2 * s, p_src := 0 } rfl rfl (L - 1).toNat
  rw [hn] at i1 i2
  have i3' : (forLoop (L - 1).toNat (averageLine s)
      { st0 with p_dst := 2 * s, p_src := 0 }).mem.size = st0.mem.size := i3
  have h' : ((forLoop (L - 1).toNat (averageLine s) { st0 with p_dst := 2 * s, p_src := 0 }).ok &&
      (pf_memcpy
        (forLoop (L - 1).toNat (averageLine s) { st0 with p_dst := 2 * s, p_src := 0 }).mem
        (forLoop (L - 1).toNat (averageLine s) { st0 with p_dst := 2 * s, p_src := 0 }).p_dst
        (forLoop (L - 1).toNat (averageLine s) { st0 with p_dst := 2 * s, p_src := 0 }).mem
        (forLoop (L - 1).toNat (averageLine s) { st0 with p_dst := 2 * s, p_src := 0 }).p_src
        (2 * s)).2) = true := h
  rw [i1, i2] at h'
  unfold pf_memcpy at h'
  dsimp only at h'
  rw [i3'] at h'
  simp only [Bool.and_eq_true, Bool.or_eq_true, decide_eq_true_eq] at h'
  obtain ⟨-, -, h2 | ⟨⟨⟨-, h2⟩, -⟩, -⟩⟩ := h'
  · omega
  · have m : 4 * s * L = 2 * s + 4 * s * (L - 1) + 2 * s := by ring
    rw [m]
    exact h2

/-- When the first two passes end with every access inside its buffer, for at
least one line and a positive stride, the temporary buffer has at least `4 s L`
bytes: no offset of the two passes is above the size of the buffer. -/
theorem scratch_ok_bound (src : Mem) (s L : Int) (hs : 1 ≤ s) (hL : 1 ≤ L) (scratch : Mem)
    (h : (verticalInterpolation s L (horizontalDoubling src s L scratch)).ok = true) :
    4 * s * L ≤ scratch.size := by
  have b := verticalInterpolation_ok_bound s L hs hL _ h
  obtain ⟨-, -, i3, -, -⟩ := forLoop_doubleLine src s hs
    { mem := scratch, p_dst := 0, p_src := 0, ok := true } L.toNat
  have i3' : (horizontalDoubling src s L scratch).mem.size = scratch.size := i3
  rw [i3'] at b
  exact b

/-- The temporary buffer has the `4 s L` bytes of the plane the two passes make
when `malloc` returns a buffer and the product does not leave the range of
`int`. -/
theorem p_plane_size (L s : Int) (junk : Int → Nat) (hs : 1 ≤ s) (hL : 0 ≤ L)
    (h : 4 * s * L ≤ 2147483647) : (p_plane L s junk true).size = 4 * s * L := by
  have m0 : 0 ≤ L * s := Int.mul_nonneg hL (by omega)
  have m1 : 4 * s * L = 4 * (L * s) := by ring
  rw [m1] at h ⊢
  have e1 : cmul L s = L * s := cmul_of_inInt32 (by unfold inInt32; omega)
  have e2 : cmul (L * s) 2 = L * s * 2 := cmul_of_inInt32 (by unfold inInt32; omega)
  have e3 : cmul (L * s * 2) 2 = L * s * 2 * 2 := cmul_of_inInt32 (by unfold inInt32; omega)
  show (if true = true then malloc (cmul (cmul (cmul L s) 2) 2) junk
    else { size := 0, data := junk }).size = _
  rw [if_pos rfl, e1, e2, e3]
  show L * s * 2 * 2 = _
  omega

/-- The temporary buffer never has more than `INT_MAX` bytes, and `NULL` has
none. -/
theorem p_plane_size_le (L s : Int) (junk : Int → Nat) (b_alloc : Bool) :
    (p_plane L s junk b_alloc).size ≤ 2147483647 ∧ (p_plane L s junk false).size = 0 := by
  refine ⟨?_, rfl⟩
  unfold p_plane
  split
  · have h := inInt32_wrap32 (cmul (cmul L s) 2 * 2)
    unfold inInt32 at h
    show cmul (cmul (cmul L s) 2) 2 ≤ 2147483647
    unfold cmul at h ⊢
    omega
  · show (0 : Int) ≤ 2147483647
    decide

/-- C23 as stated fails on the code. For a picture 8 lines high (`height / 4`
is 2) and the chroma stride 536870914 the plane the two passes make has
`4 * 536870914 * 2 = 4294967312` bytes, but the `int` product handed to
`malloc` is 16: with a source plane of the full `536870914 * 2` bytes and a
buffer returned by `malloc`, the passes leave the buffer. For the height 65536
and the stride 32768 the product is `INT_MIN`. And when `malloc` returns `NULL`,
which the code does not test for, the passes write through it, also for a
small picture. -/
theorem scratch_accesses_as_stated_fails :
    (p_plane (Int.tdiv 8 4) 536870914 (fun _ => 7) true).size = 16 ∧
    (verticalInterpolation 536870914 (Int.tdiv 8 4)
      (horizontalDoubling { size := 536870914 * 2, data := fun _ => 0 } 536870914 (Int.tdiv 8 4)
        (p_plane (Int.tdiv 8 4) 536870914 (fun _ => 7) true))).ok = false ∧
    cmul (cmul (cmul (Int.tdiv 65536 4) 32768) 2) 2 = -2147483648 ∧
    (verticalInterpolation 4 (Int.tdiv 8 4)
      (horizontalDoubling (memOfList [10, 20, 30, 40, 50, 60, 70, 80]) 4 (Int.tdiv 8 4)
        (p_plane (Int.tdiv 8 4) 4 (fun _ => 7) false))).ok = false := by
  refine ⟨by decide, ?_, by decide, by decide⟩
  cases hok : (verticalInterpolation 536870914 (Int.tdiv 8 4)
      (horizontalDoubling { size := 536870914 * 2, data := fun _ => 0 } 536870914 (Int.tdiv 8 4)
        (p_plane (Int.tdiv 8 4) 536870914 (fun _ => 7) true))).ok with
  | false => rfl
  | true =>
    have b := scratch_ok_bound _ 536870914 (Int.tdiv 8 4) (by decide) (by decide) _ hok
    exact absurd b (by decide)

/-- C23, amended: the size of the buffer is an `int` product and `malloc` can
fail. For every picture height `>= 4` and every chroma source stride `s >= 1`,
with `L = height / 4`: when `4 s L` does not exceed `INT_MAX` and `malloc`
returns a buffer, this buffer has `4 s L` bytes, and every read and write of
the first and the second pass of `ffmpeg_ConvertPictureI410toI420` lies inside
it and every source read inside the `s L` bytes of the source plane (the source
buffer may end there); under the bound no `int` expression of the two passes
leaves the range of `int`, so the offsets are those of the code. When `malloc`
returns `NULL` the second pass writes through it, whatever the height and the
stride. The bound on the height is
needed as well: for a height from 0 to 3 the buffer has no byte and the copy of
the last line in the second pass writes outside it. -/
theorem scratch_accesses_in_bounds (src : Mem) (s : Int) (junk : Int → Nat) (hs : 1 ≤ s) :
    (∀ i_height : Int, 4 ≤ i_height → 4 * s * Int.tdiv i_height 4 ≤ 2147483647 →
      src.size = s * Int.tdiv i_height 4 →
      (p_plane (Int.tdiv i_height 4) s junk true).size = 4 * s * Int.tdiv i_height 4 ∧
      (horizontalDoubling src s (Int.tdiv i_height 4)
        (p_plane (Int.tdiv i_height 4) s junk true)).ok = true ∧
      (verticalInterpolation s (Int.tdiv i_height 4)
        (horizontalDoubling src s (Int.tdiv i_height 4)
          (p_plane (Int.tdiv i_height 4) s junk true))).ok = true) ∧
    (∀ i_height : Int, 4 ≤ i_height →
      (verticalInterpolation s (Int.tdiv i_height 4)
        (horizontalDoubling src s (Int.tdiv i_height 4)
          (p_plane (Int.tdiv i_height 4) s junk false))).ok = false) ∧
    (∀ (i_height : Int) (b_alloc : Bool), 0 ≤ i_height → i_height < 4 →
      (p_plane (Int.tdiv i_height 4) s junk b_alloc).size = 0 ∧
      (verticalInterpolation s (Int.tdiv i_height 4)
        (horizontalDoubling src s (Int.tdiv i_height 4)
          (p_plane (Int.tdiv i_height 4) s junk b_alloc))).ok = false) := by
  refine ⟨?_, ?_, ?_⟩
  · intro i_height hh hbound hsrc
    have hL : 1 ≤ Int.tdiv i_height 4 := by
      rw [Int.tdiv_eq_ediv (by omega) (by omega)]
      omega
    generalize Int.tdiv i_height 4 = L at hbound hsrc hL ⊢
    have e := p_plane_size L s junk hs (by omega) hbound
    obtain ⟨o1, o2⟩ := horizontalDoubling_ok src s L hs (by omega)
      (p_plane L s junk true) (le_of_eq hsrc.symm) (le_of_eq e.symm)
    exact ⟨e, o1, verticalInterpolation_ok s L hs hL _ o1 (by rw [o2, e])⟩
  · intro i_height hh
    have hL : 1 ≤ Int.tdiv i_height 4 := by
      rw [Int.tdiv_eq_ediv (by omega) (by omega)]
      omega
    generalize Int.tdiv i_height 4 = L at hL ⊢
    cases hok : (verticalInterpolation s L
        (horizontalDoubling src s L (p_plane L s junk false))).ok with
    | false => rfl
    | true =>
      have b := scratch_ok_bound src s L hs hL _ hok
      have z : (p_plane L s junk false).size = 0 := rfl
      have m0 : 1 ≤ s * L := by nlinarith
      have m1 : 4 * s * L = 4 * (s * L) := by ring
      rw [m1, z] at b
      omega
  · intro i_height b_alloc h0 h1
    have hL : Int.tdiv i_height 4 = 0 := by
      rw [Int.tdiv_eq_ediv (by omega) (by omega)]
      omega
    rw [hL]
    have hsz : (p_plane 0 s junk b_alloc).size = 0 := by
      unfold p_plane
      split
      · show cmul (cmul (cmul 0 s) 2) 2 = 0
        simp [cmul, wrap32]
      · rfl
    refine ⟨hsz, ?_⟩
    show (true && (pf_memcpy (p_plane 0 s junk b_alloc) (2 * s)
      (p_plane 0 s junk b_alloc) 0 (2 * s)).2) = false
    unfold pf_memcpy
    dsimp only
    rw [hsz]
    have n1 : ¬ (2 * s = 0) := by omega
    have n2 : ¬ (2 * s + 2 * s ≤ 0) := by omega
    simp [n1, n2]

/-- C23, on chroma planes with the stride 4: a picture 8 lines high has 2 source
lines of 4 bytes and both passes stay inside the 32 bytes of the temporary
buffer; when `malloc` returns `NULL` they do not; a picture 3 lines high has no
source line and the second pass leaves the buffer. -/
theorem scratch_accesses_in_bounds_witness :
    (verticalInterpolation 4 (Int.tdiv 8 4)
      (horizontalDoubling (memOfList [10, 20, 30, 40, 50, 60, 70, 80]) 4 (Int.tdiv 8 4)
        (p_plane (Int.tdiv 8 4) 4 (fun _ => 7) true))).ok = true ∧
    (verticalInterpolation 4 (Int.tdiv 8 4)
      (horizontalDoubling (memOfList [10, 20, 30, 40, 50, 60, 70, 80]) 4 (Int.tdiv 8 4)
        (p_plane (Int.tdiv 8 4) 4 (fun _ => 7) false))).ok = false ∧
    (verticalInterpolation 4 (Int.tdiv 3 4)
      (horizontalDoubling (memOfList []) 4 (Int.tdiv 3 4)
        (p_plane (Int.tdiv 3 4) 4 (fun _ => 7) true))).ok = false :=
  ⟨((scratch_accesses_in_bounds (memOfList [10, 20, 30, 40, 50, 60, 70, 80]) 4 (fun _ => 7)
      (by decide)).1 8 (by decide) (by decide) (by decide)).2.2,
   (scratch_accesses_in_bounds (memOfList [10, 20, 30, 40, 50, 60, 70, 80]) 4 (fun _ => 7)
      (by decide)).2.1 8 (by decide),
   ((scratch_accesses_in_bounds (memOfList []) 4 (fun _ => 7) (by decide)).2.2 3 true
      (by decide) (by decide)).2⟩

/-! ## Chroma Converter: the range of the samples -/

/-- A doubled line stays between the bounds of the samples of its source line,
padding included. -/
theorem doubledSample_range (src : Int → Nat) (q s c : Int) (lo hi : Nat) (hhi : hi ≤ 255)
    (hc0 : 0 ≤ c) (hc1 : c < 2 * s) (h : ∀ i, q ≤ i → i < q + s → lo ≤ src i ∧ src i ≤ hi) :
    lo ≤ doubledSample src q s c ∧ doubledSample src q s c ≤ hi := by
  unfold doubledSample
  split
  · split
    · have a := h (q + c / 2) (by omega) (by omega)
      rw [Nat.mod_eq_of_lt (by omega)]
      exact a
    · have a := h (q + c / 2) (by omega) (by omega)
      have b := h (q + c / 2 + 1) (by omega) (by omega)
      rw [Nat.mod_eq_of_lt (by omega)]
      omega
  · have a := h (q + (s - 1)) (by omega) (by omega)
    rw [Nat.mod_eq_of_lt (by omega)]
    exact a

/-- An upsampled sample stays between the bounds of the samples of the source
plane. -/
theorem upsampledSample_range (src : Int → Nat) (s L j : Int) (lo hi : Nat) (hs : 1 ≤ s)
    (hhi : hi ≤ 255) (hj0 : 0 ≤ j) (hj1 : j < 4 * s * L)
    (h : ∀ i, 0 ≤ i → i < s * L → lo ≤ src i ∧ src i ≤ hi) :
    lo ≤ upsampledSample src s L j ∧ upsampledSample src s L j ≤ hi := by
  have h2s : 0 < 2 * s := by omega
  have d2 : 0 ≤ j % (2 * s) := Int.emod_nonneg j (by omega)
  have d3 : j % (2 * s) < 2 * s := Int.emod_lt_of_pos j h2s
  have d4 : 0 ≤ j / (2 * s) := Int.ediv_nonneg hj0 (by omega)
  have d5 : j / (2 * s) < 2 * L := Int.ediv_lt_of_lt_mul h2s (by linarith)
  have line : ∀ r : Int, 0 ≤ r → r < L →
      lo ≤ doubledSample src (s * r) s (j % (2 * s)) ∧
      doubledSample src (s * r) s (j % (2 * s)) ≤ hi := by
    intro r hr0 hr1
    apply doubledSample_range src (s * r) s _ lo hi hhi d2 d3
    intro i hi0 hi1
    have m0 : 0 ≤ s * r := Int.mul_nonneg (by omega) hr0
    have m1 : s * (r + 1) ≤ s * L := Int.mul_le_mul_of_nonneg_left (by omega) (by omega)
    have m2 : s * (r + 1) = s * r + s := by ring
    rw [m2] at m1
    exact h i (by omega) (by omega)
  unfold upsampledSample
  split
  · exact line _ (by omega) (by omega)
  · split
    · rename_i hlast
      have a := line (j / (2 * s) / 2) (by omega) (by omega)
      have b := line (j / (2 * s) / 2 + 1) (by omega) hlast
      rw [Nat.mod_eq_of_lt (by omega)]
      omega
    · exact line _ (by omega) (by omega)

/-- C26. For every chroma plane with height `>= 4` and stride `s >= 1`, with
`L = height / 4`, whose source samples are bytes: every sample of the temporary
plane of `2 L` rows by `2 s` columns after the first and the second pass of
`ffmpeg_ConvertPictureI410toI420` lies between every lower bound `lo` and every
upper bound `hi` of the `s L` samples of the source plane (taken over the full
stride), so between their minimum and their maximum, and it is at most 255: no
stored value is reduced. -/
theorem conversion_stays_in_range (src : Mem) (s i_height : Int) (junk : Int → Nat)
    (lo hi : Nat) (hh : 4 ≤ i_height) (hs : 1 ≤ s)
    (hb : ∀ i, 0 ≤ i → i < s * Int.tdiv i_height 4 → src.data i ≤ 255)
    (h : ∀ i, 0 ≤ i → i < s * Int.tdiv i_height 4 → lo ≤ src.data i ∧ src.data i ≤ hi) :
    ∀ j, 0 ≤ j → j < 4 * s * Int.tdiv i_height 4 →
      lo ≤ (verticalInterpolation s (Int.tdiv i_height 4)
        (horizontalDoubling src s (Int.tdiv i_height 4)
          (malloc (Int.tdiv i_height 4 * s * 2 * 2) junk))).mem.data j ∧
      (verticalInterpolation s (Int.tdiv i_height 4)
        (horizontalDoubling src s (Int.tdiv i_height 4)
          (malloc (Int.tdiv i_height 4 * s * 2 * 2) junk))).mem.data j ≤ hi ∧
      (verticalInterpolation s (Int.tdiv i_height 4)
        (horizontalDoubling src s (Int.tdiv i_height 4)
          (malloc (Int.tdiv i_height 4 * s * 2 * 2) junk))).mem.data j ≤ 255 := by
  have hL : 1 ≤ Int.tdiv i_height 4 := by
    rw [Int.tdiv_eq_ediv (by omega) (by omega)]
    omega
  generalize Int.tdiv i_height 4 = L at hb h hL ⊢
  intro j hj0 hj1
  rw [scratch_spec src s L hs hL _ j hj0 hj1]
  obtain ⟨a, b⟩ := upsampledSample_range src.data s L j lo (min hi 255) hs (min_le_right _ _)
    hj0 hj1 (fun i hi0 hi1 => ⟨(h i hi0 hi1).1, le_min (h i hi0 hi1).2 (hb i hi0 hi1)⟩)
  exact ⟨a, le_trans b (min_le_left _ _), le_trans b (min_le_right _ _)⟩

/-- C26, on a plane of 2 lines of 4 samples between 10 and 80: the byte at
offset 13 of the temporary plane (row 1, column 5: the average of 35 and 75)
lies between 10 and 80. -/
theorem conversion_stays_in_range_witness :
    10 ≤ (verticalInterpolation 4 (Int.tdiv 8 4)
      (horizontalDoubling (memOfList [10, 20, 30, 40, 50, 60, 70, 80]) 4 (Int.tdiv 8 4)
        (malloc (Int.tdiv 8 4 * 4 * 2 * 2) (fun _ => 7)))).mem.data 13 ∧
    (verticalInterpolation 4 (Int.tdiv 8 4)
      (horizontalDoubling (memOfList [10, 20, 30, 40, 50, 60, 70, 80]) 4 (Int.tdiv 8 4)
        (malloc (Int.tdiv 8 4 * 4 * 2 * 2) (fun _ => 7)))).mem.data 13 ≤ 80 ∧
    (verticalInterpolation 4 (Int.tdiv 8 4)
      (horizontalDoubling (memOfList [10, 20, 30, 40, 50, 60, 70, 80]) 4 (Int.tdiv 8 4)
        (malloc (Int.tdiv 8 4 * 4 * 2 * 2) (fun _ => 7)))).mem.data 13 ≤ 255 :=
  conversion_stays_in_range (memOfList [10, 20, 30, 40, 50, 60, 70, 80]) 4 8 (fun _ => 7) 10 80
    (by decide) (by decide)
    (fun i _ _ => memOfList_byte _ (by decide) i)
    (by
      intro i h0 h1
      have e : (4 : Int) * Int.tdiv 8 4 = 8 := by decide
      rw [e] at h1
      have hi : i = 0 ∨ i = 1 ∨ i = 2 ∨ i = 3 ∨ i = 4 ∨ i = 5 ∨ i = 6 ∨ i = 7 := by omega
      rcases hi with rfl | rfl | rfl | rfl | rfl | rfl | rfl | rfl <;> decide)
    13 (by decide) (by decide)

end Video
